import Mathlib

/-!
# The correlation core of the SFXC software correlator

A shallow embedding of `Correlation_core` (src/sfxc/src/correlation_core.cc)
and the properties of it that the specification states.

Conventions of the embedding.

* `std::vector` is a `List`; `push_back` appends at the end.
* `size_t` and `int` values are `Nat` and `Int`.  The one unsigned wrap-around
  that small inputs reach, `n - 1` at `n = 0` in the loop bounds of
  `create_baselines`, is modelled explicitly by `size_t_sub`.
* `FLOAT` and `float` values are elements of an ordered field `R`, with the
  square root taken as a parameter: the statements are about exact arithmetic.
* A failed `SFXC_ASSERT`, an access outside a vector, a null pointer and a
  division by the integer zero (also of a `FLOAT`, whose quotient would be an
  infinity or a NaN and not an element of `R`) make an operation return `none`.
* `PROGRESS_MSG` logging and the timer have no effect on the state and are
  left out.
* For every operation that can return `none` a decidable predicate (`step_ready`,
  `normalize_ready`, `write_ready`, `task_ready`) gives conditions under which
  it returns a state; a property of such an operation is stated in two parts,
  that the operation returns a state when the predicate holds and what every
  returned state satisfies.
-/

namespace Sfxc

/-! ## Machine arithmetic and loops -/

/-- Unsigned subtraction `a - b` of two `size_t` values (both below `2^64`),
wrapping around when `a < b`. -/
def size_t_sub (a b : Nat) : Nat :=
  if b ≤ a then a - b else 2 ^ 64 - (b - a)

/-- The loop `for (i = lo; i < hi; i++) body(i)` acting on a state. -/
def for_loop {σ : Type} (lo hi : Nat) (body : Nat → σ → σ) (s : σ) : σ :=
  (List.range' lo (hi - lo)).foldl (fun acc i => body i acc) s

/-- The call `v.push_back(x)` on a `std::vector`. -/
def push_back {α : Type} (v : List α) (x : α) : List α :=
  v ++ [x]

/-- The same loop with a body that can fail: the loop stops with `none` at
the first failing iteration. -/
def for_loop_opt {σ : Type} (lo hi : Nat) (body : Nat → σ → Option σ) (s : σ) : Option σ :=
  (List.range' lo (hi - lo)).foldlM (fun acc i => body i acc) s

/-- The call `v.resize(n, fill)` on a `std::vector`. -/
def resize {α : Type} (v : List α) (n : Nat) (fill : α) : List α :=
  v.take n ++ List.replicate (n - v.length) fill

/-! ## Data model -/

/-- A `std::complex` number over the scalar type `R`. -/
structure Cplx (R : Type) where
  re : R
  im : R
deriving DecidableEq, Repr

namespace Cplx

variable {R : Type} [LinearOrderedField R]

/-- The complex number zero. -/
def zero : Cplx R := ⟨0, 0⟩

/-- The complex sum `a + b`. -/
def add (a b : Cplx R) : Cplx R := ⟨a.re + b.re, a.im + b.im⟩

/-- The complex product `a * b`. -/
def mul (a b : Cplx R) : Cplx R := ⟨a.re * b.re - a.im * b.im, a.re * b.im + a.im * b.re⟩

/-- The complex conjugate, `std::conj`. -/
def conj (a : Cplx R) : Cplx R := ⟨a.re, -a.im⟩

/-- The value of `a` after `a += x` with a real `x`: only the real part changes. -/
def add_real (a : Cplx R) (x : R) : Cplx R := ⟨a.re + x, a.im⟩

/-- The value of `a` after `a /= x` with a real `x`. -/
def div_real (a : Cplx R) (x : R) : Cplx R := ⟨a.re / x, a.im / x⟩

/-- The complex number that the assignment of a real `x` gives. -/
def of_real (x : R) : Cplx R := ⟨x, 0⟩

end Cplx

/-- A frequency buffer: a vector of complex values. -/
abbrev Complex_buffer (R : Type) := List (Cplx R)

/-- A pair of stream indices, `std::pair<size_t, size_t>`. -/
abbrev Baseline := Nat × Nat

/-- The fields of `Correlation_parameters::Station_parameters` that the
correlation core reads. -/
structure Station_parameters where
  station_number : Int
  station_stream : Nat
deriving DecidableEq, Repr

/-- The fields of `Correlation_parameters` that the correlation core reads.
Times are in microseconds. -/
structure Correlation_parameters where
  start_time : Int
  integration_time : Nat
  sample_rate : Nat
  bandwidth : Nat
  fft_size : Nat
  number_channels : Nat
  integration_nr : Int
  channel_nr : Nat
  polarisation : Char
  sideband : Char
  cross_polarize : Bool
  reference_station : Int
  station_streams : List Station_parameters
deriving DecidableEq, Repr

/-- Modelled from the spec: `Control_parameters::nr_ffts_per_integration_slice`
is called by `create_baselines` but its body is not in the sources. The spec
gives `fft_count_per_integration = ⌊integration_time · sample_rate / fft_size⌋`;
the integration time arrives in microseconds. -/
def nr_ffts_per_integration_slice (integration_time_usec sample_rate fft_size : Nat) : Nat :=
  integration_time_usec * sample_rate / (1000000 * fft_size)

/-! ## Baseline enumeration -/

/-- The baseline vector that `Correlation_core::create_baselines` builds for
`n_stations` station streams: the list after `baselines.clear()` and the
loops of lines 92-143. The result is `none` when
`SFXC_ASSERT(n_stations() % 2 == 0)` fails. -/
def create_baselines_vector (n_stations : Nat) (parameters : Correlation_parameters) :
    Option (List Baseline) :=
  let baselines : List Baseline := []
  -- Autos
  let baselines := for_loop 0 n_stations (fun sn bl => push_back bl (sn, sn)) baselines
  -- Crosses
  let ref_station : Int := parameters.reference_station
  if parameters.cross_polarize then
    if n_stations % 2 = 0 then
      let n_st_2 := n_stations / 2
      if 0 ≤ ref_station then
        -- cross polarize with a reference station
        let baselines := for_loop 0 ref_station.toNat (fun sn bl =>
          let bl := push_back bl (sn, ref_station.toNat)
          let bl := push_back bl (sn + n_st_2, ref_station.toNat)
          let bl := push_back bl (sn, ref_station.toNat + n_st_2)
          push_back bl (sn + n_st_2, ref_station.toNat + n_st_2)) baselines
        some (for_loop (ref_station + 1).toNat n_st_2 (fun sn bl =>
          let bl := push_back bl (ref_station.toNat, sn)
          let bl := push_back bl (ref_station.toNat, sn + n_st_2)
          let bl := push_back bl (ref_station.toNat + n_st_2, sn)
          push_back bl (ref_station.toNat + n_st_2, sn + n_st_2)) baselines)
      else
        -- cross polarize without a reference station
        some (for_loop 0 (size_t_sub n_st_2 1) (fun sn bl =>
          for_loop (sn + 1) n_st_2 (fun sno bl =>
            let bl := push_back bl (sn, sno)
            let bl := push_back bl (sn, sno + n_st_2)
            let bl := push_back bl (sn + n_st_2, sno)
            push_back bl (sn + n_st_2, sno + n_st_2)) bl) baselines)
    else none
  else
    if 0 ≤ parameters.reference_station then
      -- no cross polarisation with a reference station
      some (for_loop 0 n_stations (fun sn bl =>
        if (sn : Int) ≠ ref_station then push_back bl (sn, ref_station.toNat) else bl) baselines)
    else
      -- no cross polarisation without a reference station
      some (for_loop 0 (size_t_sub n_stations 1) (fun sn bl =>
        for_loop (sn + 1) n_stations (fun sno bl => push_back bl (sn, sno)) bl) baselines)

/-! ## Input queues, statistics, uvw tables and the output writer -/

/-- One element of an input queue. Its `data()` is a vector of spectra. -/
structure Input_buffer_element (R : Type) where
  data : List (Complex_buffer R)

/-- An input queue (`Input_buffer`): `front()` is the head of the list,
`pop()` removes it and a producer pushes at the end. -/
abbrev Input_buffer (R : Type) := List (Input_buffer_element R)

/-- An entry of `input_elements`: an iterator over the spectra of one queue
element. Its class is declared in a header that is not among the sources; it
is modelled by the four operations `integration_step` uses. The iterator is
represented by the spectra from its position to the end of the element. -/
structure Input_element (R : Type) where
  remaining : List (Complex_buffer R)

namespace Input_element

variable {R : Type}

/-- A default-constructed iterator, as `resize` creates it: not valid. -/
def invalid : Input_element R := ⟨[]⟩

/-- The test `valid()`: the iterator points at a spectrum. -/
def valid (it : Input_element R) : Bool := !it.remaining.isEmpty

/-- The call `set(&data[0], data.size())`: point at the first spectrum. -/
def set (data : List (Complex_buffer R)) : Input_element R := ⟨data⟩

/-- The increment `++`: move to the next spectrum. -/
def advance (it : Input_element R) : Input_element R := ⟨it.remaining.tail⟩

/-- The spectrum the iterator points at; `none` when it is not valid. -/
def current (it : Input_element R) : Option (Complex_buffer R) := it.remaining.head?

end Input_element

/-- The bit statistics of one input stream: `bits_per_sample` and the counters
that `get_statistics()` returns. -/
structure Bit_statistics where
  bits_per_sample : Nat
  get_statistics : Nat → Int

/-- A uvw table: `get_uvw` gives the coordinates at a time. -/
structure Uvw_model (R : Type) where
  get_uvw : Int → R × R × R

/-- The record `Output_header_timeslice`. -/
structure Output_header_timeslice where
  integration_slice : Int
  number_baselines : Nat
  number_uvw_coordinates : Nat
  number_statistics : Nat
deriving DecidableEq, Repr

/-- The record `Output_uvw_coordinates`. -/
structure Output_uvw_coordinates (R : Type) where
  station_nr : Int
  u : R
  v : R
  w : R
deriving DecidableEq, Repr

/-- The record `Output_header_bitstatistics`. -/
structure Output_header_bitstatistics where
  station_nr : Int
  sideband : Nat
  frequency_nr : Nat
  polarisation : Int
  levels : List Int
  n_invalid : Int
deriving DecidableEq, Repr

/-- The record `Output_header_baseline`. -/
structure Output_header_baseline where
  weight : Int
  station_nr1 : Int
  station_nr2 : Int
  polarisation1 : Int
  polarisation2 : Int
  sideband : Nat
  frequency_nr : Nat
  empty : Char
deriving DecidableEq, Repr

/-- What one call of `writer->put_bytes` writes. -/
inductive Output_chunk (R : Type) where
  | timeslice (h : Output_header_timeslice)
  | uvw (records : List (Output_uvw_coordinates R))
  | stats (records : List Output_header_bitstatistics)
  | baseline_header (h : Output_header_baseline)
  | baseline_data (values : List (Cplx R))
deriving DecidableEq, Repr

/-! ## The state of the correlation core -/

/-- The data members of `Correlation_core`. A null `shared_ptr` is `none`;
`writer` holds the chunks written so far. -/
structure Correlation_core (R : Type) where
  current_fft : Nat
  total_ffts : Nat
  check_input_elements : Bool
  node_nr_ : Int
  current_integration : Nat
  number_ffts_in_integration : Nat
  oversamp : Nat
  correlation_parameters : Correlation_parameters
  baselines : List Baseline
  input_buffers : List (Option (Input_buffer R))
  statistics : List (Option Bit_statistics)
  input_elements : List (Input_element R)
  accumulation_buffers : List (Complex_buffer R)
  integration_buffer_float : List (Cplx R)
  uvw_tables : List (Option (Uvw_model R))
  writer : Option (List (Output_chunk R))

namespace Correlation_core

variable {R : Type} [LinearOrderedField R]

/-- The constructor `Correlation_core::Correlation_core()`. It initialises
`current_fft`, `total_ffts` and `check_input_elements`; the vectors start
empty, the writer null; the remaining integers and the scalar fields of
`correlation_parameters`, which C++ leaves uninitialised until
`set_parameters`, are given as `garbage` and `parameters`. -/
def construct (garbage : Nat) (parameters : Correlation_parameters) : Correlation_core R :=
  { current_fft := 0
    total_ffts := 0
    check_input_elements := true
    node_nr_ := garbage
    current_integration := garbage
    number_ffts_in_integration := garbage
    oversamp := garbage
    correlation_parameters := { parameters with station_streams := [] }
    baselines := []
    input_buffers := []
    statistics := []
    input_elements := []
    accumulation_buffers := []
    integration_buffer_float := []
    uvw_tables := []
    writer := none }

/-- Modelled from the spec: the accessor `n_stations()` is declared in
correlation_core.h, which is not among the sources. The spec enumerates the
baselines over the `S` station streams, and `integration_write` takes the same
count from `correlation_parameters.station_streams.size()`. -/
def n_stations (s : Correlation_core R) : Nat :=
  s.correlation_parameters.station_streams.length

/-- Modelled from the spec: the accessor `number_input_streams_in_use()` is
declared in correlation_core.h, which is not among the sources. The spec has
one input queue per station stream. -/
def number_input_streams_in_use (s : Correlation_core R) : Nat :=
  s.correlation_parameters.station_streams.length

/-- Modelled from the spec: the accessor `fft_size()` is declared in
correlation_core.h, which is not among the sources. The spec gives every
frequency buffer `fft_size + 1` values, `fft_size` being the transform size of
the correlation parameters. -/
def fft_size (s : Correlation_core R) : Nat :=
  s.correlation_parameters.fft_size

/-- Modelled from the spec: the accessor `number_channels()` is declared in
correlation_core.h, which is not among the sources. It is the number of output
spectral channels per baseline of the correlation parameters. -/
def number_channels (s : Correlation_core R) : Nat :=
  s.correlation_parameters.number_channels

/-- `Correlation_core::almost_finished`. -/
def almost_finished (s : Correlation_core R) : Bool :=
  s.current_fft == s.number_ffts_in_integration * 9 / 10

/-- `Correlation_core::finished`. -/
def finished (s : Correlation_core R) : Bool :=
  s.current_fft == s.number_ffts_in_integration

/-- `Correlation_core::connect_to`. -/
def connect_to (s : Correlation_core R) (stream : Nat) (statistics_ : Option Bit_statistics)
    (buffer : Option (Input_buffer R)) : Correlation_core R :=
  let s :=
    if stream ≥ s.input_buffers.length then
      { s with input_buffers := resize s.input_buffers (stream + 1) none
               statistics := resize s.statistics (stream + 1) none }
    else s
  { s with input_buffers := s.input_buffers.set stream buffer
           statistics := s.statistics.set stream statistics_ }

/-- `Correlation_core::create_baselines`. -/
def create_baselines (s : Correlation_core R) (parameters : Correlation_parameters) :
    Option (Correlation_core R) :=
  let number_ffts := nr_ffts_per_integration_slice parameters.integration_time
    parameters.sample_rate parameters.fft_size
  let s := { s with number_ffts_in_integration := number_ffts }
  match create_baselines_vector (n_stations s) parameters with
  | some baselines => some { s with baselines := baselines }
  | none => none

/-- `Correlation_core::set_parameters`. Both `sample_rate` and `bandwidth` are
taken as integers: `Correlation_parameters` is declared in
control_parameters.h, which is not among the sources, and
control_parameters.cc fills both fields from `int` values (lines 2064 and
2074). So the quotient is the integer quotient and `round` leaves it
unchanged; a zero divisor gives `none`. -/
def set_parameters (s : Correlation_core R) (parameters : Correlation_parameters)
    (node_nr : Int) : Option (Correlation_core R) :=
  let s := { s with node_nr_ := node_nr, current_integration := 0, current_fft := 0 }
  let s := { s with correlation_parameters := parameters }
  if 2 * parameters.bandwidth = 0 then none
  else
    let s := { s with oversamp := parameters.sample_rate / (2 * parameters.bandwidth) }
    create_baselines s parameters

/-- `Correlation_core::set_data_writer`. -/
def set_data_writer (s : Correlation_core R) (writer_ : Option (List (Output_chunk R))) :
    Correlation_core R :=
  { s with writer := writer_ }

/-- `Correlation_core::add_uvw_table`. -/
def add_uvw_table (s : Correlation_core R) (sn : Nat) (table : Uvw_model R) :
    Correlation_core R :=
  let tables := if sn ≥ s.uvw_tables.length then resize s.uvw_tables (sn + 1) none
                else s.uvw_tables
  { s with uvw_tables := tables.set sn (some table) }

/-- The loop of `has_work` from stream `i` on with `fuel` streams left:
`false` at the first empty queue, `true` when all have been passed. -/
def has_work_loop (s : Correlation_core R) : Nat → Nat → Option Bool
  | _, 0 => some true
  | i, fuel + 1 =>
    match s.input_buffers[i]? with
    | some (some queue) => if queue.isEmpty then some false else has_work_loop s (i + 1) fuel
    | _ => none

/-- `Correlation_core::has_work`. -/
def has_work (s : Correlation_core R) : Option Bool :=
  if s.check_input_elements then has_work_loop s 0 (number_input_streams_in_use s)
  else some true

/-- `Correlation_core::auto_correlate_baseline`: `out[i] += |in[i]|²` for
`i = 0 .. fft_size`. -/
def auto_correlate_baseline (s : Correlation_core R) (inp out : Complex_buffer R) :
    Option (Complex_buffer R) :=
  for_loop_opt 0 (fft_size s + 1) (fun i out =>
    match inp[i]?, out[i]? with
    | some x, some o => some (out.set i (o.add_real (x.re * x.re + x.im * x.im)))
    | _, _ => none) out

/-- `Correlation_core::correlate_baseline`: `out[i] += in1[i] * conj(in2[i])`
for `i = 0 .. fft_size`. -/
def correlate_baseline (s : Correlation_core R) (in1 in2 out : Complex_buffer R) :
    Option (Complex_buffer R) :=
  for_loop_opt 0 (fft_size s + 1) (fun i out =>
    match in1[i]?, in2[i]?, out[i]? with
    | some x, some y, some o => some (out.set i (o.add (x.mul y.conj)))
    | _, _, _ => none) out

/-- `Correlation_core::integration_initialise`. -/
def integration_initialise (s : Correlation_core R) : Option (Correlation_core R) :=
  let buffers :=
    if s.accumulation_buffers.length ≠ s.baselines.length then
      let buffers := resize s.accumulation_buffers s.baselines.length []
      for_loop 0 buffers.length (fun i buffers =>
        buffers.set i (resize (buffers.getD i []) (fft_size s + 1) Cplx.zero)) buffers
    else s.accumulation_buffers
  if buffers.length = s.baselines.length then
    match for_loop_opt 0 buffers.length (fun i buffers =>
        match buffers[i]? with
        | some buffer =>
          if buffer.length = fft_size s + 1 then
            some (buffers.set i
              (for_loop 0 buffer.length (fun j buffer => buffer.set j Cplx.zero) buffer))
          else none
        | none => none) buffers with
    | some buffers => some { s with accumulation_buffers := buffers }
    | none => none
  else none

/-- The first loop of `integration_step` (lines 183-190): every iterator that
is not valid is set to the head element of its queue. -/
def integration_step_fetch (s : Correlation_core R) : Option (Correlation_core R) :=
  if s.check_input_elements then
    match for_loop_opt 0 (number_input_streams_in_use s) (fun i elements =>
        match elements[i]? with
        | some it =>
          if !it.valid then
            match s.input_buffers[i]? with
            | some (some (front :: _)) => some (elements.set i (Input_element.set front.data))
            | _ => none
          else some elements
        | none => none) s.input_elements with
    | some elements => some { s with input_elements := elements, check_input_elements := false }
    | none => none
  else some s

/-- The correlation loops of `integration_step` (lines 194-209) on the
accumulators `integration_buffer`. -/
def integration_step_correlate (s : Correlation_core R)
    (integration_buffer : List (Complex_buffer R)) : Option (List (Complex_buffer R)) :=
  match for_loop_opt 0 (number_input_streams_in_use s) (fun i buffers =>
      -- Auto correlations
      match s.baselines[i]? with
      | some stations =>
        if stations.1 = stations.2 then
          match (s.input_elements[stations.1]?).bind Input_element.current, buffers[i]? with
          | some in1, some out =>
            match auto_correlate_baseline s in1 out with
            | some out => some (buffers.set i out)
            | none => none
          | _, _ => none
        else none
      | none => none) integration_buffer with
  | some buffers =>
    for_loop_opt (number_input_streams_in_use s) s.baselines.length (fun i buffers =>
      -- Cross correlations
      match s.baselines[i]? with
      | some stations =>
        if stations.1 ≠ stations.2 then
          match (s.input_elements[stations.1]?).bind Input_element.current,
                (s.input_elements[stations.2]?).bind Input_element.current, buffers[i]? with
          | some in1, some in2, some out =>
            match correlate_baseline s in1 in2 out with
            | some out => some (buffers.set i out)
            | none => none
          | _, _, _ => none
        else none
      | none => none) buffers
  | none => none

/-- The last loop of `integration_step` (lines 264-270): every iterator is
advanced, and the queue of an iterator that has left its element is popped. -/
def integration_step_advance (s : Correlation_core R) : Option (Correlation_core R) :=
  for_loop_opt 0 (number_input_streams_in_use s) (fun i s =>
    match s.input_elements[i]? with
    | some it =>
      let s := { s with input_elements := s.input_elements.set i it.advance }
      if !it.advance.valid then
        match s.input_buffers[i]? with
        | some (some (_ :: rest)) =>
          some { s with input_buffers := s.input_buffers.set i (some rest)
                        check_input_elements := true }
        | _ => none
      else some s
    | none => none) s

/-- `Correlation_core::integration_step`, called on `accumulation_buffers`. -/
def integration_step (s : Correlation_core R) : Option (Correlation_core R) :=
  let s :=
    if s.input_elements.length ≠ number_input_streams_in_use s then
      { s with input_elements :=
          resize s.input_elements (number_input_streams_in_use s) Input_element.invalid }
    else s
  match integration_step_fetch s with
  | some s =>
    match integration_step_correlate s s.accumulation_buffers with
    | some buffers => integration_step_advance { s with accumulation_buffers := buffers }
    | none => none
  | none => none

/-- The station loop of `integration_normalize` (lines 279-292) for one
station: the updated `norms` and accumulators. The divisor
`fft_size() / oversamp` is an integer quotient; when it is zero the result is
`none`. -/
def integration_normalize_station (s : Correlation_core R) (station : Nat)
    (state : List R × List (Complex_buffer R)) : Option (List R × List (Complex_buffer R)) :=
  match state.1[station]?, state.2[station]? with
  | some norm0, some buffer =>
    match for_loop_opt 0 (fft_size s + 1) (fun i norm =>
        match buffer[i]? with
        | some c => some (norm + c.re)
        | none => none) norm0 with
    | some norm =>
      if s.oversamp = 0 ∨ fft_size s / s.oversamp = 0 then none
      else
        let norm := norm / ((fft_size s / s.oversamp : Nat) : R)
        let norm := if norm < 1 then 1 else norm
        match for_loop_opt 0 (fft_size s + 1) (fun i buffer =>
            match buffer[i]? with
            | some c => some (buffer.set i (Cplx.of_real (c.re / norm)))
            | none => none) buffer with
        | some buffer => some (state.1.set station norm, state.2.set station buffer)
        | none => none
    | none => none
  | _, _ => none

/-- `Correlation_core::integration_normalize`, called on
`accumulation_buffers`; `sqrt` is the square root. -/
def integration_normalize (sqrt : R → R) (s : Correlation_core R) :
    Option (Correlation_core R) :=
  let norms : List R := resize [] (n_stations s) 0
  -- Average the auto correlations
  match for_loop_opt 0 (n_stations s) (integration_normalize_station s)
      (norms, s.accumulation_buffers) with
  | some (norms, buffers) =>
    -- Average the cross correlations
    match for_loop_opt (n_stations s) s.baselines.length (fun station buffers =>
        match s.baselines[station]? with
        | some stations =>
          match norms[stations.1]?, norms[stations.2]?, buffers[station]? with
          | some n1, some n2, some buffer =>
            let norm := sqrt (n1 * n2)
            match for_loop_opt 0 (fft_size s + 1) (fun i buffer =>
                match buffer[i]? with
                | some c => some (buffer.set i (c.div_real norm))
                | none => none) buffer with
            | some buffer => some (buffers.set station buffer)
            | none => none
          | _, _, _ => none
        | none => none) buffers with
    | some buffers => some { s with accumulation_buffers := buffers }
    | none => none
  | none => none

/-- The vector `stream2station` that `integration_write` builds (lines
320-335). -/
def stream2station (s : Correlation_core R) : Option (List Int) :=
  for_loop_opt 0 s.correlation_parameters.station_streams.length (fun i table =>
    match s.correlation_parameters.station_streams[i]? with
    | some st =>
      if st.station_stream < table.length then
        some (table.set st.station_stream st.station_number)
      else none
    | none => none) (resize [] s.input_buffers.length (-1))

/-- The uvw records of `integration_write` (lines 347-357). -/
def integration_write_uvw (s : Correlation_core R) (stream2station : List Int) :
    Option (List (Output_uvw_coordinates R)) :=
  -- We evaluate in the middle of time slice
  let time : Int := s.correlation_parameters.start_time +
    (s.correlation_parameters.integration_time : Int) / 2
  for_loop_opt 0 s.uvw_tables.length (fun station uvw =>
    match s.uvw_tables[station]?, stream2station[station]? with
    | some (some table), some station_nr =>
      let coordinates := table.get_uvw time
      some (uvw.set station
        { station_nr := station_nr, u := coordinates.1, v := coordinates.2.1,
          w := coordinates.2.2 })
    | _, _ => none) (List.replicate s.uvw_tables.length ⟨0, 0, 0, 0⟩)

/-- The bit statistics records of `integration_write` (lines 360-387). -/
def integration_write_stats (s : Correlation_core R) (polarisation : Int)
    (stream2station : List Int) : Option (List Output_header_bitstatistics) :=
  for_loop_opt 0 s.input_buffers.length (fun stream stats =>
    match stream2station[stream]?, s.statistics[stream]? with
    | some station_nr, some (some statistics) =>
      let station : Int := station_nr - 1
      let levels := statistics.get_statistics
      let nstreams := s.correlation_parameters.station_streams.length
      let record : Output_header_bitstatistics :=
        { polarisation :=
            if s.correlation_parameters.cross_polarize then
              (if stream ≥ nstreams / 2 then 1 - polarisation else polarisation)
            else polarisation
          station_nr := station + 1
          sideband := if s.correlation_parameters.sideband = 'L' then 0 else 1
          frequency_nr := s.correlation_parameters.channel_nr % 256
          levels :=
            if statistics.bits_per_sample = 2 then [levels 0, levels 1, levels 2, levels 3]
            else [0, levels 0, levels 1, 0]
          n_invalid := if statistics.bits_per_sample = 2 then levels 4 else levels 2 }
      some (stats.set stream record)
    | _, _ => none)
    (List.replicate s.input_buffers.length ⟨0, 0, 0, 0, [], 0⟩)

/-- The averaging of `integration_write` (lines 404-409) for one baseline:
the new contents of `integration_buffer_float`. -/
def integration_write_average (s : Correlation_core R) (n : Nat)
    (buffer : Complex_buffer R) (float_buffer : List (Cplx R)) : Option (List (Cplx R)) :=
  for_loop_opt 0 (number_channels s + 1) (fun j float_buffer =>
    match buffer[j * n]? with
    | some first =>
      if j < float_buffer.length then
        match for_loop_opt 1 (if j < number_channels s then n else 1) (fun k sum =>
            match buffer[j * n + k]? with
            | some c => some (sum.add c)
            | none => none) first with
        | some sum => if n = 0 then none else some (float_buffer.set j (sum.div_real (n : R)))
        | none => none
      else none
    | none => none) float_buffer

/-- The baseline header of `integration_write` (lines 411-441). -/
def integration_write_header (s : Correlation_core R) (polarisation : Int)
    (stream2station : List Int) (stations : Baseline) : Option Output_header_baseline :=
  let n_stations := s.correlation_parameters.station_streams.length
  if stations.1 < n_stations ∧ stations.2 < n_stations then
    match stream2station[stations.1]?, stream2station[stations.2]? with
    | some station_nr1, some station_nr2 =>
      let polarisation1 :=
        if s.correlation_parameters.cross_polarize ∧ stations.1 ≥ n_stations / 2
        then 1 - polarisation else polarisation
      let polarisation2 :=
        if s.correlation_parameters.cross_polarize ∧ stations.2 ≥ n_stations / 2
        then 1 - polarisation else polarisation
      if s.correlation_parameters.sideband = 'U' then
        some { weight := 0, station_nr1 := station_nr1, station_nr2 := station_nr2,
               polarisation1 := polarisation1, polarisation2 := polarisation2,
               sideband := 1, frequency_nr := s.correlation_parameters.channel_nr % 256,
               empty := ' ' }
      else if s.correlation_parameters.sideband = 'L' then
        some { weight := 0, station_nr1 := station_nr1, station_nr2 := station_nr2,
               polarisation1 := polarisation1, polarisation2 := polarisation2,
               sideband := 0, frequency_nr := s.correlation_parameters.channel_nr % 256,
               empty := ' ' }
      else none
    | _, _ => none
  else none

/-- The baseline loop of `integration_write` (lines 400-447): the state is the
float buffer and the chunks written. -/
def integration_write_baselines (s : Correlation_core R) (polarisation : Int)
    (stream2station : List Int) (n : Nat)
    (state : List (Cplx R) × List (Output_chunk R)) :
    Option (List (Cplx R) × List (Output_chunk R)) :=
  for_loop_opt 0 s.baselines.length (fun i state =>
    match s.baselines[i]?, s.accumulation_buffers[i]? with
    | some stations, some buffer =>
      match integration_write_average s n buffer state.1 with
      | some float_buffer =>
        match integration_write_header s polarisation stream2station stations with
        | some hbaseline =>
          let written := push_back state.2 (Output_chunk.baseline_header hbaseline)
          let written := push_back written
            (Output_chunk.baseline_data (float_buffer.take (number_channels s + 1)))
          some (float_buffer, written)
        | none => none
      | none => none
    | _, _ => none) state

/-- `Correlation_core::integration_write`, called on `accumulation_buffers`. -/
def integration_write (s : Correlation_core R) : Option (Correlation_core R) :=
  match s.writer with
  | some written =>
    if s.accumulation_buffers.length = s.baselines.length then
      match (if s.correlation_parameters.polarisation = 'R' then some (0 : Int)
             else if s.correlation_parameters.polarisation = 'L' then some (1 : Int)
             else none),
            stream2station s with
      | some polarisation, some table =>
        -- Writing the timeslice header
        let htimeslice : Output_header_timeslice :=
          { number_baselines := s.baselines.length
            integration_slice := s.correlation_parameters.integration_nr + s.current_integration
            number_uvw_coordinates := s.uvw_tables.length
            number_statistics := s.input_buffers.length }
        match integration_write_uvw s table, integration_write_stats s polarisation table with
        | some uvw, some stats =>
          let written := push_back written (Output_chunk.timeslice htimeslice)
          let written := push_back written (Output_chunk.uvw uvw)
          let written := push_back written (Output_chunk.stats stats)
          let float_buffer := resize s.integration_buffer_float (number_channels s + 1) Cplx.zero
          if number_channels s = 0 then none
          else
            let n := fft_size s / number_channels s
            match integration_write_baselines s polarisation table n (float_buffer, written) with
            | some (float_buffer, written) =>
              some { s with integration_buffer_float := float_buffer, writer := some written }
            | none => none
        | _, _ => none
      | _, _ => none
    else none
  | none => none

/-- `Correlation_core::do_task`; `sqrt` is the square root used by
`integration_normalize`. -/
def do_task (sqrt : R → R) (s : Correlation_core R) : Option (Correlation_core R) :=
  if has_work s = some true then
    if s.number_ffts_in_integration = 0 then none
    else
      match (if s.current_fft % s.number_ffts_in_integration = 0 then integration_initialise s
             else some s) with
      | some s =>
        -- Process the data of the current fft
        match integration_step s with
        | some s =>
          let s := { s with current_fft := s.current_fft + 1 }
          if s.current_fft = s.number_ffts_in_integration then
            match integration_normalize sqrt s with
            | some s =>
              match integration_write s with
              | some s => some { s with current_integration := s.current_integration + 1 }
              | none => none
            | none => none
          else some s
        | none => none
      | none => none
  else none

end Correlation_core

/-! ## The environment of the core and its reachable states -/

namespace Correlation_core

variable {R : Type}

/-- A producer pushes `element` at the end of the queue connected to `stream`. -/
def push (s : Correlation_core R) (stream : Nat) (element : Input_buffer_element R) :
    Correlation_core R :=
  match s.input_buffers[stream]? with
  | some (some queue) =>
    { s with input_buffers := s.input_buffers.set stream (some (queue ++ [element])) }
  | _ => s

/-- The states that the constructor, the configuration calls, pushes onto the
input queues and successful `do_task` calls reach, in any order. -/
inductive Reachable [LinearOrderedField R] (sqrt : R → R) : Correlation_core R → Prop
  | construct (garbage : Nat) (parameters : Correlation_parameters) :
      Reachable sqrt (construct garbage parameters)
  | connect_to (s : Correlation_core R) (stream : Nat) (statistics_ : Option Bit_statistics)
      (buffer : Option (Input_buffer R)) :
      Reachable sqrt s → Reachable sqrt (s.connect_to stream statistics_ buffer)
  | set_parameters (s s' : Correlation_core R) (parameters : Correlation_parameters)
      (node_nr : Int) :
      Reachable sqrt s → s.set_parameters parameters node_nr = some s' → Reachable sqrt s'
  | set_data_writer (s : Correlation_core R) (writer_ : Option (List (Output_chunk R))) :
      Reachable sqrt s → Reachable sqrt (s.set_data_writer writer_)
  | add_uvw_table (s : Correlation_core R) (sn : Nat) (table : Uvw_model R) :
      Reachable sqrt s → Reachable sqrt (s.add_uvw_table sn table)
  | push (s : Correlation_core R) (stream : Nat) (element : Input_buffer_element R) :
      Reachable sqrt s → Reachable sqrt (s.push stream element)
  | do_task (s s' : Correlation_core R) :
      Reachable sqrt s → s.do_task sqrt = some s' → Reachable sqrt s'

/-- The reachable states when `connect_to` and `set_parameters` are called
only while `check_input_elements` is set, that is, while no iterator is inside
a partly consumed queue element (as after construction). -/
inductive Reachable_aligned [LinearOrderedField R] (sqrt : R → R) :
    Correlation_core R → Prop
  | construct (garbage : Nat) (parameters : Correlation_parameters) :
      Reachable_aligned sqrt (construct garbage parameters)
  | connect_to (s : Correlation_core R) (stream : Nat) (statistics_ : Option Bit_statistics)
      (buffer : Option (Input_buffer R)) :
      Reachable_aligned sqrt s → s.check_input_elements = true →
      Reachable_aligned sqrt (s.connect_to stream statistics_ buffer)
  | set_parameters (s s' : Correlation_core R) (parameters : Correlation_parameters)
      (node_nr : Int) :
      Reachable_aligned sqrt s → s.check_input_elements = true →
      s.set_parameters parameters node_nr = some s' → Reachable_aligned sqrt s'
  | set_data_writer (s : Correlation_core R) (writer_ : Option (List (Output_chunk R))) :
      Reachable_aligned sqrt s → Reachable_aligned sqrt (s.set_data_writer writer_)
  | add_uvw_table (s : Correlation_core R) (sn : Nat) (table : Uvw_model R) :
      Reachable_aligned sqrt s → Reachable_aligned sqrt (s.add_uvw_table sn table)
  | push (s : Correlation_core R) (stream : Nat) (element : Input_buffer_element R) :
      Reachable_aligned sqrt s → Reachable_aligned sqrt (s.push stream element)
  | do_task (s s' : Correlation_core R) :
      Reachable_aligned sqrt s → s.do_task sqrt = some s' → Reachable_aligned sqrt s'

/-- Every input queue in use is connected and holds at least one element. -/
def all_queues_nonempty (s : Correlation_core R) : Bool :=
  (List.range (number_input_streams_in_use s)).all (fun i =>
    match s.input_buffers[i]? with
    | some (some (_ :: _)) => true
    | _ => false)

/-- The queue connected to stream `i`; empty when none is connected. -/
def queue_of (s : Correlation_core R) (i : Nat) : Input_buffer R :=
  match s.input_buffers[i]? with
  | some (some queue) => queue
  | _ => []

/-- The spectra of the current queue element of stream `i` from the read
position on: those the iterator of the stream still covers or, when that
iterator is not valid and `check_input_elements` is set, all spectra of the
head element of the queue. -/
def current_element (s : Correlation_core R) (i : Nat) : List (Complex_buffer R) :=
  if i < number_input_streams_in_use s then
    let it := (s.input_elements[i]?).getD Input_element.invalid
    if it.valid then it.remaining
    else if s.check_input_elements then
      match s.input_buffers[i]? with
      | some (some (front :: _)) => front.data
      | _ => []
    else []
  else []

/-- The spectra of stream `i` that are queued and not consumed yet, in
order. -/
def unread_spectra (s : Correlation_core R) (i : Nat) : List (Complex_buffer R) :=
  let it := (s.input_elements[i]?).getD Input_element.invalid
  if it.valid then it.remaining ++ (queue_of s i).tail.flatMap (fun e => e.data)
  else (queue_of s i).flatMap (fun e => e.data)

/-- Stream `i` has a current spectrum with at least `fft_size + 1` bins, and
a queue element to pop when that spectrum is the last one of its element. -/
def stream_ready (s : Correlation_core R) (i : Nat) : Bool :=
  match current_element s i with
  | x :: rest =>
    decide (fft_size s + 1 ≤ x.length) &&
      (!rest.isEmpty || !(queue_of s i).isEmpty)
  | [] => false

/-- Baseline `i` joins two different streams in use. -/
def cross_baseline_ok (s : Correlation_core R) (i : Nat) : Bool :=
  match s.baselines[i]? with
  | some (a, b) =>
    decide (a ≠ b ∧ a < number_input_streams_in_use s ∧ b < number_input_streams_in_use s)
  | none => false

/-- Baseline `i` has an accumulator with at least `fft_size + 1` bins. -/
def accumulator_ok (s : Correlation_core R) (i : Nat) : Bool :=
  match s.accumulation_buffers[i]? with
  | some out => decide (fft_size s + 1 ≤ out.length)
  | none => false

/-- Stream `i` has a queue connected. -/
def queue_connected (s : Correlation_core R) (i : Nat) : Bool :=
  match s.input_buffers[i]? with
  | some (some _) => true
  | _ => false

/-- Every stream in use has a queue connected, so that `has_work` meets no
null pointer. -/
def queues_connected (s : Correlation_core R) : Prop :=
  ∀ i, i < number_input_streams_in_use s → queue_connected s i = true

instance (s : Correlation_core R) : Decidable (queues_connected s) := by
  unfold queues_connected
  infer_instance

/-- The conditions of `integration_step` on streams and baselines: every
stream in use is ready, the first baselines are the autocorrelations of the
streams in use and the others join two different streams in use. -/
def streams_ready (s : Correlation_core R) : Prop :=
  (∀ i, i < number_input_streams_in_use s → stream_ready s i = true) ∧
  (∀ i, i < number_input_streams_in_use s → s.baselines[i]? = some (i, i)) ∧
  (∀ i, i < s.baselines.length → number_input_streams_in_use s ≤ i →
    cross_baseline_ok s i = true)

instance (s : Correlation_core R) : Decidable (streams_ready s) := by
  unfold streams_ready
  infer_instance

/-- The conditions under which `integration_step` meets no failed assertion
and no access out of range: the streams are ready and every baseline has its
accumulator. -/
def step_ready (s : Correlation_core R) : Prop :=
  streams_ready s ∧ ∀ i, i < s.baselines.length → accumulator_ok s i = true

instance (s : Correlation_core R) : Decidable (step_ready s) := by
  unfold step_ready
  infer_instance

/-- Both streams of baseline `i` are station streams. -/
def baseline_in_range (s : Correlation_core R) (i : Nat) : Bool :=
  match s.baselines[i]? with
  | some (a, b) => decide (a < n_stations s ∧ b < n_stations s)
  | none => false

/-- The conditions under which `integration_normalize` meets no access out of
range and no division by zero: the integer quotient `fft_size / oversamp` is
defined and not zero when there is a station, every station and every
baseline has its accumulator, and the baselines after the autocorrelations
join station streams. -/
def normalize_ready (s : Correlation_core R) : Prop :=
  (n_stations s ≠ 0 → s.oversamp ≠ 0 ∧ fft_size s / s.oversamp ≠ 0) ∧
  (∀ i, i < n_stations s → accumulator_ok s i = true) ∧
  (∀ i, i < s.baselines.length → n_stations s ≤ i →
    accumulator_ok s i = true ∧ baseline_in_range s i = true)

instance (s : Correlation_core R) : Decidable (normalize_ready s) := by
  unfold normalize_ready
  infer_instance

/-- Station `i` has a uvw table. -/
def uvw_table_ok (s : Correlation_core R) (i : Nat) : Bool :=
  match s.uvw_tables[i]? with
  | some (some _) => true
  | _ => false

/-- Stream `i` has its bit statistics. -/
def statistics_ok (s : Correlation_core R) (i : Nat) : Bool :=
  match s.statistics[i]? with
  | some (some _) => true
  | _ => false

/-- Both streams of baseline `i` are among the station streams and among the
connected streams. -/
def baseline_streams_ok (s : Correlation_core R) (i : Nat) : Bool :=
  match s.baselines[i]? with
  | some (a, b) =>
    decide (a < s.correlation_parameters.station_streams.length ∧
      b < s.correlation_parameters.station_streams.length ∧
      a < s.input_buffers.length ∧ b < s.input_buffers.length)
  | none => false

/-- The conditions of `integration_write` that do not concern the
accumulators: there is a writer, polarisation and sideband have one of their
two values, the number of channels is not zero and not above the FFT size,
every station stream is a connected stream, every station has a uvw table and
every stream its statistics, and every baseline joins station streams. -/
def write_ready_configuration (s : Correlation_core R) : Prop :=
  s.writer.isSome = true ∧
  (s.correlation_parameters.polarisation = 'R' ∨ s.correlation_parameters.polarisation = 'L') ∧
  (s.correlation_parameters.sideband = 'U' ∨ s.correlation_parameters.sideband = 'L') ∧
  number_channels s ≠ 0 ∧ number_channels s ≤ fft_size s ∧
  (∀ st ∈ s.correlation_parameters.station_streams, st.station_stream < s.input_buffers.length) ∧
  s.uvw_tables.length ≤ s.input_buffers.length ∧
  (∀ i, i < s.uvw_tables.length → uvw_table_ok s i = true) ∧
  (∀ i, i < s.input_buffers.length → statistics_ok s i = true) ∧
  (∀ i, i < s.baselines.length → baseline_streams_ok s i = true)

instance (s : Correlation_core R) : Decidable (write_ready_configuration s) := by
  unfold write_ready_configuration
  infer_instance

/-- The conditions under which `integration_write` meets no failed assertion,
no access out of range and no division by zero: those on the configuration,
and one accumulator of at least `fft_size + 1` bins for every baseline. -/
def write_ready (s : Correlation_core R) : Prop :=
  write_ready_configuration s ∧
  s.accumulation_buffers.length = s.baselines.length ∧
  (∀ i, i < s.baselines.length → accumulator_ok s i = true)

instance (s : Correlation_core R) : Decidable (write_ready s) := by
  unfold write_ready
  infer_instance

/-- Baseline `i` has an accumulator of exactly `fft_size + 1` bins. -/
def accumulator_sized (s : Correlation_core R) (i : Nat) : Bool :=
  match s.accumulation_buffers[i]? with
  | some out => decide (out.length = fft_size s + 1)
  | none => false

/-- The condition under which `integration_initialise` meets no failed
assertion: when there is one accumulator per baseline already, so that the
accumulators are not resized, each has exactly `fft_size + 1` bins. -/
def initialise_ready (s : Correlation_core R) : Prop :=
  s.accumulation_buffers.length = s.baselines.length →
    ∀ i, i < s.baselines.length → accumulator_sized s i = true

instance (s : Correlation_core R) : Decidable (initialise_ready s) := by
  unfold initialise_ready
  infer_instance

/-- The conditions of the end of an integration that do not concern the
accumulators: those of `integration_normalize` on the divisor and on the
baselines, and those of `integration_write` on the configuration. -/
def finish_ready (s : Correlation_core R) : Prop :=
  (n_stations s ≠ 0 → s.oversamp ≠ 0 ∧ fft_size s / s.oversamp ≠ 0) ∧
  (∀ i, i < s.baselines.length → n_stations s ≤ i → baseline_in_range s i = true) ∧
  write_ready_configuration s

instance (s : Correlation_core R) : Decidable (finish_ready s) := by
  unfold finish_ready
  infer_instance

/-- The conditions under which `do_task` meets no failed assertion, no access
out of range and no division by zero: there is work, an integration has at
least one FFT, the streams are ready, the accumulators are ready to be
initialised at the start of an integration and are there with their bins
later on, and the end of the integration is prepared when this call is the
last one of the integration. -/
def task_ready (s : Correlation_core R) : Prop :=
  has_work s = some true ∧ s.number_ffts_in_integration ≠ 0 ∧ streams_ready s ∧
  (if s.current_fft % s.number_ffts_in_integration = 0 then initialise_ready s
   else s.accumulation_buffers.length = s.baselines.length ∧
     ∀ i, i < s.baselines.length → accumulator_ok s i = true) ∧
  (s.current_fft + 1 = s.number_ffts_in_integration → finish_ready s)

instance (s : Correlation_core R) : Decidable (task_ready s) := by
  unfold task_ready
  infer_instance

end Correlation_core

/-! ## Auxiliary definitions for the statements -/

/-- The spectrum of stream `i` that the next `integration_step` reads: the one
the iterator of the stream points at or, when that iterator is not valid and
`check_input_elements` is set, the first spectrum of the head element of the
queue of the stream. -/
def current_spectrum {R : Type} (s : Correlation_core R) (i : Nat) :
    Option (Complex_buffer R) :=
  if i < s.correlation_parameters.station_streams.length then
    let it := (s.input_elements[i]?).getD Input_element.invalid
    if it.valid then it.current
    else if s.check_input_elements then
      match s.input_buffers[i]? with
      | some (some (front :: _)) => front.data.head?
      | _ => none
    else none
  else none

/-- The pairs pushed by the nested loop of lines 137-141 for `n` streams, in
the order in which they are pushed. -/
def pairs_loop (n : Nat) : List Baseline :=
  (List.range' 0 (n - 1 - 0)).flatMap (fun sn =>
    (List.range' (sn + 1) (n - (sn + 1))).flatMap (fun sno => [(sn, sno)]))

/-- Lexicographic order on baselines. -/
def lex_lt (a b : Baseline) : Prop := a.1 < b.1 ∨ (a.1 = b.1 ∧ a.2 < b.2)

/-! ## Example configurations -/

/-- Correlation parameters with `n` station streams (stream `i` carries
station number `i + 1`), one second of integration at 4 samples per second,
`fft_size = 2` (so two FFTs per integration) and two output channels. -/
def example_parameters (n : Nat) (reference_station : Int) (cross_polarize : Bool) :
    Correlation_parameters :=
  { start_time := 0
    integration_time := 1000000
    sample_rate := 4
    bandwidth := 2
    fft_size := 2
    number_channels := 2
    integration_nr := 0
    channel_nr := 0
    polarisation := 'R'
    sideband := 'U'
    cross_polarize := cross_polarize
    reference_station := reference_station
    station_streams := (List.range n).map (fun (i : Nat) => ⟨(i : Int) + 1, i⟩) }

/-- A freshly constructed core over the rationals whose
`correlation_parameters` have been assigned, as in `set_parameters` before it
calls `create_baselines`. -/
def example_core (n : Nat) (reference_station : Int) (cross_polarize : Bool) :
    Correlation_core ℚ :=
  { Correlation_core.construct 0 (example_parameters n reference_station cross_polarize) with
    correlation_parameters := example_parameters n reference_station cross_polarize }

/-- A spectrum of three bins over the rationals. -/
def example_spectrum (a : ℚ) : Complex_buffer ℚ :=
  [⟨a, 1⟩, ⟨2, a⟩, ⟨a, a + 1⟩]

/-- Bit statistics of a two-bit stream. -/
def example_statistics : Bit_statistics :=
  { bits_per_sample := 2, get_statistics := fun k => k }

/-- A uvw table with constant coordinates. -/
def example_uvw : Uvw_model ℚ :=
  { get_uvw := fun _ => (1, 2, 3) }

/-- A stand-in for the square root in the examples. -/
def example_sqrt (x : ℚ) : ℚ := x

/-- A core with two connected streams, a writer and uvw tables, after
`set_parameters` with `parameters`: stream 0 holds one queue element of two
spectra, stream 1 two queue elements of one spectrum each. -/
def example_configured_with (parameters : Correlation_parameters) :
    Option (Correlation_core ℚ) :=
  let s : Correlation_core ℚ := Correlation_core.construct 0 (example_parameters 0 (-1) false)
  let s := s.connect_to 0 (some example_statistics)
    (some [⟨[example_spectrum 1, example_spectrum 2]⟩])
  let s := s.connect_to 1 (some example_statistics)
    (some [⟨[example_spectrum 3]⟩, ⟨[example_spectrum 4]⟩])
  let s := s.set_data_writer (some [])
  let s := s.add_uvw_table 0 example_uvw
  let s := s.add_uvw_table 1 example_uvw
  s.set_parameters parameters 0

/-- The example core configured for two station streams. -/
def example_configured : Option (Correlation_core ℚ) :=
  example_configured_with (example_parameters 2 (-1) false)

/-- The configured example core with its accumulators initialised. -/
def example_initialised : Option (Correlation_core ℚ) :=
  example_configured.bind Correlation_core.integration_initialise

/-- The example core configured with a single output channel for the
transform size 2, with its accumulators initialised. -/
def example_one_channel : Option (Correlation_core ℚ) :=
  (example_configured_with
    { example_parameters 2 (-1) false with number_channels := 1 }).bind
      Correlation_core.integration_initialise

/-- The lengths of the baseline data chunks among `chunks`. -/
def baseline_data_lengths {R : Type} (chunks : List (Output_chunk R)) : List Nat :=
  chunks.filterMap (fun chunk =>
    match chunk with
    | Output_chunk.baseline_data values => some values.length
    | _ => none)

/-- A core on which stream 0 is connected to a queue holding one element of
two spectra and stream 1 to an empty queue. -/
def example_two_queues : Correlation_core ℚ :=
  let s : Correlation_core ℚ := Correlation_core.construct 0 (example_parameters 0 (-1) false)
  let s := s.connect_to 0 (some example_statistics)
    (some [⟨[example_spectrum 1, example_spectrum 2]⟩])
  s.connect_to 1 (some example_statistics) (some [])
/-- The weights of the baseline headers among `chunks`, in order. -/
def baseline_weights {R : Type} (chunks : List (Output_chunk R)) : List Int :=
  chunks.filterMap (fun chunk =>
    match chunk with
    | Output_chunk.baseline_header h => some h.weight
    | _ => none)

namespace Correlation_core

variable {R : Type} [LinearOrderedField R]

/-- The calls `integration_step(accumulation_buffers)` made `k` times in a
row, as `k` calls of `do_task` within one integration make them. -/
def integration_steps : Nat → Correlation_core R → Option (Correlation_core R)
  | 0, s => some s
  | k + 1, s => (integration_step s).bind (integration_steps k)

/-- Every bin of every autocorrelation accumulator is a non-negative real
number, and the accumulator has `fft_size + 1` bins. -/
def autos_real (s : Correlation_core R) : Prop :=
  ∀ i, i < number_input_streams_in_use s → ∀ buffer, s.accumulation_buffers[i]? = some buffer →
    buffer.length = fft_size s + 1 ∧ ∀ c ∈ buffer, c.im = 0 ∧ 0 ≤ c.re

end Correlation_core

namespace Correlation_core

variable {R : Type} [LinearOrderedField R]

/-- The complex conjugate of every bin of a buffer. -/
def conj_buffer (buffer : Complex_buffer R) : Complex_buffer R :=
  buffer.map Cplx.conj

/-- The list `l` with `f` applied to its entry `b`, when it has one. -/
def modify_at {α : Type} (f : α → α) (b : Nat) (l : List α) : List α :=
  match l[b]? with
  | some x => l.set b (f x)
  | none => l

/-- The core `s` with the two streams of baseline `b` exchanged and the
accumulator of that baseline conjugated: it correlates `(j, i)` where `s`
correlates `(i, j)`, from the same inputs. -/
def mirror (b : Nat) (s : Correlation_core R) : Correlation_core R :=
  { s with baselines := modify_at Prod.swap b s.baselines
           accumulation_buffers := modify_at conj_buffer b s.accumulation_buffers }

end Correlation_core


/-! ## The control parameters -/

/-- Modelled from the spec: `isPower2` is declared in utils.h, which is not
among the sources. The spec asks for a transform size that is a power of two;
an `int` that is not positive is none. -/
def isPower2 (n : Int) : Bool :=
  decide (0 < n ∧ ∃ k, k < n.toNat ∧ 2 ^ k = n.toNat)

/-- The C function `round` on exact values: to the nearest integer, halves
away from zero. -/
def c_round (x : ℚ) : ℚ :=
  if 0 ≤ x then (⌊x + 1 / 2⌋ : Int) else (⌈x - 1 / 2⌉ : Int)

/-- One entry of the `pulsars` block of the control file, as `check` reads it:
`polyco_file` holds `size()` and `asString()` of the entry when it is set. -/
structure Pulsar_entry where
  interval : List ℚ
  nbins : Int
  polyco_file : Option (Nat × List Char)

/-- The entries of the control file `ctrl` that `Control_parameters::check`
reads, each with the type it is read at. An entry equal to `Json::Value()`
(not set) is `none`; a `std::string` is a list of characters; a `double` is an
exact rational. `asBool()` of an entry that is not set is `false`. -/
structure Ctrl where
  start : Option (List Char)
  stop : Option (List Char)
  integr_time : Option ℚ
  sub_integr_time : Option ℚ
  phasecal_integr_time : Option Int
  phasecal_file : Option (List Char)
  fft_size_delaycor : Option Int
  fft_size_correlation : Option Int
  number_channels : Option Int
  stations : Option (List (List Char))
  data_sources : List Char → Option (List (List Char))
  reference_station : Option (List Char)
  output_file : Option (List Char)
  mask : Option (Option (List Char) × Option (List Char))
  window_function : Option (List Char)
  phased_array : Bool
  cl_table : Option (List Char)
  bp_table : Option (List Char)
  multi_phase_center : Bool
  filterbank : Bool
  pulsar_binning : Bool
  pulsars : Option (List Pulsar_entry)

/-- What `check` uses and the sources do not hold: the class `Time` (its
values are of the ordered type `T`; `time_of_usec` is `Time(double usec)` and
`time_of_string` is `Time(const std::string &)`), the C function `dirname`
applied to the name of the control file, and the two file operations of the
pulsar block (whether a polyco file opens, whether it parses). -/
structure Check_environment (T : Type) where
  time_of_usec : ℚ → T
  time_of_string : List Char → T
  ctrl_dirname : List Char
  is_open : List Char → Bool
  parse_polyco : List Char → Bool

namespace Control_parameters

variable {T : Type} [LinearOrder T]

/-- `Json::Value::asInt()` of an integer entry: 0 when it is not set. -/
def asInt (v : Option Int) : Int := v.getD 0

/-- `Json::Value::asDouble()` of a number entry: 0 when it is not set. -/
def asDouble (v : Option ℚ) : ℚ := v.getD 0

/-- `Control_parameters::create_path`. -/
def create_path (env : Check_environment T) (path : List Char) : List Char :=
  if "file://".toList.isPrefixOf path then
    if (path.drop 7).head? ≠ some '/' then
      "file://".toList ++ env.ctrl_dirname ++ "/".toList ++ path.drop 7
    else path
  else path

/-- `Control_parameters::reference_station_number`. -/
def reference_station_number (ctrl : Ctrl) : Int :=
  match ctrl.reference_station with
  | none => -1
  | some reference_station =>
    if reference_station = [] then -1
    else
      match (ctrl.stations.getD []).indexOf? reference_station with
      | some station_nr => (station_nr : Int)
      | none => -1

/-- `Control_parameters::integration_time`. -/
def integration_time (env : Check_environment T) (ctrl : Ctrl) : T :=
  env.time_of_usec (c_round (asDouble ctrl.integr_time * 1000000))

/-- `Control_parameters::sub_integration_time`. -/
def sub_integration_time (env : Check_environment T) (ctrl : Ctrl) : T :=
  env.time_of_usec (asDouble ctrl.sub_integr_time)

/-- The block of `check` on the start and stop time (lines 267-283). -/
def check_start_stop (env : Check_environment T) (ctrl : Ctrl) (ok : Bool) : Bool :=
  match ctrl.start with
  | none => false
  | some start =>
    match ctrl.stop with
    | none => false
    | some stop =>
      if env.time_of_string stop ≤ env.time_of_string start then false else ok

/-- The block of `check` on the integration time (lines 285-308). -/
def check_integration_time (env : Check_environment T) (ctrl : Ctrl) (ok : Bool) : Bool :=
  match ctrl.integr_time with
  | none => false
  | some x =>
    let integr_time := env.time_of_usec (x * 1000000)
    let ok := if integr_time < env.time_of_usec 0 then false else ok
    -- Check sub integration time
    match ctrl.sub_integr_time with
    | some y =>
      let sub_integr_time := env.time_of_usec y
      if sub_integr_time < env.time_of_usec 0 then false
      else if integr_time < sub_integr_time then false
      else ok
    | none => ok

/-- The block of `check` on the phase calibration (lines 310-322). The product
`asInt() * 1000000` is taken exactly. -/
def check_phasecal (env : Check_environment T) (ctrl : Ctrl) (ok : Bool) : Bool :=
  if asInt ctrl.phasecal_integr_time ≠ 0 ∧ ctrl.phasecal_file = none then false
  else
    if env.time_of_usec ((asInt ctrl.phasecal_integr_time * 1000000 : Int) : ℚ) <
        env.time_of_usec 0 then false
    else ok

/-- The block of `check` on the FFT sizes (lines 324-350). -/
def check_fft (ctrl : Ctrl) (ok : Bool) : Bool :=
  let fft : Nat := 0
  let state : Bool × Nat :=
    match ctrl.fft_size_delaycor with
    | some d => (if !isPower2 d then false else ok, fft + 1)
    | none => (ok, fft)
  let state : Bool × Nat :=
    match ctrl.fft_size_correlation with
    | some c =>
      let ok := if !isPower2 c then false else state.1
      let ok := if c < asInt ctrl.number_channels then false else ok
      (ok, state.2 + 1)
    | none => state
  if state.2 = 2 then
    if asInt ctrl.fft_size_correlation < asInt ctrl.fft_size_delaycor then false else state.1
  else state.1

/-- The loop of `check` over the data sources of one station (lines
368-380). -/
def check_data_sources (env : Check_environment T) (sources : List (List Char))
    (ok : Bool) : Bool :=
  sources.foldl (fun ok source =>
    let filename := create_path env source
    if ¬ "file://".toList.isPrefixOf filename ∧ ¬ "mk5://".toList.isPrefixOf filename
    then false else ok) ok

/-- The block of `check` on the stations and the reference station (lines
352-400). -/
def check_stations (env : Check_environment T) (ctrl : Ctrl) (ok : Bool) : Bool :=
  let ok :=
    match ctrl.stations with
    | some stations =>
      stations.foldl (fun ok station_name =>
        match ctrl.data_sources station_name with
        | none => false
        | some sources =>
          if sources.length = 0 then false
          else check_data_sources env sources ok) ok
    | none => false
  match ctrl.reference_station with
  | some reference_station =>
    if reference_station ≠ [] then
      if reference_station_number ctrl = -1 then false else ok
    else ok
  | none => false

/-- The blocks of `check` on the output file, the phasecal file and the mask
(lines 402-446): each file name has to start with `file://`. -/
def check_files (env : Check_environment T) (ctrl : Ctrl) (ok : Bool) : Bool :=
  let starts (path : List Char) (ok : Bool) : Bool :=
    if (create_path env path).take 7 ≠ "file://".toList then false else ok
  -- Check output file
  let ok :=
    match ctrl.output_file with
    | some output_file => starts output_file ok
    | none => false
  -- Check phasecal file
  let ok :=
    match ctrl.phasecal_file with
    | some filename => starts filename ok
    | none => ok
  -- Check mask parameters
  match ctrl.mask with
  | some (mask, window) =>
    let ok :=
      match mask with
      | some filename => starts filename ok
      | none => ok
    match window with
    | some filename => starts filename ok
    | none => ok
  | none => ok

/-- The blocks of `check` on the window function, the phased array mode and
the multiple phase centres (lines 448-474). -/
def check_modes (ctrl : Ctrl) (ok : Bool) : Bool :=
  -- Check window function
  let ok :=
    match ctrl.window_function with
    | some window =>
      let window := window.map Char.toUpper
      if window ≠ "RECTANGULAR".toList ∧ window ≠ "COSINE".toList ∧
          window ≠ "HAMMING".toList ∧ window ≠ "HANN".toList ∧ window ≠ "NONE".toList
      then false else ok
    | none => ok
  -- If phased array mode is activated, check for calibration tables
  let ok :=
    if ctrl.phased_array then
      let ok := if ctrl.cl_table = none then false else ok
      if ctrl.bp_table = none then false else ok
    else ok
  if ctrl.multi_phase_center ∧ ctrl.filterbank then false else ok

/-- The checks of `check` on one entry of the pulsars block (lines
487-534). -/
def check_pulsar (env : Check_environment T) (pulsar : Pulsar_entry) (ok : Bool) : Bool :=
  let ok :=
    match pulsar.interval with
    | [zero, one] =>
      if zero < 0 ∨ zero > 1 ∨ one < 0 ∨ one ≥ 2 ∨ one - zero ≤ 0 ∨ one - zero > 1
      then false else ok
    | _ => false
  let ok := if pulsar.nbins < 0 then false else ok
  match pulsar.polyco_file with
  | none => false
  | some (size, name) =>
    if size > 1 then false
    else
      let filename := create_path env name
      if ¬ "file://".toList.isPrefixOf filename then false
      else if !env.is_open ((create_path env filename).drop 7) then false
      else if !env.parse_polyco (filename.drop 7) then false
      else ok

/-- The block of `check` on the pulsar binning (lines 476-537). -/
def check_pulsar_binning (env : Check_environment T) (ctrl : Ctrl) (ok : Bool) : Bool :=
  if ctrl.pulsar_binning then
    match ctrl.pulsars with
    | none => false
    | some [] => false
    | some pulsars => pulsars.foldl (fun ok pulsar => check_pulsar env pulsar ok) ok
  else ok

/-- `Control_parameters::check`: the value it returns. The variable `ok`
starts as `true` and goes through the blocks in the order of the source. -/
def check (env : Check_environment T) (ctrl : Ctrl) : Bool :=
  let ok := true
  let ok := check_start_stop env ctrl ok
  let ok := check_integration_time env ctrl ok
  let ok := check_phasecal env ctrl ok
  let ok := check_fft ctrl ok
  let ok := check_stations env ctrl ok
  let ok := check_files env ctrl ok
  let ok := check_modes ctrl ok
  check_pulsar_binning env ctrl ok

end Control_parameters

/-! ## An example control file -/

/-- A reading of a time string for the examples: the number its decimal
digits spell. -/
def example_time_of_string (s : List Char) : ℚ :=
  ((s.foldl (fun n c => if c.isDigit then 10 * n + (c.toNat - 48) else n) 0 : Nat) : ℚ)

/-- An environment for the examples: a time is its number of microseconds. -/
def example_environment : Check_environment ℚ :=
  { time_of_usec := fun usec => usec
    time_of_string := example_time_of_string
    ctrl_dirname := "/data/n24l2".toList
    is_open := fun _ => true
    parse_polyco := fun _ => true }

/-- A control file that passes `check`: two stations, one second of
integration, FFT sizes 256 and 512 for 256 channels. The sub integration time
is left open. -/
def example_ctrl (sub_integr_time : Option ℚ) : Ctrl :=
  { start := some "2024y061d12h00m00s".toList
    stop := some "2024y061d12h30m00s".toList
    integr_time := some 1
    sub_integr_time := sub_integr_time
    phasecal_integr_time := none
    phasecal_file := none
    fft_size_delaycor := some 256
    fft_size_correlation := some 512
    number_channels := some 256
    stations := some ["Ef".toList, "Wb".toList]
    data_sources := fun station_name =>
      if station_name = "Ef".toList then some ["file://ef.vdif".toList]
      else if station_name = "Wb".toList then some ["mk5:///wb".toList]
      else none
    reference_station := some []
    output_file := some "file://n24l2.cor".toList
    mask := none
    window_function := some "hann".toList
    phased_array := false
    cl_table := none
    bp_table := none
    multi_phase_center := false
    filterbank := false
    pulsar_binning := false
    pulsars := none }

/-! ## The VDIF reader -/

/-- The values `check_header` returns. The type is declared in vdif_reader.h,
which is not among the sources; `read_new_block` compares the value with
`VALID` and with `INVALID`, and `other` stands for any further value. -/
inductive Header_status where
  | VALID
  | INVALID
  | other
  deriving DecidableEq

/-- The members of `VDIF_reader` that `read_new_block` uses. A header is the
list of its 32 bytes; `D` is the state of the `Data_reader`. -/
structure VDIF_reader (D : Type) where
  data_reader_ : D
  first_header_seen : Bool
  first_header : List Nat
  current_header : List Nat
  frame_size : Nat
  vdif_frames_per_block : Nat
  thread_map : List (Nat × Nat)

/-- The members of `Data_frame` that `read_new_block` writes; an invalid block
is the pair of `invalid_begin` and `nr_invalid`. -/
structure Data_frame (T : Type) where
  buffer : List Nat
  invalid : List (Nat × Nat)
  channel : Nat
  start_time : T

/-- What `read_new_block` uses and the sources do not hold:
`Data_reader_blocking::get_bytes_s` (the new state of the reader and the bytes
it delivered) and `Data_reader::eof`, `check_header`, the bit fields
`legacy_mode`, `invalid` and `thread_id` of a header, `size_data_block`, and
`get_current_time` with its result of the class `Time`. -/
structure VDIF_environment (D T : Type) where
  get_bytes_s : D → Nat → D × List Nat
  eof : D → Bool
  check_header : VDIF_reader D → List Nat → Header_status
  legacy_mode : List Nat → Nat
  invalid : List Nat → Nat
  thread_id : List Nat → Nat
  size_data_block : VDIF_reader D → Nat
  get_current_time : VDIF_reader D → T

/-- Writing `bytes` to a byte array from position `pos` on. -/
def write_bytes (buffer : List Nat) (pos : Nat) (bytes : List Nat) : List Nat :=
  buffer.take pos ++ bytes ++ buffer.drop (pos + bytes.length)

/-- The state of one call of `read_new_block`: the reader, the data frame and
the local variable `restarts`, and two records of the run, the number of
headers read at the label `restart` (`slots`) and the values `check_header`
returned (`statuses`). -/
structure Read_state (D T : Type) where
  reader : VDIF_reader D
  data : Data_frame T
  restarts : Nat
  slots : Nat
  statuses : List Header_status

/-- How one pass from the label `restart` ends: with `return value`, or with
`goto restart`. -/
inductive Pass_result (D T : Type) where
  | done (value : Bool) (st : Read_state D T)
  | restart (st : Read_state D T)

namespace VDIF_reader

variable {D T : Type}

/-- The constant `max_restarts` of `read_new_block`. -/
def max_restarts : Nat := 256

/-- The call `get_bytes_s(data_reader_.get(), n, NULL)`: the bytes are
dropped. -/
def skip_bytes (env : VDIF_environment D T) (n : Nat) (st : Read_state D T) :
    Read_state D T :=
  { st with reader := { st.reader with data_reader_ := (env.get_bytes_s st.reader.data_reader_ n).1 } }

/-- The call `get_bytes_s(data_reader_.get(), n, (char *)&current_header + pos)`. -/
def read_header_bytes (env : VDIF_environment D T) (n pos : Nat) (st : Read_state D T) :
    Read_state D T :=
  let read := env.get_bytes_s st.reader.data_reader_ n
  let current_header := write_bytes st.reader.current_header pos read.2
  { st with reader := { st.reader with data_reader_ := read.1, current_header := current_header } }

/-- The statement `if (++restarts > max_restarts) return false; goto restart;`. -/
def restart_or_fail (st : Read_state D T) : Pass_result D T :=
  let st := { st with restarts := st.restarts + 1 }
  if st.restarts > max_restarts then Pass_result.done false st else Pass_result.restart st

/-- The call of `check_header(current_header)`, with its value recorded. -/
def check_current_header (env : VDIF_environment D T) (st : Read_state D T) :
    Header_status × Read_state D T :=
  let status := env.check_header st.reader st.reader.current_header
  (status, { st with statuses := st.statuses ++ [status] })

/-- `thread_map.count(id) > 0` and `thread_map[id]` for a key that is there. -/
def thread_map_find (thread_map : List (Nat × Nat)) (id : Nat) : Option Nat :=
  (thread_map.find? (fun entry => entry.1 = id)).map (fun entry => entry.2)

/-- The loop over the further frames of the block (lines 189-209): frames
`i`, `i + 1`, ... of which `n` are left. The result is `false` when the reader
came to the end of the data. -/
def read_frames (env : VDIF_environment D T) : Nat → Nat → Read_state D T →
    Bool × Read_state D T
  | 0, _, st => (true, st)
  | n + 1, i, st =>
    let read := env.get_bytes_s st.reader.data_reader_
      (if env.legacy_mode st.reader.first_header = 0 then 32 else 16)
    let header := read.2
    let st := { st with reader := { st.reader with data_reader_ := read.1 } }
    if env.eof st.reader.data_reader_ then (false, st)
    else
      let read := env.get_bytes_s st.reader.data_reader_ st.reader.frame_size
      let buffer := write_bytes st.data.buffer (i * st.reader.frame_size) read.2
      let st := { st with reader := { st.reader with data_reader_ := read.1 }
                          data := { st.data with buffer := buffer } }
      if env.eof st.reader.data_reader_ then (false, st)
      else
        let invalid :=
          if env.invalid header > 0 then
            st.data.invalid ++ [(i * st.reader.frame_size, st.reader.frame_size)]
          else st.data.invalid
        read_frames env n (i + 1) { st with data := { st.data with invalid := invalid } }

/-- The end of a pass of `read_new_block` (lines 189-213), after the channel
of the first frame is known. -/
def read_new_block_frames (env : VDIF_environment D T) (st : Read_state D T) :
    Pass_result D T :=
  let result := read_frames env (st.reader.vdif_frames_per_block - 1) 1 st
  if result.1 then
    let st := result.2
    let start_time := env.get_current_time st.reader
    Pass_result.done true { st with data := { st.data with start_time := start_time } }
  else Pass_result.done false result.2

/-- A pass of `read_new_block` from the moment the header is in
`current_header` (lines 150-213). -/
def read_new_block_frame (env : VDIF_environment D T) (st : Read_state D T) :
    Pass_result D T :=
  let buffer :=
    if st.data.buffer.length = 0 then List.replicate (env.size_data_block st.reader) 0
    else st.data.buffer
  let st := { st with data := { st.data with buffer := buffer } }
  let checked := check_current_header env st
  let st := checked.2
  if checked.1 ≠ Header_status.VALID then
    restart_or_fail (skip_bytes env st.reader.frame_size st)
  else
    let read := env.get_bytes_s st.reader.data_reader_ st.reader.frame_size
    let buffer := write_bytes st.data.buffer 0 read.2
    let st := { st with reader := { st.reader with data_reader_ := read.1 }
                        data := { st.data with buffer := buffer } }
    if env.eof st.reader.data_reader_ then Pass_result.done false st
    else
      let thread_id := env.thread_id st.reader.current_header
      if env.invalid st.reader.current_header > 0 then
        let invalid := st.data.invalid ++ [(0, st.reader.frame_size)]
        let channel := (thread_map_find st.reader.thread_map thread_id).getD 0
        read_new_block_frames env
          { st with data := { st.data with invalid := invalid, channel := channel } }
      else
        match thread_map_find st.reader.thread_map thread_id with
        | some channel =>
          read_new_block_frames env { st with data := { st.data with channel := channel } }
        | none =>
          -- If this is the only thread we obtain its thread_id from the data
          if st.reader.thread_map.length = 0 then
            read_new_block_frames env
              { st with reader := { st.reader with thread_map := [(thread_id, 0)] }
                        data := { st.data with channel := 0 } }
          else restart_or_fail st

/-- One pass of `read_new_block` from the label `restart` (lines 118-213). -/
def read_new_block_pass (env : VDIF_environment D T) (st : Read_state D T) :
    Pass_result D T :=
  let st := { st with slots := st.slots + 1 }
  if !st.reader.first_header_seen then
    let st := read_header_bytes env 16 0 st
    if env.eof st.reader.data_reader_ then Pass_result.done false st
    else
      let checked := check_current_header env st
      let st := checked.2
      if checked.1 = Header_status.INVALID then
        -- NB we default to non-legacy VDIF, at this point there is no way to tell
        restart_or_fail (skip_bytes env (st.reader.frame_size + 16) st)
      else
        let first_header := write_bytes st.reader.first_header 0 (st.reader.current_header.take 16)
        let reader := { st.reader with first_header := first_header, first_header_seen := true }
        let st := { st with reader := reader }
        if env.legacy_mode st.reader.first_header = 0 then
          let st := read_header_bytes env 16 16 st
          if env.eof st.reader.data_reader_ then Pass_result.done false st
          else read_new_block_frame env st
        else read_new_block_frame env st
  else
    let st :=
      if env.legacy_mode st.reader.first_header = 0 then read_header_bytes env 32 0 st
      else read_header_bytes env 16 0 st
    if env.eof st.reader.data_reader_ then Pass_result.done false st
    else read_new_block_frame env st

/-- The passes of `read_new_block`, at most `fuel` of them: `none` when the
fuel is used up before a pass returns. -/
def read_new_block_loop (env : VDIF_environment D T) :
    Nat → Read_state D T → Option (Bool × Read_state D T)
  | 0, _ => none
  | fuel + 1, st =>
    match read_new_block_pass env st with
    | Pass_result.done value st => some (value, st)
    | Pass_result.restart st => read_new_block_loop env fuel st

/-- `VDIF_reader::read_new_block`: the value it returns and the state it
leaves. Every `goto restart` follows `++restarts` with `restarts` at most
`max_restarts` afterwards, so `max_restarts + 1` passes are all there can
be. -/
def read_new_block (env : VDIF_environment D T) (reader : VDIF_reader D)
    (data : Data_frame T) : Option (Bool × Read_state D T) :=
  read_new_block_loop env (max_restarts + 1)
    { reader := reader, data := data, restarts := 0, slots := 0, statuses := [] }

/-- The bounds on the end of a pass that started after `restarts` restarts: the
pass returns or increments `restarts` by one, to `max_restarts` at most when it
goes to `restart`, and it returns `true` only after `check_header` returned
`VALID`. -/
def pass_within (restarts slots : Nat) : Pass_result D T → Prop
  | Pass_result.done value st =>
    st.slots = slots ∧ st.restarts ≤ restarts + 1 ∧
      (value = true → Header_status.VALID ∈ st.statuses)
  | Pass_result.restart st =>
    st.slots = slots ∧ st.restarts = restarts + 1 ∧ st.restarts ≤ max_restarts

end VDIF_reader

/-! ## An example VDIF stream -/

/-- A reader over a list of bytes for the examples: the bytes that are left,
and whether a read has asked for more than was left. -/
def example_get_bytes_s (reader : List Nat × Bool) (n : Nat) :
    (List Nat × Bool) × List Nat :=
  ((reader.1.drop n, reader.2 || decide ((reader.1.take n).length < n)), reader.1.take n)

/-- An environment for the examples: a header is valid when its first byte is
1, and invalid otherwise. -/
def example_vdif_environment : VDIF_environment (List Nat × Bool) Nat :=
  { get_bytes_s := example_get_bytes_s
    eof := fun reader => reader.2
    check_header := fun _ header =>
      if header.head? = some 1 then Header_status.VALID else Header_status.INVALID
    legacy_mode := fun header => header.getD 3 0 / 64 % 2
    invalid := fun header => header.getD 3 0 / 128
    thread_id := fun header => header.getD 14 0
    size_data_block := fun reader => reader.vdif_frames_per_block * reader.frame_size
    get_current_time := fun _ => 0 }

/-- A reader for the examples with frames of 8 bytes, before its first header,
on the given bytes. -/
def example_vdif_reader (input : List Nat) : VDIF_reader (List Nat × Bool) :=
  { data_reader_ := (input, false)
    first_header_seen := false
    first_header := List.replicate 32 0
    current_header := List.replicate 32 0
    frame_size := 8
    vdif_frames_per_block := 1
    thread_map := [] }

/-- An empty data frame for the examples. -/
def example_data_frame : Data_frame Nat :=
  { buffer := [], invalid := [], channel := 0, start_time := 0 }


/-- The example core with four connected streams of one spectrum each,
configured for two stations in cross-polarise mode (streams 0 and 1 carry one
polarisation, streams 2 and 3 the other), with its accumulators initialised. -/
def example_cross_polarized : Option (Correlation_core ℚ) :=
  let s : Correlation_core ℚ := Correlation_core.construct 0 (example_parameters 0 (-1) false)
  let s := s.connect_to 0 (some example_statistics) (some [⟨[example_spectrum 1]⟩])
  let s := s.connect_to 1 (some example_statistics) (some [⟨[example_spectrum 2]⟩])
  let s := s.connect_to 2 (some example_statistics) (some [⟨[example_spectrum 3]⟩])
  let s := s.connect_to 3 (some example_statistics) (some [⟨[example_spectrum 4]⟩])
  let s := s.set_data_writer (some [])
  let s := s.add_uvw_table 0 example_uvw
  let s := s.add_uvw_table 1 example_uvw
  let s := s.add_uvw_table 2 example_uvw
  let s := s.add_uvw_table 3 example_uvw
  (s.set_parameters (example_parameters 4 (-1) true) 0).bind
    Correlation_core.integration_initialise

/-- The pairs `(polarisation1, polarisation2)` of the baseline headers among
`chunks`, in order. -/
def baseline_polarisations {R : Type} (chunks : List (Output_chunk R)) : List (Int × Int) :=
  chunks.filterMap (fun chunk =>
    match chunk with
    | Output_chunk.baseline_header h => some (h.polarisation1, h.polarisation2)
    | _ => none)


/-- The state of the cross-polarised example core. -/
def example_cross_polarized_state : Correlation_core ℚ :=
  example_cross_polarized.getD (Correlation_core.construct 0 (example_parameters 0 (-1) false))
/-- The sum of the `m` bins `base`, `base + 1`, ..., `base + m - 1` of a
buffer; divided by `m` it is their arithmetic mean. A bin that is not there
counts as zero. -/
def bin_sum {R : Type} [LinearOrderedField R] (buffer : Complex_buffer R) (base m : Nat) :
    Cplx R :=
  ⟨((List.range m).map (fun k => (buffer.getD (base + k) Cplx.zero).re)).sum,
   ((List.range m).map (fun k => (buffer.getD (base + k) Cplx.zero).im)).sum⟩

/-- The example core configured for the transform size 4 with two output
channels, with the accumulators `[1, 2, 3, 4, 5]` (times `1 + i`) for every
baseline. -/
def example_averaging : Option (Correlation_core ℚ) :=
  ((example_configured_with { example_parameters 2 (-1) false with fft_size := 4 }).bind
    Correlation_core.integration_initialise).map (fun s =>
      { s with accumulation_buffers :=
          List.replicate 3 [⟨1, 1⟩, ⟨2, 2⟩, ⟨3, 3⟩, ⟨4, 4⟩, ⟨5, 5⟩] })

/-- The baseline data chunks among `chunks`, in order. -/
def baseline_data {R : Type} (chunks : List (Output_chunk R)) : List (List (Cplx R)) :=
  chunks.filterMap (fun chunk =>
    match chunk with
    | Output_chunk.baseline_data values => some values
    | _ => none)


/-- The state of the averaging example core. -/
def example_averaging_state : Correlation_core ℚ :=
  example_averaging.getD (Correlation_core.construct 0 (example_parameters 0 (-1) false))
namespace Control_parameters

/-- The block of `Control_parameters::initialise` that sets the FFT sizes
(lines 176-187), as a function of the control file at that point of
`initialise`: `multi_phase_center` has its value by then, and
`number_channels()` is `asInt` of the entry `number_channels`. -/
def initialise_fft_sizes (ctrl : Ctrl) : Ctrl :=
  -- Set the fft sizes
  let ctrl :=
    match ctrl.fft_size_correlation with
    | none =>
      let min_size : Int := if ctrl.multi_phase_center then 4096 else 256
      let min_size :=
        match ctrl.fft_size_delaycor with
        | some delaycor => max min_size delaycor
        | none => min_size
      { ctrl with fft_size_correlation := some (max min_size (asInt ctrl.number_channels)) }
    | some _ => ctrl
  match ctrl.fft_size_delaycor with
  | none =>
    { ctrl with fft_size_delaycor := some (min 256 (asInt ctrl.fft_size_correlation)) }
  | some _ => ctrl

end Control_parameters

/-! ## Calendar functions of the delay model generator and the VDIF epoch -/

/-- The quotient `a / b` of two C `int` values: truncated towards zero. -/
def c_div (a b : Int) : Int := Int.tdiv a b

/-- The remainder `a % b` of two C `int` values: it has the sign of `a`. -/
def c_mod (a b : Int) : Int := Int.tmod a b

/-- The conversion of a `double` to `int`: truncation towards zero. -/
def c_trunc (x : ℚ) : Int :=
  if 0 ≤ x then ⌊x⌋ else ⌈x⌉

/-- `leap_year` of generate_delay_model.cc. -/
def leap_year (year : Int) : Bool :=
  c_mod year 4 == 0 && (c_mod year 100 != 0 || c_mod year 400 == 0)

/-- The table `monthdays` of `yd2md`. -/
def monthdays : List Int := [31, 28, 31, 30, 31, 30, 31, 31, 30, 31, 30, 31]

/-- The `while` loop of `yd2md` with at most `fuel` tests of its condition;
`leap` is the value of `leap_year(year)`, which the body evaluates. The state
is `rest_of_days`, `current_month` and `length_current_month`; the result is
`(month, dom)`, and `none` when the fuel is used up or `monthdays` is read
outside its twelve entries. -/
def yd2md_loop (leap : Bool) : Nat → Int → Nat → Int → Option (Nat × Int)
  | 0, _, _, _ => none
  | fuel + 1, rest_of_days, current_month, length_current_month =>
    if rest_of_days > length_current_month then
      let rest_of_days := rest_of_days - length_current_month
      let current_month := current_month + 1
      match monthdays[current_month - 1]? with
      | some days =>
        yd2md_loop leap fuel rest_of_days current_month
          (days + (if current_month = 2 ∧ leap = true then 1 else 0))
      | none => none
    else some (current_month, rest_of_days)

/-- `yd2md` of generate_delay_model.cc: from a year and a day of the year to
the month and the day of the month. Every pass of the loop increments
`current_month`, and the thirteenth month is outside `monthdays`, so twelve
tests of the loop condition are all there can be. -/
def yd2md (year doy : Int) : Option (Nat × Int) :=
  match monthdays[1 - 1]? with
  | some length_current_month => yd2md_loop (leap_year year) 12 doy 1 length_current_month
  | none => none

/-- The length of month `m` (1 to 12) of a year of the Gregorian calendar, as
the calendar states it; `leap` says whether the year is a leap year. -/
def days_in_month (leap : Bool) (m : Nat) : Int :=
  if m = 2 then (if leap then 29 else 28)
  else if m = 4 ∨ m = 6 ∨ m = 9 ∨ m = 11 then 30
  else 31

/-- The days of the months before month `m`. -/
def days_before_month (leap : Bool) (m : Nat) : Int :=
  ((List.range (m - 1)).map (fun k => days_in_month leap (k + 1))).sum

/-- What `yd2md` has to return for the day `doy` of a year: a month from 1 to
12 and a day of that month that make up the day of the year. -/
def yd2md_result_ok (leap : Bool) (doy : Int) (result : Option (Nat × Int)) : Bool :=
  match result with
  | some (month, dom) =>
    decide (1 ≤ month ∧ month ≤ 12 ∧ 1 ≤ dom ∧ dom ≤ days_in_month leap month ∧
      doy = dom + days_before_month leap month)
  | none => false

/-- `JD` of generate_delay_model.cc: the Julian day number of a date. For the
years up to 9999 no value of the computation leaves the range of `int`. -/
def JD (y m d : Int) : Int :=
  c_div (1461 * (y + 4800 + c_div (m - 14) 12)) 4 +
    c_div (367 * (m - 2 - 12 * c_div (m - 14) 12)) 12 -
    c_div (3 * c_div (y + 4900 + c_div (m - 14) 12) 100) 4 +
    d - 32075

/-- `mjd` of generate_delay_model.cc: the modified Julian day of a date. The
difference `jdn - 2400000.5` is a `double`, converted to the `int` result. -/
def mjd (day month year : Int) : Int :=
  let a := c_div (14 - month) 12
  let y := year + 4800 - a
  let m := month + 12 * a - 3
  let jdn := day + c_div (153 * m + 2) 5 + 365 * y + c_div y 4 - c_div y 100 + c_div y 400 -
    32045
  c_trunc ((jdn : ℚ) - 2400000.5)

namespace VDIF_reader

/-- `VDIF_reader::Header::jday_epoch`, from the header field `ref_epoch`. -/
def jday_epoch (ref_epoch : Nat) : Int :=
  let year := 2000 + c_div ref_epoch 2
  let month := 1 + 6 * c_mod ref_epoch 2
  mjd 1 month year

end VDIF_reader

/-! ## The channel of a station for a setup channel -/

/-- One `chan_def` line of the `$FREQ` block of a station as
`frequency_channel` reads it: the frequency `chan[1]` rounded to a whole
number of Hz, the sideband `chan[2]`, the bandwidth `chan[3]` in Hz as an
`int`, and the name `chan[4]` of the channel. -/
structure Chan_def where
  frequency : Int
  sideband : Char
  bandwidth : Int
  name : List Char
deriving DecidableEq

/-- What a call `frequency_channel(channel_nr, mode_name, station_name)` takes
from the VEX file and the control file, which are not among the sources:
`number_frequency_channels()`; for the setup station and the channel
`channel(channel_nr)` the results of `polarisation`, `sideband`,
`channel_freq` and `bandwidth`; the `chan_def` lines of `station_name` in
their order, and the polarisation of each of its channels by name. -/
structure Frequency_setup where
  number_frequency_channels : Nat
  setup_polarisation : Char
  setup_sideband : Char
  setup_channel_freq : Int
  setup_bandwidth : Int
  chan_defs : List Chan_def
  polarisation : List Char → Char

namespace Control_parameters

/-- The frequency range `(ch_freq_min, ch_freq_max)` of a `chan_def` line
(lines 1018-1024). -/
def chan_def_range (chan : Chan_def) : Int × Int :=
  if chan.sideband = 'L' then (chan.frequency - chan.bandwidth, chan.frequency)
  else (chan.frequency, chan.frequency + chan.bandwidth)

/-- The loop of `frequency_channel` over the `chan_def` lines (lines
1017-1041); the empty string when no line matches. -/
def frequency_channel_loop (pol : Char) (freq_min freq_max : Int)
    (polarisation : List Char → Char) : List Chan_def → List Char
  | [] => []
  | chan :: rest =>
    let ch_freq_min := (chan_def_range chan).1
    let ch_freq_max := (chan_def_range chan).2
    -- We have a match if the channel corresponding to CHANNEL_NR is wholly
    -- contained in this channel.
    if (freq_min ≥ ch_freq_min ∧ freq_max ≤ ch_freq_max) ∧ pol = polarisation chan.name then
      chan.name
    -- We also match if this channel is wholly contained in the channel
    -- corresponding to CHANNEL_NR.
    else if (ch_freq_min ≥ freq_min ∧ ch_freq_max ≤ freq_max) ∧
        pol = polarisation chan.name then
      chan.name
    else frequency_channel_loop pol freq_min freq_max polarisation rest

/-- The frequency range `(freq_min, freq_max)` of the setup channel (lines
1004-1011). -/
def setup_range (setup : Frequency_setup) : Int × Int :=
  if setup.setup_sideband = 'L' then
    (setup.setup_channel_freq - setup.setup_bandwidth, setup.setup_channel_freq)
  else (setup.setup_channel_freq, setup.setup_channel_freq + setup.setup_bandwidth)

/-- `Control_parameters::frequency_channel`: the name of the channel of the
station, the empty string when there is none; `none` when the assertion on
`channel_nr` fails. -/
def frequency_channel (setup : Frequency_setup) (channel_nr : Nat) : Option (List Char) :=
  if channel_nr < setup.number_frequency_channels then
    let pol := setup.setup_polarisation
    if pol = ' ' then some [] -- Channel not present
    else
      some (frequency_channel_loop pol (setup_range setup).1 (setup_range setup).2
        setup.polarisation setup.chan_defs)
  else none

/-- A channel of the station matches the setup channel: it has the
polarisation of the setup channel, and its frequency range wholly contains the
range of the setup channel or is wholly contained in it. -/
def channel_matches (setup : Frequency_setup) (chan : Chan_def) : Bool :=
  decide (setup.polarisation chan.name = setup.setup_polarisation ∧
    (((chan_def_range chan).1 ≤ (setup_range setup).1 ∧
        (setup_range setup).2 ≤ (chan_def_range chan).2) ∨
      ((setup_range setup).1 ≤ (chan_def_range chan).1 ∧
        (chan_def_range chan).2 ≤ (setup_range setup).2)))

end Control_parameters

/-- A setup for the examples: an upper sideband setup channel of 16 MHz at
4990 MHz with polarisation `R`, for a station that records 32 MHz bands. -/
def example_frequency_setup : Frequency_setup :=
  { number_frequency_channels := 2
    setup_polarisation := 'R'
    setup_sideband := 'U'
    setup_channel_freq := 4990000000
    setup_bandwidth := 16000000
    chan_defs :=
      [⟨4958000000, 'U', 32000000, "CH01".toList⟩, ⟨4990000000, 'U', 32000000, "CH02".toList⟩,
       ⟨4990000000, 'U', 32000000, "CH03".toList⟩, ⟨5022000000, 'L', 32000000, "CH04".toList⟩]
    polarisation := fun name => if name = "CH02".toList then 'L' else 'R' }


/-- A setup for the examples in which the only channel of the station, a
32 MHz band that contains the setup channel, has the empty name. -/
def example_unnamed_channel_setup : Frequency_setup :=
  { number_frequency_channels := 1
    setup_polarisation := 'R'
    setup_sideband := 'U'
    setup_channel_freq := 4990000000
    setup_bandwidth := 16000000
    chan_defs := [⟨4990000000, 'U', 32000000, []⟩]
    polarisation := fun _ => 'R' }
namespace Correlation_core

variable {R : Type} [LinearOrderedField R]

end Correlation_core

namespace Correlation_core

/-- The value of `(int) round(sample_rate / (2 * bandwidth))` (line 68) when
the quotient is taken in floating point, as it is if the fields `sample_rate`
and `bandwidth` of `Correlation_parameters`, whose declaration is not among
the sources, are not integers: the ratio rounded to the nearest integer. -/
def oversamp_rounded (sample_rate bandwidth : Nat) : Int :=
  ⌊c_round ((sample_rate : ℚ) / (2 * (bandwidth : ℚ)))⌋

end Correlation_core

/-! # Theorems -/

/-! ## Loops -/

theorem foldl_append_flatMap {α β : Type} (f : α → List β) (l : List α) (s : List β) :
    l.foldl (fun acc i => acc ++ f i) s = s ++ l.flatMap f := by
  induction l generalizing s with
  | nil => simp
  | cons a t ih => simp [List.foldl_cons, ih, List.flatMap_cons, List.append_assoc]

theorem for_loop_append {β : Type} (lo hi : Nat) (f : Nat → List β) (s : List β) :
    for_loop lo hi (fun i acc => acc ++ f i) s = s ++ (List.range' lo (hi - lo)).flatMap f := by
  unfold for_loop
  exact foldl_append_flatMap f _ s

theorem size_t_sub_one {n : Nat} (h : 1 ≤ n) : size_t_sub n 1 = n - 1 := by
  unfold size_t_sub; simp [h]

theorem length_flatMap_singleton {α β : Type} (f : α → β) (l : List α) :
    (l.flatMap (fun x => [f x])).length = l.length := by
  induction l with
  | nil => rfl
  | cons a t ih => simp [List.flatMap_cons, ih]

theorem length_flatMap_const {α β : Type} (c : Nat) (f : α → List β) (l : List α)
    (h : ∀ x, (f x).length = c) : (l.flatMap f).length = c * l.length := by
  induction l with
  | nil => rfl
  | cons a t ih => simp [List.flatMap_cons, ih, h, Nat.mul_succ, Nat.add_comm]

theorem pairwise_lt_range'_one (lo n : Nat) : (List.range' lo n).Pairwise (· < ·) := by
  simpa using List.pairwise_lt_range' lo n

/-! ## The baseline list -/

/-- The autocorrelation loop pushes `(0,0), ..., (n-1,n-1)`. -/
theorem autos_loop (n : Nat) :
    for_loop 0 n (fun sn (bl : List Baseline) => push_back bl (sn, sn)) [] =
      (List.range n).map (fun i => (i, i)) := by
  have h := for_loop_append 0 n (fun sn => [((sn, sn) : Baseline)]) []
  simp only [push_back] at *
  rw [h, List.range_eq_range', List.map_eq_flatMap]
  simp

theorem mem_pairs_loop (n i j : Nat) : (i, j) ∈ pairs_loop n ↔ i < j ∧ j < n := by
  unfold pairs_loop
  simp only [List.mem_flatMap, List.mem_range', List.mem_singleton, Prod.mk.injEq]
  constructor
  · rintro ⟨a, ⟨k, hk, rfl⟩, b, ⟨m, hm, rfl⟩, h1, h2⟩
    omega
  · rintro ⟨h1, h2⟩
    exact ⟨i, ⟨i, by omega, by omega⟩, j, ⟨j - (i + 1), by omega, by omega⟩, rfl, rfl⟩

theorem pairs_loop_sorted (n : Nat) : (pairs_loop n).Pairwise lex_lt := by
  unfold pairs_loop
  rw [List.pairwise_flatMap]
  constructor
  · intro a _
    rw [List.pairwise_flatMap]
    constructor
    · intro b _; simp
    · refine (pairwise_lt_range'_one _ _).imp ?_
      intro x y hxy p hp q hq
      simp at hp hq
      subst hp hq
      exact Or.inr ⟨rfl, hxy⟩
  · refine (pairwise_lt_range'_one _ _).imp ?_
    intro x y hxy p hp q hq
    simp only [List.mem_flatMap, List.mem_singleton] at hp hq
    obtain ⟨_, _, rfl⟩ := hp
    obtain ⟨_, _, rfl⟩ := hq
    exact Or.inl hxy

theorem sum_map_range_sub (m : Nat) :
    2 * ((List.range' 0 m).map (fun i => m - i)).sum = m * (m + 1) := by
  induction m with
  | zero => simp
  | succ k ih =>
    rw [List.range'_succ, List.map_cons, List.sum_cons]
    have : List.map (fun i => k + 1 - i) (List.range' (0 + 1) k) =
        List.map (fun i => k - i) (List.range' 0 k) := by
      rw [List.range'_eq_map_range, List.range'_eq_map_range, List.map_map, List.map_map]
      apply List.map_congr_left
      intro a _; simp; omega
    rw [this]
    have e : (k + 1) * (k + 1 + 1) = k * (k + 1) + 2 * (k + 1) := by ring
    omega

theorem length_pairs_loop (n : Nat) : 2 * (pairs_loop n).length = n * (n - 1) := by
  unfold pairs_loop
  rw [List.length_flatMap]
  have : (List.map (List.length ∘ fun sn =>
        (List.range' (sn + 1) (n - (sn + 1))).flatMap (fun sno => [((sn, sno) : Baseline)]))
      (List.range' 0 (n - 1 - 0))) = List.map (fun i => (n - 1) - i) (List.range' 0 (n - 1)) := by
    simp only [Nat.sub_zero]
    apply List.map_congr_left
    intro a _
    simp only [Function.comp, length_flatMap_singleton, List.length_range']
    omega
  rw [this, sum_map_range_sub]
  cases n with
  | zero => simp
  | succ k => simp; ring

/-- Without cross-polarisation and without a reference station the vector is
the autos followed by the pairs of the nested loop. -/
theorem create_baselines_vector_plain (n : Nat) (parameters : Correlation_parameters)
    (hn : 1 ≤ n) (hx : parameters.cross_polarize = false)
    (hr : parameters.reference_station < 0) :
    create_baselines_vector n parameters =
      some ((List.range n).map (fun i => (i, i)) ++ pairs_loop n) := by
  unfold create_baselines_vector
  have hr' : ¬ (0 ≤ parameters.reference_station) := by omega
  simp only [hx, hr', if_false, Bool.false_eq_true, size_t_sub_one hn, autos_loop]
  congr 1
  have inner : ∀ (sn : Nat) (bl : List Baseline),
      for_loop (sn + 1) n (fun sno bl => push_back bl (sn, sno)) bl =
        bl ++ (List.range' (sn + 1) (n - (sn + 1))).flatMap (fun sno => [(sn, sno)]) := by
    intro sn bl
    exact for_loop_append (sn + 1) n (fun sno => [((sn, sno) : Baseline)]) bl
  simp only [inner]
  rw [for_loop_append]
  rfl

theorem flatMap_ite_singleton {α β : Type} (p : α → Prop) [DecidablePred p] (f : α → β)
    (l : List α) :
    l.flatMap (fun x => if p x then [f x] else []) = (l.filter (fun x => decide (p x))).map f := by
  induction l with
  | nil => rfl
  | cons a t ih =>
    by_cases h : p a <;> simp [List.flatMap_cons, List.filter_cons, h, ih]

/-- Without cross-polarisation and with reference station `r` the vector is
the autos followed by `(i, r)` for every `i ≠ r`. -/
theorem create_baselines_vector_ref (n r : Nat) (parameters : Correlation_parameters)
    (hx : parameters.cross_polarize = false)
    (hr : parameters.reference_station = (r : Int)) :
    create_baselines_vector n parameters =
      some ((List.range n).map (fun i => (i, i)) ++
        ((List.range n).filter (fun i => decide (i ≠ r))).map (fun i => (i, r))) := by
  unfold create_baselines_vector
  have hr' : (0 : Int) ≤ (r : Int) := by omega
  simp only [hx, hr, hr', if_true, if_false, Bool.false_eq_true, autos_loop, Int.toNat_ofNat]
  congr 1
  have body : (fun (sn : Nat) (bl : List Baseline) =>
      if (sn : Int) ≠ (r : Int) then push_back bl (sn, r) else bl) =
      (fun sn bl => bl ++ (if sn ≠ r then [((sn, r) : Baseline)] else [])) := by
    funext sn bl
    by_cases h : sn = r
    · simp [h]
    · have : (sn : Int) ≠ (r : Int) := by omega
      simp [h, this, push_back]
  rw [body, for_loop_append, Nat.sub_zero, ← List.range_eq_range', flatMap_ite_singleton]

/-- The four cross-polarisation pairs of the channel pair `p`, in the order in
which lines 119-122 push them for `n_st_2` channels. -/
theorem cross_loop_eq (n_st_2 : Nat) (bl : List Baseline) :
    for_loop 0 (n_st_2 - 1) (fun sn bl =>
      for_loop (sn + 1) n_st_2 (fun sno bl =>
        let bl := push_back bl (sn, sno)
        let bl := push_back bl (sn, sno + n_st_2)
        let bl := push_back bl (sn + n_st_2, sno)
        push_back bl (sn + n_st_2, sno + n_st_2)) bl) bl =
    bl ++ (pairs_loop n_st_2).flatMap (fun p =>
      [(p.1, p.2), (p.1, p.2 + n_st_2), (p.1 + n_st_2, p.2), (p.1 + n_st_2, p.2 + n_st_2)]) := by
  have inner : ∀ (sn : Nat) (bl : List Baseline),
      for_loop (sn + 1) n_st_2 (fun sno bl =>
        let bl := push_back bl (sn, sno)
        let bl := push_back bl (sn, sno + n_st_2)
        let bl := push_back bl (sn + n_st_2, sno)
        push_back bl (sn + n_st_2, sno + n_st_2)) bl =
      bl ++ (List.range' (sn + 1) (n_st_2 - (sn + 1))).flatMap (fun sno =>
        [((sn, sno) : Baseline), (sn, sno + n_st_2), (sn + n_st_2, sno),
          (sn + n_st_2, sno + n_st_2)]) := by
    intro sn bl
    rw [← for_loop_append]
    simp [push_back]
  simp only [inner]
  rw [for_loop_append]
  unfold pairs_loop
  rw [List.flatMap_assoc]
  congr 1
  apply List.flatMap_congr
  intro a _
  rw [List.flatMap_assoc]
  simp

theorem create_baselines_vector_cross (n : Nat) (parameters : Correlation_parameters)
    (hn : 2 ≤ n) (heven : n % 2 = 0) (hx : parameters.cross_polarize = true)
    (hr : parameters.reference_station < 0) :
    create_baselines_vector n parameters =
      some ((List.range n).map (fun i => (i, i)) ++ (pairs_loop (n / 2)).flatMap (fun p =>
        [(p.1, p.2), (p.1, p.2 + n / 2), (p.1 + n / 2, p.2), (p.1 + n / 2, p.2 + n / 2)])) := by
  unfold create_baselines_vector
  have hr' : ¬ (0 ≤ parameters.reference_station) := by omega
  have h2 : 1 ≤ n / 2 := by omega
  simp only [hx, hr', heven, if_true, if_false, size_t_sub_one h2, autos_loop]
  rw [cross_loop_eq]

theorem create_baselines_vector_cross_ref (n r : Nat) (parameters : Correlation_parameters)
    (heven : n % 2 = 0) (hx : parameters.cross_polarize = true)
    (hr : parameters.reference_station = (r : Int)) :
    create_baselines_vector n parameters =
      some ((List.range n).map (fun i => (i, i)) ++
        ((List.range' 0 (r - 0)).flatMap (fun sn =>
          [(sn, r), (sn + n / 2, r), (sn, r + n / 2), (sn + n / 2, r + n / 2)]) ++
         (List.range' (r + 1) (n / 2 - (r + 1))).flatMap (fun sn =>
          [(r, sn), (r, sn + n / 2), (r + n / 2, sn), (r + n / 2, sn + n / 2)]))) := by
  unfold create_baselines_vector
  have hr' : (0 : Int) ≤ (r : Int) := by omega
  have hr1 : ((r : Int) + 1).toNat = r + 1 := by omega
  simp only [hx, hr, hr', heven, if_true, autos_loop, Int.toNat_ofNat, hr1]
  rw [← List.append_assoc, ← for_loop_append, ← for_loop_append]
  simp [push_back]

namespace Correlation_core

variable {R : Type}

theorem create_baselines_eq (s : Correlation_core R) (parameters : Correlation_parameters)
    (bl : List Baseline) (h : create_baselines_vector (n_stations s) parameters = some bl) :
    ∃ s', create_baselines s parameters = some s' ∧ s'.baselines = bl ∧
      s'.correlation_parameters = s.correlation_parameters := by
  unfold create_baselines
  unfold n_stations at *
  simp only [h]
  exact ⟨_, rfl, rfl, rfl⟩

/-- C1: for `S ≥ 1` station streams, cross-polarisation off and no reference
station, `create_baselines` produces `(0,0), ..., (S-1,S-1)` followed by the
pairs `(i,j)` with `i < j < S`, strictly increasing in lexicographic order
(so each pair occurs once), `S + S(S-1)/2` entries in all. -/
theorem create_baselines_all_pairs (s : Correlation_core R)
    (parameters : Correlation_parameters) (hS : 1 ≤ n_stations s)
    (hx : parameters.cross_polarize = false) (hr : parameters.reference_station < 0) :
    ∃ s', ∃ cross : List Baseline, create_baselines s parameters = some s' ∧
      s'.baselines = (List.range (n_stations s)).map (fun i => (i, i)) ++ cross ∧
      cross.Pairwise (fun a b => a.1 < b.1 ∨ (a.1 = b.1 ∧ a.2 < b.2)) ∧
      (∀ i j, (i, j) ∈ cross ↔ i < j ∧ j < n_stations s) ∧
      s'.baselines.length = n_stations s + n_stations s * (n_stations s - 1) / 2 := by
  obtain ⟨s', h1, h2, _⟩ := create_baselines_eq s parameters _
    (create_baselines_vector_plain (n_stations s) parameters hS hx hr)
  refine ⟨s', pairs_loop (n_stations s), h1, h2, pairs_loop_sorted _, mem_pairs_loop _, ?_⟩
  rw [h2, List.length_append, List.length_map, List.length_range]
  have := length_pairs_loop (n_stations s)
  omega

/-- Witness of C1 at three station streams. -/
theorem create_baselines_all_pairs_witness :
    1 ≤ n_stations (example_core 3 (-1) false) ∧
    (example_parameters 3 (-1) false).cross_polarize = false ∧
    (example_parameters 3 (-1) false).reference_station < 0 ∧
    ∃ s', ∃ cross : List Baseline, create_baselines (example_core 3 (-1) false)
        (example_parameters 3 (-1) false) = some s' ∧
      s'.baselines = (List.range (n_stations (example_core 3 (-1) false))).map
        (fun i => (i, i)) ++ cross ∧
      cross.Pairwise (fun a b => a.1 < b.1 ∨ (a.1 = b.1 ∧ a.2 < b.2)) ∧
      (∀ i j, (i, j) ∈ cross ↔ i < j ∧ j < n_stations (example_core 3 (-1) false)) ∧
      s'.baselines.length = n_stations (example_core 3 (-1) false) +
        n_stations (example_core 3 (-1) false) *
          (n_stations (example_core 3 (-1) false) - 1) / 2 :=
  ⟨by decide, rfl, by decide,
    create_baselines_all_pairs _ _ (by decide) rfl (by decide)⟩

/-- C2: with cross-polarisation off and a reference station `r ≥ 0` (in
particular for every `S ≥ 1` and `0 ≤ r < S`), `create_baselines` produces the `S` autocorrelations `(i,i)` in increasing `i`
followed by the pairs `(i,r)` for every `i ≠ r` in increasing `i`, so every
cross baseline involves `r`; for `S = 4`, `r = 0` the list is
`(0,0),(1,1),(2,2),(3,3),(1,0),(2,0),(3,0)`. -/
theorem create_baselines_reference (s : Correlation_core R)
    (parameters : Correlation_parameters) (r : Nat) (hx : parameters.cross_polarize = false)
    (hr : parameters.reference_station = (r : Int)) :
    ∃ s', create_baselines s parameters = some s' ∧
      s'.baselines = (List.range (n_stations s)).map (fun i => (i, i)) ++
        ((List.range (n_stations s)).filter (fun i => decide (i ≠ r))).map (fun i => (i, r)) ∧
      (∀ p ∈ s'.baselines.drop (n_stations s), p.2 = r ∧ p.1 ≠ r ∧ p.1 < n_stations s) ∧
      (n_stations s = 4 → r = 0 →
        s'.baselines = [(0, 0), (1, 1), (2, 2), (3, 3), (1, 0), (2, 0), (3, 0)]) := by
  obtain ⟨s', h1, h2, _⟩ := create_baselines_eq s parameters _
    (create_baselines_vector_ref (n_stations s) r parameters hx hr)
  refine ⟨s', h1, h2, ?_, ?_⟩
  · intro p hp
    rw [h2, List.drop_left' (by simp)] at hp
    simp only [List.mem_map, List.mem_filter, List.mem_range, decide_eq_true_eq] at hp
    obtain ⟨i, ⟨hi, hne⟩, rfl⟩ := hp
    exact ⟨rfl, hne, hi⟩
  · intro h4 h0
    rw [h2, h4, h0]
    decide

/-- Witness of C2 at four station streams and reference station 0. -/
theorem create_baselines_reference_witness :
    ∃ s', create_baselines (example_core 4 0 false) (example_parameters 4 0 false) = some s' ∧
      s'.baselines = (List.range (n_stations (example_core 4 0 false))).map (fun i => (i, i)) ++
        ((List.range (n_stations (example_core 4 0 false))).filter
          (fun i => decide (i ≠ 0))).map (fun i => (i, 0)) ∧
      (∀ p ∈ s'.baselines.drop (n_stations (example_core 4 0 false)),
        p.2 = 0 ∧ p.1 ≠ 0 ∧ p.1 < n_stations (example_core 4 0 false)) ∧
      (n_stations (example_core 4 0 false) = 4 → 0 = 0 →
        s'.baselines = [(0, 0), (1, 1), (2, 2), (3, 3), (1, 0), (2, 0), (3, 0)]) :=
  create_baselines_reference (example_core 4 0 false) (example_parameters 4 0 false) 0 rfl rfl

/-- C3: for even `S ≥ 2`, cross-polarisation on and no reference station, the
cross part of the list of `create_baselines` consists, for each pair
`a < a' < S/2` in lexicographic order, of the four pairs `(a,a')`,
`(a,a'+S/2)`, `(a+S/2,a')`, `(a+S/2,a'+S/2)` in that order, and nothing else;
for `S = 4` it is `(0,1),(0,3),(2,1),(2,3)`. -/
theorem create_baselines_cross_polarize (s : Correlation_core R)
    (parameters : Correlation_parameters) (hS : 2 ≤ n_stations s)
    (heven : n_stations s % 2 = 0) (hx : parameters.cross_polarize = true)
    (hr : parameters.reference_station < 0) :
    ∃ s', ∃ pairs : List Baseline, create_baselines s parameters = some s' ∧
      pairs.Pairwise (fun a b => a.1 < b.1 ∨ (a.1 = b.1 ∧ a.2 < b.2)) ∧
      (∀ a a', (a, a') ∈ pairs ↔ a < a' ∧ a' < n_stations s / 2) ∧
      s'.baselines = (List.range (n_stations s)).map (fun i => (i, i)) ++
        pairs.flatMap (fun p =>
          [(p.1, p.2), (p.1, p.2 + n_stations s / 2), (p.1 + n_stations s / 2, p.2),
            (p.1 + n_stations s / 2, p.2 + n_stations s / 2)]) ∧
      (n_stations s = 4 → s'.baselines.drop 4 = [(0, 1), (0, 3), (2, 1), (2, 3)]) := by
  obtain ⟨s', h1, h2, _⟩ := create_baselines_eq s parameters _
    (create_baselines_vector_cross (n_stations s) parameters hS heven hx hr)
  refine ⟨s', pairs_loop (n_stations s / 2), h1, pairs_loop_sorted _, mem_pairs_loop _, h2, ?_⟩
  intro h4
  rw [h2, h4]
  decide

/-- Witness of C3 at four station streams. -/
theorem create_baselines_cross_polarize_witness :
    ∃ s', ∃ pairs : List Baseline, create_baselines (example_core 4 (-1) true)
        (example_parameters 4 (-1) true) = some s' ∧
      pairs.Pairwise (fun a b => a.1 < b.1 ∨ (a.1 = b.1 ∧ a.2 < b.2)) ∧
      (∀ a a', (a, a') ∈ pairs ↔ a < a' ∧ a' < n_stations (example_core 4 (-1) true) / 2) ∧
      s'.baselines = (List.range (n_stations (example_core 4 (-1) true))).map
          (fun i => (i, i)) ++
        pairs.flatMap (fun p =>
          [(p.1, p.2), (p.1, p.2 + n_stations (example_core 4 (-1) true) / 2),
            (p.1 + n_stations (example_core 4 (-1) true) / 2, p.2),
            (p.1 + n_stations (example_core 4 (-1) true) / 2,
              p.2 + n_stations (example_core 4 (-1) true) / 2)]) ∧
      (n_stations (example_core 4 (-1) true) = 4 →
        s'.baselines.drop 4 = [(0, 1), (0, 3), (2, 1), (2, 3)]) :=
  create_baselines_cross_polarize (example_core 4 (-1) true) (example_parameters 4 (-1) true)
    (by decide) (by decide) rfl (by decide)

/-- C4: for even `S ≥ 2`, cross-polarisation on and reference station `r`,
`0 ≤ r < S/2`, the cross part of the list of `create_baselines` contains, for
every `a < S/2` with `a ≠ r`, exactly the four pairs that combine one of
`a, a+S/2` with one of `r, r+S/2` (the smaller channel first), each once, and
no other pair: `4 * (S/2 - 1)` entries. -/
theorem create_baselines_cross_polarize_reference (s : Correlation_core R)
    (parameters : Correlation_parameters) (r : Nat) (hS : 2 ≤ n_stations s)
    (heven : n_stations s % 2 = 0) (hrS : r < n_stations s / 2)
    (hx : parameters.cross_polarize = true)
    (hr : parameters.reference_station = (r : Int)) :
    ∃ s', ∃ cross : List Baseline, create_baselines s parameters = some s' ∧
      s'.baselines = (List.range (n_stations s)).map (fun i => (i, i)) ++ cross ∧
      (∀ p, p ∈ cross ↔ ∃ a, a < n_stations s / 2 ∧ a ≠ r ∧ ∃ x y,
        (x = a ∨ x = a + n_stations s / 2) ∧ (y = r ∨ y = r + n_stations s / 2) ∧
        ((a < r ∧ p = (x, y)) ∨ (r < a ∧ p = (y, x)))) ∧
      cross.Nodup ∧
      cross.length = 4 * (n_stations s / 2 - 1) := by
  obtain ⟨s', h1, h2, _⟩ := create_baselines_eq s parameters _
    (create_baselines_vector_cross_ref (n_stations s) r parameters heven hx hr)
  have hm : 1 ≤ n_stations s / 2 := by omega
  generalize n_stations s / 2 = m at *
  refine ⟨s', _, h1, h2, ?_, ?_, ?_⟩
  · intro p
    simp only [List.mem_append, List.mem_flatMap, List.mem_range', List.mem_cons,
      List.mem_singleton, List.not_mem_nil, or_false]
    constructor
    · rintro (⟨a, ⟨k, hk, rfl⟩, hp⟩ | ⟨a, ⟨k, hk, rfl⟩, hp⟩)
      · refine ⟨0 + 1 * k, by omega, by omega, ?_⟩
        rcases hp with rfl | rfl | rfl | rfl
        · exact ⟨_, _, Or.inl rfl, Or.inl rfl, Or.inl ⟨by omega, rfl⟩⟩
        · exact ⟨_, _, Or.inr rfl, Or.inl rfl, Or.inl ⟨by omega, rfl⟩⟩
        · exact ⟨_, _, Or.inl rfl, Or.inr rfl, Or.inl ⟨by omega, rfl⟩⟩
        · exact ⟨_, _, Or.inr rfl, Or.inr rfl, Or.inl ⟨by omega, rfl⟩⟩
      · refine ⟨r + 1 + 1 * k, by omega, by omega, ?_⟩
        rcases hp with rfl | rfl | rfl | rfl
        · exact ⟨_, _, Or.inl rfl, Or.inl rfl, Or.inr ⟨by omega, rfl⟩⟩
        · exact ⟨_, _, Or.inr rfl, Or.inl rfl, Or.inr ⟨by omega, rfl⟩⟩
        · exact ⟨_, _, Or.inl rfl, Or.inr rfl, Or.inr ⟨by omega, rfl⟩⟩
        · exact ⟨_, _, Or.inr rfl, Or.inr rfl, Or.inr ⟨by omega, rfl⟩⟩
    · rintro ⟨a, ha, hne, x, y, hx', hy', (⟨hlt, rfl⟩ | ⟨hlt, rfl⟩)⟩
      · left
        refine ⟨a, ⟨a, by omega, by omega⟩, ?_⟩
        rcases hx' with rfl | rfl <;> rcases hy' with rfl | rfl <;> simp
      · right
        refine ⟨a, ⟨a - (r + 1), by omega, by omega⟩, ?_⟩
        rcases hx' with rfl | rfl <;> rcases hy' with rfl | rfl <;> simp
  · rw [List.nodup_append]
    refine ⟨?_, ?_, ?_⟩
    · rw [List.nodup_flatMap]
      refine ⟨?_, ?_⟩
      · intro a _
        simp only [List.nodup_cons, List.mem_cons, List.mem_singleton, Prod.mk.injEq,
          List.not_mem_nil, List.nodup_nil, not_or, not_and, or_false, and_true,
          not_false_eq_true]
        refine ⟨⟨?_, ?_, ?_⟩, ⟨?_, ?_⟩, ?_⟩ <;> intros <;> omega
      · refine (pairwise_lt_range'_one _ _).imp_of_mem ?_
        intro a b ha hb hab
        simp only [List.mem_range'] at ha hb
        obtain ⟨ka, hka, rfl⟩ := ha
        obtain ⟨kb, hkb, rfl⟩ := hb
        simp only [Function.onFun, List.disjoint_left, List.mem_cons, List.mem_singleton,
          List.not_mem_nil, or_false]
        rintro p (rfl | rfl | rfl | rfl) <;> simp only [Prod.mk.injEq] <;> omega
    · rw [List.nodup_flatMap]
      refine ⟨?_, ?_⟩
      · intro a _
        simp only [List.nodup_cons, List.mem_cons, List.mem_singleton, Prod.mk.injEq,
          List.not_mem_nil, List.nodup_nil, not_or, not_and, or_false, and_true,
          not_false_eq_true]
        refine ⟨⟨?_, ?_, ?_⟩, ⟨?_, ?_⟩, ?_⟩ <;> intros <;> omega
      · refine (pairwise_lt_range'_one _ _).imp_of_mem ?_
        intro a b ha hb hab
        simp only [List.mem_range'] at ha hb
        obtain ⟨ka, hka, rfl⟩ := ha
        obtain ⟨kb, hkb, rfl⟩ := hb
        simp only [Function.onFun, List.disjoint_left, List.mem_cons, List.mem_singleton,
          List.not_mem_nil, or_false]
        rintro p (rfl | rfl | rfl | rfl) <;> simp only [Prod.mk.injEq] <;> omega
    · simp only [List.disjoint_left, List.mem_flatMap, List.mem_range', List.mem_cons,
        List.mem_singleton, List.not_mem_nil, or_false]
      rintro p ⟨a, ⟨k, hk, rfl⟩, hp⟩ ⟨b, ⟨j, hj, rfl⟩, hq⟩
      rcases hp with rfl | rfl | rfl | rfl <;>
        simp only [Prod.mk.injEq] at hq <;> omega
  · rw [List.length_append, length_flatMap_const 4 _ _ (fun _ => by simp),
      length_flatMap_const 4 _ _ (fun _ => by simp), List.length_range', List.length_range']
    omega

/-- Witness of C4 at six station streams and reference station 1. -/
theorem create_baselines_cross_polarize_reference_witness :
    ∃ s', ∃ cross : List Baseline, create_baselines (example_core 6 1 true)
        (example_parameters 6 1 true) = some s' ∧
      s'.baselines = (List.range (n_stations (example_core 6 1 true))).map
        (fun i => (i, i)) ++ cross ∧
      (∀ p, p ∈ cross ↔ ∃ a, a < n_stations (example_core 6 1 true) / 2 ∧ a ≠ 1 ∧ ∃ x y,
        (x = a ∨ x = a + n_stations (example_core 6 1 true) / 2) ∧
        (y = 1 ∨ y = 1 + n_stations (example_core 6 1 true) / 2) ∧
        ((a < 1 ∧ p = (x, y)) ∨ (1 < a ∧ p = (y, x)))) ∧
      cross.Nodup ∧
      cross.length = 4 * (n_stations (example_core 6 1 true) / 2 - 1) :=
  create_baselines_cross_polarize_reference (example_core 6 1 true)
    (example_parameters 6 1 true) 1 (by decide) (by decide) (by decide) rfl rfl

end Correlation_core

/-! ## Rules for loops that can fail -/

theorem for_loop_opt_step {σ : Type} (lo hi : Nat) (body : Nat → σ → Option σ) (s : σ)
    (h : lo < hi) :
    for_loop_opt lo hi body s = (body lo s).bind (for_loop_opt (lo + 1) hi body) := by
  unfold for_loop_opt
  have e : hi - lo = (hi - (lo + 1)) + 1 := by omega
  rw [e, List.range'_succ, List.foldlM_cons]
  rfl

theorem for_loop_opt_done {σ : Type} (lo hi : Nat) (body : Nat → σ → Option σ) (s : σ)
    (h : hi ≤ lo) : for_loop_opt lo hi body s = some s := by
  unfold for_loop_opt
  have e : hi - lo = 0 := by omega
  rw [e]
  rfl

/-- Invariant rule, partial correctness: an invariant that every successful
iteration preserves holds at the end of a successful loop. -/
theorem for_loop_opt_inv {σ : Type} (P : Nat → σ → Prop) (hi : Nat)
    (body : Nat → σ → Option σ)
    (hstep : ∀ i t t', i < hi → P i t → body i t = some t' → P (i + 1) t') :
    ∀ (n lo : Nat) (s s' : σ), hi - lo = n → lo ≤ hi → P lo s →
      for_loop_opt lo hi body s = some s' → P hi s' := by
  intro n
  induction n with
  | zero =>
    intro lo s s' hn hle h0 h
    rw [for_loop_opt_done lo hi body s (by omega)] at h
    have : lo = hi := by omega
    cases h
    exact this ▸ h0
  | succ k ih =>
    intro lo s s' hn hle h0 h
    rw [for_loop_opt_step lo hi body s (by omega)] at h
    cases hb : body lo s with
    | none => rw [hb] at h; cases h
    | some t =>
      rw [hb] at h
      exact ih (lo + 1) t s' (by omega) (by omega) (hstep lo s t (by omega) h0 hb) h

/-- Invariant rule, total correctness: when every iteration succeeds under
the invariant, the loop succeeds and the invariant holds at the end. -/
theorem for_loop_opt_total {σ : Type} (P : Nat → σ → Prop) (hi : Nat)
    (body : Nat → σ → Option σ)
    (hstep : ∀ i t, i < hi → P i t → ∃ t', body i t = some t' ∧ P (i + 1) t') :
    ∀ (n lo : Nat) (s : σ), hi - lo = n → lo ≤ hi → P lo s →
      ∃ s', for_loop_opt lo hi body s = some s' ∧ P hi s' := by
  intro n
  induction n with
  | zero =>
    intro lo s hn hle h0
    have : lo = hi := by omega
    exact ⟨s, for_loop_opt_done lo hi body s (by omega), this ▸ h0⟩
  | succ k ih =>
    intro lo s hn hle h0
    obtain ⟨t, hb, ht⟩ := hstep lo s (by omega) h0
    obtain ⟨s', hs', hP⟩ := ih (lo + 1) t (by omega) (by omega) ht
    refine ⟨s', ?_, hP⟩
    rw [for_loop_opt_step lo hi body s (by omega), hb]
    exact hs'

/-- A loop that replaces entry `i` of a list by `g i` of that entry, for
`i = lo .. hi - 1`, and fails when an entry is missing or `g` fails. -/
theorem for_loop_opt_pointwise {α : Type} (g : Nat → α → Option α) (lo hi : Nat)
    (body : Nat → List α → Option (List α))
    (hbody : ∀ i t, body i t = (t[i]?).bind (fun x => (g i x).map (fun y => t.set i y)))
    (l l' : List α) (hle : lo ≤ hi) (h : for_loop_opt lo hi body l = some l') :
    l'.length = l.length ∧
    ∀ i, (lo ≤ i → i < hi → ∃ x y, l[i]? = some x ∧ g i x = some y ∧ l'[i]? = some y) ∧
         ((i < lo ∨ hi ≤ i) → l'[i]? = l[i]?) := by
  have key := for_loop_opt_inv
    (fun j (t : List α) => lo ≤ j ∧ t.length = l.length ∧
      ∀ i, (lo ≤ i → i < j → ∃ x y, l[i]? = some x ∧ g i x = some y ∧ t[i]? = some y) ∧
           ((i < lo ∨ j ≤ i) → t[i]? = l[i]?))
    hi _ ?_ (hi - lo) lo l l' rfl hle ?_ h
  · exact key.2
  · intro j t t' hj ⟨hloj, hlen, hP⟩ hb
    rw [hbody] at hb
    cases hx : t[j]? with
    | none => simp [hx] at hb
    | some x =>
      cases hy : g j x with
      | none => simp [hx, hy] at hb
      | some y =>
        simp only [hx, hy, Option.some.injEq, Option.some_bind, Option.map_some'] at hb
        subst hb
        refine ⟨by omega, by simp [hlen], ?_⟩
        intro i
        constructor
        · intro h1 h2
          by_cases hij : i = j
          · subst hij
            by_cases hlo : i < lo
            · omega
            · have hjl : i < t.length := by
                by_contra hc
                have : t[i]? = none := List.getElem?_eq_none (by omega)
                rw [this] at hx; cases hx
              refine ⟨x, y, ?_, hy, ?_⟩
              · by_cases hlo : lo ≤ i
                · rw [← (hP i).2 (Or.inr (le_refl i))]; exact hx
                · omega
              · simp [List.getElem?_set, hjl]
          · obtain ⟨x', y', a, b, c⟩ := (hP i).1 h1 (by omega)
            refine ⟨x', y', a, b, ?_⟩
            rw [List.getElem?_set_ne (Ne.symm hij)]
            exact c
        · intro h1
          have hij : j ≠ i := by omega
          rw [List.getElem?_set_ne hij]
          exact (hP i).2 (by omega)
  · exact ⟨le_refl lo, rfl, fun i => ⟨fun h1 h2 => by omega, fun _ => rfl⟩⟩


namespace Correlation_core

variable {R : Type} [LinearOrderedField R]

/-- What a successful `auto_correlate_baseline` does to `out`. -/
theorem auto_correlate_baseline_spec (s : Correlation_core R) (inp out out' : Complex_buffer R)
    (h : auto_correlate_baseline s inp out = some out') :
    out'.length = out.length ∧
    ∀ k, (k ≤ fft_size s → ∃ x o, inp[k]? = some x ∧ out[k]? = some o ∧
            out'[k]? = some (o.add_real (x.re * x.re + x.im * x.im))) ∧
         (fft_size s < k → out'[k]? = out[k]?) := by
  have := for_loop_opt_pointwise
    (fun i (o : Cplx R) => (inp[i]?).map (fun x => o.add_real (x.re * x.re + x.im * x.im)))
    0 (fft_size s + 1) _ ?_ out out' (by omega) h
  · refine ⟨this.1, fun k => ⟨fun hk => ?_, fun hk => (this.2 k).2 (Or.inr (by omega))⟩⟩
    obtain ⟨o, y, h1, h2, h3⟩ := (this.2 k).1 (by omega) (by omega)
    cases hx : inp[k]? with
    | none => simp [hx] at h2
    | some x =>
      simp only [hx, Option.map_some', Option.some.injEq] at h2
      exact ⟨x, o, rfl, h1, h2 ▸ h3⟩
  · intro i t
    cases h1 : t[i]? <;> cases h2 : inp[i]? <;> simp [h2]

/-- What a successful `correlate_baseline` does to `out`. -/
theorem correlate_baseline_spec (s : Correlation_core R) (in1 in2 out out' : Complex_buffer R)
    (h : correlate_baseline s in1 in2 out = some out') :
    out'.length = out.length ∧
    ∀ k, (k ≤ fft_size s → ∃ x y o, in1[k]? = some x ∧ in2[k]? = some y ∧ out[k]? = some o ∧
            out'[k]? = some (o.add (x.mul y.conj))) ∧
         (fft_size s < k → out'[k]? = out[k]?) := by
  have := for_loop_opt_pointwise
    (fun i (o : Cplx R) => (in1[i]?).bind (fun x => (in2[i]?).map (fun y => o.add (x.mul y.conj))))
    0 (fft_size s + 1) _ ?_ out out' (by omega) h
  · refine ⟨this.1, fun k => ⟨fun hk => ?_, fun hk => (this.2 k).2 (Or.inr (by omega))⟩⟩
    obtain ⟨o, z, h1, h2, h3⟩ := (this.2 k).1 (by omega) (by omega)
    cases hx : in1[k]? with
    | none => simp [hx] at h2
    | some x =>
      cases hy : in2[k]? with
      | none => simp [hx, hy] at h2
      | some y =>
        simp only [hx, hy, Option.map_some', Option.some.injEq, Option.some_bind] at h2
        exact ⟨x, y, o, rfl, rfl, h1, h2 ▸ h3⟩
  · intro i t
    cases h1 : t[i]? <;> cases h2 : in1[i]? <;> cases h3 : in2[i]? <;> simp [h2, h3]

end Correlation_core

namespace Correlation_core

variable {R : Type}

theorem getElem?_resize {α : Type} (v : List α) (n : Nat) (fill : α) (i : Nat) :
    (resize v n fill)[i]? = if i < n then some ((v[i]?).getD fill) else none := by
  unfold resize
  by_cases h1 : i < n
  · by_cases h2 : i < v.length
    · rw [List.getElem?_append_left (by simp; omega)]
      simp [h1, h2, List.getElem?_take]
    · rw [List.getElem?_append_right (by simp; omega)]
      have : v[i]? = none := List.getElem?_eq_none (by omega)
      simp only [this, Option.getD_none, h1, if_true]
      rw [List.getElem?_replicate]
      simp only [List.length_take]
      rw [if_pos]
      omega
  · simp only [h1, if_false]
    apply List.getElem?_eq_none
    simp
    omega

theorem length_resize {α : Type} (v : List α) (n : Nat) (fill : α) :
    (resize v n fill).length = n := by
  unfold resize
  simp
  omega

/-- What a successful fetch loop leaves in `input_elements`. -/
theorem integration_step_fetch_spec (s s1 : Correlation_core R)
    (h : integration_step_fetch s = some s1) :
    s1.baselines = s.baselines ∧ s1.accumulation_buffers = s.accumulation_buffers ∧
    s1.correlation_parameters = s.correlation_parameters ∧
    s1.input_buffers = s.input_buffers ∧
    s1.input_elements.length = s.input_elements.length ∧
    ∀ i, i < number_input_streams_in_use s →
      (s1.input_elements[i]?).bind Input_element.current =
        (s.input_elements[i]?).bind (fun it =>
          if it.valid then it.current
          else if s.check_input_elements then
            match s.input_buffers[i]? with
            | some (some (front :: _)) => front.data.head?
            | _ => none
          else none) := by
  unfold integration_step_fetch at h
  by_cases hc : s.check_input_elements = true
  · simp only [hc, if_true] at h
    cases hl : for_loop_opt 0 (number_input_streams_in_use s) (fun i elements =>
        match elements[i]? with
        | some it =>
          if !it.valid then
            match s.input_buffers[i]? with
            | some (some (front :: _)) => some (elements.set i (Input_element.set front.data))
            | _ => none
          else some elements
        | none => none) s.input_elements with
    | none => rw [hl] at h; cases h
    | some elements =>
      rw [hl] at h
      simp only [Option.some.injEq] at h
      subst h
      have key := for_loop_opt_pointwise
        (fun i (it : Input_element R) =>
          if !it.valid then
            match s.input_buffers[i]? with
            | some (some (front :: _)) => some (Input_element.set front.data)
            | _ => none
          else some it)
        0 (number_input_streams_in_use s) _ ?_ s.input_elements elements (by omega) hl
      · refine ⟨rfl, rfl, rfl, rfl, key.1, ?_⟩
        intro i hi
        obtain ⟨x, y, h1, h2, h3⟩ := (key.2 i).1 (by omega) hi
        simp only [h1, h3, Option.some_bind, hc, if_true]
        by_cases hv : x.valid = true
        · simp only [hv, Bool.not_true, Bool.false_eq_true, if_false, Option.some.injEq] at h2
          subst h2
          simp [hv]
        · simp only [hv, Bool.not_eq_true] at h2 ⊢
          have hv' : x.valid = false := by simpa using hv
          simp only [hv', Bool.not_false, if_true] at h2
          simp only [Bool.false_eq_true, if_false]
          split at h2
          · simp only [Option.some.injEq] at h2
            subst h2
            rfl
          · cases h2
      · intro i t
        cases h1 : t[i]? with
        | none => rfl
        | some it =>
          simp only [Option.some_bind]
          by_cases hv : it.valid = true
          · have : t.set i it = t := by
              apply List.ext_getElem?
              intro j
              by_cases hij : i = j
              · subst hij
                rw [List.getElem?_set]
                simp only [h1, if_true]
                rw [if_pos]
                by_contra hlt
                have := List.getElem?_eq_none (Nat.le_of_not_lt hlt)
                rw [this] at h1; cases h1
              · rw [List.getElem?_set_ne hij]
            simp [hv, this]
          · have hv' : it.valid = false := by simpa using hv
            simp only [hv', Bool.not_false, if_true]
            split <;> simp_all
  · have hc' : s.check_input_elements = false := by simpa using hc
    simp only [hc', Bool.false_eq_true, if_false, Option.some.injEq] at h
    subst h
    refine ⟨rfl, rfl, rfl, rfl, rfl, ?_⟩
    intro i _
    cases hi : s.input_elements[i]? with
    | none => rfl
    | some it =>
      simp only [Option.some_bind]
      by_cases hv : it.valid = true
      · simp [hv]
      · have hv' : it.valid = false := by simpa using hv
        simp only [hv', hc', Bool.false_eq_true, if_false]
        unfold Input_element.valid at hv'
        unfold Input_element.current
        cases hr : it.remaining with
        | nil => rfl
        | cons a t => rw [hr] at hv'; simp at hv'

end Correlation_core

namespace Correlation_core

variable {R : Type}

/-- The loops of lines 194-209: what a successful pass does to the
accumulators, in terms of the spectra the iterators point at. -/
theorem integration_step_correlate_spec [LinearOrderedField R] (s : Correlation_core R)
    (buffers buffers' : List (Complex_buffer R))
    (h : integration_step_correlate s buffers = some buffers') :
    buffers'.length = buffers.length ∧
    number_input_streams_in_use s ≤ s.baselines.length ∧
    (∀ i, i < number_input_streams_in_use s → ∃ a in1 out out',
      s.baselines[i]? = some (a, a) ∧
      (s.input_elements[a]?).bind Input_element.current = some in1 ∧
      buffers[i]? = some out ∧ buffers'[i]? = some out' ∧
      auto_correlate_baseline s in1 out = some out') ∧
    (∀ i, number_input_streams_in_use s ≤ i → i < s.baselines.length →
      ∃ a b in1 in2 out out', s.baselines[i]? = some (a, b) ∧ a ≠ b ∧
      (s.input_elements[a]?).bind Input_element.current = some in1 ∧
      (s.input_elements[b]?).bind Input_element.current = some in2 ∧
      buffers[i]? = some out ∧ buffers'[i]? = some out' ∧
      correlate_baseline s in1 in2 out = some out') ∧
    (∀ i, s.baselines.length ≤ i → buffers'[i]? = buffers[i]?) := by
  unfold integration_step_correlate at h
  split at h
  case h_2 => cases h
  case h_1 mid hmid =>
  have auto := for_loop_opt_pointwise
    (fun i (out : Complex_buffer R) =>
      match s.baselines[i]? with
      | some stations =>
        if stations.1 = stations.2 then
          match (s.input_elements[stations.1]?).bind Input_element.current with
          | some in1 => auto_correlate_baseline s in1 out
          | none => none
        else none
      | none => none)
    0 (number_input_streams_in_use s) _ ?_ buffers mid (by omega) hmid
  swap
  · intro i t
    cases h2 : s.baselines[i]? with
    | none => cases h1 : t[i]? <;> simp only [h2, Option.some_bind, Option.none_bind,
        Option.map_none']
    | some st =>
      obtain ⟨a, b⟩ := st
      by_cases hab : a = b
      · subst hab
        cases hin : (s.input_elements[a]?).bind Input_element.current with
        | none => cases h1 : t[i]? <;> simp only [h2, hin, if_true, Option.some_bind,
            Option.none_bind, Option.map_none']
        | some in1 =>
          cases h1 : t[i]? with
          | none => simp only [h2, hin, if_true, Option.none_bind]
          | some out =>
            cases hres : auto_correlate_baseline s in1 out <;>
              simp only [h2, hin, hres, if_true, Option.some_bind, Option.map_none',
                Option.map_some']
      · cases h1 : t[i]? <;> simp only [h2, hab, if_false, Option.some_bind,
          Option.none_bind, Option.map_none']
  have hauto : ∀ i, i < number_input_streams_in_use s → ∃ a in1 out out',
      s.baselines[i]? = some (a, a) ∧
      (s.input_elements[a]?).bind Input_element.current = some in1 ∧
      buffers[i]? = some out ∧ mid[i]? = some out' ∧
      auto_correlate_baseline s in1 out = some out' := by
    intro i hi
    obtain ⟨out, out', h1, h2, h3⟩ := (auto.2 i).1 (by omega) hi
    cases hb : s.baselines[i]? with
    | none => simp [hb] at h2
    | some st =>
      obtain ⟨a, b⟩ := st
      simp only [hb] at h2
      by_cases hab : a = b
      · subst hab
        simp only [if_true] at h2
        cases hin : (s.input_elements[a]?).bind Input_element.current with
        | none => simp [hin] at h2
        | some in1 =>
          simp only [hin] at h2
          exact ⟨a, in1, out, out', rfl, hin, h1, h3, h2⟩
      · simp [hab] at h2
  have hle : number_input_streams_in_use s ≤ s.baselines.length := by
    by_contra hc
    obtain ⟨a, in1, out, out', hb, _⟩ := hauto s.baselines.length (by omega)
    have := List.getElem?_eq_none (le_refl s.baselines.length)
    rw [this] at hb
    cases hb
  have cross := for_loop_opt_pointwise
    (fun i (out : Complex_buffer R) =>
      match s.baselines[i]? with
      | some stations =>
        if stations.1 ≠ stations.2 then
          match (s.input_elements[stations.1]?).bind Input_element.current,
                (s.input_elements[stations.2]?).bind Input_element.current with
          | some in1, some in2 => correlate_baseline s in1 in2 out
          | _, _ => none
        else none
      | none => none)
    (number_input_streams_in_use s) s.baselines.length _ ?_ mid buffers' hle h
  swap
  · intro i t
    cases h2 : s.baselines[i]? with
    | none => cases h1 : t[i]? <;> simp only [h2, Option.some_bind, Option.none_bind,
        Option.map_none']
    | some st =>
      obtain ⟨a, b⟩ := st
      by_cases hab : a = b
      · cases h1 : t[i]? <;> simp only [h2, hab, ne_eq, not_true_eq_false, if_false,
          Option.some_bind, Option.none_bind, Option.map_none']
      · cases hin1 : (s.input_elements[a]?).bind Input_element.current with
        | none => cases h1 : t[i]? <;> simp only [h2, hab, hin1, ne_eq, not_false_eq_true,
            if_true, Option.some_bind, Option.none_bind, Option.map_none']
        | some in1 =>
          cases hin2 : (s.input_elements[b]?).bind Input_element.current with
          | none => cases h1 : t[i]? <;> simp only [h2, hab, hin1, hin2, ne_eq,
              not_false_eq_true, if_true, Option.some_bind, Option.none_bind, Option.map_none']
          | some in2 =>
            cases h1 : t[i]? with
            | none => simp only [h2, hab, hin1, hin2, ne_eq, not_false_eq_true, if_true,
                Option.none_bind]
            | some out =>
              cases hres : correlate_baseline s in1 in2 out <;>
                simp only [h2, hab, hin1, hin2, hres, ne_eq, not_false_eq_true, if_true,
                  Option.some_bind, Option.map_none', Option.map_some']
  refine ⟨by rw [cross.1, auto.1], hle, ?_, ?_, ?_⟩
  · intro i hi
    obtain ⟨a, in1, out, out', h1, h2, h3, h4, h5⟩ := hauto i hi
    refine ⟨a, in1, out, out', h1, h2, h3, ?_, h5⟩
    rw [(cross.2 i).2 (Or.inl hi)]
    exact h4
  · intro i hi1 hi2
    obtain ⟨out, out', h1, h2, h3⟩ := (cross.2 i).1 hi1 hi2
    cases hb : s.baselines[i]? with
    | none => simp [hb] at h2
    | some st =>
      obtain ⟨a, b⟩ := st
      simp only [hb] at h2
      by_cases hab : a = b
      · simp [hab] at h2
      · simp only [ne_eq, hab, not_false_eq_true, if_true] at h2
        cases hin1 : (s.input_elements[a]?).bind Input_element.current with
        | none => simp [hin1] at h2
        | some in1 =>
          cases hin2 : (s.input_elements[b]?).bind Input_element.current with
          | none => simp [hin1, hin2] at h2
          | some in2 =>
            simp only [hin1, hin2] at h2
            refine ⟨a, b, in1, in2, out, out', rfl, hab, hin1, hin2, ?_, h3, h2⟩
            rw [← (auto.2 i).2 (Or.inr hi1)]
            exact h1
  · intro i hi
    rw [(cross.2 i).2 (Or.inr hi), (auto.2 i).2 (Or.inr (by omega))]

end Correlation_core

namespace Correlation_core

variable {R : Type}

/-- The advance loop of lines 264-270: every iterator in use moves on by one
spectrum, the queue of an iterator that leaves its element is popped and then
`check_input_elements` is set; nothing else changes. -/
theorem integration_step_advance_spec (s s' : Correlation_core R)
    (h : integration_step_advance s = some s') :
    s' = { s with input_elements := s'.input_elements, input_buffers := s'.input_buffers,
                  check_input_elements := s'.check_input_elements } ∧
    s'.input_elements.length = s.input_elements.length ∧
    s'.input_buffers.length = s.input_buffers.length ∧
    (∀ i, i < number_input_streams_in_use s → ∃ it, s.input_elements[i]? = some it ∧
      s'.input_elements[i]? = some it.advance ∧
      (it.advance.valid = true → s'.input_buffers[i]? = s.input_buffers[i]?) ∧
      (it.advance.valid = false → ∃ front rest,
        s.input_buffers[i]? = some (some (front :: rest)) ∧
        s'.input_buffers[i]? = some (some rest))) ∧
    (∀ i, number_input_streams_in_use s ≤ i →
      s'.input_elements[i]? = s.input_elements[i]? ∧
      s'.input_buffers[i]? = s.input_buffers[i]?) ∧
    (s'.check_input_elements = true ↔ s.check_input_elements = true ∨
      ∃ i it, i < number_input_streams_in_use s ∧ s.input_elements[i]? = some it ∧
        it.advance.valid = false) := by
  unfold integration_step_advance at h
  have key := for_loop_opt_inv
    (fun j (t : Correlation_core R) =>
      t = { s with input_elements := t.input_elements, input_buffers := t.input_buffers,
                   check_input_elements := t.check_input_elements } ∧
      t.input_elements.length = s.input_elements.length ∧
      t.input_buffers.length = s.input_buffers.length ∧
      (∀ i, i < j → ∃ it, s.input_elements[i]? = some it ∧
        t.input_elements[i]? = some it.advance ∧
        (it.advance.valid = true → t.input_buffers[i]? = s.input_buffers[i]?) ∧
        (it.advance.valid = false → ∃ front rest,
          s.input_buffers[i]? = some (some (front :: rest)) ∧
          t.input_buffers[i]? = some (some rest))) ∧
      (∀ i, j ≤ i →
        t.input_elements[i]? = s.input_elements[i]? ∧
        t.input_buffers[i]? = s.input_buffers[i]?) ∧
      (t.check_input_elements = true ↔ s.check_input_elements = true ∨
        ∃ i it, i < j ∧ s.input_elements[i]? = some it ∧ it.advance.valid = false))
    (number_input_streams_in_use s) _ ?_ (number_input_streams_in_use s - 0) 0 s s' rfl
    (by omega) ?_ h
  · exact key
  · intro j t t' hj ⟨hfr, hl1, hl2, hlt, hge, hck⟩ hb
    cases hit : t.input_elements[j]? with
    | none => simp only [hit] at hb; cases hb
    | some it =>
      have hsit : s.input_elements[j]? = some it := by rw [← (hge j (le_refl j)).1]; exact hit
      have hjlen : j < t.input_elements.length := by
        by_contra hc
        have := List.getElem?_eq_none (Nat.le_of_not_lt hc)
        rw [this] at hit; cases hit
      simp only [hit] at hb
      by_cases hv : it.advance.valid = true
      · simp only [hv, Bool.not_true, Bool.false_eq_true, if_false, Option.some.injEq] at hb
        subst hb
        refine ⟨?_, by simp [hl1], hl2, ?_, ?_, ?_⟩
        · conv_lhs => rw [hfr]
        · intro i hi
          by_cases hij : i = j
          · subst hij
            refine ⟨it, hsit, by simp [List.getElem?_set, hjlen], fun _ => (hge i (le_refl i)).2,
              fun hf => by rw [hv] at hf; cases hf⟩
          · obtain ⟨it', a, b, c, d⟩ := hlt i (by omega)
            refine ⟨it', a, ?_, c, d⟩
            simp only []
            rw [List.getElem?_set_ne (Ne.symm hij)]
            exact b
        · intro i hi
          refine ⟨?_, (hge i (by omega)).2⟩
          simp only []
          rw [List.getElem?_set_ne (by omega)]
          exact (hge i (by omega)).1
        · simp only []
          rw [hck]
          constructor
          · rintro (h1 | ⟨i, it', h1, h2, h3⟩)
            · exact Or.inl h1
            · exact Or.inr ⟨i, it', by omega, h2, h3⟩
          · rintro (h1 | ⟨i, it', h1, h2, h3⟩)
            · exact Or.inl h1
            · by_cases hij : i = j
              · subst hij
                rw [hsit] at h2
                cases h2
                rw [hv] at h3; cases h3
              · exact Or.inr ⟨i, it', by omega, h2, h3⟩
      · have hv' : it.advance.valid = false := by simpa using hv
        simp only [hv', Bool.not_false, if_true] at hb
        split at hb
        swap
        · cases hb
        rename_i front rest hq
        simp only [Option.some.injEq] at hb
        subst hb
        have hjlen2 : j < t.input_buffers.length := by
          by_contra hc
          have := List.getElem?_eq_none (Nat.le_of_not_lt hc)
          rw [this] at hq; cases hq
        refine ⟨?_, by simp [hl1], by simp [hl2], ?_, ?_, ?_⟩
        · conv_lhs => rw [hfr]
        · intro i hi
          by_cases hij : i = j
          · subst hij
            refine ⟨it, hsit, by simp [List.getElem?_set, hjlen],
              (fun hf => by rw [hv'] at hf; cases hf), fun _ => ⟨front, rest, ?_, ?_⟩⟩
            · rw [← (hge i (le_refl i)).2]; exact hq
            · simp [List.getElem?_set, hjlen2]
          · obtain ⟨it', a, b, c, d⟩ := hlt i (by omega)
            refine ⟨it', a, ?_, ?_, ?_⟩
            · simp only []
              rw [List.getElem?_set_ne (Ne.symm hij)]
              exact b
            · intro hvv
              simp only []
              rw [List.getElem?_set_ne (Ne.symm hij)]
              exact c hvv
            · intro hvv
              obtain ⟨f, r, e1, e2⟩ := d hvv
              refine ⟨f, r, e1, ?_⟩
              simp only []
              rw [List.getElem?_set_ne (Ne.symm hij)]
              exact e2
        · intro i hi
          simp only []
          rw [List.getElem?_set_ne (by omega), List.getElem?_set_ne (by omega)]
          exact hge i (by omega)
        · simp only [true_iff]
          exact Or.inr ⟨j, it, by omega, hsit, hv'⟩
  · refine ⟨rfl, rfl, rfl, fun i hi => by omega, fun i _ => ⟨rfl, rfl⟩, ?_⟩
    constructor
    · intro h1; exact Or.inl h1
    · rintro (h1 | ⟨i, _, h1, _⟩)
      · exact h1
      · omega

end Correlation_core

namespace Correlation_core

variable {R : Type}

/-- From the iterators after the resize and the fetch loop of
`integration_step` to `current_spectrum` of the state before the step. -/
theorem current_after_fetch (s s1 : Correlation_core R)
    (h : integration_step_fetch
      (if s.input_elements.length ≠ number_input_streams_in_use s then
        { s with input_elements :=
            resize s.input_elements (number_input_streams_in_use s) Input_element.invalid }
       else s) = some s1) :
    s1.baselines = s.baselines ∧ s1.accumulation_buffers = s.accumulation_buffers ∧
    s1.correlation_parameters = s.correlation_parameters ∧
    s1.input_buffers = s.input_buffers ∧
    s1.input_elements.length = number_input_streams_in_use s ∧
    ∀ a inp, (s1.input_elements[a]?).bind Input_element.current = some inp →
      current_spectrum s a = some inp := by
  by_cases hl : s.input_elements.length = number_input_streams_in_use s
  · rw [if_neg (by simpa using hl)] at h
    obtain ⟨h1, h2, h3, h4, h5, h6⟩ := integration_step_fetch_spec _ s1 h
    refine ⟨h1, h2, h3, h4, h5.trans hl, ?_⟩
    intro a inp ha
    have han : a < number_input_streams_in_use s := by
      by_contra hc
      have := List.getElem?_eq_none (by omega : s1.input_elements.length ≤ a)
      rw [this] at ha; cases ha
    rw [h6 a han] at ha
    unfold current_spectrum
    unfold number_input_streams_in_use at han
    simp only [han, if_true]
    cases hit : s.input_elements[a]? with
    | none => rw [hit] at ha; cases ha
    | some it =>
      rw [hit] at ha
      simpa using ha
  · rw [if_pos (by simpa using hl)] at h
    obtain ⟨h1, h2, h3, h4, h5, h6⟩ := integration_step_fetch_spec _ s1 h
    have hlen : s1.input_elements.length = number_input_streams_in_use s := by
      rw [h5]; exact length_resize _ _ _
    refine ⟨h1, h2, h3, h4, hlen, ?_⟩
    intro a inp ha
    have han : a < number_input_streams_in_use s := by
      by_contra hc
      have := List.getElem?_eq_none (by omega : s1.input_elements.length ≤ a)
      rw [this] at ha; cases ha
    have h6' := h6 a han
    simp only [getElem?_resize, han, if_true, Option.some_bind] at h6'
    rw [h6'] at ha
    unfold current_spectrum
    unfold number_input_streams_in_use at han
    simp only [han, if_true]
    exact ha

end Correlation_core

namespace Correlation_core

variable {R : Type}

/-- The summation loop of line 280-282 adds the real parts of bins
`0 .. fft_size` to the start value. -/
theorem sum_loop_spec [LinearOrderedField R] (m : Nat) (buffer : Complex_buffer R)
    (norm0 norm : R)
    (h : for_loop_opt 0 m (fun i norm =>
      match buffer[i]? with
      | some c => some (norm + c.re)
      | none => none) norm0 = some norm) :
    m ≤ buffer.length ∧ norm = norm0 + ((buffer.take m).map Cplx.re).sum := by
  have key := for_loop_opt_inv
    (fun j (acc : R) => j ≤ buffer.length ∧ acc = norm0 + ((buffer.take j).map Cplx.re).sum)
    m _ ?_ (m - 0) 0 norm0 norm rfl (by omega) ?_ h
  · exact key
  · intro j t t' _ ⟨hj, ht⟩ hb
    cases hc : buffer[j]? with
    | none => simp only [hc] at hb; cases hb
    | some c =>
      simp only [hc, Option.some.injEq] at hb
      have hjl : j < buffer.length := by
        by_contra hcon
        have := List.getElem?_eq_none (Nat.le_of_not_lt hcon)
        rw [this] at hc; cases hc
      refine ⟨hjl, ?_⟩
      rw [← hb, ht, List.take_succ, hc]
      simp [add_assoc]
  · simp

/-- A loop that replaces bins `0 .. fft_size` of a buffer by `f` of the bin. -/
theorem map_loop_spec (m : Nat) (f : Cplx R → Cplx R) (buffer buffer' : Complex_buffer R)
    (h : for_loop_opt 0 m (fun i buffer =>
      match buffer[i]? with
      | some c => some (buffer.set i (f c))
      | none => none) buffer = some buffer') :
    buffer'.length = buffer.length ∧
    ∀ k, (k < m → ∃ c, buffer[k]? = some c ∧ buffer'[k]? = some (f c)) ∧
         (m ≤ k → buffer'[k]? = buffer[k]?) := by
  have key := for_loop_opt_pointwise (fun _ (c : Cplx R) => some (f c)) 0 m _ ?_
    buffer buffer' (by omega) h
  · refine ⟨key.1, fun k => ⟨fun hk => ?_, fun hk => (key.2 k).2 (Or.inr hk)⟩⟩
    obtain ⟨x, y, h1, h2, h3⟩ := (key.2 k).1 (by omega) hk
    simp only [Option.some.injEq] at h2
    exact ⟨x, h1, h2 ▸ h3⟩
  · intro i t
    cases t[i]? <;> rfl

theorem ite_lt_one_eq_max [LinearOrderedField R] (x : R) :
    (if x < 1 then 1 else x) = max 1 x := by
  rw [max_def]
  by_cases h : x < 1
  · rw [if_pos h, if_neg (not_le.mpr h)]
  · rw [if_neg h, if_pos (not_lt.mp h)]

/-- The norm that `integration_normalize` computes from the autocorrelation
accumulator `buffer` of a station. -/
theorem integration_normalize_station_spec [LinearOrderedField R] (s : Correlation_core R)
    (station : Nat) (norms norms' : List R) (buffers buffers' : List (Complex_buffer R))
    (h : integration_normalize_station s station (norms, buffers) = some (norms', buffers')) :
    ∃ norm0 buffer buffer', norms[station]? = some norm0 ∧ buffers[station]? = some buffer ∧
      s.oversamp ≠ 0 ∧ fft_size s / s.oversamp ≠ 0 ∧
      norms' = norms.set station (max 1 ((norm0 +
        ((buffer.take (fft_size s + 1)).map Cplx.re).sum) /
          ((fft_size s / s.oversamp : Nat) : R))) ∧
      buffers' = buffers.set station buffer' ∧
      buffer'.length = buffer.length ∧
      ∀ k, (k ≤ fft_size s → ∃ c, buffer[k]? = some c ∧
              buffer'[k]? = some ⟨c.re / max 1 ((norm0 +
                ((buffer.take (fft_size s + 1)).map Cplx.re).sum) /
                  ((fft_size s / s.oversamp : Nat) : R)), 0⟩) ∧
           (fft_size s < k → buffer'[k]? = buffer[k]?) := by
  unfold integration_normalize_station at h
  simp only [] at h
  cases hn : norms[station]? with
  | none => simp only [hn] at h; cases h
  | some norm0 =>
    cases hb : buffers[station]? with
    | none => simp only [hn, hb] at h; cases h
    | some buffer =>
      simp only [hn, hb] at h
      split at h
      swap
      · cases h
      rename_i norm hsum
      obtain ⟨_, hnorm⟩ := sum_loop_spec _ buffer norm0 norm hsum
      by_cases hq : s.oversamp = 0 ∨ fft_size s / s.oversamp = 0
      · simp only [hq, if_true] at h; cases h
      · simp only [hq, if_false] at h
        split at h
        swap
        · cases h
        rename_i buffer' hmap
        simp only [Option.some.injEq, Prod.mk.injEq] at h
        obtain ⟨m1, m2⟩ := map_loop_spec _ _ buffer buffer' hmap
        rw [ite_lt_one_eq_max, hnorm] at h m2
        refine ⟨norm0, buffer, buffer', rfl, rfl, fun hc => hq (Or.inl hc),
          fun hc => hq (Or.inr hc), h.1.symm, h.2.symm, m1, ?_⟩
        intro k
        refine ⟨fun hk => ?_, fun hk => (m2 k).2 (by omega)⟩
        obtain ⟨c, c1, c2⟩ := (m2 k).1 (by omega)
        exact ⟨c, c1, c2⟩

end Correlation_core

namespace Correlation_core

variable {R : Type}

/-- The station loop of `integration_normalize` (lines 279-292). -/
theorem integration_normalize_autos_spec [LinearOrderedField R] (s : Correlation_core R)
    (norms : List R) (buffers : List (Complex_buffer R))
    (h : for_loop_opt 0 (n_stations s) (integration_normalize_station s)
      (resize [] (n_stations s) 0, s.accumulation_buffers) = some (norms, buffers)) :
    norms.length = n_stations s ∧ buffers.length = s.accumulation_buffers.length ∧
    (n_stations s ≠ 0 → s.oversamp ≠ 0 ∧ fft_size s / s.oversamp ≠ 0) ∧
    (∀ i, i < n_stations s → ∃ buffer buffer',
      s.accumulation_buffers[i]? = some buffer ∧ buffers[i]? = some buffer' ∧
      norms[i]? = some (max 1 (((buffer.take (fft_size s + 1)).map Cplx.re).sum /
        ((fft_size s / s.oversamp : Nat) : R))) ∧
      buffer'.length = buffer.length ∧
      ∀ k, (k ≤ fft_size s → ∃ c, buffer[k]? = some c ∧
              buffer'[k]? = some ⟨c.re / max 1 (((buffer.take (fft_size s + 1)).map Cplx.re).sum /
                ((fft_size s / s.oversamp : Nat) : R)), 0⟩) ∧
           (fft_size s < k → buffer'[k]? = buffer[k]?)) ∧
    (∀ i, n_stations s ≤ i → buffers[i]? = s.accumulation_buffers[i]?) := by
  have key := for_loop_opt_inv
    (fun j (t : List R × List (Complex_buffer R)) =>
      t.1.length = n_stations s ∧ t.2.length = s.accumulation_buffers.length ∧
      (j ≠ 0 → s.oversamp ≠ 0 ∧ fft_size s / s.oversamp ≠ 0) ∧
      (∀ i, i < j → ∃ buffer buffer',
        s.accumulation_buffers[i]? = some buffer ∧ t.2[i]? = some buffer' ∧
        t.1[i]? = some (max 1 (((buffer.take (fft_size s + 1)).map Cplx.re).sum /
          ((fft_size s / s.oversamp : Nat) : R))) ∧
        buffer'.length = buffer.length ∧
        ∀ k, (k ≤ fft_size s → ∃ c, buffer[k]? = some c ∧
                buffer'[k]? = some ⟨c.re / max 1
                  (((buffer.take (fft_size s + 1)).map Cplx.re).sum /
                  ((fft_size s / s.oversamp : Nat) : R)), 0⟩) ∧
             (fft_size s < k → buffer'[k]? = buffer[k]?)) ∧
      (∀ i, j ≤ i → t.2[i]? = s.accumulation_buffers[i]? ∧
        (i < n_stations s → t.1[i]? = some 0)))
    (n_stations s) _ ?_ (n_stations s - 0) 0 _ _ rfl (by omega) ?_ h
  · obtain ⟨k1, k2, k3, k4, k5⟩ := key
    exact ⟨k1, k2, k3, k4, fun i hi => (k5 i hi).1⟩
  · rintro j ⟨nm, bf⟩ ⟨nm', bf'⟩ hj ⟨p1, p2, p3, p4, p5⟩ hb
    obtain ⟨norm0, buffer, buffer', q1, q2, q3, q4, q5, q6, q7, q8⟩ :=
      integration_normalize_station_spec s j nm nm' bf bf' hb
    simp only [] at p1 p2 p4 p5 q1 q2 ⊢
    have hn0 : norm0 = 0 := by
      have := (p5 j (le_refl j)).2 hj
      rw [q1] at this
      exact Option.some.inj this
    subst hn0
    rw [zero_add] at q5 q8
    have hbuf : s.accumulation_buffers[j]? = some buffer := by
      rw [← (p5 j (le_refl j)).1]; exact q2
    have hjn : j < nm.length := by omega
    have hjb : j < bf.length := by
      by_contra hc
      have := List.getElem?_eq_none (Nat.le_of_not_lt hc)
      rw [this] at q2; cases q2
    refine ⟨by rw [q5, List.length_set]; exact p1, by rw [q6, List.length_set]; exact p2,
      fun _ => ⟨q3, q4⟩, ?_, ?_⟩
    · intro i hi
      by_cases hij : i = j
      · subst hij
        refine ⟨buffer, buffer', hbuf, ?_, ?_, q7, q8⟩
        · rw [q6]; simp [List.getElem?_set, hjb]
        · rw [q5]; simp [List.getElem?_set, hjn]
      · obtain ⟨b, b', r1, r2, r3, r4, r5⟩ := p4 i (by omega)
        refine ⟨b, b', r1, ?_, ?_, r4, r5⟩
        · rw [q6, List.getElem?_set_ne (Ne.symm hij)]; exact r2
        · rw [q5, List.getElem?_set_ne (Ne.symm hij)]; exact r3
    · intro i hi
      rw [q6, q5, List.getElem?_set_ne (by omega), List.getElem?_set_ne (by omega)]
      exact p5 i (by omega)
  · refine ⟨length_resize _ _ _, rfl, fun hc => absurd rfl hc, fun i hi => by omega,
      fun i _ => ⟨rfl, fun hi => ?_⟩⟩
    simp only [getElem?_resize, hi, if_true]
    rfl

/-- A successful `integration_normalize` computes for every station `i`
the norm `n_i = max(1, (Σ_{k=0..fft_size} Re(auto_i,k)) / (fft_size / oversamp))`,
replaces every bin `0 .. fft_size` of the autocorrelation of station `i` by
its real part divided by `n_i`, and divides every such bin of every cross
baseline `(a, b)` by `sqrt(n_a * n_b)`; nothing else changes in the
accumulators. The divisor `fft_size / oversamp` is the quotient of the two
integers as the code computes it, which is their exact ratio whenever
`oversamp` divides `fft_size`. -/
theorem integration_normalize_partial [LinearOrderedField R] (sqrt : R → R)
    (s s' : Correlation_core R) (h : integration_normalize sqrt s = some s') :
    ∃ norms : List R, norms.length = n_stations s ∧
      s'.accumulation_buffers.length = s.accumulation_buffers.length ∧
      (∀ i, i < n_stations s → ∃ buffer buffer',
        s.accumulation_buffers[i]? = some buffer ∧
        s'.accumulation_buffers[i]? = some buffer' ∧
        norms[i]? = some (max 1 (((buffer.take (fft_size s + 1)).map Cplx.re).sum /
          ((fft_size s / s.oversamp : Nat) : R))) ∧
        buffer'.length = buffer.length ∧
        ∀ k, (k ≤ fft_size s → ∃ c n, buffer[k]? = some c ∧ norms[i]? = some n ∧
                buffer'[k]? = some ⟨c.re / n, 0⟩) ∧
             (fft_size s < k → buffer'[k]? = buffer[k]?)) ∧
      (∀ i, n_stations s ≤ i → i < s.baselines.length → ∃ a b na nb buffer buffer',
        s.baselines[i]? = some (a, b) ∧ norms[a]? = some na ∧ norms[b]? = some nb ∧
        s.accumulation_buffers[i]? = some buffer ∧
        s'.accumulation_buffers[i]? = some buffer' ∧
        buffer'.length = buffer.length ∧
        ∀ k, (k ≤ fft_size s → ∃ c, buffer[k]? = some c ∧
                buffer'[k]? = some ⟨c.re / sqrt (na * nb), c.im / sqrt (na * nb)⟩) ∧
             (fft_size s < k → buffer'[k]? = buffer[k]?)) ∧
      (∀ i, n_stations s ≤ i → s.baselines.length ≤ i →
        s'.accumulation_buffers[i]? = s.accumulation_buffers[i]?) ∧
      (s.oversamp ∣ fft_size s → s.oversamp ≠ 0 →
        ((fft_size s / s.oversamp : Nat) : R) = (fft_size s : R) / (s.oversamp : R)) := by
  have hexact : s.oversamp ∣ fft_size s → s.oversamp ≠ 0 →
      ((fft_size s / s.oversamp : Nat) : R) = (fft_size s : R) / (s.oversamp : R) := by
    intro hd hne
    exact Nat.cast_div hd (by exact_mod_cast hne)
  unfold integration_normalize at h
  simp only [] at h
  split at h
  swap
  · cases h
  rename_i norms mid hst
  obtain ⟨a1, a2, _, a4, a5⟩ := integration_normalize_autos_spec s norms mid hst
  split at h
  swap
  · cases h
  rename_i buffers hcr
  simp only [Option.some.injEq] at h
  subst h
  simp only []
  refine ⟨norms, a1, ?_⟩
  by_cases hle : n_stations s ≤ s.baselines.length
  · have cross := for_loop_opt_pointwise
      (fun i (buffer : Complex_buffer R) =>
        match s.baselines[i]? with
        | some stations =>
          match norms[stations.1]?, norms[stations.2]? with
          | some n1, some n2 =>
            for_loop_opt 0 (fft_size s + 1) (fun i buffer =>
              match buffer[i]? with
              | some c => some (buffer.set i (c.div_real (sqrt (n1 * n2))))
              | none => none) buffer
          | _, _ => none
        | none => none)
      (n_stations s) s.baselines.length _ ?_ mid buffers hle hcr
    swap
    · intro i t
      cases h2 : s.baselines[i]? with
      | none => cases h1 : t[i]? <;> simp only [h2, Option.some_bind, Option.none_bind,
          Option.map_none']
      | some st =>
        cases h3 : norms[st.1]? with
        | none => cases h1 : t[i]? <;> simp only [h2, h3, Option.some_bind,
            Option.none_bind, Option.map_none']
        | some n1 =>
          cases h4 : norms[st.2]? with
          | none => cases h1 : t[i]? <;> simp only [h2, h3, h4, Option.some_bind,
              Option.none_bind, Option.map_none']
          | some n2 =>
            cases h1 : t[i]? with
            | none => simp only [h2, h3, h4, Option.none_bind]
            | some buffer =>
              simp only [h2, h3, h4, Option.some_bind]
              split <;> rename_i hres <;> simp only [hres, Option.map_some', Option.map_none']
    refine ⟨by rw [cross.1, a2], ?_, ?_, ?_, hexact⟩
    · intro i hi
      obtain ⟨b, b', r1, r2, r3, r4, r5⟩ := a4 i hi
      refine ⟨b, b', r1, ?_, r3, r4, ?_⟩
      · rw [(cross.2 i).2 (Or.inl hi)]; exact r2
      · intro k
        refine ⟨fun hk => ?_, (r5 k).2⟩
        obtain ⟨c, c1, c2⟩ := (r5 k).1 hk
        exact ⟨c, _, c1, r3, c2⟩
    · intro i hi1 hi2
      obtain ⟨buffer, buffer', r1, r2, r3⟩ := (cross.2 i).1 hi1 hi2
      rw [a5 i hi1] at r1
      cases h2 : s.baselines[i]? with
      | none => simp only [h2] at r2; cases r2
      | some st =>
        obtain ⟨a, b⟩ := st
        cases h3 : norms[a]? with
        | none => simp only [h2, h3] at r2; cases r2
        | some na =>
          cases h4 : norms[b]? with
          | none => simp only [h2, h3, h4] at r2; cases r2
          | some nb =>
            simp only [h2, h3, h4] at r2
            obtain ⟨m1, m2⟩ := map_loop_spec _ _ buffer buffer' r2
            refine ⟨a, b, na, nb, buffer, buffer', rfl, h3, h4, r1, r3, m1, ?_⟩
            intro k
            refine ⟨fun hk => ?_, fun hk => (m2 k).2 (by omega)⟩
            obtain ⟨c, c1, c2⟩ := (m2 k).1 (by omega)
            exact ⟨c, c1, c2⟩
    · intro i hi1 hi2
      rw [(cross.2 i).2 (Or.inr hi2), a5 i hi1]
  · rw [for_loop_opt_done _ _ _ _ (by omega)] at hcr
    simp only [Option.some.injEq] at hcr
    subst hcr
    refine ⟨a2, ?_, fun i hi1 hi2 => by omega, fun i hi1 _ => a5 i hi1, hexact⟩
    intro i hi
    obtain ⟨b, b', r1, r2, r3, r4, r5⟩ := a4 i hi
    refine ⟨b, b', r1, r2, r3, r4, ?_⟩
    intro k
    refine ⟨fun hk => ?_, (r5 k).2⟩
    obtain ⟨c, c1, c2⟩ := (r5 k).1 hk
    exact ⟨c, _, c1, r3, c2⟩

end Correlation_core

namespace Correlation_core

variable {R : Type}

/-- A loop whose iterations keep the length of a list keeps it. -/
theorem for_loop_opt_length {α : Type} (lo hi : Nat) (body : Nat → List α → Option (List α))
    (hbody : ∀ i t t', body i t = some t' → t'.length = t.length)
    (l l' : List α) (h : for_loop_opt lo hi body l = some l') : l'.length = l.length := by
  by_cases hle : lo ≤ hi
  · exact for_loop_opt_inv (fun _ (t : List α) => t.length = l.length) hi body
      (fun i t t' _ ht hb => (hbody i t t' hb).trans ht) (hi - lo) lo l l' rfl hle rfl h
  · rw [for_loop_opt_done lo hi body l (by omega)] at h
    cases h
    rfl

/-- The averaging loop keeps the length of `integration_buffer_float`. -/
theorem integration_write_average_length [LinearOrderedField R] (s : Correlation_core R)
    (n : Nat) (buffer : Complex_buffer R) (float_buffer float_buffer' : List (Cplx R))
    (h : integration_write_average s n buffer float_buffer = some float_buffer') :
    float_buffer'.length = float_buffer.length := by
  unfold integration_write_average at h
  refine for_loop_opt_length _ _ _ ?_ _ _ h
  intro j t t' hb
  split at hb
  swap
  · cases hb
  split at hb
  swap
  · cases hb
  split at hb
  swap
  · cases hb
  split at hb
  · cases hb
  · simp only [Option.some.injEq] at hb
    rw [← hb, List.length_set]

/-- The chunks of one baseline: its header and its data. -/
theorem integration_write_baselines_spec [LinearOrderedField R] (s : Correlation_core R)
    (polarisation : Int) (table : List Int) (n : Nat)
    (float_buffer float_buffer' : List (Cplx R)) (written written' : List (Output_chunk R))
    (h : integration_write_baselines s polarisation table n (float_buffer, written) =
      some (float_buffer', written')) :
    float_buffer'.length = float_buffer.length ∧
    ∃ blocks : List (Output_header_baseline × List (Cplx R)),
      blocks.length = s.baselines.length ∧
      written' = written ++ blocks.flatMap (fun b =>
        [Output_chunk.baseline_header b.1, Output_chunk.baseline_data b.2]) ∧
      ∀ i, i < s.baselines.length → ∃ stations buffer previous averaged hbaseline,
        s.baselines[i]? = some stations ∧ s.accumulation_buffers[i]? = some buffer ∧
        previous.length = float_buffer.length ∧
        integration_write_average s n buffer previous = some averaged ∧
        integration_write_header s polarisation table stations = some hbaseline ∧
        blocks[i]? = some (hbaseline, averaged.take (number_channels s + 1)) := by
  unfold integration_write_baselines at h
  have key := for_loop_opt_inv
    (fun j (t : List (Cplx R) × List (Output_chunk R)) =>
      t.1.length = float_buffer.length ∧
      ∃ blocks : List (Output_header_baseline × List (Cplx R)),
        blocks.length = j ∧
        t.2 = written ++ blocks.flatMap (fun b =>
          [Output_chunk.baseline_header b.1, Output_chunk.baseline_data b.2]) ∧
        ∀ i, i < j → ∃ stations buffer previous averaged hbaseline,
          s.baselines[i]? = some stations ∧ s.accumulation_buffers[i]? = some buffer ∧
          previous.length = float_buffer.length ∧
          integration_write_average s n buffer previous = some averaged ∧
          integration_write_header s polarisation table stations = some hbaseline ∧
          blocks[i]? = some (hbaseline, averaged.take (number_channels s + 1)))
    s.baselines.length _ ?_ (s.baselines.length - 0) 0 _ _ rfl (by omega) ?_ h
  · exact key
  · rintro j ⟨fb, w⟩ ⟨fb', w'⟩ hj ⟨p1, blocks, p2, p3, p4⟩ hb
    simp only [] at p1 p3 hb ⊢
    cases hst : s.baselines[j]? with
    | none => simp only [hst] at hb; cases hb
    | some stations =>
      cases hbuf : s.accumulation_buffers[j]? with
      | none => simp only [hst, hbuf] at hb; cases hb
      | some buffer =>
        simp only [hst, hbuf] at hb
        cases hav : integration_write_average s n buffer fb with
        | none => simp only [hav] at hb; cases hb
        | some averaged =>
          simp only [hav] at hb
          cases hhd : integration_write_header s polarisation table stations with
          | none => simp only [hhd] at hb; cases hb
          | some hbaseline =>
            simp only [hhd, Option.some.injEq, Prod.mk.injEq] at hb
            obtain ⟨e1, e2⟩ := hb
            have hlen := integration_write_average_length s n buffer fb averaged hav
            refine ⟨by rw [← e1, hlen, p1],
              blocks ++ [(hbaseline, averaged.take (number_channels s + 1))],
              by simp [p2], ?_, ?_⟩
            · rw [← e2, p3]
              simp [push_back, List.flatMap_append]
            · intro i hi
              by_cases hij : i = j
              · subst hij
                refine ⟨stations, buffer, fb, averaged, hbaseline, hst, hbuf, p1, hav, hhd, ?_⟩
                rw [List.getElem?_append_right (by omega)]
                simp [p2]
              · obtain ⟨a, b, c, d, e, q1, q2, q3, q4, q5, q6⟩ := p4 i (by omega)
                refine ⟨a, b, c, d, e, q1, q2, q3, q4, q5, ?_⟩
                rw [List.getElem?_append_left (by omega)]
                exact q6
  · exact ⟨rfl, [], rfl, by simp, fun i hi => by omega⟩

end Correlation_core

namespace Correlation_core

variable {R : Type}

/-- The part of `integration_write` after the polarisation code and
`stream2station` have been determined. -/
theorem integration_write_spec_aux [LinearOrderedField R] (s s' : Correlation_core R)
    (old : List (Output_chunk R)) (polarisation : Int) (table : List Int)
    (hw : s.writer = some old) (htab : stream2station s = some table)
    (hp1 : polarisation = 0 ∨ polarisation = 1)
    (hp2 : polarisation = 0 ↔ s.correlation_parameters.polarisation = 'R')
    (h : (match integration_write_uvw s table, integration_write_stats s polarisation table with
      | some uvw, some stats =>
        let htimeslice : Output_header_timeslice :=
          { number_baselines := s.baselines.length
            integration_slice := s.correlation_parameters.integration_nr + s.current_integration
            number_uvw_coordinates := s.uvw_tables.length
            number_statistics := s.input_buffers.length }
        let written := push_back old (Output_chunk.timeslice htimeslice)
        let written := push_back written (Output_chunk.uvw uvw)
        let written := push_back written (Output_chunk.stats stats)
        let float_buffer := resize s.integration_buffer_float (number_channels s + 1) Cplx.zero
        if number_channels s = 0 then none
        else
          let n := fft_size s / number_channels s
          match integration_write_baselines s polarisation table n (float_buffer, written) with
          | some (float_buffer, written) =>
            some { s with integration_buffer_float := float_buffer, writer := some written }
          | none => none
      | _, _ => none) = some s') :
    ∃ uvw stats float_buffer',
    ∃ blocks : List (Output_header_baseline × List (Cplx R)),
      s.writer = some old ∧
      (polarisation = 0 ∨ polarisation = 1) ∧
      (polarisation = 0 ↔ s.correlation_parameters.polarisation = 'R') ∧
      stream2station s = some table ∧
      integration_write_uvw s table = some uvw ∧
      integration_write_stats s polarisation table = some stats ∧
      number_channels s ≠ 0 ∧
      s' = { s with
        integration_buffer_float := float_buffer'
        writer := some (old ++
          [Output_chunk.timeslice
            { number_baselines := s.baselines.length
              integration_slice := s.correlation_parameters.integration_nr +
                s.current_integration
              number_uvw_coordinates := s.uvw_tables.length
              number_statistics := s.input_buffers.length },
           Output_chunk.uvw uvw, Output_chunk.stats stats] ++
          blocks.flatMap (fun b =>
            [Output_chunk.baseline_header b.1, Output_chunk.baseline_data b.2])) } ∧
      blocks.length = s.baselines.length ∧
      ∀ i, i < s.baselines.length → ∃ stations buffer previous averaged hbaseline,
        s.baselines[i]? = some stations ∧ s.accumulation_buffers[i]? = some buffer ∧
        previous.length = number_channels s + 1 ∧
        integration_write_average s (fft_size s / number_channels s) buffer previous =
          some averaged ∧
        integration_write_header s polarisation table stations = some hbaseline ∧
        blocks[i]? = some (hbaseline, averaged.take (number_channels s + 1)) := by
  cases huvw : integration_write_uvw s table with
  | none => simp only [huvw] at h; cases h
  | some uvw =>
    cases hstats : integration_write_stats s polarisation table with
    | none => simp only [huvw, hstats] at h; cases h
    | some stats =>
      simp only [huvw, hstats] at h
      by_cases hnc : number_channels s = 0
      · simp only [hnc, if_true] at h; cases h
      simp only [hnc, if_false] at h
      split at h
      swap
      · cases h
      rename_i float_buffer' written' hbl
      simp only [Option.some.injEq] at h
      obtain ⟨b1, blocks, b2, b3, b4⟩ := integration_write_baselines_spec s polarisation
        table _ _ float_buffer' _ written' hbl
      refine ⟨uvw, stats, float_buffer', blocks, hw, hp1, hp2, htab, rfl, rfl, hnc,
        ?_, b2, ?_⟩
      · rw [← h, b3]
        simp [push_back]
      · intro i hi
        obtain ⟨a, b, c, d, e, q1, q2, q3, q4, q5, q6⟩ := b4 i hi
        refine ⟨a, b, c, d, e, q1, q2, ?_, q4, q5, q6⟩
        rw [q3, length_resize]

/-- What a successful `integration_write` writes and changes. -/
theorem integration_write_spec [LinearOrderedField R] (s s' : Correlation_core R)
    (h : integration_write s = some s') :
    ∃ old polarisation table uvw stats float_buffer',
    ∃ blocks : List (Output_header_baseline × List (Cplx R)),
      s.writer = some old ∧
      (polarisation = 0 ∨ polarisation = 1) ∧
      (polarisation = 0 ↔ s.correlation_parameters.polarisation = 'R') ∧
      stream2station s = some table ∧
      integration_write_uvw s table = some uvw ∧
      integration_write_stats s polarisation table = some stats ∧
      number_channels s ≠ 0 ∧
      s' = { s with
        integration_buffer_float := float_buffer'
        writer := some (old ++
          [Output_chunk.timeslice
            { number_baselines := s.baselines.length
              integration_slice := s.correlation_parameters.integration_nr +
                s.current_integration
              number_uvw_coordinates := s.uvw_tables.length
              number_statistics := s.input_buffers.length },
           Output_chunk.uvw uvw, Output_chunk.stats stats] ++
          blocks.flatMap (fun b =>
            [Output_chunk.baseline_header b.1, Output_chunk.baseline_data b.2])) } ∧
      blocks.length = s.baselines.length ∧
      ∀ i, i < s.baselines.length → ∃ stations buffer previous averaged hbaseline,
        s.baselines[i]? = some stations ∧ s.accumulation_buffers[i]? = some buffer ∧
        previous.length = number_channels s + 1 ∧
        integration_write_average s (fft_size s / number_channels s) buffer previous =
          some averaged ∧
        integration_write_header s polarisation table stations = some hbaseline ∧
        blocks[i]? = some (hbaseline, averaged.take (number_channels s + 1)) := by
  unfold integration_write at h
  cases hw : s.writer with
  | none => simp only [hw] at h; cases h
  | some old =>
    simp only [hw] at h
    by_cases hlen : s.accumulation_buffers.length = s.baselines.length
    swap
    · simp only [hlen, if_false] at h; cases h
    simp only [hlen, if_true] at h
    by_cases hR : s.correlation_parameters.polarisation = 'R'
    · cases htab : stream2station s with
      | none => simp only [hR, if_true, htab] at h; cases h
      | some table =>
        simp only [hR, if_true, htab] at h
        obtain ⟨uvw, stats, fb, blocks, _, r2, r3, _, rest⟩ :=
          integration_write_spec_aux s s' old 0 table hw htab (Or.inl rfl) (by simp [hR]) h
        exact ⟨old, 0, table, uvw, stats, fb, blocks, rfl, r2, r3, rfl, rest⟩
    · by_cases hL : s.correlation_parameters.polarisation = 'L'
      · cases htab : stream2station s with
        | none => simp only [hR, hL, if_true, if_false, htab] at h; cases h
        | some table =>
          simp only [hR, hL, if_true, if_false, htab] at h
          obtain ⟨uvw, stats, fb, blocks, _, r2, r3, _, rest⟩ :=
            integration_write_spec_aux s s' old 1 table hw htab (Or.inr rfl) (by simp [hR]) h
          exact ⟨old, 1, table, uvw, stats, fb, blocks, rfl, r2, r3, rfl, rest⟩
      · simp only [hR, hL, if_false] at h
        cases h

/-- For every baseline a successful `integration_write` emits
the baseline header followed by exactly `number_channels + 1` complex values;
that is `fft_size + 1` values when `number_channels = fft_size`. -/
theorem integration_write_data_length_partial [LinearOrderedField R] (s s' : Correlation_core R)
    (h : integration_write s = some s') :
    ∃ old timeslice uvw stats, ∃ blocks : List (Output_header_baseline × List (Cplx R)),
      s.writer = some old ∧
      s'.writer = some (old ++
        [Output_chunk.timeslice timeslice, Output_chunk.uvw uvw, Output_chunk.stats stats] ++
        blocks.flatMap (fun b =>
          [Output_chunk.baseline_header b.1, Output_chunk.baseline_data b.2])) ∧
      blocks.length = s.baselines.length ∧
      (∀ b ∈ blocks, b.2.length = number_channels s + 1) ∧
      (number_channels s = fft_size s → ∀ b ∈ blocks, b.2.length = fft_size s + 1) := by
  obtain ⟨old, polarisation, table, uvw, stats, float_buffer', blocks, h1, _, _, _, _, _, _,
    h2, h3, h4⟩ := integration_write_spec s s' h
  have hlen : ∀ b ∈ blocks, b.2.length = number_channels s + 1 := by
    intro b hb
    obtain ⟨i, hi, hbi⟩ := List.getElem_of_mem hb
    have hi' : i < s.baselines.length := by omega
    obtain ⟨_, buffer, previous, averaged, hbaseline, _, _, q3, q4, _, q6⟩ := h4 i hi'
    rw [List.getElem?_eq_getElem hi, hbi] at q6
    simp only [Option.some.injEq] at q6
    rw [q6]
    have := integration_write_average_length s _ buffer previous averaged q4
    simp only [List.length_take]
    omega
  refine ⟨old,
    { number_baselines := s.baselines.length
      integration_slice := s.correlation_parameters.integration_nr + s.current_integration
      number_uvw_coordinates := s.uvw_tables.length
      number_statistics := s.input_buffers.length },
    uvw, stats, blocks, h1, ?_, h3, hlen, ?_⟩
  · rw [h2]
  · intro he b hb
    rw [hlen b hb, he]

end Correlation_core

namespace Correlation_core

variable {R : Type}

/-- `integration_initialise` changes the accumulators only. -/
theorem integration_initialise_frame [LinearOrderedField R] (s s' : Correlation_core R)
    (h : integration_initialise s = some s') :
    s' = { s with accumulation_buffers := s'.accumulation_buffers } := by
  unfold integration_initialise at h
  dsimp only at h
  repeat' split at h
  all_goals first
    | (cases h; done)
    | (simp only [Option.some.injEq] at h; rw [← h])

/-- The fetch loop changes the iterators and `check_input_elements` only. -/
theorem integration_step_fetch_frame (s s' : Correlation_core R)
    (h : integration_step_fetch s = some s') :
    s' = { s with input_elements := s'.input_elements,
                  check_input_elements := s'.check_input_elements } ∧
    (s'.check_input_elements = false) ∨ s' = s := by
  unfold integration_step_fetch at h
  split at h
  · split at h
    · simp only [Option.some.injEq] at h
      rw [← h]
      exact Or.inl ⟨rfl, rfl⟩
    · cases h
  · simp only [Option.some.injEq] at h
    exact Or.inr h.symm

/-- `integration_step` changes the iterators, the queues,
`check_input_elements` and the accumulators only. -/
theorem integration_step_frame [LinearOrderedField R] (s s' : Correlation_core R)
    (h : integration_step s = some s') :
    s' = { s with input_elements := s'.input_elements, input_buffers := s'.input_buffers,
                  check_input_elements := s'.check_input_elements,
                  accumulation_buffers := s'.accumulation_buffers } := by
  unfold integration_step at h
  simp only [] at h
  split at h
  swap
  · cases h
  rename_i s1 hf
  split at h
  swap
  · cases h
  rename_i buffers hc
  obtain ⟨a1, _⟩ := integration_step_advance_spec _ s' h
  have f1 : s1 = { s with input_elements := s1.input_elements,
                          check_input_elements := s1.check_input_elements } := by
    rcases integration_step_fetch_frame _ s1 hf with ⟨e, _⟩ | e
    · rw [e]
      split <;> rfl
    · rw [e]
      split <;> rfl
  rw [a1]
  simp only []
  rw [f1]

/-- `integration_normalize` changes the accumulators only. -/
theorem integration_normalize_frame [LinearOrderedField R] (sqrt : R → R)
    (s s' : Correlation_core R) (h : integration_normalize sqrt s = some s') :
    s' = { s with accumulation_buffers := s'.accumulation_buffers } := by
  unfold integration_normalize at h
  simp only [] at h
  split at h
  · split at h
    · simp only [Option.some.injEq] at h
      rw [← h]
    · cases h
  · cases h

/-- `integration_write` changes the float buffer and the writer only. -/
theorem integration_write_frame [LinearOrderedField R] (s s' : Correlation_core R)
    (h : integration_write s = some s') :
    s' = { s with integration_buffer_float := s'.integration_buffer_float,
                  writer := s'.writer } := by
  obtain ⟨_, _, _, _, _, _, _, _, _, _, _, _, _, _, h2, _⟩ := integration_write_spec s s' h
  rw [h2]

/-- The steps of a successful `do_task`. -/
theorem do_task_spec [LinearOrderedField R] (sqrt : R → R) (s s' : Correlation_core R)
    (h : do_task sqrt s = some s') :
    has_work s = some true ∧ s.number_ffts_in_integration ≠ 0 ∧
    ∃ s0 s1, (if s.current_fft % s.number_ffts_in_integration = 0
        then integration_initialise s else some s) = some s0 ∧
      s0 = { s with accumulation_buffers := s0.accumulation_buffers } ∧
      integration_step s0 = some s1 ∧
      s1.current_fft = s.current_fft ∧
      s1.number_ffts_in_integration = s.number_ffts_in_integration ∧
      s1.current_integration = s.current_integration ∧
      (s.current_fft + 1 ≠ s.number_ffts_in_integration →
        s' = { s1 with current_fft := s.current_fft + 1 }) ∧
      (s.current_fft + 1 = s.number_ffts_in_integration → ∃ s2 s3,
        integration_normalize sqrt { s1 with current_fft := s.current_fft + 1 } = some s2 ∧
        integration_write s2 = some s3 ∧
        s' = { s3 with current_integration := s.current_integration + 1 } ∧
        s3.current_fft = s.current_fft + 1 ∧
        s3.number_ffts_in_integration = s.number_ffts_in_integration) := by
  unfold do_task at h
  by_cases hw : has_work s = some true
  swap
  · simp only [hw, if_false] at h; cases h
  simp only [hw, if_true] at h
  by_cases hN : s.number_ffts_in_integration = 0
  · simp only [hN, if_true] at h; cases h
  simp only [hN, if_false] at h
  refine ⟨hw, hN, ?_⟩
  split at h
  swap
  · cases h
  rename_i s0 hi
  have f0 : s0 = { s with accumulation_buffers := s0.accumulation_buffers } := by
    split at hi
    · exact integration_initialise_frame s s0 hi
    · simp only [Option.some.injEq] at hi
      rw [← hi]
  split at h
  swap
  · cases h
  rename_i s1 hs
  have f1 := integration_step_frame s0 s1 hs
  have c1 : s1.current_fft = s.current_fft := by rw [f1, f0]
  have c2 : s1.number_ffts_in_integration = s.number_ffts_in_integration := by rw [f1, f0]
  have c3 : s1.current_integration = s.current_integration := by rw [f1, f0]
  refine ⟨s0, s1, hi, f0, hs, c1, c2, c3, ?_, ?_⟩
  · intro hne
    have hne' : ¬ (s1.current_fft + 1 = s1.number_ffts_in_integration) := by
      rw [c1, c2]; exact hne
    rw [if_neg hne'] at h
    simp only [Option.some.injEq] at h
    rw [← h, c1]
  · intro heq
    have heq' : s1.current_fft + 1 = s1.number_ffts_in_integration := by
      rw [c1, c2]; exact heq
    rw [if_pos heq'] at h
    split at h
    swap
    · cases h
    rename_i s2 hn
    split at h
    swap
    · cases h
    rename_i s3 hwr
    simp only [Option.some.injEq] at h
    have f2 := integration_normalize_frame sqrt _ s2 hn
    have f3 := integration_write_frame s2 s3 hwr
    have c4 : s3.current_integration = s.current_integration := by rw [f3, f2]; exact c3
    have c5 : s3.current_fft = s.current_fft + 1 := by rw [f3, f2, ← c1]
    have c6 : s3.number_ffts_in_integration = s.number_ffts_in_integration := by
      rw [f3, f2]; exact c2
    refine ⟨s2, s3, ?_, hwr, ?_, c5, c6⟩
    · rw [← c1]; exact hn
    · rw [← h, c4]

end Correlation_core

namespace Correlation_core

variable {R : Type}

/-- When a successful `do_task` call brings `current_fft` to
`number_ffts_in_integration`, it runs `integration_normalize` and then
`integration_write` on the result of its step within that call; when it
returns, `current_fft` equals `number_ffts_in_integration` (it is not reset,
so `finished()` holds) and `current_integration` is one more than before. -/
theorem do_task_completes_integration_partial [LinearOrderedField R] (sqrt : R → R)
    (s s' : Correlation_core R) (h : do_task sqrt s = some s')
    (hlast : s.current_fft + 1 = s.number_ffts_in_integration) :
    (∃ s0 s1 s2 s3,
      (if s.current_fft % s.number_ffts_in_integration = 0
        then integration_initialise s else some s) = some s0 ∧
      integration_step s0 = some s1 ∧
      integration_normalize sqrt { s1 with current_fft := s.current_fft + 1 } = some s2 ∧
      integration_write s2 = some s3 ∧
      s' = { s3 with current_integration := s.current_integration + 1 }) ∧
    s'.current_fft = s.number_ffts_in_integration ∧
    finished s' = true ∧
    s'.number_ffts_in_integration = s.number_ffts_in_integration ∧
    s'.current_integration = s.current_integration + 1 := by
  obtain ⟨_, _, s0, s1, h0, _, h1, _, _, _, _, hfin⟩ := do_task_spec sqrt s s' h
  obtain ⟨s2, s3, h2, h3, h4, h5, h6⟩ := hfin hlast
  have hc : s'.current_fft = s.number_ffts_in_integration := by rw [h4, ← hlast]; exact h5
  have hn : s'.number_ffts_in_integration = s.number_ffts_in_integration := by rw [h4]; exact h6
  refine ⟨⟨s0, s1, s2, s3, h0, h1, h2, h3, h4⟩, hc, ?_, hn, by rw [h4]⟩
  unfold finished
  rw [hc, hn]
  simp

/-- C8 as stated fails: the `do_task` call that completes the integration of
the example core returns with `current_fft = 2`, the number of FFTs in the
integration, not 0. -/
theorem do_task_completes_integration_counterexample :
    ¬ (∀ s s' : Correlation_core ℚ, do_task example_sqrt s = some s' →
        s.current_fft + 1 = s.number_ffts_in_integration →
        s'.current_fft = 0 ∧ s'.current_integration = s.current_integration + 1) := by
  intro hall
  have h : ∃ s s' : Correlation_core ℚ,
      example_configured.bind (do_task example_sqrt) = some s ∧
      do_task example_sqrt s = some s' ∧
      s.current_fft + 1 = s.number_ffts_in_integration ∧ s'.current_fft = 2 :=
    ⟨_, _, rfl, rfl, rfl, rfl⟩
  obtain ⟨s, s', _, h1, h2, h3⟩ := h
  have := (hall s s' h1 h2).1
  omega

end Correlation_core

namespace Correlation_core

variable {R : Type}

/-- The iterators after a successful fetch loop. -/
theorem integration_step_fetch_elements (s s1 : Correlation_core R)
    (hlen : s.input_elements.length = number_input_streams_in_use s)
    (h : integration_step_fetch s = some s1) :
    s1.input_buffers = s.input_buffers ∧
    s1.correlation_parameters = s.correlation_parameters ∧
    s1.baselines = s.baselines ∧
    s1.check_input_elements = false ∧
    ∀ i, i < number_input_streams_in_use s → ∃ it, s.input_elements[i]? = some it ∧
      s1.input_elements[i]? = some ⟨
        if it.valid then it.remaining
        else if s.check_input_elements then
          match s.input_buffers[i]? with
          | some (some (front :: _)) => front.data
          | _ => []
        else []⟩ := by
  unfold integration_step_fetch at h
  by_cases hc : s.check_input_elements = true
  · simp only [hc, if_true] at h
    split at h
    swap
    · cases h
    rename_i elements hl
    simp only [Option.some.injEq] at h
    subst h
    have key := for_loop_opt_pointwise
      (fun i (it : Input_element R) =>
        if !it.valid then
          match s.input_buffers[i]? with
          | some (some (front :: _)) => some (Input_element.set front.data)
          | _ => none
        else some it)
      0 (number_input_streams_in_use s) _ ?_ s.input_elements elements (by omega) hl
    · refine ⟨rfl, rfl, rfl, rfl, ?_⟩
      intro i hi
      obtain ⟨x, y, h1, h2, h3⟩ := (key.2 i).1 (by omega) hi
      refine ⟨x, h1, ?_⟩
      rw [h3]
      by_cases hv : x.valid = true
      · simp only [hv, Bool.not_true, Bool.false_eq_true, if_false, Option.some.injEq] at h2
        subst h2
        simp [hv]
      · have hv' : x.valid = false := by simpa using hv
        simp only [hv', Bool.not_false, if_true] at h2
        simp only [hv', Bool.false_eq_true, if_false, if_true]
        split at h2
        · simp only [Option.some.injEq] at h2
          subst h2
          rename_i heq
          simp [heq, hc, Input_element.set]
        · cases h2
    · intro i t
      cases h1 : t[i]? with
      | none => rfl
      | some it =>
        simp only [Option.some_bind]
        by_cases hv : it.valid = true
        · have : t.set i it = t := by
            apply List.ext_getElem?
            intro j
            by_cases hij : i = j
            · subst hij
              rw [List.getElem?_set]
              simp only [h1, if_true]
              rw [if_pos]
              by_contra hlt
              have := List.getElem?_eq_none (Nat.le_of_not_lt hlt)
              rw [this] at h1; cases h1
            · rw [List.getElem?_set_ne hij]
          simp [hv, this]
        · have hv' : it.valid = false := by simpa using hv
          simp only [hv', Bool.not_false, if_true]
          split <;> simp_all
  · have hc' : s.check_input_elements = false := by simpa using hc
    simp only [hc', Bool.false_eq_true, if_false, Option.some.injEq] at h
    subst h
    refine ⟨rfl, rfl, rfl, hc', ?_⟩
    intro i hi
    have hi' : i < s.input_elements.length := by omega
    refine ⟨s.input_elements[i], List.getElem?_eq_getElem hi', ?_⟩
    rw [List.getElem?_eq_getElem hi']
    have hEq : ∀ it : Input_element R, it = ⟨
        if it.valid then it.remaining
        else if s.check_input_elements then
          match s.input_buffers[i]? with
          | some (some (front :: _)) => front.data
          | _ => []
        else []⟩ := by
      intro it
      obtain ⟨rem⟩ := it
      cases rem with
      | nil => simp [Input_element.valid, hc']
      | cons a t => simp [Input_element.valid]
    exact congrArg some (hEq _)

/-- The correlation loops succeed only when every iterator they read is
valid; with the baselines of `create_baselines` that is every stream in use. -/
theorem integration_step_correlate_valid [LinearOrderedField R] (s : Correlation_core R)
    (buffers buffers' : List (Complex_buffer R))
    (hbl : ∀ i, i < number_input_streams_in_use s → s.baselines[i]? = some (i, i))
    (h : integration_step_correlate s buffers = some buffers') :
    ∀ i, i < number_input_streams_in_use s → ∃ it x rest,
      s.input_elements[i]? = some it ∧ it.remaining = x :: rest := by
  obtain ⟨_, _, c3, _, _⟩ := integration_step_correlate_spec s buffers buffers' h
  intro i hi
  obtain ⟨a, in1, _, _, b1, b2, _⟩ := c3 i hi
  rw [hbl i hi] at b1
  simp only [Option.some.injEq, Prod.mk.injEq] at b1
  obtain ⟨rfl, _⟩ := b1
  cases hit : s.input_elements[i]? with
  | none => rw [hit] at b2; cases b2
  | some it =>
    rw [hit] at b2
    simp only [Option.some_bind, Input_element.current] at b2
    cases hr : it.remaining with
    | nil => rw [hr] at b2; cases b2
    | cons x rest => exact ⟨it, x, rest, rfl, hr⟩

/-- What a successful `integration_step` does to the input streams in use, when
the first baselines are the autocorrelations: each stream gives up the first
spectrum of its current element, and its queue is popped exactly when that
was the last spectrum of the element. -/
theorem integration_step_streams [LinearOrderedField R] (s s' : Correlation_core R)
    (hbl : ∀ i, i < number_input_streams_in_use s → s.baselines[i]? = some (i, i))
    (h : integration_step s = some s') :
    (∀ i, i < number_input_streams_in_use s → ∃ x rest,
      current_element s i = x :: rest ∧
      s'.input_elements[i]? = some ⟨rest⟩ ∧
      (rest ≠ [] → s'.input_buffers[i]? = s.input_buffers[i]?) ∧
      (rest = [] → ∃ front queue, s.input_buffers[i]? = some (some (front :: queue)) ∧
        s'.input_buffers[i]? = some (some queue))) ∧
    (∀ i, number_input_streams_in_use s ≤ i →
      s'.input_buffers[i]? = s.input_buffers[i]?) ∧
    (s'.check_input_elements = true ↔
      ∃ i x, i < number_input_streams_in_use s ∧ current_element s i = [x]) := by
  unfold integration_step at h
  dsimp only at h
  split at h
  swap
  · cases h
  rename_i s1 hf
  split at h
  swap
  · cases h
  rename_i buffers hc
  -- the resized state
  have hres : ∃ s0 : Correlation_core R, integration_step_fetch s0 = some s1 ∧
      s0.input_elements.length = number_input_streams_in_use s ∧
      s0.input_buffers = s.input_buffers ∧
      s0.correlation_parameters = s.correlation_parameters ∧
      s0.baselines = s.baselines ∧
      s0.check_input_elements = s.check_input_elements ∧
      ∀ i, i < number_input_streams_in_use s →
        s0.input_elements[i]? = some ((s.input_elements[i]?).getD Input_element.invalid) := by
    by_cases hl : s.input_elements.length = number_input_streams_in_use s
    · rw [if_neg (by simpa using hl)] at hf
      refine ⟨s, hf, hl, rfl, rfl, rfl, rfl, ?_⟩
      intro i hi
      rw [List.getElem?_eq_getElem (by omega)]
      rfl
    · rw [if_pos (by simpa using hl)] at hf
      refine ⟨_, hf, length_resize _ _ _, rfl, rfl, rfl, rfl, ?_⟩
      intro i hi
      simp only [getElem?_resize, hi, if_true]
  obtain ⟨s0, hf0, r1, r2, r3, r4, r5, r6⟩ := hres
  have hn0 : number_input_streams_in_use s0 = number_input_streams_in_use s := by
    unfold number_input_streams_in_use; rw [r3]
  obtain ⟨f1, f2, f3, f4, f5⟩ := integration_step_fetch_elements s0 s1 (by rw [r1, hn0]) hf0
  have hn1 : number_input_streams_in_use s1 = number_input_streams_in_use s := by
    unfold number_input_streams_in_use; rw [f2, r3]
  have hvalid := integration_step_correlate_valid s1 _ buffers
    (by rw [hn1, f3, r4]; exact hbl) hc
  rw [hn1] at hvalid
  obtain ⟨a1, a2, a3, a4, a5, a6⟩ := integration_step_advance_spec _ s' h
  have hnB : number_input_streams_in_use
      { s1 with accumulation_buffers := buffers } = number_input_streams_in_use s := hn1
  rw [hnB] at a4 a5 a6
  -- the iterator of stream `i` after the fetch loop covers `current_element s i`
  have hcur : ∀ i, i < number_input_streams_in_use s → ∀ it,
      s1.input_elements[i]? = some it → it.remaining = current_element s i := by
    intro i hi it hit
    obtain ⟨it0, g1, g2⟩ := f5 i (by rw [hn0]; exact hi)
    rw [r6 i hi] at g1
    simp only [Option.some.injEq] at g1
    rw [hit] at g2
    simp only [Option.some.injEq] at g2
    rw [g2]
    unfold current_element
    simp only [hi, if_true, r2, r5, g1]
  refine ⟨?_, ?_, ?_⟩
  · intro i hi
    obtain ⟨it, x, rest, v1, v2⟩ := hvalid i hi
    obtain ⟨it', b1, b2, b3, b4⟩ := a4 i hi
    rw [v1] at b1
    simp only [Option.some.injEq] at b1
    subst b1
    have hadv : it.advance = ⟨rest⟩ := by
      unfold Input_element.advance
      rw [v2]
      rfl
    refine ⟨x, rest, by rw [← hcur i hi it v1, v2], by rw [b2, hadv], ?_, ?_⟩
    · intro hne
      have hv : it.advance.valid = true := by
        rw [hadv]
        unfold Input_element.valid
        cases rest with
        | nil => exact absurd rfl hne
        | cons a t => rfl
      rw [b3 hv]
      show s1.input_buffers[i]? = s.input_buffers[i]?
      rw [f1, r2]
    · intro he
      have hv : it.advance.valid = false := by
        rw [hadv, he]
        rfl
      obtain ⟨front, queue, e1, e2⟩ := b4 hv
      change s1.input_buffers[i]? = _ at e1
      rw [f1, r2] at e1
      exact ⟨front, queue, e1, e2⟩
  · intro i hi
    rw [(a5 i hi).2]
    show s1.input_buffers[i]? = s.input_buffers[i]?
    rw [f1, r2]
  · rw [a6]
    simp only [f4, Bool.false_eq_true, false_or]
    constructor
    · rintro ⟨i, it, hi, e1, e2⟩
      obtain ⟨it', x, rest, v1, v2⟩ := hvalid i hi
      change s1.input_elements[i]? = _ at e1
      rw [v1] at e1
      simp only [Option.some.injEq] at e1
      subst e1
      refine ⟨i, x, hi, ?_⟩
      rw [← hcur i hi it' v1, v2]
      unfold Input_element.advance Input_element.valid at e2
      rw [v2] at e2
      cases rest with
      | nil => rfl
      | cons a t => simp at e2
    · rintro ⟨i, x, hi, e⟩
      obtain ⟨it, x', rest, v1, v2⟩ := hvalid i hi
      refine ⟨i, it, hi, v1, ?_⟩
      have := hcur i hi it v1
      rw [e] at this
      unfold Input_element.advance Input_element.valid
      rw [this]
      rfl

end Correlation_core

namespace Correlation_core

variable {R : Type}

theorem has_work_loop_iff (s : Correlation_core R) (fuel i : Nat) :
    has_work_loop s i fuel = some true ↔
      ∀ j, i ≤ j → j < i + fuel → ∃ front rest,
        s.input_buffers[j]? = some (some (front :: rest)) := by
  induction fuel generalizing i with
  | zero =>
    simp only [has_work_loop, true_iff]
    intro j h1 h2
    omega
  | succ k ih =>
    unfold has_work_loop
    cases hq : s.input_buffers[i]? with
    | none =>
      simp only [false_iff, reduceCtorEq]
      intro hall
      obtain ⟨f, r, e⟩ := hall i (le_refl i) (by omega)
      rw [hq] at e; cases e
    | some q =>
      cases q with
      | none =>
        simp only [false_iff, reduceCtorEq]
        intro hall
        obtain ⟨f, r, e⟩ := hall i (le_refl i) (by omega)
        rw [hq] at e; cases e
      | some queue =>
        cases queue with
        | nil =>
          simp only [List.isEmpty_nil, if_true, Option.some.injEq, Bool.false_eq_true,
            false_iff]
          intro hall
          obtain ⟨f, r, e⟩ := hall i (le_refl i) (by omega)
          rw [hq] at e; cases e
        | cons front rest =>
          simp only [List.isEmpty_cons, Bool.false_eq_true, if_false]
          rw [ih (i + 1)]
          constructor
          · intro hall j h1 h2
            by_cases hij : j = i
            · subst hij
              exact ⟨front, rest, hq⟩
            · exact hall j (by omega) (by omega)
          · intro hall j h1 h2
            exact hall j (by omega) (by omega)

theorem all_queues_nonempty_iff (s : Correlation_core R) :
    all_queues_nonempty s = true ↔
      ∀ j, j < number_input_streams_in_use s → ∃ front rest,
        s.input_buffers[j]? = some (some (front :: rest)) := by
  unfold all_queues_nonempty
  rw [List.all_eq_true]
  constructor
  · intro hall j hj
    have := hall j (List.mem_range.mpr hj)
    split at this
    · rename_i front rest heq
      exact ⟨front, rest, heq⟩
    · cases this
  · intro hall j hj
    obtain ⟨front, rest, e⟩ := hall j (List.mem_range.mp hj)
    rw [e]

/-- `has_work` looks at the queues only while `check_input_elements` is set. -/
theorem has_work_iff_flag (s : Correlation_core R) :
    has_work s = some true ↔
      (s.check_input_elements = false ∨ all_queues_nonempty s = true) := by
  unfold has_work
  by_cases hc : s.check_input_elements = true
  · simp only [hc, if_true, Bool.true_eq_false, false_or]
    rw [has_work_loop_iff, all_queues_nonempty_iff]
    constructor
    · intro hall j hj
      exact hall j (by omega) (by omega)
    · intro hall j _ hj
      exact hall j (by omega)
  · have hc' : s.check_input_elements = false := by simpa using hc
    simp [hc']

theorem all_queues_nonempty_congr (s t : Correlation_core R)
    (hp : t.correlation_parameters = s.correlation_parameters)
    (hb : ∀ i, i < number_input_streams_in_use s → t.input_buffers[i]? = s.input_buffers[i]?)
    (h : all_queues_nonempty s = true) : all_queues_nonempty t = true := by
  rw [all_queues_nonempty_iff] at h ⊢
  have hn : number_input_streams_in_use t = number_input_streams_in_use s := by
    unfold number_input_streams_in_use; rw [hp]
  intro j hj
  rw [hn] at hj
  rw [hb j hj]
  exact h j hj

theorem connect_to_check (s : Correlation_core R) (stream : Nat)
    (statistics_ : Option Bit_statistics) (buffer : Option (Input_buffer R)) :
    (s.connect_to stream statistics_ buffer).check_input_elements = s.check_input_elements ∧
    (s.connect_to stream statistics_ buffer).correlation_parameters =
      s.correlation_parameters ∧
    (s.connect_to stream statistics_ buffer).baselines = s.baselines := by
  unfold connect_to
  dsimp only
  split <;> exact ⟨rfl, rfl, rfl⟩

theorem set_parameters_frame (s s' : Correlation_core R) (parameters : Correlation_parameters)
    (node_nr : Int) (h : s.set_parameters parameters node_nr = some s') :
    s'.check_input_elements = s.check_input_elements ∧
    s'.input_buffers = s.input_buffers ∧
    s'.correlation_parameters = parameters ∧
    create_baselines_vector parameters.station_streams.length parameters = some s'.baselines := by
  unfold set_parameters at h
  dsimp only at h
  split at h
  · cases h
  · unfold create_baselines n_stations at h
    dsimp only at h
    split at h
    · rename_i bl hbl
      simp only [Option.some.injEq] at h
      rw [← h]
      exact ⟨rfl, rfl, rfl, hbl⟩
    · cases h

theorem push_nonempty (s : Correlation_core R) (stream : Nat)
    (element : Input_buffer_element R) (h : all_queues_nonempty s = true) :
    all_queues_nonempty (s.push stream element) = true := by
  rw [all_queues_nonempty_iff] at h ⊢
  have hn : number_input_streams_in_use (s.push stream element) =
      number_input_streams_in_use s := by
    unfold push number_input_streams_in_use
    split <;> rfl
  intro j hj
  rw [hn] at hj
  obtain ⟨front, rest, e⟩ := h j hj
  unfold push
  split
  · rename_i queue hq
    dsimp only
    by_cases hjs : stream = j
    · subst hjs
      rw [e] at hq
      simp only [Option.some.injEq] at hq
      subst hq
      have hlt : stream < s.input_buffers.length := by
        by_contra hc
        have := List.getElem?_eq_none (Nat.le_of_not_lt hc)
        rw [this] at e; cases e
      refine ⟨front, rest ++ [element], ?_⟩
      simp [List.getElem?_set, hlt]
    · rw [List.getElem?_set_ne hjs]
      exact ⟨front, rest, e⟩
  · exact ⟨front, rest, e⟩

theorem push_check (s : Correlation_core R) (stream : Nat) (element : Input_buffer_element R) :
    (s.push stream element).check_input_elements = s.check_input_elements ∧
    (s.push stream element).correlation_parameters = s.correlation_parameters ∧
    (s.push stream element).baselines = s.baselines := by
  unfold push
  split <;> exact ⟨rfl, rfl, rfl⟩

/-- When a successful step leaves `check_input_elements` unset, it has not
popped any queue. -/
theorem integration_step_keeps_queues [LinearOrderedField R] (s s' : Correlation_core R)
    (h : integration_step s = some s') (hc : s'.check_input_elements = false) :
    ∀ i : Nat, s'.input_buffers[i]? = s.input_buffers[i]? := by
  unfold integration_step at h
  dsimp only at h
  split at h
  swap
  · cases h
  rename_i s1 hf
  split at h
  swap
  · cases h
  rename_i buffers hcor
  have hb1 : s1.input_buffers = s.input_buffers := by
    rcases integration_step_fetch_frame _ s1 hf with ⟨e, _⟩ | e
    · rw [e]; split <;> rfl
    · rw [e]; split <;> rfl
  obtain ⟨_, _, _, a4, a5, a6⟩ := integration_step_advance_spec _ s' h
  intro i
  by_cases hi : i < number_input_streams_in_use { s1 with accumulation_buffers := buffers }
  · obtain ⟨it, b1, _, b3, _⟩ := a4 i hi
    have hv : it.advance.valid = true := by
      by_contra hv
      have hv' : it.advance.valid = false := by simpa using hv
      have := a6.mpr (Or.inr ⟨i, it, hi, b1, hv'⟩)
      rw [hc] at this
      cases this
    rw [b3 hv]
    show s1.input_buffers[i]? = s.input_buffers[i]?
    rw [hb1]
  · have hge := (a5 i (Nat.le_of_not_lt hi)).2
    rw [hge]
    show s1.input_buffers[i]? = s.input_buffers[i]?
    rw [hb1]

/-- The fields of the state that a successful `do_task` leaves alone or
changes through its step only. -/
theorem do_task_frame [LinearOrderedField R] (sqrt : R → R) (s s' : Correlation_core R)
    (h : do_task sqrt s = some s') :
    ∃ s0 s1, s0 = { s with accumulation_buffers := s0.accumulation_buffers } ∧
      integration_step s0 = some s1 ∧
      s'.correlation_parameters = s.correlation_parameters ∧
      s'.baselines = s.baselines ∧
      s'.input_buffers = s1.input_buffers ∧
      s'.input_elements = s1.input_elements ∧
      s'.check_input_elements = s1.check_input_elements ∧
      s'.current_fft = s.current_fft + 1 := by
  obtain ⟨_, _, s0, s1, _, f0, h1, c1, _, _, hne, heq⟩ := do_task_spec sqrt s s' h
  have f1 := integration_step_frame s0 s1 h1
  have p1 : s1.correlation_parameters = s.correlation_parameters := by rw [f1, f0]
  have p2 : s1.baselines = s.baselines := by rw [f1, f0]
  by_cases hl : s.current_fft + 1 = s.number_ffts_in_integration
  · obtain ⟨s2, s3, h2, h3, h4, h5, _⟩ := heq hl
    have f2 := integration_normalize_frame sqrt _ s2 h2
    have f3 := integration_write_frame s2 s3 h3
    refine ⟨s0, s1, f0, h1, ?_, ?_, ?_, ?_, ?_, ?_⟩
    · rw [h4, f3, f2]; exact p1
    · rw [h4, f3, f2]; exact p2
    · rw [h4, f3, f2]
    · rw [h4, f3, f2]
    · rw [h4, f3, f2]
    · rw [h4]; exact h5
  · have h4 := hne hl
    refine ⟨s0, s1, f0, h1, ?_, ?_, ?_, ?_, ?_, ?_⟩
    · rw [h4]; exact p1
    · rw [h4]; exact p2
    · rw [h4]
    · rw [h4]
    · rw [h4]
    · rw [h4]

/-- In the aligned reachable states a cleared `check_input_elements` means
that every queue in use still holds the element its iterator is in. -/
theorem aligned_invariant [LinearOrderedField R] (sqrt : R → R) (s : Correlation_core R)
    (h : Reachable_aligned sqrt s) :
    s.check_input_elements = false → all_queues_nonempty s = true := by
  induction h with
  | construct garbage parameters => intro hc; cases hc
  | connect_to s stream st buffer _ hcheck _ =>
    intro hc
    rw [(connect_to_check s stream st buffer).1, hcheck] at hc
    cases hc
  | set_parameters s s' parameters node_nr _ hcheck hset _ =>
    intro hc
    rw [(set_parameters_frame s s' parameters node_nr hset).1, hcheck] at hc
    cases hc
  | set_data_writer s w _ ih => exact ih
  | add_uvw_table s sn table _ ih => exact ih
  | push s stream element _ ih =>
    intro hc
    rw [(push_check s stream element).1] at hc
    exact push_nonempty s stream element (ih hc)
  | do_task s s' _ hdo ih =>
    intro hc
    obtain ⟨s0, s1, f0, h1, p1, _, p3, _, p5, _⟩ := do_task_frame sqrt s s' hdo
    have hw : has_work s = some true := (do_task_spec sqrt s s' hdo).1
    have hs : all_queues_nonempty s = true := by
      rcases (has_work_iff_flag s).mp hw with hf | hq
      · exact ih hf
      · exact hq
    have hq := integration_step_keeps_queues s0 s1 h1 (by rw [← p5]; exact hc)
    apply all_queues_nonempty_congr s s' p1 ?_ hs
    intro i _
    rw [p3, hq i, f0]

end Correlation_core

namespace Correlation_core

/-- The configured example core is reached with every configuration call
made while `check_input_elements` is set. -/
theorem example_configured_aligned (s : Correlation_core ℚ) (h : example_configured = some s) :
    Reachable_aligned example_sqrt s := by
  unfold example_configured example_configured_with at h
  dsimp only at h
  refine Reachable_aligned.set_parameters _ s _ _ ?_ ?_ h
  swap
  · rfl
  refine Reachable_aligned.add_uvw_table _ _ _ ?_
  refine Reachable_aligned.add_uvw_table _ _ _ ?_
  refine Reachable_aligned.set_data_writer _ _ ?_
  refine Reachable_aligned.connect_to _ _ _ _ ?_ rfl
  refine Reachable_aligned.connect_to _ _ _ _ ?_ rfl
  exact Reachable_aligned.construct _ _

variable {R : Type}

/-- The loop of `has_work` returns a value when the queues it passes are
connected. -/
theorem has_work_loop_total (s : Correlation_core R) (fuel i : Nat)
    (h : ∀ j, i ≤ j → j < i + fuel → queue_connected s j = true) :
    ∃ b, has_work_loop s i fuel = some b := by
  induction fuel generalizing i with
  | zero => exact ⟨true, rfl⟩
  | succ k ih =>
    have hi := h i (le_refl i) (by omega)
    unfold queue_connected at hi
    unfold has_work_loop
    split at hi
    swap
    · cases hi
    rename_i queue heq
    by_cases he : queue.isEmpty = true
    · rw [if_pos he]
      exact ⟨false, rfl⟩
    · rw [if_neg he]
      exact ih (i + 1) (fun j h1 h2 => h j (by omega) (by omega))

/-- `has_work` returns a value when every stream in use has a queue. -/
theorem has_work_total (s : Correlation_core R) (h : queues_connected s) :
    ∃ b, has_work s = some b := by
  unfold has_work
  by_cases hc : s.check_input_elements = true
  · rw [if_pos hc]
    exact has_work_loop_total s _ 0 (fun j _ h2 => h j (by omega))
  · rw [if_neg hc]
    exact ⟨true, rfl⟩

/-- C7, amended: `has_work` returns a value when every stream in use has a
queue connected, and it returns true exactly when `check_input_elements` is
cleared or every input queue in use is non-empty; in every state reached
from construction by pushes, successful `do_task` calls and `connect_to` /
`set_parameters` calls made while `check_input_elements` is set, that is
exactly when every input queue in use is non-empty. -/
theorem has_work_iff_queues_nonempty [LinearOrderedField R] (sqrt : R → R)
    (s : Correlation_core R) (h : Reachable_aligned sqrt s) :
    (queues_connected s → ∃ b, has_work s = some b) ∧
    (has_work s = some true ↔
      (s.check_input_elements = false ∨ all_queues_nonempty s = true)) ∧
    (has_work s = some true ↔ all_queues_nonempty s = true) := by
  refine ⟨has_work_total s, has_work_iff_flag s, ?_⟩
  rw [has_work_iff_flag]
  constructor
  · rintro (hc | hq)
    · exact aligned_invariant sqrt s h hc
    · exact hq
  · exact Or.inr

/-- Witness of C7 (amended): the example core after its first `do_task`. -/
theorem has_work_iff_queues_nonempty_witness :
    ∃ s s' : Correlation_core ℚ, example_configured = some s ∧
      do_task example_sqrt s = some s' ∧ Reachable_aligned example_sqrt s' ∧
      queues_connected s' ∧ has_work s' = some true ∧
      (queues_connected s' → ∃ b, has_work s' = some b) ∧
      (has_work s' = some true ↔
        (s'.check_input_elements = false ∨ all_queues_nonempty s' = true)) ∧
      (has_work s' = some true ↔ all_queues_nonempty s' = true) :=
  ⟨_, _, rfl, rfl,
    Reachable_aligned.do_task _ _ (example_configured_aligned _ rfl) rfl, by decide, rfl,
    has_work_iff_queues_nonempty example_sqrt _
      (Reachable_aligned.do_task _ _ (example_configured_aligned _ rfl) rfl)⟩

/-- C7 as stated fails: after `connect_to` of two queues, `set_parameters`
for one stream, one `do_task` that leaves the iterator of stream 0 inside its
queue element, and `set_parameters` for two streams, `has_work` returns true
although the queue of stream 1 is empty. -/
theorem has_work_iff_queues_nonempty_counterexample :
    ¬ (∀ s : Correlation_core ℚ, Reachable example_sqrt s →
        (has_work s = some true ↔ all_queues_nonempty s = true)) := by
  intro hall
  have h : ∃ s3 s4 s5 : Correlation_core ℚ,
      example_two_queues.set_parameters (example_parameters 1 (-1) false) 0 = some s3 ∧
      do_task example_sqrt s3 = some s4 ∧
      s4.set_parameters (example_parameters 2 (-1) false) 0 = some s5 ∧
      has_work s5 = some true ∧ all_queues_nonempty s5 = false :=
    ⟨_, _, _, rfl, rfl, rfl, rfl, rfl⟩
  obtain ⟨s3, s4, s5, h3, h4, h5, h6, h7⟩ := h
  have hr : Reachable example_sqrt s5 := by
    refine Reachable.set_parameters _ s5 _ _ ?_ h5
    refine Reachable.do_task _ s4 ?_ h4
    refine Reachable.set_parameters _ s3 _ _ ?_ h3
    refine Reachable.connect_to _ _ _ _ ?_
    refine Reachable.connect_to _ _ _ _ ?_
    exact Reachable.construct _ _
  have := (hall s5 hr).mp h6
  rw [h7] at this
  cases this

end Correlation_core

theorem for_loop_push4 (lo hi : Nat) (f1 f2 f3 f4 : Nat → Baseline) (bl : List Baseline) :
    for_loop lo hi (fun sn bl =>
      push_back (push_back (push_back (push_back bl (f1 sn)) (f2 sn)) (f3 sn)) (f4 sn)) bl =
    bl ++ (List.range' lo (hi - lo)).flatMap (fun sn => [f1 sn, f2 sn, f3 sn, f4 sn]) := by
  rw [← for_loop_append]
  simp [push_back]

/-- Every baseline vector of `create_baselines` starts with the
autocorrelations `(0,0), ..., (n-1,n-1)`. -/
theorem create_baselines_vector_autos (n : Nat) (parameters : Correlation_parameters)
    (bl : List Baseline) (h : create_baselines_vector n parameters = some bl) :
    ∃ cross, bl = (List.range n).map (fun i => (i, i)) ++ cross := by
  have inner2 : ∀ (sn : Nat) (bl : List Baseline),
      for_loop (sn + 1) n (fun sno bl => push_back bl (sn, sno)) bl =
        bl ++ (List.range' (sn + 1) (n - (sn + 1))).flatMap (fun sno => [(sn, sno)]) := by
    intro sn bl
    exact for_loop_append (sn + 1) n (fun sno => [((sn, sno) : Baseline)]) bl
  have body3 : ∀ r : Int, (fun (sn : Nat) (bl : List Baseline) =>
      if (sn : Int) ≠ r then push_back bl (sn, r.toNat) else bl) =
      (fun (sn : Nat) (bl : List Baseline) =>
        bl ++ (if (sn : Int) ≠ r then [((sn, r.toNat) : Baseline)] else [])) := by
    intro r
    funext sn bl
    by_cases hc : (sn : Int) = r
    · simp [hc]
    · simp [hc, push_back]
  unfold create_baselines_vector at h
  dsimp only at h
  simp only [autos_loop] at h
  split at h
  · split at h
    · split at h
      · simp only [Option.some.injEq] at h
        rw [← h, for_loop_push4, for_loop_push4, List.append_assoc]
        exact ⟨_, rfl⟩
      · simp only [Option.some.injEq] at h
        rw [← h]
        simp only [for_loop_push4]
        rw [for_loop_append]
        exact ⟨_, rfl⟩
    · cases h
  · split at h
    · simp only [Option.some.injEq] at h
      rw [← h, body3, for_loop_append]
      exact ⟨_, rfl⟩
    · simp only [Option.some.injEq] at h
      rw [← h]
      simp only [inner2]
      rw [for_loop_append]
      exact ⟨_, rfl⟩

namespace Correlation_core

variable {R : Type}

/-- In every reachable state the first baselines are the autocorrelations of
the streams in use. -/
theorem reachable_autos [LinearOrderedField R] (sqrt : R → R) (s : Correlation_core R)
    (h : Reachable sqrt s) :
    ∀ i, i < number_input_streams_in_use s → s.baselines[i]? = some (i, i) := by
  induction h with
  | construct garbage parameters =>
    intro i hi
    simp [number_input_streams_in_use, construct] at hi
  | connect_to s stream st buffer _ ih =>
    intro i hi
    obtain ⟨_, e2, e3⟩ := connect_to_check s stream st buffer
    rw [e3]
    apply ih
    unfold number_input_streams_in_use at hi ⊢
    rw [← e2]; exact hi
  | set_parameters s s' parameters node_nr _ hset _ =>
    intro i hi
    obtain ⟨_, _, e3, e4⟩ := set_parameters_frame s s' parameters node_nr hset
    obtain ⟨cross, hc⟩ := create_baselines_vector_autos _ _ _ e4
    unfold number_input_streams_in_use at hi
    rw [e3] at hi
    rw [hc, List.getElem?_append_left (by simpa using hi)]
    simp [hi]
  | set_data_writer s w _ ih => exact ih
  | add_uvw_table s sn table _ ih => exact ih
  | push s stream element _ ih =>
    intro i hi
    obtain ⟨_, e2, e3⟩ := push_check s stream element
    rw [e3]
    apply ih
    unfold number_input_streams_in_use at hi ⊢
    rw [← e2]; exact hi
  | do_task s s' _ hdo ih =>
    intro i hi
    obtain ⟨_, _, _, _, p1, p2, _⟩ := do_task_frame sqrt s s' hdo
    rw [p2]
    apply ih
    unfold number_input_streams_in_use at hi ⊢
    rw [← p1]; exact hi

end Correlation_core

namespace Correlation_core

variable {R : Type}

theorem current_element_congr (s t : Correlation_core R) (i : Nat)
    (h1 : t.input_elements = s.input_elements) (h2 : t.input_buffers = s.input_buffers)
    (h3 : t.check_input_elements = s.check_input_elements)
    (h4 : t.correlation_parameters = s.correlation_parameters) :
    current_element t i = current_element s i := by
  unfold current_element number_input_streams_in_use
  rw [h1, h2, h3, h4]

theorem unread_spectra_congr (s t : Correlation_core R) (i : Nat)
    (h1 : t.input_elements = s.input_elements) (h2 : t.input_buffers = s.input_buffers) :
    unread_spectra t i = unread_spectra s i := by
  unfold unread_spectra queue_of
  rw [h1, h2]

/-- The unread spectra of a stream before and after a step that takes the
first spectrum of its current element. -/
theorem unread_spectra_step (s s' : Correlation_core R) (i : Nat)
    (x : Complex_buffer R) (rest : List (Complex_buffer R))
    (hcur : current_element s i = x :: rest)
    (hit : s'.input_elements[i]? = some ⟨rest⟩)
    (hkeep : rest ≠ [] → s'.input_buffers[i]? = s.input_buffers[i]?)
    (hpop : rest = [] → ∃ front queue, s.input_buffers[i]? = some (some (front :: queue)) ∧
      s'.input_buffers[i]? = some (some queue)) :
    unread_spectra s i = x :: unread_spectra s' i := by
  unfold current_element at hcur
  split at hcur
  swap
  · cases hcur
  dsimp only at hcur
  unfold unread_spectra
  dsimp only
  rw [hit]
  simp only [Option.getD_some]
  by_cases hrest : rest = []
  · subst hrest
    obtain ⟨front, queue, e1, e2⟩ := hpop rfl
    have hq : queue_of s i = front :: queue := by unfold queue_of; rw [e1]
    have hq' : queue_of s' i = queue := by unfold queue_of; rw [e2]
    rw [hq, hq']
    have hvr : ¬ ((⟨[]⟩ : Input_element R).valid = true) := by simp [Input_element.valid]
    rw [if_neg hvr]
    by_cases hv : ((s.input_elements[i]?).getD Input_element.invalid).valid = true
    · rw [if_pos hv] at hcur ⊢
      rw [hcur]
      rfl
    · rw [if_neg hv] at hcur ⊢
      split at hcur
      swap
      · cases hcur
      rw [e1] at hcur
      simp only at hcur
      simp only [List.flatMap_cons, hcur]
      rfl
  · have e := hkeep hrest
    have hq' : queue_of s' i = queue_of s i := by unfold queue_of; rw [e]
    rw [hq']
    have hvr : (⟨rest⟩ : Input_element R).valid = true := by
      unfold Input_element.valid
      cases rest with
      | nil => exact absurd rfl hrest
      | cons a t => rfl
    rw [if_pos hvr]
    by_cases hv : ((s.input_elements[i]?).getD Input_element.invalid).valid = true
    · rw [if_pos hv] at hcur ⊢
      rw [hcur]
      rfl
    · rw [if_neg hv] at hcur ⊢
      split at hcur
      swap
      · cases hcur
      split at hcur
      swap
      · cases hcur
      rename_i front tail heq
      have hq : queue_of s i = front :: tail := by unfold queue_of; rw [heq]
      rw [hq]
      simp only [List.flatMap_cons, hcur, List.tail_cons]
      rfl

/-- Every successful `do_task` call (it is made while `has_work()` holds)
in a reachable state consumes exactly one spectrum from each input stream in
use: the stream loses the first of its unread spectra, the one at its read
position, the iterator moves on by one spectrum, and the queue element is
popped exactly when that spectrum was the last one of the element;
`current_fft` increases by exactly one. -/
theorem do_task_consumes_partial [LinearOrderedField R] (sqrt : R → R) (s s' : Correlation_core R)
    (hr : Reachable sqrt s) (h : do_task sqrt s = some s') :
    has_work s = some true ∧
    s'.current_fft = s.current_fft + 1 ∧
    ∀ i, i < number_input_streams_in_use s → ∃ x rest,
      current_element s i = x :: rest ∧
      unread_spectra s i = x :: unread_spectra s' i ∧
      s'.input_elements[i]? = some ⟨rest⟩ ∧
      (rest ≠ [] → s'.input_buffers[i]? = s.input_buffers[i]?) ∧
      (rest = [] → ∃ front queue, s.input_buffers[i]? = some (some (front :: queue)) ∧
        s'.input_buffers[i]? = some (some queue)) := by
  obtain ⟨s0, s1, f0, h1, p1, p2, p3, p4, p5, p6⟩ := do_task_frame sqrt s s' h
  refine ⟨(do_task_spec sqrt s s' h).1, p6, ?_⟩
  have hbl := reachable_autos sqrt s hr
  have e1 : s0.input_elements = s.input_elements := by rw [f0]
  have e2 : s0.input_buffers = s.input_buffers := by rw [f0]
  have e3 : s0.check_input_elements = s.check_input_elements := by rw [f0]
  have e4 : s0.correlation_parameters = s.correlation_parameters := by rw [f0]
  have e5 : s0.baselines = s.baselines := by rw [f0]
  have hn : number_input_streams_in_use s0 = number_input_streams_in_use s := by
    unfold number_input_streams_in_use; rw [e4]
  obtain ⟨g1, _, _⟩ := integration_step_streams s0 s1 (by rw [hn, e5]; exact hbl) h1
  intro i hi
  obtain ⟨x, rest, q1, q2, q3, q4⟩ := g1 i (by rw [hn]; exact hi)
  rw [current_element_congr s s0 i e1 e2 e3 e4] at q1
  rw [e2] at q3 q4
  rw [← p3] at q3 q4
  rw [← p4] at q2
  exact ⟨x, rest, q1, unread_spectra_step s s' i x rest q1 q2 q3 q4, q2, q3, q4⟩

/-- A configured example core is reachable. -/
theorem example_configured_reachable (s : Correlation_core ℚ) (h : example_configured = some s) :
    Reachable example_sqrt s := by
  unfold example_configured example_configured_with at h
  dsimp only at h
  refine Reachable.set_parameters _ s _ _ ?_ h
  refine Reachable.add_uvw_table _ _ _ ?_
  refine Reachable.add_uvw_table _ _ _ ?_
  refine Reachable.set_data_writer _ _ ?_
  refine Reachable.connect_to _ _ _ _ ?_
  refine Reachable.connect_to _ _ _ _ ?_
  exact Reachable.construct _ _

end Correlation_core

namespace Correlation_core

variable {R : Type}

/-- A loop that writes bin `i` of a buffer from readable data succeeds when
the buffer is long enough. -/
theorem for_loop_opt_set_total {α : Type} (m : Nat) (body : Nat → List α → Option (List α))
    (l : List α) (_ : m ≤ l.length)
    (hbody : ∀ i t, i < m → t.length = l.length → ∃ y, body i t = some (t.set i y)) :
    ∃ l', for_loop_opt 0 m body l = some l' ∧ l'.length = l.length := by
  have key := for_loop_opt_total (fun _ (t : List α) => t.length = l.length) m body ?_
    (m - 0) 0 l rfl (by omega) rfl
  · exact key
  · intro i t hi ht
    obtain ⟨y, hy⟩ := hbody i t hi ht
    exact ⟨_, hy, by show (t.set i y).length = l.length; rw [List.length_set]; exact ht⟩

theorem getElem?_of_lt {α : Type} (l : List α) (i : Nat) (h : i < l.length) :
    ∃ x, l[i]? = some x :=
  ⟨l[i], List.getElem?_eq_getElem h⟩

theorem auto_correlate_baseline_total [LinearOrderedField R] (s : Correlation_core R)
    (inp out : Complex_buffer R) (h1 : fft_size s + 1 ≤ inp.length)
    (h2 : fft_size s + 1 ≤ out.length) :
    ∃ out', auto_correlate_baseline s inp out = some out' ∧ out'.length = out.length := by
  unfold auto_correlate_baseline
  apply for_loop_opt_set_total _ _ _ h2
  intro i t hi ht
  obtain ⟨x, hx⟩ := getElem?_of_lt inp i (by omega)
  obtain ⟨o, ho⟩ := getElem?_of_lt t i (by omega)
  refine ⟨o.add_real (x.re * x.re + x.im * x.im), ?_⟩
  simp only [hx, ho]

theorem correlate_baseline_total [LinearOrderedField R] (s : Correlation_core R)
    (in1 in2 out : Complex_buffer R) (h1 : fft_size s + 1 ≤ in1.length)
    (h2 : fft_size s + 1 ≤ in2.length) (h3 : fft_size s + 1 ≤ out.length) :
    ∃ out', correlate_baseline s in1 in2 out = some out' ∧ out'.length = out.length := by
  unfold correlate_baseline
  apply for_loop_opt_set_total _ _ _ h3
  intro i t hi ht
  obtain ⟨x, hx⟩ := getElem?_of_lt in1 i (by omega)
  obtain ⟨y, hy⟩ := getElem?_of_lt in2 i (by omega)
  obtain ⟨o, ho⟩ := getElem?_of_lt t i (by omega)
  refine ⟨o.add (x.mul y.conj), ?_⟩
  simp only [hx, hy, ho]

/-- The fetch loop succeeds when every iterator in use that is not valid has
a queue element to be set to. -/
theorem integration_step_fetch_total (s : Correlation_core R)
    (hlen : s.input_elements.length = number_input_streams_in_use s)
    (hq : s.check_input_elements = true → ∀ i it, i < number_input_streams_in_use s →
      s.input_elements[i]? = some it → it.valid = false →
      ∃ front rest, s.input_buffers[i]? = some (some (front :: rest))) :
    ∃ s1, integration_step_fetch s = some s1 := by
  unfold integration_step_fetch
  by_cases hc : s.check_input_elements = true
  · simp only [hc, if_true]
    have key := for_loop_opt_total
      (fun j (t : List (Input_element R)) => t.length = s.input_elements.length ∧
        ∀ i, j ≤ i → t[i]? = s.input_elements[i]?)
      (number_input_streams_in_use s)
      (fun i elements =>
        match elements[i]? with
        | some it =>
          if !it.valid then
            match s.input_buffers[i]? with
            | some (some (front :: _)) => some (elements.set i (Input_element.set front.data))
            | _ => none
          else some elements
        | none => none) ?_
      (number_input_streams_in_use s - 0) 0 s.input_elements rfl (by omega)
      ⟨rfl, fun _ _ => rfl⟩
    · obtain ⟨elements, he, _⟩ := key
      rw [he]
      exact ⟨_, rfl⟩
    · intro j t hj ⟨ht1, ht2⟩
      obtain ⟨it, hit⟩ := getElem?_of_lt t j (by omega)
      simp only [hit]
      by_cases hv : it.valid = true
      · refine ⟨t, by simp [hv], ht1, fun i hi => ht2 i (by omega)⟩
      · have hv' : it.valid = false := by simpa using hv
        obtain ⟨front, rest, e⟩ := hq hc j it hj (by rw [← ht2 j (le_refl j)]; exact hit) hv'
        refine ⟨t.set j (Input_element.set front.data), by simp [hv', e], by simp [ht1], ?_⟩
        intro i hi
        rw [List.getElem?_set_ne (by omega)]
        exact ht2 i (by omega)
  · have hc' : s.check_input_elements = false := by simpa using hc
    simp only [hc', Bool.false_eq_true, if_false]
    exact ⟨s, rfl⟩

/-- The correlation loops succeed when the spectra and accumulators they
read are there and long enough. -/
theorem integration_step_correlate_total [LinearOrderedField R] (s : Correlation_core R)
    (buffers : List (Complex_buffer R))
    (hle : number_input_streams_in_use s ≤ s.baselines.length)
    (hauto : ∀ i, i < number_input_streams_in_use s → ∃ a inp,
      s.baselines[i]? = some (a, a) ∧
      (s.input_elements[a]?).bind Input_element.current = some inp ∧
      fft_size s + 1 ≤ inp.length)
    (hcross : ∀ i, number_input_streams_in_use s ≤ i → i < s.baselines.length →
      ∃ a b in1 in2, s.baselines[i]? = some (a, b) ∧ a ≠ b ∧
      (s.input_elements[a]?).bind Input_element.current = some in1 ∧
      (s.input_elements[b]?).bind Input_element.current = some in2 ∧
      fft_size s + 1 ≤ in1.length ∧ fft_size s + 1 ≤ in2.length)
    (hbuf : ∀ i, i < s.baselines.length → ∃ out,
      buffers[i]? = some out ∧ fft_size s + 1 ≤ out.length) :
    ∃ buffers', integration_step_correlate s buffers = some buffers' := by
  unfold integration_step_correlate
  have auto := for_loop_opt_total
    (fun _ (t : List (Complex_buffer R)) => ∀ i, i < s.baselines.length → ∃ out,
      t[i]? = some out ∧ fft_size s + 1 ≤ out.length)
    (number_input_streams_in_use s)
    (fun i buffers =>
      match s.baselines[i]? with
      | some stations =>
        if stations.1 = stations.2 then
          match (s.input_elements[stations.1]?).bind Input_element.current, buffers[i]? with
          | some in1, some out =>
            match auto_correlate_baseline s in1 out with
            | some out => some (buffers.set i out)
            | none => none
          | _, _ => none
        else none
      | none => none) ?_
    (number_input_streams_in_use s - 0) 0 buffers rfl (by omega) hbuf
  swap
  · intro j t hj ht
    obtain ⟨a, inp, e1, e2, e3⟩ := hauto j hj
    obtain ⟨out, o1, o2⟩ := ht j (by omega)
    obtain ⟨out', r1, r2⟩ := auto_correlate_baseline_total s inp out e3 o2
    refine ⟨t.set j out', by simp only [e1, e2, o1, r1, if_true], ?_⟩
    intro i hi
    by_cases hij : j = i
    · subst hij
      have hlt : j < t.length := by
        by_contra hc
        have := List.getElem?_eq_none (Nat.le_of_not_lt hc)
        rw [this] at o1; cases o1
      exact ⟨out', by simp [List.getElem?_set, hlt], by omega⟩
    · rw [List.getElem?_set_ne hij]
      exact ht i hi
  obtain ⟨mid, hmid, hmidbuf⟩ := auto
  rw [hmid]
  have cross := for_loop_opt_total
    (fun j (t : List (Complex_buffer R)) => number_input_streams_in_use s ≤ j ∧
      ∀ i, i < s.baselines.length → ∃ out,
        t[i]? = some out ∧ fft_size s + 1 ≤ out.length)
    s.baselines.length
    (fun i buffers =>
      match s.baselines[i]? with
      | some stations =>
        if stations.1 ≠ stations.2 then
          match (s.input_elements[stations.1]?).bind Input_element.current,
                (s.input_elements[stations.2]?).bind Input_element.current, buffers[i]? with
          | some in1, some in2, some out =>
            match correlate_baseline s in1 in2 out with
            | some out => some (buffers.set i out)
            | none => none
          | _, _, _ => none
        else none
      | none => none) ?_
    (s.baselines.length - number_input_streams_in_use s) (number_input_streams_in_use s)
    mid rfl hle ⟨le_refl _, hmidbuf⟩
  swap
  · intro j t hj ⟨hjn, ht⟩
    obtain ⟨a, b, in1, in2, e1, e2, e3, e4, e5, e6⟩ := hcross j hjn hj
    obtain ⟨out, o1, o2⟩ := ht j hj
    obtain ⟨out', r1, r2⟩ := correlate_baseline_total s in1 in2 out e5 e6 o2
    refine ⟨t.set j out', by simp only [e1, e2, e3, e4, o1, r1, ne_eq, not_false_eq_true,
      if_true], by omega, ?_⟩
    intro i hi
    by_cases hij : j = i
    · subst hij
      have hlt : j < t.length := by
        by_contra hc
        have := List.getElem?_eq_none (Nat.le_of_not_lt hc)
        rw [this] at o1; cases o1
      exact ⟨out', by simp [List.getElem?_set, hlt], by omega⟩
    · rw [List.getElem?_set_ne hij]
      exact ht i hi
  obtain ⟨buffers', hb, _⟩ := cross
  exact ⟨buffers', hb⟩

end Correlation_core

namespace Correlation_core

variable {R : Type}

/-- The advance loop succeeds when every iterator in use exists and the ones
that leave their element have a queue element to pop. -/
theorem integration_step_advance_total (s : Correlation_core R)
    (hq : ∀ i, i < number_input_streams_in_use s → ∃ it, s.input_elements[i]? = some it ∧
      (it.advance.valid = false → ∃ front rest,
        s.input_buffers[i]? = some (some (front :: rest)))) :
    ∃ s', integration_step_advance s = some s' := by
  unfold integration_step_advance
  have key := for_loop_opt_total
    (fun j (t : Correlation_core R) => ∀ i, j ≤ i →
      t.input_elements[i]? = s.input_elements[i]? ∧ t.input_buffers[i]? = s.input_buffers[i]?)
    (number_input_streams_in_use s)
    (fun i s =>
      match s.input_elements[i]? with
      | some it =>
        let s := { s with input_elements := s.input_elements.set i it.advance }
        if !it.advance.valid then
          match s.input_buffers[i]? with
          | some (some (_ :: rest)) =>
            some { s with input_buffers := s.input_buffers.set i (some rest)
                          check_input_elements := true }
          | _ => none
        else some s
      | none => none) ?_
    (number_input_streams_in_use s - 0) 0 s rfl (by omega) (fun _ _ => ⟨rfl, rfl⟩)
  · obtain ⟨s', hs, _⟩ := key
    exact ⟨s', hs⟩
  · intro j t hj ht
    obtain ⟨it, h1, h2⟩ := hq j hj
    have hit : t.input_elements[j]? = some it := by rw [(ht j (le_refl j)).1]; exact h1
    simp only [hit]
    by_cases hv : it.advance.valid = true
    · refine ⟨{ t with input_elements := t.input_elements.set j it.advance },
        by simp only [hv, Bool.not_true, Bool.false_eq_true, if_false], ?_⟩
      intro i hi
      refine ⟨?_, (ht i (by omega)).2⟩
      show (t.input_elements.set j it.advance)[i]? = _
      rw [List.getElem?_set_ne (by omega)]
      exact (ht i (by omega)).1
    · have hv' : it.advance.valid = false := by simpa using hv
      obtain ⟨front, rest, e⟩ := h2 hv'
      have e' : t.input_buffers[j]? = some (some (front :: rest)) := by
        rw [(ht j (le_refl j)).2]; exact e
      refine ⟨{ t with input_elements := t.input_elements.set j it.advance
                       input_buffers := t.input_buffers.set j (some rest)
                       check_input_elements := true },
        by simp only [hv', Bool.not_false, if_true, e'], ?_⟩
      intro i hi
      constructor
      · show (t.input_elements.set j it.advance)[i]? = _
        rw [List.getElem?_set_ne (by omega)]
        exact (ht i (by omega)).1
      · show (t.input_buffers.set j (some rest))[i]? = _
        rw [List.getElem?_set_ne (by omega)]
        exact (ht i (by omega)).2

/-- The conditions of `step_ready` spelled out. -/
theorem step_ready_facts (s : Correlation_core R) (h : step_ready s) :
    (∀ i, i < number_input_streams_in_use s → ∃ x rest,
      current_element s i = x :: rest ∧ fft_size s + 1 ≤ x.length ∧
      (rest = [] → ∃ front queue, s.input_buffers[i]? = some (some (front :: queue)))) ∧
    (∀ i, i < number_input_streams_in_use s → s.baselines[i]? = some (i, i)) ∧
    (∀ i, number_input_streams_in_use s ≤ i → i < s.baselines.length → ∃ a b,
      s.baselines[i]? = some (a, b) ∧ a ≠ b ∧ a < number_input_streams_in_use s ∧
      b < number_input_streams_in_use s) ∧
    (∀ i, i < s.baselines.length → ∃ out,
      s.accumulation_buffers[i]? = some out ∧ fft_size s + 1 ≤ out.length) := by
  obtain ⟨⟨p1, p2, p3⟩, p4⟩ := h
  refine ⟨?_, p2, ?_, ?_⟩
  · intro i hi
    have := p1 i hi
    unfold stream_ready at this
    split at this
    swap
    · cases this
    rename_i x rest heq
    simp only [Bool.and_eq_true, decide_eq_true_eq, Bool.or_eq_true, Bool.not_eq_true'] at this
    refine ⟨x, rest, heq, this.1, ?_⟩
    intro hrest
    rcases this.2 with h1 | h1
    · rw [hrest] at h1; simp at h1
    · unfold queue_of at h1
      split at h1
      · rename_i queue hq
        cases queue with
        | nil => simp at h1
        | cons front tail => exact ⟨front, tail, hq⟩
      · simp at h1
  · intro i hi1 hi2
    have := p3 i hi2 hi1
    unfold cross_baseline_ok at this
    split at this
    · rename_i a b heq
      simp only [decide_eq_true_eq] at this
      exact ⟨a, b, heq, this⟩
    · cases this
  · intro i hi
    have := p4 i hi
    unfold accumulator_ok at this
    split at this
    · rename_i out heq
      simp only [decide_eq_true_eq] at this
      exact ⟨out, heq, this⟩
    · cases this

/-- `integration_step` succeeds in every state that is ready for it. -/
theorem integration_step_total [LinearOrderedField R] (s : Correlation_core R)
    (h : step_ready s) : ∃ s', integration_step s = some s' := by
  obtain ⟨p1, p2, p3, p4⟩ := step_ready_facts s h
  -- the state after the resize of `input_elements`
  have hres : ∃ s0 : Correlation_core R,
      (if s.input_elements.length ≠ number_input_streams_in_use s then
        { s with input_elements :=
            resize s.input_elements (number_input_streams_in_use s) Input_element.invalid }
       else s) = s0 ∧
      s0.input_elements.length = number_input_streams_in_use s ∧
      s0.input_buffers = s.input_buffers ∧
      s0.correlation_parameters = s.correlation_parameters ∧
      s0.baselines = s.baselines ∧
      s0.accumulation_buffers = s.accumulation_buffers ∧
      s0.check_input_elements = s.check_input_elements ∧
      ∀ i, i < number_input_streams_in_use s →
        s0.input_elements[i]? = some ((s.input_elements[i]?).getD Input_element.invalid) := by
    by_cases hl : s.input_elements.length = number_input_streams_in_use s
    · rw [if_neg (by simpa using hl)]
      refine ⟨s, rfl, hl, rfl, rfl, rfl, rfl, rfl, ?_⟩
      intro i hi
      rw [List.getElem?_eq_getElem (by omega)]
      rfl
    · rw [if_pos (by simpa using hl)]
      refine ⟨_, rfl, length_resize _ _ _, rfl, rfl, rfl, rfl, rfl, ?_⟩
      intro i hi
      simp only [getElem?_resize, hi, if_true]
  obtain ⟨s0, hs0, r1, r2, r3, r4, r4', r5, r6⟩ := hres
  have hn0 : number_input_streams_in_use s0 = number_input_streams_in_use s := by
    unfold number_input_streams_in_use; rw [r3]
  -- the fetch loop
  have hfetch : ∃ s1, integration_step_fetch s0 = some s1 := by
    apply integration_step_fetch_total s0 (by rw [r1, hn0])
    intro hc i it hi hit hv
    rw [hn0] at hi
    obtain ⟨x, rest, c1, _, _⟩ := p1 i hi
    rw [r6 i hi] at hit
    simp only [Option.some.injEq] at hit
    unfold current_element at c1
    rw [r5] at hc
    simp only [hi, if_true, hit, hv, Bool.false_eq_true, if_false, hc] at c1
    rw [r2]
    split at c1
    · rename_i front tail heq
      exact ⟨front, tail, heq⟩
    · cases c1
  obtain ⟨s1, hf⟩ := hfetch
  obtain ⟨f1, f2, f3, f4, f5⟩ := integration_step_fetch_elements s0 s1 (by rw [r1, hn0]) hf
  have hn1 : number_input_streams_in_use s1 = number_input_streams_in_use s := by
    unfold number_input_streams_in_use; rw [f2, r3]
  have hfft1 : fft_size s1 = fft_size s := by unfold fft_size; rw [f2, r3]
  have hacc1 : s1.accumulation_buffers = s.accumulation_buffers := by
    rcases integration_step_fetch_frame s0 s1 hf with ⟨e, _⟩ | e
    · rw [e]; exact r4'
    · rw [e]; exact r4'
  -- the iterator of stream `i` after the fetch loop covers `current_element s i`
  have hcur : ∀ i, i < number_input_streams_in_use s →
      s1.input_elements[i]? = some ⟨current_element s i⟩ := by
    intro i hi
    obtain ⟨it0, g1, g2⟩ := f5 i (by rw [hn0]; exact hi)
    rw [r6 i hi] at g1
    simp only [Option.some.injEq] at g1
    rw [g2]
    unfold current_element
    simp only [hi, if_true, r2, r5, g1]
  have hspec : ∀ i, i < number_input_streams_in_use s → ∃ x,
      (s1.input_elements[i]?).bind Input_element.current = some x ∧
      fft_size s + 1 ≤ x.length := by
    intro i hi
    obtain ⟨x, rest, c1, c2, _⟩ := p1 i hi
    refine ⟨x, ?_, c2⟩
    rw [hcur i hi, c1]
    rfl
  have hle : number_input_streams_in_use s ≤ s.baselines.length := by
    by_contra hc
    have e1 := p2 s.baselines.length (by omega)
    have e2 := List.getElem?_eq_none (le_refl s.baselines.length)
    rw [e2] at e1
    cases e1
  -- the correlation loops
  have hcor : ∃ buffers, integration_step_correlate s1 s1.accumulation_buffers =
      some buffers := by
    apply integration_step_correlate_total
    · rw [hn1, f3, r4]; exact hle
    · intro i hi
      rw [hn1] at hi
      obtain ⟨x, e1, e2⟩ := hspec i hi
      exact ⟨i, x, by rw [f3, r4]; exact p2 i hi, e1, by rw [hfft1]; exact e2⟩
    · intro i hi1 hi2
      rw [hn1] at hi1
      rw [f3, r4] at hi2
      obtain ⟨a, b, e1, e2, e3, e4⟩ := p3 i hi1 hi2
      obtain ⟨x, x1, x2⟩ := hspec a e3
      obtain ⟨y, y1, y2⟩ := hspec b e4
      exact ⟨a, b, x, y, by rw [f3, r4]; exact e1, e2, x1, y1, by rw [hfft1]; exact x2,
        by rw [hfft1]; exact y2⟩
    · intro i hi
      rw [f3, r4] at hi
      rw [hacc1, hfft1]
      exact p4 i hi
  obtain ⟨buffers, hc⟩ := hcor
  -- the advance loop
  have hadv : ∃ s', integration_step_advance { s1 with accumulation_buffers := buffers } =
      some s' := by
    apply integration_step_advance_total
    intro i hi
    have hi' : i < number_input_streams_in_use s := by rw [← hn1]; exact hi
    obtain ⟨x, rest, c1, _, c3⟩ := p1 i hi'
    refine ⟨⟨current_element s i⟩, hcur i hi', ?_⟩
    intro hv
    have hrest : rest = [] := by
      unfold Input_element.advance Input_element.valid at hv
      rw [c1] at hv
      cases rest with
      | nil => rfl
      | cons a t => simp at hv
    obtain ⟨front, queue, e⟩ := c3 hrest
    exact ⟨front, queue, by show s1.input_buffers[i]? = _; rw [f1, r2]; exact e⟩
  obtain ⟨s', ha⟩ := hadv
  refine ⟨s', ?_⟩
  unfold integration_step
  dsimp only
  rw [hs0, hf]
  dsimp only
  rw [hc]
  exact ha

end Correlation_core

namespace Correlation_core

variable {R : Type}

/-- What a successful `integration_step` does to the accumulators. -/
theorem integration_step_partial [LinearOrderedField R] (s s' : Correlation_core R)
    (h : integration_step s = some s') :
    s'.accumulation_buffers.length = s.accumulation_buffers.length ∧
    (∀ i, i < number_input_streams_in_use s → ∃ a inp out out',
      s.baselines[i]? = some (a, a) ∧ current_spectrum s a = some inp ∧
      s.accumulation_buffers[i]? = some out ∧ s'.accumulation_buffers[i]? = some out' ∧
      out'.length = out.length ∧
      ∀ k, (k ≤ fft_size s → ∃ x o, inp[k]? = some x ∧ out[k]? = some o ∧
              out'[k]? = some ⟨o.re + (x.re * x.re + x.im * x.im), o.im⟩) ∧
           (fft_size s < k → out'[k]? = out[k]?)) ∧
    (∀ i, number_input_streams_in_use s ≤ i → i < s.baselines.length →
      ∃ a b in1 in2 out out',
      s.baselines[i]? = some (a, b) ∧ a ≠ b ∧
      current_spectrum s a = some in1 ∧ current_spectrum s b = some in2 ∧
      s.accumulation_buffers[i]? = some out ∧ s'.accumulation_buffers[i]? = some out' ∧
      out'.length = out.length ∧
      ∀ k, (k ≤ fft_size s → ∃ x y o, in1[k]? = some x ∧ in2[k]? = some y ∧
              out[k]? = some o ∧ out'[k]? = some (o.add (x.mul y.conj))) ∧
           (fft_size s < k → out'[k]? = out[k]?)) ∧
    (∀ i, s.baselines.length ≤ i →
      s'.accumulation_buffers[i]? = s.accumulation_buffers[i]?) := by
  unfold integration_step at h
  simp only [] at h
  cases hf : integration_step_fetch
      (if s.input_elements.length ≠ number_input_streams_in_use s then
        { s with input_elements :=
            resize s.input_elements (number_input_streams_in_use s) Input_element.invalid }
       else s) with
  | none => rw [hf] at h; cases h
  | some s1 =>
    rw [hf] at h
    simp only [] at h
    obtain ⟨f1, f2, f3, f4, f5, f6⟩ := current_after_fetch s s1 hf
    cases hc : integration_step_correlate s1 s1.accumulation_buffers with
    | none => rw [hc] at h; cases h
    | some buffers =>
      rw [hc] at h
      simp only [] at h
      obtain ⟨c1, c2, c3, c4, c5⟩ := integration_step_correlate_spec s1 _ buffers hc
      obtain ⟨a1, _⟩ := integration_step_advance_spec _ s' h
      have hacc : s'.accumulation_buffers = buffers := by rw [a1]
      have hn : number_input_streams_in_use s1 = number_input_streams_in_use s := by
        unfold number_input_streams_in_use; rw [f3]
      have hfft : fft_size s1 = fft_size s := by unfold fft_size; rw [f3]
      simp only [hn, f1, f2] at c1 c2 c3 c4 c5
      rw [hacc]
      refine ⟨c1, ?_, ?_, c5⟩
      · intro i hi
        obtain ⟨a, in1, out, out', b1, b2, b3, b4, b5⟩ := c3 i hi
        obtain ⟨d1, d2⟩ := auto_correlate_baseline_spec s1 in1 out out' b5
        rw [hfft] at d2
        exact ⟨a, in1, out, out', b1, f6 a in1 b2, b3, b4, d1, d2⟩
      · intro i hi1 hi2
        obtain ⟨a, b, in1, in2, out, out', b1, bne, b2, b2', b3, b4, b5⟩ := c4 i hi1 hi2
        obtain ⟨d1, d2⟩ := correlate_baseline_spec s1 in1 in2 out out' b5
        rw [hfft] at d2
        exact ⟨a, b, in1, in2, out, out', b1, bne, f6 a in1 b2, f6 b in2 b2', b3, b4, d1, d2⟩

/-- C5: `integration_step` succeeds in every state that is ready for it, and
a successful `integration_step` adds to bin `k`, `0 ≤ k ≤ fft_size`, of every
autocorrelation accumulator the value `re² + im²` of bin `k` of the current
spectrum of its station, and to bin `k` of the accumulator of every cross
baseline `(a, b)` the value `in_a,k * conj(in_b,k)`; the other bins and
accumulators, and their sizes, are unchanged. -/
theorem integration_step_accumulates [LinearOrderedField R] (s : Correlation_core R) :
    (step_ready s → ∃ s', integration_step s = some s') ∧
    ∀ s', integration_step s = some s' →
      s'.accumulation_buffers.length = s.accumulation_buffers.length ∧
      (∀ i, i < number_input_streams_in_use s → ∃ a inp out out',
        s.baselines[i]? = some (a, a) ∧ current_spectrum s a = some inp ∧
        s.accumulation_buffers[i]? = some out ∧ s'.accumulation_buffers[i]? = some out' ∧
        out'.length = out.length ∧
        ∀ k, (k ≤ fft_size s → ∃ x o, inp[k]? = some x ∧ out[k]? = some o ∧
                out'[k]? = some ⟨o.re + (x.re * x.re + x.im * x.im), o.im⟩) ∧
             (fft_size s < k → out'[k]? = out[k]?)) ∧
      (∀ i, number_input_streams_in_use s ≤ i → i < s.baselines.length →
        ∃ a b in1 in2 out out',
        s.baselines[i]? = some (a, b) ∧ a ≠ b ∧
        current_spectrum s a = some in1 ∧ current_spectrum s b = some in2 ∧
        s.accumulation_buffers[i]? = some out ∧ s'.accumulation_buffers[i]? = some out' ∧
        out'.length = out.length ∧
        ∀ k, (k ≤ fft_size s → ∃ x y o, in1[k]? = some x ∧ in2[k]? = some y ∧
                out[k]? = some o ∧ out'[k]? = some (o.add (x.mul y.conj))) ∧
             (fft_size s < k → out'[k]? = out[k]?)) ∧
      (∀ i, s.baselines.length ≤ i →
        s'.accumulation_buffers[i]? = s.accumulation_buffers[i]?) :=
  ⟨integration_step_total s, fun s' h => integration_step_partial s s' h⟩

/-- Witness of C5: the example core is ready for its first step, which
succeeds and accumulates. -/
theorem integration_step_accumulates_witness :
    ∃ s s' : Correlation_core ℚ, example_initialised = some s ∧ step_ready s ∧
      integration_step s = some s' ∧
      s'.accumulation_buffers =
        [[⟨2, 0⟩, ⟨5, 0⟩, ⟨5, 0⟩], [⟨10, 0⟩, ⟨13, 0⟩, ⟨25, 0⟩], [⟨4, 2⟩, ⟨7, -4⟩, ⟨11, 2⟩]] ∧
      s'.accumulation_buffers.length = s.accumulation_buffers.length ∧
      (∀ i, i < number_input_streams_in_use s → ∃ a inp out out',
        s.baselines[i]? = some (a, a) ∧ current_spectrum s a = some inp ∧
        s.accumulation_buffers[i]? = some out ∧ s'.accumulation_buffers[i]? = some out' ∧
        out'.length = out.length ∧
        ∀ k, (k ≤ fft_size s → ∃ x o, inp[k]? = some x ∧ out[k]? = some o ∧
                out'[k]? = some ⟨o.re + (x.re * x.re + x.im * x.im), o.im⟩) ∧
             (fft_size s < k → out'[k]? = out[k]?)) ∧
      (∀ i, number_input_streams_in_use s ≤ i → i < s.baselines.length →
        ∃ a b in1 in2 out out',
        s.baselines[i]? = some (a, b) ∧ a ≠ b ∧
        current_spectrum s a = some in1 ∧ current_spectrum s b = some in2 ∧
        s.accumulation_buffers[i]? = some out ∧ s'.accumulation_buffers[i]? = some out' ∧
        out'.length = out.length ∧
        ∀ k, (k ≤ fft_size s → ∃ x y o, in1[k]? = some x ∧ in2[k]? = some y ∧
                out[k]? = some o ∧ out'[k]? = some (o.add (x.mul y.conj))) ∧
             (fft_size s < k → out'[k]? = out[k]?)) ∧
      (∀ i, s.baselines.length ≤ i →
        s'.accumulation_buffers[i]? = s.accumulation_buffers[i]?) :=
  ⟨_, _, rfl, by decide, rfl, by decide!, (integration_step_accumulates _).2 _ rfl⟩

end Correlation_core

namespace Correlation_core

variable {R : Type}

theorem accumulator_ok_iff (s : Correlation_core R) (i : Nat) :
    accumulator_ok s i = true ↔
      ∃ out, s.accumulation_buffers[i]? = some out ∧ fft_size s + 1 ≤ out.length := by
  unfold accumulator_ok
  constructor
  · intro h
    split at h
    · rename_i out heq
      simp only [decide_eq_true_eq] at h
      exact ⟨out, heq, h⟩
    · cases h
  · rintro ⟨out, h1, h2⟩
    rw [h1]
    simpa using h2

theorem baseline_in_range_iff (s : Correlation_core R) (i : Nat) :
    baseline_in_range s i = true ↔
      ∃ a b, s.baselines[i]? = some (a, b) ∧ a < n_stations s ∧ b < n_stations s := by
  unfold baseline_in_range
  constructor
  · intro h
    split at h
    · rename_i a b heq
      simp only [decide_eq_true_eq] at h
      exact ⟨a, b, heq, h⟩
    · cases h
  · rintro ⟨a, b, h1, h2⟩
    rw [h1]
    simpa using h2

/-- The summation loop succeeds on a buffer with enough bins. -/
theorem sum_loop_total [LinearOrderedField R] (m : Nat) (buffer : Complex_buffer R)
    (norm0 : R) (h : m ≤ buffer.length) :
    ∃ norm, for_loop_opt 0 m (fun i norm =>
      match buffer[i]? with
      | some c => some (norm + c.re)
      | none => none) norm0 = some norm := by
  have key := for_loop_opt_total (fun _ (_ : R) => True) m
    (fun i norm =>
      match buffer[i]? with
      | some c => some (norm + c.re)
      | none => none) ?_ (m - 0) 0 norm0 rfl (by omega) trivial
  · obtain ⟨norm, hn, _⟩ := key
    exact ⟨norm, hn⟩
  · intro i t hi _
    obtain ⟨c, hc⟩ := getElem?_of_lt buffer i (by omega)
    exact ⟨t + c.re, by simp only [hc], trivial⟩

/-- A loop that replaces bins `0 .. m - 1` succeeds on a buffer with enough
bins. -/
theorem map_loop_total (m : Nat) (f : Cplx R → Cplx R) (buffer : Complex_buffer R)
    (h : m ≤ buffer.length) :
    ∃ buffer', for_loop_opt 0 m (fun i buffer =>
      match buffer[i]? with
      | some c => some (buffer.set i (f c))
      | none => none) buffer = some buffer' ∧ buffer'.length = buffer.length := by
  apply for_loop_opt_set_total _ _ _ h
  intro i t hi ht
  obtain ⟨c, hc⟩ := getElem?_of_lt t i (by omega)
  exact ⟨f c, by simp only [hc]⟩

theorem integration_normalize_station_total [LinearOrderedField R] (s : Correlation_core R)
    (station : Nat) (norms : List R) (buffers : List (Complex_buffer R))
    (norm0 : R) (buffer : Complex_buffer R)
    (h1 : norms[station]? = some norm0) (h2 : buffers[station]? = some buffer)
    (h3 : fft_size s + 1 ≤ buffer.length)
    (h4 : s.oversamp ≠ 0) (h5 : fft_size s / s.oversamp ≠ 0) :
    ∃ result, integration_normalize_station s station (norms, buffers) = some result := by
  unfold integration_normalize_station
  simp only [h1, h2]
  obtain ⟨norm, hn⟩ := sum_loop_total (fft_size s + 1) buffer norm0 h3
  rw [hn]
  have hq : ¬ (s.oversamp = 0 ∨ fft_size s / s.oversamp = 0) := by
    rintro (h | h)
    · exact h4 h
    · exact h5 h
  simp only [hq, if_false]
  obtain ⟨buffer', hb, _⟩ := map_loop_total (fft_size s + 1)
    (fun c => Cplx.of_real (c.re /
      (if norm / ((fft_size s / s.oversamp : Nat) : R) < 1 then 1
       else norm / ((fft_size s / s.oversamp : Nat) : R)))) buffer h3
  rw [hb]
  exact ⟨_, rfl⟩

/-- `integration_normalize` succeeds in every state that is ready for it. -/
theorem integration_normalize_total [LinearOrderedField R] (sqrt : R → R)
    (s : Correlation_core R) (h : normalize_ready s) :
    ∃ s', integration_normalize sqrt s = some s' := by
  obtain ⟨p1, p2, p3⟩ := h
  unfold integration_normalize
  dsimp only
  -- the station loop
  have hst := for_loop_opt_total
    (fun j (t : List R × List (Complex_buffer R)) =>
      t.1.length = n_stations s ∧
      ∀ i, j ≤ i → t.2[i]? = s.accumulation_buffers[i]? ∧
        (i < n_stations s → t.1[i]? = some 0))
    (n_stations s) (integration_normalize_station s) ?_
    (n_stations s - 0) 0 (resize [] (n_stations s) 0, s.accumulation_buffers) rfl (by omega)
    ⟨length_resize _ _ _, fun i _ => ⟨rfl, fun hi => by
      simp only [getElem?_resize, hi, if_true]; rfl⟩⟩
  swap
  · rintro j ⟨nm, bf⟩ hj ⟨q1, q2⟩
    dsimp only at q1 q2
    obtain ⟨buffer, b1, b2⟩ := (accumulator_ok_iff s j).mp (p2 j hj)
    have hq := p1 (by omega)
    have hbf : bf[j]? = some buffer := by rw [(q2 j (le_refl j)).1]; exact b1
    obtain ⟨result, hr⟩ := integration_normalize_station_total s j nm bf 0 buffer
      ((q2 j (le_refl j)).2 hj) hbf b2 hq.1 hq.2
    obtain ⟨nm', bf'⟩ := result
    obtain ⟨_, _, _, _, _, _, _, e5, e6, _⟩ :=
      integration_normalize_station_spec s j nm nm' bf bf' hr
    refine ⟨(nm', bf'), hr, ?_, ?_⟩
    · show nm'.length = _
      rw [e5, List.length_set]; exact q1
    · intro i hi
      show bf'[i]? = _ ∧ (_ → nm'[i]? = _)
      rw [e5, e6, List.getElem?_set_ne (by omega), List.getElem?_set_ne (by omega)]
      exact q2 i (by omega)
  obtain ⟨⟨norms, mid⟩, hmid, _⟩ := hst
  rw [hmid]
  dsimp only
  obtain ⟨a1, a2, _, a4, a5⟩ := integration_normalize_autos_spec s norms mid hmid
  by_cases hle : n_stations s ≤ s.baselines.length
  · have hcr := for_loop_opt_total
      (fun j (t : List (Complex_buffer R)) => n_stations s ≤ j ∧
        ∀ i, j ≤ i → t[i]? = s.accumulation_buffers[i]?)
      s.baselines.length
      (fun station buffers =>
        match s.baselines[station]? with
        | some stations =>
          match norms[stations.1]?, norms[stations.2]?, buffers[station]? with
          | some n1, some n2, some buffer =>
            let norm := sqrt (n1 * n2)
            match for_loop_opt 0 (fft_size s + 1) (fun i buffer =>
                match buffer[i]? with
                | some c => some (buffer.set i (c.div_real norm))
                | none => none) buffer with
            | some buffer => some (buffers.set station buffer)
            | none => none
          | _, _, _ => none
        | none => none) ?_
      (s.baselines.length - n_stations s) (n_stations s) mid rfl hle
      ⟨le_refl _, fun i hi => a5 i hi⟩
    swap
    · intro j t hj ⟨hjn, ht⟩
      obtain ⟨c1, c2⟩ := p3 j hj hjn
      obtain ⟨buffer, b1, b2⟩ := (accumulator_ok_iff s j).mp c1
      obtain ⟨a, b, d1, d2, d3⟩ := (baseline_in_range_iff s j).mp c2
      obtain ⟨na, hna⟩ := getElem?_of_lt norms a (by omega)
      obtain ⟨nb, hnb⟩ := getElem?_of_lt norms b (by omega)
      have ht' : t[j]? = some buffer := by rw [ht j (le_refl j)]; exact b1
      obtain ⟨buffer', hb', _⟩ := map_loop_total (fft_size s + 1)
        (fun c => c.div_real (sqrt (na * nb))) buffer b2
      refine ⟨t.set j buffer', by simp only [d1, hna, hnb, ht', hb'], by omega, ?_⟩
      intro i hi
      rw [List.getElem?_set_ne (by omega)]
      exact ht i (by omega)
    obtain ⟨buffers, hb, _⟩ := hcr
    rw [hb]
    exact ⟨_, rfl⟩
  · rw [for_loop_opt_done _ _ _ _ (by omega)]
    exact ⟨_, rfl⟩

end Correlation_core

namespace Correlation_core

variable {R : Type}

end Correlation_core

namespace Correlation_core

variable {R : Type}

theorem stream2station_total [LinearOrderedField R] (s : Correlation_core R)
    (h : ∀ st ∈ s.correlation_parameters.station_streams,
      st.station_stream < s.input_buffers.length) :
    ∃ table, stream2station s = some table ∧ table.length = s.input_buffers.length := by
  unfold stream2station
  have key := for_loop_opt_total
    (fun _ (t : List Int) => t.length = s.input_buffers.length)
    s.correlation_parameters.station_streams.length
    (fun i table =>
      match s.correlation_parameters.station_streams[i]? with
      | some st =>
        if st.station_stream < table.length then
          some (table.set st.station_stream st.station_number)
        else none
      | none => none) ?_
    (s.correlation_parameters.station_streams.length - 0) 0
    (resize [] s.input_buffers.length (-1)) rfl (by omega) (length_resize _ _ _)
  · exact key
  · intro i t hi ht
    have hst : s.correlation_parameters.station_streams[i]? =
        some s.correlation_parameters.station_streams[i] := List.getElem?_eq_getElem hi
    have hlt : s.correlation_parameters.station_streams[i].station_stream < t.length := by
      rw [ht]
      exact h _ (List.getElem_mem hi)
    refine ⟨_, by simp only [hst, hlt, if_true]; rfl, ?_⟩
    show (t.set _ _).length = _
    rw [List.length_set]
    exact ht

theorem uvw_table_ok_iff (s : Correlation_core R) (i : Nat) :
    uvw_table_ok s i = true ↔ ∃ table, s.uvw_tables[i]? = some (some table) := by
  unfold uvw_table_ok
  constructor
  · intro h
    split at h
    · rename_i table heq
      exact ⟨table, heq⟩
    · cases h
  · rintro ⟨table, h1⟩
    rw [h1]

theorem statistics_ok_iff (s : Correlation_core R) (i : Nat) :
    statistics_ok s i = true ↔ ∃ st, s.statistics[i]? = some (some st) := by
  unfold statistics_ok
  constructor
  · intro h
    split at h
    · rename_i st heq
      exact ⟨st, heq⟩
    · cases h
  · rintro ⟨st, h1⟩
    rw [h1]

theorem baseline_streams_ok_iff (s : Correlation_core R) (i : Nat) :
    baseline_streams_ok s i = true ↔
      ∃ a b, s.baselines[i]? = some (a, b) ∧
        a < s.correlation_parameters.station_streams.length ∧
        b < s.correlation_parameters.station_streams.length ∧
        a < s.input_buffers.length ∧ b < s.input_buffers.length := by
  unfold baseline_streams_ok
  constructor
  · intro h
    split at h
    · rename_i a b heq
      simp only [decide_eq_true_eq] at h
      exact ⟨a, b, heq, h⟩
    · cases h
  · rintro ⟨a, b, h1, h2⟩
    rw [h1]
    simpa using h2

/-- A loop whose body succeeds at every index succeeds. -/
theorem for_loop_opt_succeeds {σ : Type} (lo hi : Nat) (body : Nat → σ → Option σ) (s : σ)
    (hle : lo ≤ hi) (hstep : ∀ i t, i < hi → ∃ t', body i t = some t') :
    ∃ s', for_loop_opt lo hi body s = some s' := by
  obtain ⟨s', hs, _⟩ := for_loop_opt_total (fun _ (_ : σ) => True) hi body
    (fun i t hi _ => by
      obtain ⟨t', ht⟩ := hstep i t hi
      exact ⟨t', ht, trivial⟩) (hi - lo) lo s rfl hle trivial
  exact ⟨s', hs⟩

theorem integration_write_uvw_total [LinearOrderedField R] (s : Correlation_core R)
    (table : List Int) (h1 : s.uvw_tables.length ≤ table.length)
    (h2 : ∀ i, i < s.uvw_tables.length → uvw_table_ok s i = true) :
    ∃ uvw, integration_write_uvw s table = some uvw := by
  unfold integration_write_uvw
  dsimp only
  apply for_loop_opt_succeeds _ _ _ _ (by omega)
  intro i t hi
  obtain ⟨tab, htab⟩ := (uvw_table_ok_iff s i).mp (h2 i hi)
  obtain ⟨nr, hnr⟩ := getElem?_of_lt table i (by omega)
  rw [htab, hnr]
  exact ⟨_, rfl⟩

theorem integration_write_stats_total [LinearOrderedField R] (s : Correlation_core R)
    (polarisation : Int) (table : List Int) (h1 : s.input_buffers.length ≤ table.length)
    (h2 : ∀ i, i < s.input_buffers.length → statistics_ok s i = true) :
    ∃ stats, integration_write_stats s polarisation table = some stats := by
  unfold integration_write_stats
  apply for_loop_opt_succeeds _ _ _ _ (by omega)
  intro i t hi
  obtain ⟨st, hst⟩ := (statistics_ok_iff s i).mp (h2 i hi)
  obtain ⟨nr, hnr⟩ := getElem?_of_lt table i (by omega)
  rw [hst, hnr]
  exact ⟨_, rfl⟩

theorem integration_write_average_total [LinearOrderedField R] (s : Correlation_core R)
    (n : Nat) (buffer : Complex_buffer R) (float_buffer : List (Cplx R))
    (hn : n ≠ 0) (hfit : number_channels s * n ≤ fft_size s)
    (hb : fft_size s + 1 ≤ buffer.length) (hf : number_channels s + 1 ≤ float_buffer.length) :
    ∃ float_buffer', integration_write_average s n buffer float_buffer = some float_buffer' ∧
      float_buffer'.length = float_buffer.length := by
  unfold integration_write_average
  apply for_loop_opt_set_total _ _ _ hf
  intro j t hj ht
  have hjn : j * n ≤ number_channels s * n := Nat.mul_le_mul_right n (by omega)
  obtain ⟨first, hfirst⟩ := getElem?_of_lt buffer (j * n) (by omega)
  have hjt : j < t.length := by omega
  have inner := for_loop_opt_total (fun _ (_ : Cplx R) => True)
    (if j < number_channels s then n else 1)
    (fun k sum =>
      match buffer[j * n + k]? with
      | some c => some (sum.add c)
      | none => none) ?_
    ((if j < number_channels s then n else 1) - 1) 1 first rfl
    (by split <;> omega) trivial
  swap
  · intro k sum hk _
    have hlt : j * n + k < buffer.length := by
      split at hk
      · rename_i hjc
        have h2 : (j + 1) * n ≤ number_channels s * n := Nat.mul_le_mul_right n (by omega)
        rw [Nat.succ_mul] at h2
        omega
      · omega
    obtain ⟨c, hc⟩ := getElem?_of_lt buffer (j * n + k) hlt
    exact ⟨sum.add c, by simp only [hc], trivial⟩
  obtain ⟨sum, hsum, _⟩ := inner
  exact ⟨sum.div_real (n : R), by simp only [hfirst, hjt, if_true, hsum, hn, if_false]⟩

theorem integration_write_header_total [LinearOrderedField R] (s : Correlation_core R)
    (polarisation : Int) (table : List Int) (a b : Nat)
    (h1 : a < s.correlation_parameters.station_streams.length)
    (h2 : b < s.correlation_parameters.station_streams.length)
    (h3 : a < table.length) (h4 : b < table.length)
    (h5 : s.correlation_parameters.sideband = 'U' ∨ s.correlation_parameters.sideband = 'L') :
    ∃ hbaseline, integration_write_header s polarisation table (a, b) = some hbaseline := by
  unfold integration_write_header
  obtain ⟨na, hna⟩ := getElem?_of_lt table a h3
  obtain ⟨nb, hnb⟩ := getElem?_of_lt table b h4
  have hc : a < s.correlation_parameters.station_streams.length ∧
      b < s.correlation_parameters.station_streams.length := ⟨h1, h2⟩
  simp only [hc, if_true, hna, hnb, and_self]
  rcases h5 with h5 | h5
  · rw [if_pos h5]
    exact ⟨_, rfl⟩
  · by_cases hU : s.correlation_parameters.sideband = 'U'
    · rw [if_pos hU]
      exact ⟨_, rfl⟩
    · rw [if_neg hU, if_pos h5]
      exact ⟨_, rfl⟩

theorem integration_write_baselines_total [LinearOrderedField R] (s : Correlation_core R)
    (polarisation : Int) (table : List Int) (n : Nat)
    (state : List (Cplx R) × List (Output_chunk R))
    (hn : n ≠ 0) (hfit : number_channels s * n ≤ fft_size s)
    (hf : number_channels s + 1 ≤ state.1.length)
    (htab : table.length = s.input_buffers.length)
    (hside : s.correlation_parameters.sideband = 'U' ∨ s.correlation_parameters.sideband = 'L')
    (hbase : ∀ i, i < s.baselines.length → baseline_streams_ok s i = true)
    (hacc : ∀ i, i < s.baselines.length → accumulator_ok s i = true) :
    ∃ state', integration_write_baselines s polarisation table n state = some state' := by
  unfold integration_write_baselines
  have key := for_loop_opt_total
    (fun _ (st : List (Cplx R) × List (Output_chunk R)) =>
      number_channels s + 1 ≤ st.1.length)
    s.baselines.length
    (fun i state =>
      match s.baselines[i]?, s.accumulation_buffers[i]? with
      | some stations, some buffer =>
        match integration_write_average s n buffer state.1 with
        | some float_buffer =>
          match integration_write_header s polarisation table stations with
          | some hbaseline =>
            let written := push_back state.2 (Output_chunk.baseline_header hbaseline)
            let written := push_back written
              (Output_chunk.baseline_data (float_buffer.take (number_channels s + 1)))
            some (float_buffer, written)
          | none => none
        | none => none
      | _, _ => none) ?_
    (s.baselines.length - 0) 0 state rfl (by omega) hf
  · obtain ⟨state', hs, _⟩ := key
    exact ⟨state', hs⟩
  · intro i st hi hst
    obtain ⟨a, b, d1, d2, d3, d4, d5⟩ := (baseline_streams_ok_iff s i).mp (hbase i hi)
    obtain ⟨buffer, b1, b2⟩ := (accumulator_ok_iff s i).mp (hacc i hi)
    obtain ⟨fb, hfb, hlen⟩ := integration_write_average_total s n buffer st.1 hn hfit b2 hst
    obtain ⟨hd, hhd⟩ := integration_write_header_total s polarisation table a b d2 d3
      (by omega) (by omega) hside
    refine ⟨_, by simp only [d1, b1, hfb, hhd]; rfl, ?_⟩
    show _ ≤ fb.length
    omega

/-- `integration_write` succeeds in every state that is ready for it. -/
theorem integration_write_total [LinearOrderedField R] (s : Correlation_core R)
    (h : write_ready s) : ∃ s', integration_write s = some s' := by
  obtain ⟨⟨w1, w2, w3, w4, w5, w6, w7, w8, w9, w10⟩, hlen, hacc⟩ := h
  obtain ⟨table, htab, htl⟩ := stream2station_total s w6
  have hpol : ∃ p : Int, (if s.correlation_parameters.polarisation = 'R' then some (0 : Int)
      else if s.correlation_parameters.polarisation = 'L' then some (1 : Int)
      else none) = some p := by
    rcases w2 with h | h
    · exact ⟨0, by rw [if_pos h]⟩
    · by_cases hR : s.correlation_parameters.polarisation = 'R'
      · exact ⟨0, by rw [if_pos hR]⟩
      · exact ⟨1, by rw [if_neg hR, if_pos h]⟩
  obtain ⟨p, hp⟩ := hpol
  obtain ⟨uvw, huvw⟩ := integration_write_uvw_total s table (by omega) w8
  obtain ⟨stats, hstats⟩ := integration_write_stats_total s p table (by omega) w9
  have hn : fft_size s / number_channels s ≠ 0 := by
    have := Nat.div_pos w5 (Nat.pos_of_ne_zero w4)
    omega
  have hfit : number_channels s * (fft_size s / number_channels s) ≤ fft_size s :=
    Nat.mul_div_le _ _
  cases hw : s.writer with
  | none => rw [hw] at w1; cases w1
  | some written =>
    obtain ⟨⟨fb, wr⟩, hbl⟩ := integration_write_baselines_total s p table
      (fft_size s / number_channels s)
      (resize s.integration_buffer_float (number_channels s + 1) Cplx.zero,
        push_back (push_back (push_back written
          (Output_chunk.timeslice
            { number_baselines := s.baselines.length
              integration_slice := s.correlation_parameters.integration_nr + s.current_integration
              number_uvw_coordinates := s.uvw_tables.length
              number_statistics := s.input_buffers.length }))
          (Output_chunk.uvw uvw)) (Output_chunk.stats stats))
      hn hfit (by show _ ≤ (resize _ _ _).length; rw [length_resize]) htl w3 w10 hacc
    unfold integration_write
    simp only [hw, hlen, if_true, hp, htab, huvw, hstats, w4, if_false, hbl]
    exact ⟨_, rfl⟩

end Correlation_core

namespace Correlation_core

variable {R : Type}

/-- C10, amended: `integration_write` succeeds in every state that is ready
for it, and for every baseline a successful `integration_write` emits the
baseline header followed by exactly `number_channels + 1` complex values;
that is `fft_size + 1` values when `number_channels = fft_size`. -/
theorem integration_write_data_length [LinearOrderedField R] (s : Correlation_core R) :
    (write_ready s → ∃ s', integration_write s = some s') ∧
    ∀ s', integration_write s = some s' →
      ∃ old timeslice uvw stats, ∃ blocks : List (Output_header_baseline × List (Cplx R)),
        s.writer = some old ∧
        s'.writer = some (old ++
          [Output_chunk.timeslice timeslice, Output_chunk.uvw uvw, Output_chunk.stats stats] ++
          blocks.flatMap (fun b =>
            [Output_chunk.baseline_header b.1, Output_chunk.baseline_data b.2])) ∧
        blocks.length = s.baselines.length ∧
        (∀ b ∈ blocks, b.2.length = number_channels s + 1) ∧
        (number_channels s = fft_size s → ∀ b ∈ blocks, b.2.length = fft_size s + 1) :=
  ⟨integration_write_total s, fun s' h => integration_write_data_length_partial s s' h⟩

/-- Witness of C10 (amended): the example core writes its three baselines. -/
theorem integration_write_data_length_witness :
    ∃ s s' : Correlation_core ℚ, example_initialised = some s ∧
      write_ready s ∧ integration_write s = some s' ∧
      ∃ old timeslice uvw stats, ∃ blocks : List (Output_header_baseline × List (Cplx ℚ)),
        s.writer = some old ∧
        s'.writer = some (old ++
          [Output_chunk.timeslice timeslice, Output_chunk.uvw uvw, Output_chunk.stats stats] ++
          blocks.flatMap (fun b =>
            [Output_chunk.baseline_header b.1, Output_chunk.baseline_data b.2])) ∧
        blocks.length = s.baselines.length ∧
        (∀ b ∈ blocks, b.2.length = number_channels s + 1) ∧
        (number_channels s = fft_size s → ∀ b ∈ blocks, b.2.length = fft_size s + 1) :=
  ⟨_, _, rfl, by decide, rfl, (integration_write_data_length _).2 _ rfl⟩

/-- C10 as stated fails: with `fft_size = 2` and `number_channels = 1` a
successful `integration_write` emits two values per baseline, not
`fft_size + 1 = 3`. -/
theorem integration_write_data_length_counterexample :
    ¬ (∀ s s' : Correlation_core ℚ, integration_write s = some s' →
        ∀ old new, s.writer = some old → s'.writer = some (old ++ new) →
          ∀ n ∈ baseline_data_lengths new, n = fft_size s + 1) := by
  intro hall
  have h : ∃ s s' : Correlation_core ℚ, ∃ new, example_one_channel = some s ∧
      integration_write s = some s' ∧ s.writer = some [] ∧ s'.writer = some ([] ++ new) ∧
      fft_size s = 2 ∧ baseline_data_lengths new = [2, 2, 2] :=
    ⟨_, _, _, rfl, rfl, rfl, rfl, rfl, by decide⟩
  obtain ⟨s, s', new, _, h1, h2, h3, h4, h5⟩ := h
  have := hall s s' h1 [] new h2 h3 2 (by rw [h5]; simp)
  omega

end Correlation_core

namespace Correlation_core

variable {R : Type}

theorem for_loop_step {σ : Type} (lo hi : Nat) (body : Nat → σ → σ) (s : σ) (h : lo < hi) :
    for_loop lo hi body s = for_loop (lo + 1) hi body (body lo s) := by
  unfold for_loop
  have e : hi - lo = (hi - (lo + 1)) + 1 := by omega
  rw [e, List.range'_succ, List.foldl_cons]

theorem for_loop_done {σ : Type} (lo hi : Nat) (body : Nat → σ → σ) (s : σ) (h : hi ≤ lo) :
    for_loop lo hi body s = s := by
  unfold for_loop
  have e : hi - lo = 0 := by omega
  rw [e]
  rfl

/-- Invariant rule for a loop that cannot fail. -/
theorem for_loop_inv {σ : Type} (P : Nat → σ → Prop) (hi : Nat) (body : Nat → σ → σ)
    (hstep : ∀ i t, i < hi → P i t → P (i + 1) (body i t)) :
    ∀ (n lo : Nat) (s : σ), hi - lo = n → lo ≤ hi → P lo s → P hi (for_loop lo hi body s) := by
  intro n
  induction n with
  | zero =>
    intro lo s hn hle h0
    have : lo = hi := by omega
    rw [for_loop_done lo hi body s (by omega)]
    exact this ▸ h0
  | succ k ih =>
    intro lo s hn hle h0
    rw [for_loop_step lo hi body s (by omega)]
    exact ih (lo + 1) (body lo s) (by omega) (by omega) (hstep lo s (by omega) h0)

theorem accumulator_sized_iff (s : Correlation_core R) (i : Nat) :
    accumulator_sized s i = true ↔
      ∃ out, s.accumulation_buffers[i]? = some out ∧ out.length = fft_size s + 1 := by
  unfold accumulator_sized
  constructor
  · intro h
    split at h
    · rename_i out heq
      simp only [decide_eq_true_eq] at h
      exact ⟨out, heq, h⟩
    · cases h
  · rintro ⟨out, h1, h2⟩
    rw [h1]
    simpa using h2

/-- The loop that zeroes a buffer keeps its length. -/
theorem length_zero_loop [LinearOrderedField R] (buffer : Complex_buffer R) :
    (for_loop 0 buffer.length (fun j (b : Complex_buffer R) => b.set j Cplx.zero)
      buffer).length = buffer.length :=
  for_loop_inv (fun _ (b : Complex_buffer R) => b.length = buffer.length) buffer.length
    (fun j (b : Complex_buffer R) => b.set j Cplx.zero)
    (fun i t _ ht => by show (t.set i Cplx.zero).length = _; rw [List.length_set]; exact ht)
    (buffer.length - 0) 0 buffer rfl (by omega) rfl

/-- The accumulators after the resizing of `integration_initialise`: one per
baseline, each of `fft_size + 1` bins. -/
theorem resize_loop_spec [LinearOrderedField R] (m : Nat) (buffers : List (Complex_buffer R)) :
    (for_loop 0 buffers.length (fun i (b : List (Complex_buffer R)) =>
      b.set i (resize (b.getD i []) (m + 1) Cplx.zero)) buffers).length = buffers.length ∧
    ∀ i, i < buffers.length → ∃ out,
      (for_loop 0 buffers.length (fun i (b : List (Complex_buffer R)) =>
        b.set i (resize (b.getD i []) (m + 1) Cplx.zero)) buffers)[i]? = some out ∧
      out.length = m + 1 := by
  have key := for_loop_inv
    (fun j (t : List (Complex_buffer R)) => t.length = buffers.length ∧
      ∀ i, i < j → ∃ out, t[i]? = some out ∧ out.length = m + 1)
    buffers.length
    (fun i (b : List (Complex_buffer R)) => b.set i (resize (b.getD i []) (m + 1) Cplx.zero))
    ?_ (buffers.length - 0) 0 buffers rfl (by omega) ⟨rfl, fun i hi => by omega⟩
  · exact key
  · intro j t hj ⟨h1, h2⟩
    refine ⟨by show (t.set j _).length = _; rw [List.length_set]; exact h1, ?_⟩
    intro i hi
    show ∃ out, (t.set j _)[i]? = some out ∧ _
    by_cases hij : i = j
    · subst hij
      refine ⟨resize (t.getD i []) (m + 1) Cplx.zero, ?_, length_resize _ _ _⟩
      rw [List.getElem?_set_self (by omega)]
    · rw [List.getElem?_set_ne (Ne.symm hij)]
      exact h2 i (by omega)

/-- `integration_initialise` succeeds in every state that is ready for it,
and leaves one accumulator of `fft_size + 1` bins per baseline. -/
theorem integration_initialise_total [LinearOrderedField R] (s : Correlation_core R)
    (h : initialise_ready s) :
    ∃ buffers, integration_initialise s = some { s with accumulation_buffers := buffers } ∧
      buffers.length = s.baselines.length ∧
      ∀ i, i < s.baselines.length → ∃ out, buffers[i]? = some out ∧
        out.length = fft_size s + 1 := by
  have h0 : ∃ buffers0 : List (Complex_buffer R),
      (if s.accumulation_buffers.length ≠ s.baselines.length then
        for_loop 0 (resize s.accumulation_buffers s.baselines.length []).length
          (fun i (buffers : List (Complex_buffer R)) =>
            buffers.set i (resize (buffers.getD i []) (fft_size s + 1) Cplx.zero))
          (resize s.accumulation_buffers s.baselines.length [])
       else s.accumulation_buffers) = buffers0 ∧
      buffers0.length = s.baselines.length ∧
      ∀ i, i < s.baselines.length → ∃ out, buffers0[i]? = some out ∧
        out.length = fft_size s + 1 := by
    by_cases hl : s.accumulation_buffers.length = s.baselines.length
    · rw [if_neg (by simpa using hl)]
      refine ⟨_, rfl, hl, ?_⟩
      intro i hi
      exact (accumulator_sized_iff s i).mp (h hl i hi)
    · rw [if_pos hl]
      have r := resize_loop_spec (fft_size s)
        (resize s.accumulation_buffers s.baselines.length [])
      refine ⟨_, rfl, ?_, ?_⟩
      · rw [r.1, length_resize]
      · intro i hi
        exact r.2 i (by rw [length_resize]; exact hi)
  obtain ⟨buffers0, e0, l0, b0⟩ := h0
  have key := for_loop_opt_total
    (fun j (t : List (Complex_buffer R)) => t.length = s.baselines.length ∧
      (∀ i, j ≤ i → t[i]? = buffers0[i]?) ∧
      ∀ i, i < j → ∃ out, t[i]? = some out ∧ out.length = fft_size s + 1)
    buffers0.length
    (fun i (buffers : List (Complex_buffer R)) =>
      match buffers[i]? with
      | some buffer =>
        if buffer.length = fft_size s + 1 then
          some (buffers.set i
            (for_loop 0 buffer.length (fun j buffer => buffer.set j Cplx.zero) buffer))
        else none
      | none => none) ?_
    (buffers0.length - 0) 0 buffers0 rfl (by omega) ⟨l0, fun _ _ => rfl, fun i hi => by omega⟩
  swap
  · intro j t hj ⟨h1, h2, h3⟩
    obtain ⟨out, o1, o2⟩ := b0 j (by omega)
    have htj : t[j]? = some out := by rw [h2 j (le_refl j)]; exact o1
    refine ⟨t.set j (for_loop 0 out.length (fun j buffer => buffer.set j Cplx.zero) out),
      by dsimp only; rw [htj]; exact if_pos o2, ?_, ?_, ?_⟩
    · show (t.set j _).length = _
      rw [List.length_set]
      exact h1
    · intro i hi
      show (t.set j _)[i]? = _
      rw [List.getElem?_set_ne (by omega)]
      exact h2 i (by omega)
    · intro i hi
      show ∃ o, (t.set j _)[i]? = some o ∧ _
      by_cases hij : i = j
      · subst hij
        refine ⟨for_loop 0 out.length (fun j buffer => buffer.set j Cplx.zero) out, ?_, ?_⟩
        · rw [List.getElem?_set_self (by omega)]
        · rw [length_zero_loop]
          exact o2
      · rw [List.getElem?_set_ne (Ne.symm hij)]
        exact h3 i (by omega)
  obtain ⟨buffers, hb, b1, _, b3⟩ := key
  refine ⟨buffers, ?_, b1, fun i hi => b3 i (by omega)⟩
  rw [l0] at hb
  unfold integration_initialise
  dsimp only
  rw [e0]
  simp only [l0, if_true, hb]

end Correlation_core

namespace Correlation_core

variable {R : Type}

/-- A successful step keeps the number of connected queues. -/
theorem integration_step_queue_count [LinearOrderedField R] (s s' : Correlation_core R)
    (h : integration_step s = some s') :
    s'.input_buffers.length = s.input_buffers.length := by
  unfold integration_step at h
  dsimp only at h
  split at h
  swap
  · cases h
  rename_i s1 hf
  split at h
  swap
  · cases h
  rename_i buffers hcor
  have hb1 : s1.input_buffers = s.input_buffers := by
    rcases integration_step_fetch_frame _ s1 hf with ⟨e, _⟩ | e
    · rw [e]; split <;> rfl
    · rw [e]; split <;> rfl
  obtain ⟨_, _, a3, _⟩ := integration_step_advance_spec _ s' h
  rw [a3]
  show s1.input_buffers.length = _
  rw [hb1]

/-- The conditions of `integration_write` on the configuration read the
writer, the parameters, the tables, the statistics, the baselines and the
number of queues only. -/
theorem write_ready_configuration_congr (s t : Correlation_core R)
    (h1 : t.writer = s.writer) (h2 : t.correlation_parameters = s.correlation_parameters)
    (h3 : t.input_buffers.length = s.input_buffers.length) (h4 : t.uvw_tables = s.uvw_tables)
    (h5 : t.statistics = s.statistics) (h6 : t.baselines = s.baselines)
    (h : write_ready_configuration s) : write_ready_configuration t := by
  unfold write_ready_configuration uvw_table_ok statistics_ok baseline_streams_ok
    number_channels fft_size at *
  rw [h1, h2, h3, h4, h5, h6]
  exact h

/-- A successful step keeps every accumulator of a baseline, with its
length. -/
theorem integration_step_keeps_accumulators [LinearOrderedField R]
    (s s' : Correlation_core R) (h : integration_step s = some s')
    (i : Nat) (hi : i < s.baselines.length) :
    ∃ out out', s.accumulation_buffers[i]? = some out ∧
      s'.accumulation_buffers[i]? = some out' ∧ out'.length = out.length := by
  obtain ⟨_, p2, p3, _⟩ := integration_step_partial s s' h
  by_cases hn : i < number_input_streams_in_use s
  · obtain ⟨_, _, out, out', _, _, q1, q2, q3, _⟩ := p2 i hn
    exact ⟨out, out', q1, q2, q3⟩
  · obtain ⟨_, _, _, _, out, out', _, _, _, _, q1, q2, q3, _⟩ := p3 i (by omega) hi
    exact ⟨out, out', q1, q2, q3⟩

/-- A successful normalisation keeps every accumulator of a baseline, with
its length. -/
theorem integration_normalize_keeps_accumulators [LinearOrderedField R] (sqrt : R → R)
    (s s' : Correlation_core R) (h : integration_normalize sqrt s = some s')
    (i : Nat) (hi : i < s.baselines.length) :
    ∃ out out', s.accumulation_buffers[i]? = some out ∧
      s'.accumulation_buffers[i]? = some out' ∧ out'.length = out.length := by
  obtain ⟨_, _, _, p2, p3, _⟩ := integration_normalize_partial sqrt s s' h
  by_cases hn : i < n_stations s
  · obtain ⟨out, out', q1, q2, _, q3, _⟩ := p2 i hn
    exact ⟨out, out', q1, q2, q3⟩
  · obtain ⟨_, _, _, _, out, out', _, _, _, q1, q2, q3, _⟩ := p3 i (by omega) hi
    exact ⟨out, out', q1, q2, q3⟩

end Correlation_core

namespace Correlation_core

variable {R : Type}

/-- The end of an integration succeeds on a state whose accumulators are
there with their bins and that is prepared for it. -/
theorem finish_total [LinearOrderedField R] (sqrt : R → R) (s : Correlation_core R)
    (hstreams : ∀ i, i < n_stations s → i < s.baselines.length)
    (hlen : s.accumulation_buffers.length = s.baselines.length)
    (hacc : ∀ i, i < s.baselines.length → accumulator_ok s i = true)
    (hfin : finish_ready s) :
    ∃ s2 s3, integration_normalize sqrt s = some s2 ∧ integration_write s2 = some s3 := by
  obtain ⟨f1, f2, f3⟩ := hfin
  have hnorm : normalize_ready s :=
    ⟨f1, fun i hi => hacc i (hstreams i hi), fun i hi hn => ⟨hacc i hi, f2 i hi hn⟩⟩
  obtain ⟨s2, h2⟩ := integration_normalize_total sqrt s hnorm
  have fr := integration_normalize_frame sqrt s s2 h2
  have e1 : s2.writer = s.writer := by rw [fr]
  have e2 : s2.correlation_parameters = s.correlation_parameters := by rw [fr]
  have e3 : s2.input_buffers = s.input_buffers := by rw [fr]
  have e4 : s2.uvw_tables = s.uvw_tables := by rw [fr]
  have e5 : s2.statistics = s.statistics := by rw [fr]
  have e6 : s2.baselines = s.baselines := by rw [fr]
  have hfft : fft_size s2 = fft_size s := by unfold fft_size; rw [e2]
  obtain ⟨_, _, l2, _⟩ := integration_normalize_partial sqrt s s2 h2
  have hwrite : write_ready s2 := by
    refine ⟨write_ready_configuration_congr s s2 e1 e2 (by rw [e3]) e4 e5 e6 f3, ?_, ?_⟩
    · rw [l2, e6]
      exact hlen
    · intro i hi
      rw [e6] at hi
      obtain ⟨out, out', q1, q2, q3⟩ := integration_normalize_keeps_accumulators sqrt s s2 h2 i hi
      obtain ⟨out0, r1, r2⟩ := (accumulator_ok_iff s i).mp (hacc i hi)
      rw [q1] at r1
      cases r1
      exact (accumulator_ok_iff s2 i).mpr ⟨out', q2, by rw [hfft]; omega⟩
  obtain ⟨s3, h3⟩ := integration_write_total s2 hwrite
  exact ⟨s2, s3, h2, h3⟩

/-- `do_task` succeeds in every state that is ready for it. -/
theorem do_task_total [LinearOrderedField R] (sqrt : R → R) (s : Correlation_core R)
    (h : task_ready s) : ∃ s', do_task sqrt s = some s' := by
  obtain ⟨hw, hN, hstreams, hacc, hfin⟩ := h
  -- the accumulators after the initialisation, if any
  have h0 : ∃ buffers : List (Complex_buffer R),
      (if s.current_fft % s.number_ffts_in_integration = 0 then integration_initialise s
       else some s) = some { s with accumulation_buffers := buffers } ∧
      buffers.length = s.baselines.length ∧
      ∀ i, i < s.baselines.length → ∃ out, buffers[i]? = some out ∧
        fft_size s + 1 ≤ out.length := by
    by_cases hc : s.current_fft % s.number_ffts_in_integration = 0
    · rw [if_pos hc] at hacc
      rw [if_pos hc]
      obtain ⟨buffers, b1, b2, b3⟩ := integration_initialise_total s hacc
      refine ⟨buffers, b1, b2, ?_⟩
      intro i hi
      obtain ⟨out, o1, o2⟩ := b3 i hi
      exact ⟨out, o1, by omega⟩
    · rw [if_neg hc] at hacc
      rw [if_neg hc]
      exact ⟨s.accumulation_buffers, rfl, hacc.1,
        fun i hi => (accumulator_ok_iff s i).mp (hacc.2 i hi)⟩
  obtain ⟨buffers, e0, l0, b0⟩ := h0
  have hready : step_ready { s with accumulation_buffers := buffers } :=
    ⟨hstreams, fun i hi =>
      (accumulator_ok_iff { s with accumulation_buffers := buffers } i).mpr (b0 i hi)⟩
  obtain ⟨s1, h1⟩ := integration_step_total _ hready
  have fr := integration_step_frame _ s1 h1
  have c1 : s1.current_fft = s.current_fft := by rw [fr]
  have c2 : s1.number_ffts_in_integration = s.number_ffts_in_integration := by rw [fr]
  unfold do_task
  rw [if_pos hw, if_neg hN, e0]
  dsimp only
  rw [h1]
  dsimp only
  by_cases hl : s.current_fft + 1 = s.number_ffts_in_integration
  swap
  · have hl' : ¬ s1.current_fft + 1 = s1.number_ffts_in_integration := by
      rw [c1, c2]
      exact hl
    rw [if_neg hl']
    exact ⟨_, rfl⟩
  have hl' : s1.current_fft + 1 = s1.number_ffts_in_integration := by
    rw [c1, c2]
    exact hl
  rw [if_pos hl']
  obtain ⟨g1, g2, g3⟩ := hfin hl
  have e1 : s1.writer = s.writer := by rw [fr]
  have e2 : s1.correlation_parameters = s.correlation_parameters := by rw [fr]
  have e3 : s1.input_buffers.length = s.input_buffers.length := by
    have := integration_step_queue_count _ s1 h1
    exact this
  have e4 : s1.uvw_tables = s.uvw_tables := by rw [fr]
  have e5 : s1.statistics = s.statistics := by rw [fr]
  have e6 : s1.baselines = s.baselines := by rw [fr]
  have e7 : s1.oversamp = s.oversamp := by rw [fr]
  obtain ⟨l1, _⟩ := integration_step_partial _ s1 h1
  have hfinish := finish_total sqrt { s1 with current_fft := s1.current_fft + 1 } ?_ ?_ ?_ ?_
  · obtain ⟨s2, s3, h2, h3⟩ := hfinish
    rw [h2]
    dsimp only
    rw [h3]
    exact ⟨_, rfl⟩
  · intro i hi
    show i < s1.baselines.length
    rw [e6]
    have hi' : i < number_input_streams_in_use s := by
      unfold n_stations at hi
      unfold number_input_streams_in_use
      rw [← e2]
      exact hi
    have := hstreams.2.1 i hi'
    by_contra hcon
    rw [List.getElem?_eq_none (by omega)] at this
    cases this
  · show s1.accumulation_buffers.length = s1.baselines.length
    rw [l1, e6]
    exact l0
  · intro i hi
    have hi' : i < s.baselines.length := by rw [← e6]; exact hi
    obtain ⟨out, out', q1, q2, q3⟩ := integration_step_keeps_accumulators _ s1 h1 i hi'
    obtain ⟨out0, r1, r2⟩ := b0 i hi'
    have q1' : buffers[i]? = some out := q1
    rw [q1'] at r1
    cases r1
    refine (accumulator_ok_iff _ i).mpr ⟨out', q2, ?_⟩
    show s1.correlation_parameters.fft_size + 1 ≤ _
    rw [e2]
    show fft_size s + 1 ≤ _
    omega
  · refine ⟨?_, ?_, ?_⟩
    · show s1.correlation_parameters.station_streams.length ≠ 0 →
        s1.oversamp ≠ 0 ∧ s1.correlation_parameters.fft_size / s1.oversamp ≠ 0
      rw [e2, e7]
      exact g1
    · intro i hi hn
      have hi' : i < s.baselines.length := by rw [← e6]; exact hi
      have hn' : n_stations s ≤ i := by
        unfold n_stations at hn ⊢
        rw [← e2]
        exact hn
      obtain ⟨a, b, d1, d2, d3⟩ := (baseline_in_range_iff s i).mp (g2 i hi' hn')
      refine (baseline_in_range_iff _ i).mpr ⟨a, b, ?_, ?_, ?_⟩
      · show s1.baselines[i]? = _
        rw [e6]
        exact d1
      · show a < s1.correlation_parameters.station_streams.length
        rw [e2]
        exact d2
      · show b < s1.correlation_parameters.station_streams.length
        rw [e2]
        exact d3
    · exact write_ready_configuration_congr s _ e1 e2 e3 e4 e5 e6 g3

end Correlation_core

namespace Correlation_core

variable {R : Type}

/-- C8, amended: `do_task` succeeds in every state that is ready for it; when
a successful `do_task` call brings `current_fft` to
`number_ffts_in_integration`, it runs `integration_normalize` and then
`integration_write` on the result of its step within that call; when it
returns, `current_fft` equals `number_ffts_in_integration` (it is not reset,
so `finished()` holds) and `current_integration` is one more than before. -/
theorem do_task_completes_integration [LinearOrderedField R] (sqrt : R → R)
    (s : Correlation_core R) (hlast : s.current_fft + 1 = s.number_ffts_in_integration) :
    (task_ready s → ∃ s', do_task sqrt s = some s') ∧
    ∀ s', do_task sqrt s = some s' →
      (∃ s0 s1 s2 s3,
        (if s.current_fft % s.number_ffts_in_integration = 0
          then integration_initialise s else some s) = some s0 ∧
        integration_step s0 = some s1 ∧
        integration_normalize sqrt { s1 with current_fft := s.current_fft + 1 } = some s2 ∧
        integration_write s2 = some s3 ∧
        s' = { s3 with current_integration := s.current_integration + 1 }) ∧
      s'.current_fft = s.number_ffts_in_integration ∧
      finished s' = true ∧
      s'.number_ffts_in_integration = s.number_ffts_in_integration ∧
      s'.current_integration = s.current_integration + 1 :=
  ⟨do_task_total sqrt s, fun s' h => do_task_completes_integration_partial sqrt s s' h hlast⟩

/-- Witness of C8 (amended): the second `do_task` of the example core, whose
integration has two FFTs. -/
theorem do_task_completes_integration_witness :
    ∃ s s' : Correlation_core ℚ, example_configured.bind (do_task example_sqrt) = some s ∧
      s.current_fft + 1 = s.number_ffts_in_integration ∧ task_ready s ∧
      do_task example_sqrt s = some s' ∧
      (∃ s0 s1 s2 s3,
        (if s.current_fft % s.number_ffts_in_integration = 0
          then integration_initialise s else some s) = some s0 ∧
        integration_step s0 = some s1 ∧
        integration_normalize example_sqrt { s1 with current_fft := s.current_fft + 1 } =
          some s2 ∧
        integration_write s2 = some s3 ∧
        s' = { s3 with current_integration := s.current_integration + 1 }) ∧
      s'.current_fft = s.number_ffts_in_integration ∧
      finished s' = true ∧
      s'.number_ffts_in_integration = s.number_ffts_in_integration ∧
      s'.current_integration = s.current_integration + 1 :=
  ⟨_, _, rfl, rfl, by decide, rfl,
    (do_task_completes_integration example_sqrt _ rfl).2 _ rfl⟩

/-- C9 (amended): in a reachable state that is ready for the call (`has_work()`
holds, every input stream in use has a spectrum to read, an integration has at
least one FFT, and the accumulators and the end of the integration are
prepared) `do_task` returns; and every `do_task` call that returns was made
while `has_work()` held and has consumed exactly one spectrum from each input
stream in use: the stream loses the first of its unread spectra, the one at
its read position, the iterator moves on by one spectrum, and the queue
element is popped exactly when that spectrum was the last one of the element;
`current_fft` increases by exactly one. -/
theorem do_task_consumes [LinearOrderedField R] (sqrt : R → R) (s : Correlation_core R)
    (hr : Reachable sqrt s) :
    (task_ready s → ∃ s', do_task sqrt s = some s') ∧
    ∀ s', do_task sqrt s = some s' →
      has_work s = some true ∧
      s'.current_fft = s.current_fft + 1 ∧
      ∀ i, i < number_input_streams_in_use s → ∃ x rest,
        current_element s i = x :: rest ∧
        unread_spectra s i = x :: unread_spectra s' i ∧
        s'.input_elements[i]? = some ⟨rest⟩ ∧
        (rest ≠ [] → s'.input_buffers[i]? = s.input_buffers[i]?) ∧
        (rest = [] → ∃ front queue, s.input_buffers[i]? = some (some (front :: queue)) ∧
          s'.input_buffers[i]? = some (some queue)) :=
  ⟨do_task_total sqrt s, fun s' h => do_task_consumes_partial sqrt s s' hr h⟩

/-- Witness of C9 (amended): the first `do_task` of the example core. -/
theorem do_task_consumes_witness :
    ∃ s s' : Correlation_core ℚ, example_configured = some s ∧
      task_ready s ∧ do_task example_sqrt s = some s' ∧
      has_work s = some true ∧
      s'.current_fft = s.current_fft + 1 ∧
      ∀ i, i < number_input_streams_in_use s → ∃ x rest,
        current_element s i = x :: rest ∧
        unread_spectra s i = x :: unread_spectra s' i ∧
        s'.input_elements[i]? = some ⟨rest⟩ ∧
        (rest ≠ [] → s'.input_buffers[i]? = s.input_buffers[i]?) ∧
        (rest = [] → ∃ front queue, s.input_buffers[i]? = some (some (front :: queue)) ∧
          s'.input_buffers[i]? = some (some queue)) :=
  ⟨_, _, rfl, by decide, rfl,
    (do_task_consumes example_sqrt _ (example_configured_reachable _ rfl)).2 _ rfl⟩

/-- C9 as stated fails: after `connect_to` of two queues, `set_parameters` for
one stream, one `do_task` that leaves the iterator of stream 0 inside its queue
element, and `set_parameters` for two streams, `has_work()` holds, since
`check_input_elements` is cleared, but stream 1 has no spectrum to read: its
queue is empty and its iterator was never set. The `do_task` call made then
does not return, and consumes nothing. -/
theorem do_task_consumes_counterexample :
    ¬ (∀ s : Correlation_core ℚ, Reachable example_sqrt s → has_work s = some true →
        ∃ s', do_task example_sqrt s = some s' ∧ s'.current_fft = s.current_fft + 1) := by
  intro hall
  have h : ∃ s3 s4 s5 : Correlation_core ℚ,
      example_two_queues.set_parameters (example_parameters 1 (-1) false) 0 = some s3 ∧
      do_task example_sqrt s3 = some s4 ∧
      s4.set_parameters (example_parameters 2 (-1) false) 0 = some s5 ∧
      has_work s5 = some true ∧ (do_task example_sqrt s5).isNone = true :=
    ⟨_, _, _, rfl, rfl, rfl, rfl, rfl⟩
  obtain ⟨s3, s4, s5, h3, h4, h5, h6, h7⟩ := h
  have hr : Reachable example_sqrt s5 := by
    refine Reachable.set_parameters _ s5 _ _ ?_ h5
    refine Reachable.do_task _ s4 ?_ h4
    refine Reachable.set_parameters _ s3 _ _ ?_ h3
    refine Reachable.connect_to _ _ _ _ ?_
    refine Reachable.connect_to _ _ _ _ ?_
    exact Reachable.construct _ _
  obtain ⟨s', hs', _⟩ := hall s5 hr h6
  rw [hs'] at h7
  cases h7

end Correlation_core

namespace Correlation_core

variable {R : Type}

/-- The fields of a baseline header that `integration_write` fills in. -/
theorem integration_write_header_spec [LinearOrderedField R] (s : Correlation_core R)
    (polarisation : Int) (table : List Int) (stations : Baseline)
    (hbaseline : Output_header_baseline)
    (h : integration_write_header s polarisation table stations = some hbaseline) :
    stations.1 < s.correlation_parameters.station_streams.length ∧
    stations.2 < s.correlation_parameters.station_streams.length ∧
    table[stations.1]? = some hbaseline.station_nr1 ∧
    table[stations.2]? = some hbaseline.station_nr2 ∧
    hbaseline.weight = 0 ∧
    hbaseline.polarisation1 =
      (if s.correlation_parameters.cross_polarize = true ∧
          stations.1 ≥ s.correlation_parameters.station_streams.length / 2
       then 1 - polarisation else polarisation) ∧
    hbaseline.polarisation2 =
      (if s.correlation_parameters.cross_polarize = true ∧
          stations.2 ≥ s.correlation_parameters.station_streams.length / 2
       then 1 - polarisation else polarisation) ∧
    (s.correlation_parameters.sideband = 'U' ∧ hbaseline.sideband = 1 ∨
      s.correlation_parameters.sideband = 'L' ∧ hbaseline.sideband = 0) ∧
    hbaseline.frequency_nr = s.correlation_parameters.channel_nr % 256 := by
  unfold integration_write_header at h
  dsimp only at h
  split at h
  swap
  · cases h
  rename_i hr
  split at h
  swap
  · cases h
  rename_i nr1 nr2 h1 h2
  split at h
  · rename_i hU
    simp only [Option.some.injEq] at h
    subst h
    exact ⟨hr.1, hr.2, h1, h2, rfl, rfl, rfl, Or.inl ⟨hU, rfl⟩, rfl⟩
  · split at h
    · rename_i hU hL
      simp only [Option.some.injEq] at h
      subst h
      exact ⟨hr.1, hr.2, h1, h2, rfl, rfl, rfl, Or.inr ⟨hL, rfl⟩, rfl⟩
    · cases h

/-- A successful uvw loop gives one record per uvw table. -/
theorem integration_write_uvw_length [LinearOrderedField R] (s : Correlation_core R)
    (table : List Int) (uvw : List (Output_uvw_coordinates R))
    (h : integration_write_uvw s table = some uvw) : uvw.length = s.uvw_tables.length := by
  unfold integration_write_uvw at h
  dsimp only at h
  have := for_loop_opt_length _ _ _ ?_ _ _ h
  · rw [this, List.length_replicate]
  · intro i t t' hb
    split at hb
    · simp only [Option.some.injEq] at hb
      rw [← hb, List.length_set]
    · cases hb

/-- A successful statistics loop gives one record per input stream. -/
theorem integration_write_stats_length [LinearOrderedField R] (s : Correlation_core R)
    (polarisation : Int) (table : List Int) (stats : List Output_header_bitstatistics)
    (h : integration_write_stats s polarisation table = some stats) :
    stats.length = s.input_buffers.length := by
  unfold integration_write_stats at h
  have := for_loop_opt_length _ _ _ ?_ _ _ h
  · rw [this, List.length_replicate]
  · intro i t t' hb
    split at hb
    · simp only [Option.some.injEq] at hb
      rw [← hb, List.length_set]
    · cases hb

/-- What a successful `integration_write` emits, in order. -/
theorem integration_write_order_partial [LinearOrderedField R] (s s' : Correlation_core R)
    (h : integration_write s = some s') :
    ∃ old timeslice uvw stats table,
    ∃ blocks : List (Output_header_baseline × List (Cplx R)),
      s.writer = some old ∧
      s'.writer = some (old ++
        [Output_chunk.timeslice timeslice, Output_chunk.uvw uvw, Output_chunk.stats stats] ++
        blocks.flatMap (fun b =>
          [Output_chunk.baseline_header b.1, Output_chunk.baseline_data b.2])) ∧
      uvw.length = s.uvw_tables.length ∧
      stats.length = s.input_buffers.length ∧
      blocks.length = s.baselines.length ∧
      timeslice.number_baselines = blocks.length ∧
      timeslice.number_uvw_coordinates = uvw.length ∧
      timeslice.number_statistics = stats.length ∧
      timeslice.integration_slice =
        s.correlation_parameters.integration_nr + s.current_integration ∧
      stream2station s = some table ∧
      ∀ i, i < s.baselines.length → ∃ stations buffer previous averaged hbaseline,
        s.baselines[i]? = some stations ∧ s.accumulation_buffers[i]? = some buffer ∧
        blocks[i]? = some (hbaseline, averaged.take (number_channels s + 1)) ∧
        table[stations.1]? = some hbaseline.station_nr1 ∧
        table[stations.2]? = some hbaseline.station_nr2 ∧
        integration_write_average s (fft_size s / number_channels s) buffer previous =
          some averaged := by
  obtain ⟨old, polarisation, table, uvw, stats, float_buffer', blocks, h1, _, _, h4, h5, h6, _,
    h8, h9, h10⟩ := integration_write_spec s s' h
  have l1 := integration_write_uvw_length s table uvw h5
  have l2 := integration_write_stats_length s polarisation table stats h6
  refine ⟨old,
    { number_baselines := s.baselines.length
      integration_slice := s.correlation_parameters.integration_nr + s.current_integration
      number_uvw_coordinates := s.uvw_tables.length
      number_statistics := s.input_buffers.length },
    uvw, stats, table, blocks, h1, ?_, l1, l2, h9, h9.symm, l1.symm, l2.symm, rfl, h4, ?_⟩
  · rw [h8]
  · intro i hi
    obtain ⟨stations, buffer, previous, averaged, hbaseline, q1, q2, _, q4, q5, q6⟩ := h10 i hi
    obtain ⟨_, _, r3, r4, _⟩ := integration_write_header_spec s polarisation table stations
      hbaseline q5
    exact ⟨stations, buffer, previous, averaged, hbaseline, q1, q2, q6, r3, r4, q4⟩

/-- Every baseline header that a successful `integration_write` emits has the
weight 0. -/
theorem integration_write_weight_partial [LinearOrderedField R] (s s' : Correlation_core R)
    (h : integration_write s = some s') :
    ∃ old timeslice uvw stats, ∃ blocks : List (Output_header_baseline × List (Cplx R)),
      s.writer = some old ∧
      s'.writer = some (old ++
        [Output_chunk.timeslice timeslice, Output_chunk.uvw uvw, Output_chunk.stats stats] ++
        blocks.flatMap (fun b =>
          [Output_chunk.baseline_header b.1, Output_chunk.baseline_data b.2])) ∧
      blocks.length = s.baselines.length ∧
      ∀ b ∈ blocks, b.1.weight = 0 := by
  obtain ⟨old, polarisation, table, uvw, stats, float_buffer', blocks, h1, _, _, h4, h5, h6, _,
    h8, h9, h10⟩ := integration_write_spec s s' h
  refine ⟨old, _, uvw, stats, blocks, h1, by rw [h8], h9, ?_⟩
  intro b hb
  obtain ⟨i, hi, hbi⟩ := List.getElem_of_mem hb
  obtain ⟨stations, _, _, averaged, hbaseline, _, _, _, _, q5, q6⟩ := h10 i (by omega)
  rw [List.getElem?_eq_getElem hi, hbi] at q6
  simp only [Option.some.injEq] at q6
  rw [q6]
  exact (integration_write_header_spec s polarisation table stations hbaseline q5).2.2.2.2.1

/-- C11: `integration_write` succeeds in every state that is ready for it, and
a successful `integration_write` appends to the output, in this order, one
timeslice header, the uvw records (one per uvw table), the bit-statistics
records (one per input stream) and, for each baseline in list order, its
baseline header (carrying the station numbers of its two streams) followed by
its data (the averaged accumulator of that baseline); the three counts of
the timeslice header are the numbers of baseline, uvw and statistics records
that follow, and its `integration_slice` is `integration_nr +
current_integration`. -/
theorem integration_write_order [LinearOrderedField R] (s : Correlation_core R) :
    (write_ready s → ∃ s', integration_write s = some s') ∧
    ∀ s', integration_write s = some s' →
      ∃ old timeslice uvw stats table,
      ∃ blocks : List (Output_header_baseline × List (Cplx R)),
        s.writer = some old ∧
        s'.writer = some (old ++
          [Output_chunk.timeslice timeslice, Output_chunk.uvw uvw, Output_chunk.stats stats] ++
          blocks.flatMap (fun b =>
            [Output_chunk.baseline_header b.1, Output_chunk.baseline_data b.2])) ∧
        uvw.length = s.uvw_tables.length ∧
        stats.length = s.input_buffers.length ∧
        blocks.length = s.baselines.length ∧
        timeslice.number_baselines = blocks.length ∧
        timeslice.number_uvw_coordinates = uvw.length ∧
        timeslice.number_statistics = stats.length ∧
        timeslice.integration_slice =
          s.correlation_parameters.integration_nr + s.current_integration ∧
        stream2station s = some table ∧
        ∀ i, i < s.baselines.length → ∃ stations buffer previous averaged hbaseline,
          s.baselines[i]? = some stations ∧ s.accumulation_buffers[i]? = some buffer ∧
          blocks[i]? = some (hbaseline, averaged.take (number_channels s + 1)) ∧
          table[stations.1]? = some hbaseline.station_nr1 ∧
          table[stations.2]? = some hbaseline.station_nr2 ∧
          integration_write_average s (fft_size s / number_channels s) buffer previous =
            some averaged :=
  ⟨integration_write_total s, fun s' h => integration_write_order_partial s s' h⟩

/-- Witness of C11: the example core writes a timeslice header, two uvw
records, two statistics records and three baselines. -/
theorem integration_write_order_witness :
    ∃ s s' : Correlation_core ℚ, example_initialised = some s ∧
      write_ready s ∧ integration_write s = some s' ∧
      s.uvw_tables.length = 2 ∧ s.input_buffers.length = 2 ∧ s.baselines.length = 3 ∧
      ∃ old timeslice uvw stats table,
      ∃ blocks : List (Output_header_baseline × List (Cplx ℚ)),
        s.writer = some old ∧
        s'.writer = some (old ++
          [Output_chunk.timeslice timeslice, Output_chunk.uvw uvw, Output_chunk.stats stats] ++
          blocks.flatMap (fun b =>
            [Output_chunk.baseline_header b.1, Output_chunk.baseline_data b.2])) ∧
        uvw.length = s.uvw_tables.length ∧
        stats.length = s.input_buffers.length ∧
        blocks.length = s.baselines.length ∧
        timeslice.number_baselines = blocks.length ∧
        timeslice.number_uvw_coordinates = uvw.length ∧
        timeslice.number_statistics = stats.length ∧
        timeslice.integration_slice =
          s.correlation_parameters.integration_nr + s.current_integration ∧
        stream2station s = some table ∧
        ∀ i, i < s.baselines.length → ∃ stations buffer previous averaged hbaseline,
          s.baselines[i]? = some stations ∧ s.accumulation_buffers[i]? = some buffer ∧
          blocks[i]? = some (hbaseline, averaged.take (number_channels s + 1)) ∧
          table[stations.1]? = some hbaseline.station_nr1 ∧
          table[stations.2]? = some hbaseline.station_nr2 ∧
          integration_write_average s (fft_size s / number_channels s) buffer previous =
            some averaged :=
  ⟨_, _, rfl, by decide, rfl, rfl, rfl, rfl, (integration_write_order _).2 _ rfl⟩

/-- C12: the example core completes an integration of two FFT steps, both of
which it has processed, and `integration_write` gives the three baseline
headers the weight 0, where the share of the steps with valid data is
`2 / 2 = 1`: line 411 assigns the constant 0 to the field that its comment
calls the number of good samples. -/
theorem integration_write_weight_complete_integration :
    ∃ s s' : Correlation_core ℚ, ∃ new,
      example_configured.bind (do_task example_sqrt) = some s ∧
      do_task example_sqrt s = some s' ∧
      s.current_fft + 1 = s.number_ffts_in_integration ∧
      s.number_ffts_in_integration = 2 ∧
      s.writer = some [] ∧ s'.writer = some ([] ++ new) ∧
      baseline_weights new = [0, 0, 0] ∧
      ∀ w ∈ baseline_weights new,
        (w : ℚ) ≠ (s.number_ffts_in_integration : ℚ) / s.number_ffts_in_integration := by
  have h : ∃ s s' : Correlation_core ℚ, ∃ new,
      example_configured.bind (do_task example_sqrt) = some s ∧
      do_task example_sqrt s = some s' ∧
      s.current_fft + 1 = s.number_ffts_in_integration ∧
      s.number_ffts_in_integration = 2 ∧
      s.writer = some [] ∧ s'.writer = some ([] ++ new) ∧
      baseline_weights new = [0, 0, 0] :=
    ⟨_, _, _, rfl, rfl, rfl, rfl, rfl, rfl, by decide⟩
  obtain ⟨s, s', new, h1, h2, h3, h4, h5, h6, h7⟩ := h
  refine ⟨s, s', new, h1, h2, h3, h4, h5, h6, h7, ?_⟩
  intro w hw
  rw [h7] at hw
  have hall : ∀ v ∈ ([0, 0, 0] : List Int), v = 0 := by decide
  rw [hall w hw, h4]
  norm_num

end Correlation_core

namespace Correlation_core

variable {R : Type}

/-- A loop whose body changes nothing changes nothing. -/
theorem for_loop_skip {σ : Type} (lo hi : Nat) (body : Nat → σ → σ) (s : σ)
    (h : ∀ i t, body i t = t) : for_loop lo hi body s = s := by
  by_cases hle : lo ≤ hi
  · exact for_loop_inv (fun _ t => t = s) hi body (fun i t _ ht => by rw [h i t]; exact ht)
      (hi - lo) lo s rfl hle rfl
  · exact for_loop_done lo hi body s (by omega)

/-- Without stations, cross-polarisation and reference station the vector of
baselines is empty: the outer loop runs up to the wrapped bound with an inner
loop that has nothing to do. -/
theorem create_baselines_vector_plain_zero (parameters : Correlation_parameters)
    (hx : parameters.cross_polarize = false) (hr : parameters.reference_station < 0) :
    create_baselines_vector 0 parameters = some [] := by
  unfold create_baselines_vector
  have hr' : ¬ (0 ≤ parameters.reference_station) := by omega
  simp only [hx, hr', if_false, Bool.false_eq_true]
  rw [for_loop_done 0 0 _ _ (le_refl 0)]
  rw [for_loop_skip 0 _ _ _ (fun sn bl => for_loop_done (sn + 1) 0 _ bl (by omega))]

/-- Without cross-polarisation and reference station every baseline has its
first index at most its second. -/
theorem create_baselines_vector_plain_le (n : Nat) (parameters : Correlation_parameters)
    (hx : parameters.cross_polarize = false) (hr : parameters.reference_station < 0) :
    ∃ bl, create_baselines_vector n parameters = some bl ∧ ∀ p ∈ bl, p.1 ≤ p.2 := by
  by_cases hn : 1 ≤ n
  · refine ⟨_, create_baselines_vector_plain n parameters hn hx hr, ?_⟩
    intro p hp
    rcases List.mem_append.mp hp with h | h
    · obtain ⟨i, _, rfl⟩ := List.mem_map.mp h
      exact le_refl _
    · obtain ⟨a, b⟩ := p
      exact le_of_lt ((mem_pairs_loop n a b).mp h).1
  · have h0 : n = 0 := by omega
    subst h0
    exact ⟨[], create_baselines_vector_plain_zero parameters hx hr, fun p hp => by cases hp⟩

/-- C16, amended: with cross-polarisation off and no reference station, every
baseline `(i, j)` of the list that `create_baselines` produces satisfies
`i ≤ j`, for every number `S` of station streams. With a reference station
`r` and cross-polarisation off every baseline is an auto `(i, i)` or a pair
`(i, r)` with `i ≠ r`, and every such pair with `i < S` is in the list, also
those with `i > r`. In cross-polarise mode (`S` even,
and `r < S / 2` when a reference station `r` is set) every baseline `(i, j)`
satisfies `i mod (S / 2) ≤ j mod (S / 2)`, and without a reference station the
list holds `(a + S / 2, a')` for all `a < a' < S / 2`. -/
theorem create_baselines_ordered (s : Correlation_core R)
    (parameters : Correlation_parameters) :
    (parameters.cross_polarize = false → parameters.reference_station < 0 →
      ∃ s', create_baselines s parameters = some s' ∧ ∀ p ∈ s'.baselines, p.1 ≤ p.2) ∧
    (∀ r : Nat, parameters.cross_polarize = false → parameters.reference_station = (r : Int) →
      ∃ s', create_baselines s parameters = some s' ∧
        (∀ p ∈ s'.baselines, p.1 = p.2 ∨ (p.2 = r ∧ p.1 ≠ r)) ∧
        ∀ i, i < n_stations s → i ≠ r → (i, r) ∈ s'.baselines) ∧
    (parameters.cross_polarize = true → parameters.reference_station < 0 →
      2 ≤ n_stations s → n_stations s % 2 = 0 →
      ∃ s', create_baselines s parameters = some s' ∧
        (∀ p ∈ s'.baselines, p.1 % (n_stations s / 2) ≤ p.2 % (n_stations s / 2)) ∧
        ∀ a a', a < a' → a' < n_stations s / 2 →
          (a + n_stations s / 2, a') ∈ s'.baselines) ∧
    (∀ r : Nat, parameters.cross_polarize = true → parameters.reference_station = (r : Int) →
      n_stations s % 2 = 0 → r < n_stations s / 2 →
      ∃ s', create_baselines s parameters = some s' ∧
        ∀ p ∈ s'.baselines, p.1 % (n_stations s / 2) ≤ p.2 % (n_stations s / 2)) := by
  refine ⟨?_, ?_, ?_, ?_⟩
  · intro hx hr
    obtain ⟨bl, h1, h2⟩ := create_baselines_vector_plain_le (n_stations s) parameters hx hr
    obtain ⟨s', e1, e2, _⟩ := create_baselines_eq s parameters bl h1
    exact ⟨s', e1, by rw [e2]; exact h2⟩
  · intro r hx hr
    obtain ⟨s', e1, e2, _⟩ := create_baselines_eq s parameters _
      (create_baselines_vector_ref (n_stations s) r parameters hx hr)
    refine ⟨s', e1, ?_, ?_⟩
    · intro p hp
      rw [e2] at hp
      rcases List.mem_append.mp hp with h | h
      · obtain ⟨i, _, rfl⟩ := List.mem_map.mp h
        exact Or.inl rfl
      · obtain ⟨i, hi, rfl⟩ := List.mem_map.mp h
        have hne : i ≠ r := by simpa using (List.mem_filter.mp hi).2
        exact Or.inr ⟨rfl, hne⟩
    · intro i hi hne
      rw [e2]
      apply List.mem_append_right
      exact List.mem_map.mpr ⟨i, List.mem_filter.mpr ⟨List.mem_range.mpr hi, by simpa using hne⟩,
        rfl⟩
  · intro hx hr hS heven
    obtain ⟨s', e1, e2, _⟩ := create_baselines_eq s parameters _
      (create_baselines_vector_cross (n_stations s) parameters hS heven hx hr)
    have hm : 1 ≤ n_stations s / 2 := by omega
    refine ⟨s', e1, ?_, ?_⟩
    · intro p hp
      rw [e2] at hp
      rcases List.mem_append.mp hp with h | h
      · obtain ⟨i, _, rfl⟩ := List.mem_map.mp h
        exact le_refl _
      · obtain ⟨q, hq, hpq⟩ := List.mem_flatMap.mp h
        obtain ⟨a, a'⟩ := q
        obtain ⟨h1, h2⟩ := (mem_pairs_loop _ a a').mp hq
        have ha : a % (n_stations s / 2) = a := Nat.mod_eq_of_lt (by omega)
        have ha' : a' % (n_stations s / 2) = a' := Nat.mod_eq_of_lt h2
        simp only [List.mem_cons, List.mem_singleton, List.not_mem_nil, or_false] at hpq
        rcases hpq with rfl | rfl | rfl | rfl <;>
          simp only [Nat.add_mod_right, ha, ha'] <;> omega
    · intro a a' h1 h2
      rw [e2]
      apply List.mem_append_right
      refine List.mem_flatMap.mpr ⟨(a, a'), (mem_pairs_loop _ a a').mpr ⟨h1, h2⟩, ?_⟩
      simp
  · intro r hx hr heven hrm
    obtain ⟨s', e1, e2, _⟩ := create_baselines_eq s parameters _
      (create_baselines_vector_cross_ref (n_stations s) r parameters heven hx hr)
    refine ⟨s', e1, ?_⟩
    intro p hp
    rw [e2] at hp
    have hr' : r % (n_stations s / 2) = r := Nat.mod_eq_of_lt hrm
    rcases List.mem_append.mp hp with h | h
    · obtain ⟨i, _, rfl⟩ := List.mem_map.mp h
      exact le_refl _
    · rcases List.mem_append.mp h with h | h
      · obtain ⟨sn, hsn, hpq⟩ := List.mem_flatMap.mp h
        have hlt : sn < r := by
          have := List.mem_range'_1.mp hsn
          omega
        have hs : sn % (n_stations s / 2) = sn := Nat.mod_eq_of_lt (by omega)
        simp only [List.mem_cons, List.mem_singleton, List.not_mem_nil, or_false] at hpq
        rcases hpq with rfl | rfl | rfl | rfl <;>
          simp only [Nat.add_mod_right, hs, hr'] <;> omega
      · obtain ⟨sn, hsn, hpq⟩ := List.mem_flatMap.mp h
        have hlt : r < sn ∧ sn < n_stations s / 2 := by
          have := List.mem_range'_1.mp hsn
          omega
        have hs : sn % (n_stations s / 2) = sn := Nat.mod_eq_of_lt hlt.2
        simp only [List.mem_cons, List.mem_singleton, List.not_mem_nil, or_false] at hpq
        rcases hpq with rfl | rfl | rfl | rfl <;>
          simp only [Nat.add_mod_right, hs, hr'] <;> omega

/-- Witness of C16 (amended): three station streams without reference station
and cross-polarisation. -/
theorem create_baselines_ordered_witness :
    (example_parameters 3 (-1) false).cross_polarize = false ∧
    (example_parameters 3 (-1) false).reference_station < 0 ∧
    ∃ s', create_baselines (example_core 3 (-1) false) (example_parameters 3 (-1) false) =
        some s' ∧ ∀ p ∈ s'.baselines, p.1 ≤ p.2 :=
  ⟨rfl, by decide,
    (create_baselines_ordered (example_core 3 (-1) false) (example_parameters 3 (-1) false)).1
      rfl (by decide)⟩

/-- C16 as stated fails: with four station streams and the reference station
0 the list is `(0,0), (1,1), (2,2), (3,3), (1,0), (2,0), (3,0)`, and `(1,0)`
has its first index above its second. -/
theorem create_baselines_ordered_counterexample :
    ¬ (∀ (s s' : Correlation_core ℚ) (parameters : Correlation_parameters),
        create_baselines s parameters = some s' → ∀ p ∈ s'.baselines, p.1 ≤ p.2) := by
  intro hall
  have h : ∃ s' : Correlation_core ℚ,
      create_baselines (example_core 4 0 false) (example_parameters 4 0 false) = some s' ∧
      s'.baselines = [(0, 0), (1, 1), (2, 2), (3, 3), (1, 0), (2, 0), (3, 0)] :=
    ⟨_, rfl, by decide⟩
  obtain ⟨s', h1, h2⟩ := h
  have := hall _ s' _ h1 (1, 0) (by rw [h2]; simp)
  simp at this

end Correlation_core

namespace Correlation_core

variable {R : Type}

/-- The loop that zeroes a buffer leaves zeroes only. -/
theorem zero_loop_eq [LinearOrderedField R] (buffer : Complex_buffer R) :
    for_loop 0 buffer.length (fun j (b : Complex_buffer R) => b.set j Cplx.zero) buffer =
      List.replicate buffer.length Cplx.zero := by
  have key := for_loop_inv
    (fun j (t : Complex_buffer R) => t.length = buffer.length ∧
      ∀ i, i < j → t[i]? = some Cplx.zero)
    buffer.length (fun j (b : Complex_buffer R) => b.set j Cplx.zero) ?_
    (buffer.length - 0) 0 buffer rfl (by omega) ⟨rfl, fun i hi => by omega⟩
  · obtain ⟨k1, k2⟩ := key
    apply List.ext_getElem?
    intro i
    by_cases hi : i < buffer.length
    · rw [k2 i hi, List.getElem?_replicate, if_pos hi]
    · rw [List.getElem?_eq_none (by omega), List.getElem?_eq_none (by simp; omega)]
  · intro j t hj ⟨h1, h2⟩
    refine ⟨by show (t.set j _).length = _; rw [List.length_set]; exact h1, ?_⟩
    intro i hi
    show (t.set j _)[i]? = _
    by_cases hij : i = j
    · subst hij
      rw [List.getElem?_set_self (by omega)]
    · rw [List.getElem?_set_ne (Ne.symm hij)]
      exact h2 i (by omega)

/-- What a successful `integration_initialise` leaves: one accumulator per
baseline, each of `fft_size + 1` zeroes. -/
theorem integration_initialise_spec [LinearOrderedField R] (s s' : Correlation_core R)
    (h : integration_initialise s = some s') :
    s' = { s with accumulation_buffers := s'.accumulation_buffers } ∧
    s'.accumulation_buffers.length = s.baselines.length ∧
    ∀ i, i < s.baselines.length →
      s'.accumulation_buffers[i]? = some (List.replicate (fft_size s + 1) Cplx.zero) := by
  refine ⟨integration_initialise_frame s s' h, ?_⟩
  unfold integration_initialise at h
  dsimp only at h
  generalize (if s.accumulation_buffers.length ≠ s.baselines.length then
      for_loop 0 (resize s.accumulation_buffers s.baselines.length []).length
        (fun i (buffers : List (Complex_buffer R)) =>
          buffers.set i (resize (buffers.getD i []) (fft_size s + 1) Cplx.zero))
        (resize s.accumulation_buffers s.baselines.length [])
     else s.accumulation_buffers) = buffers0 at h
  split at h
  swap
  · cases h
  rename_i hlen
  split at h
  swap
  · cases h
  rename_i buffers hloop
  simp only [Option.some.injEq] at h
  subst h
  dsimp only
  have key := for_loop_opt_inv
    (fun j (t : List (Complex_buffer R)) => t.length = s.baselines.length ∧
      ∀ i, i < j → t[i]? = some (List.replicate (fft_size s + 1) Cplx.zero))
    _ _ ?_ _ 0 _ buffers rfl (Nat.zero_le _) ⟨hlen, fun i hi => by omega⟩ hloop
  · refine ⟨key.1, fun i hi => key.2 i (by rw [hlen]; exact hi)⟩
  · intro j t t' hj ⟨h1, h2⟩ hb
    split at hb
    swap
    · cases hb
    rename_i buffer hbuf
    split at hb
    swap
    · cases hb
    rename_i hbl
    simp only [Option.some.injEq] at hb
    subst hb
    have hjt : j < t.length := by
      by_contra hcon
      rw [List.getElem?_eq_none (by omega)] at hbuf
      cases hbuf
    refine ⟨by rw [List.length_set]; exact h1, ?_⟩
    intro i hi
    by_cases hij : i = j
    · subst hij
      rw [List.getElem?_set_self hjt, zero_loop_eq, hbl]
    · rw [List.getElem?_set_ne (Ne.symm hij)]
      exact h2 i (by omega)

end Correlation_core

namespace Correlation_core

variable {R : Type}

theorem autos_real_initialise [LinearOrderedField R] (s s' : Correlation_core R)
    (h : integration_initialise s = some s') : autos_real s' := by
  obtain ⟨fr, h1, h2⟩ := integration_initialise_spec s s' h
  have e1 : s'.baselines = s.baselines := by rw [fr]
  have e2 : fft_size s' = fft_size s := by unfold fft_size; rw [fr]
  intro i _ buffer hb
  have hi : i < s.baselines.length := by
    by_contra hcon
    rw [List.getElem?_eq_none (by omega)] at hb
    cases hb
  rw [h2 i hi] at hb
  simp only [Option.some.injEq] at hb
  subst hb
  refine ⟨by rw [List.length_replicate, e2], ?_⟩
  intro c hc
  rw [List.eq_of_mem_replicate hc]
  exact ⟨rfl, le_refl _⟩

theorem autos_real_step [LinearOrderedField R] (s s' : Correlation_core R)
    (h : integration_step s = some s') (hs : autos_real s) : autos_real s' := by
  have fr := integration_step_frame s s' h
  have e2 : s'.correlation_parameters = s.correlation_parameters := by rw [fr]
  have e3 : fft_size s' = fft_size s := by unfold fft_size; rw [e2]
  have e4 : number_input_streams_in_use s' = number_input_streams_in_use s := by
    unfold number_input_streams_in_use; rw [e2]
  obtain ⟨_, p2, _⟩ := integration_step_partial s s' h
  intro i hi buffer hb
  rw [e4] at hi
  obtain ⟨a, inp, out, out', _, _, q1, q2, q3, q4⟩ := p2 i hi
  rw [q2] at hb
  simp only [Option.some.injEq] at hb
  subst hb
  obtain ⟨l1, l2⟩ := hs i hi out q1
  refine ⟨by rw [q3, l1, e3], ?_⟩
  intro c hc
  obtain ⟨k, hk, hck⟩ := List.getElem_of_mem hc
  obtain ⟨x, o, _, r2, r3⟩ := (q4 k).1 (by omega)
  rw [List.getElem?_eq_getElem hk, hck] at r3
  simp only [Option.some.injEq] at r3
  have ho : o ∈ out := List.getElem?_mem r2
  obtain ⟨o1, o2⟩ := l2 o ho
  rw [r3]
  refine ⟨o1, ?_⟩
  show 0 ≤ o.re + (x.re * x.re + x.im * x.im)
  have := mul_self_nonneg x.re
  have := mul_self_nonneg x.im
  linarith

theorem autos_real_steps [LinearOrderedField R] (k : Nat) :
    ∀ s s' : Correlation_core R, integration_steps k s = some s' → autos_real s →
      autos_real s' := by
  induction k with
  | zero =>
    intro s s' h hs
    simp only [integration_steps, Option.some.injEq] at h
    exact h ▸ hs
  | succ k ih =>
    intro s s' h hs
    simp only [integration_steps] at h
    cases h1 : integration_step s with
    | none => rw [h1] at h; cases h
    | some s1 =>
      rw [h1] at h
      exact ih s1 s' h (autos_real_step s s1 h1 hs)

theorem autos_real_normalize [LinearOrderedField R] (sqrt : R → R) (s s' : Correlation_core R)
    (h : integration_normalize sqrt s = some s') (hs : autos_real s) :
    ∀ i, i < n_stations s → ∀ buffer, s'.accumulation_buffers[i]? = some buffer →
      buffer.length = fft_size s + 1 ∧ ∀ c ∈ buffer, c.im = 0 := by
  obtain ⟨_, _, _, p2, _⟩ := integration_normalize_partial sqrt s s' h
  intro i hi buffer hb
  obtain ⟨b0, b1, q1, q2, _, q4, q5⟩ := p2 i hi
  rw [q2] at hb
  simp only [Option.some.injEq] at hb
  subst hb
  obtain ⟨l1, _⟩ := hs i hi b0 q1
  refine ⟨by rw [q4, l1], ?_⟩
  intro c hc
  obtain ⟨k, hk, hck⟩ := List.getElem_of_mem hc
  obtain ⟨x, n, _, _, r3⟩ := (q5 k).1 (by omega)
  rw [List.getElem?_eq_getElem hk, hck] at r3
  simp only [Option.some.injEq] at r3
  rw [r3]

/-- C18: after `integration_initialise` followed by any number `k` of
`integration_step` calls, every bin of every autocorrelation accumulator has
the imaginary part zero and a real part that is not negative; and after the
`integration_normalize` that follows, every bin of every autocorrelation
accumulator has the imaginary part zero. The accumulators have `fft_size + 1`
bins throughout. -/
theorem autocorrelations_real [LinearOrderedField R] (sqrt : R → R)
    (s s0 s1 : Correlation_core R) (k : Nat)
    (h0 : integration_initialise s = some s0) (h1 : integration_steps k s0 = some s1) :
    (∀ i, i < number_input_streams_in_use s → ∀ buffer,
      s1.accumulation_buffers[i]? = some buffer →
      buffer.length = fft_size s + 1 ∧ ∀ c ∈ buffer, c.im = 0 ∧ 0 ≤ c.re) ∧
    ∀ s2, integration_normalize sqrt s1 = some s2 →
      ∀ i, i < n_stations s → ∀ buffer, s2.accumulation_buffers[i]? = some buffer →
        buffer.length = fft_size s + 1 ∧ ∀ c ∈ buffer, c.im = 0 := by
  have hs1 := autos_real_steps k s0 s1 h1 (autos_real_initialise s s0 h0)
  have e0 : s0.correlation_parameters = s.correlation_parameters := by
    rw [integration_initialise_frame s s0 h0]
  have e1 : ∀ (k : Nat) (t t' : Correlation_core R), integration_steps k t = some t' →
      t'.correlation_parameters = t.correlation_parameters := by
    intro k
    induction k with
    | zero =>
      intro t t' h
      simp only [integration_steps, Option.some.injEq] at h
      rw [h]
    | succ k ih =>
      intro t t' h
      simp only [integration_steps] at h
      cases h2 : integration_step t with
      | none => rw [h2] at h; cases h
      | some t1 =>
        rw [h2] at h
        rw [ih t1 t' h, integration_step_frame t t1 h2]
  have e2 : s1.correlation_parameters = s.correlation_parameters := by
    rw [e1 k s0 s1 h1, e0]
  have e3 : fft_size s1 = fft_size s := by unfold fft_size; rw [e2]
  have e4 : number_input_streams_in_use s1 = number_input_streams_in_use s := by
    unfold number_input_streams_in_use; rw [e2]
  have e5 : n_stations s1 = n_stations s := by unfold n_stations; rw [e2]
  refine ⟨?_, ?_⟩
  · intro i hi buffer hb
    have := hs1 i (by rw [e4]; exact hi) buffer hb
    rw [e3] at this
    exact this
  · intro s2 h2 i hi buffer hb
    have := autos_real_normalize sqrt s1 s2 h2 hs1 i (by rw [e5]; exact hi) buffer hb
    rw [e3] at this
    exact this

/-- Witness of C18: the example core after its initialisation, two steps and
the normalisation. -/
theorem autocorrelations_real_witness :
    ∃ s s0 s1 s2 : Correlation_core ℚ, example_configured = some s ∧
      integration_initialise s = some s0 ∧ integration_steps 2 s0 = some s1 ∧
      integration_normalize example_sqrt s1 = some s2 ∧
      number_input_streams_in_use s = 2 ∧
      (∀ i, i < number_input_streams_in_use s → ∀ buffer,
        s1.accumulation_buffers[i]? = some buffer →
        buffer.length = fft_size s + 1 ∧ ∀ c ∈ buffer, c.im = 0 ∧ 0 ≤ c.re) ∧
      ∀ s2, integration_normalize example_sqrt s1 = some s2 →
        ∀ i, i < n_stations s → ∀ buffer, s2.accumulation_buffers[i]? = some buffer →
          buffer.length = fft_size s + 1 ∧ ∀ c ∈ buffer, c.im = 0 :=
  ⟨_, _, _, _, rfl, rfl, rfl, rfl, rfl, autocorrelations_real example_sqrt _ _ _ 2 rfl rfl⟩

end Correlation_core

namespace Correlation_core

variable {R : Type}

theorem sum_map_re_div [LinearOrderedField R] (n : R) (l : List (Cplx R)) :
    (l.map (fun c => c.re / n)).sum = (l.map Cplx.re).sum / n := by
  induction l with
  | nil => simp
  | cons c l ih => simp only [List.map_cons, List.sum_cons, ih, add_div]

/-- The sum of the real parts of bins `0 .. m` after they have been divided by
`n`. -/
theorem sum_take_normalized [LinearOrderedField R] (m : Nat) (n : R)
    (buffer buffer' : Complex_buffer R)
    (h : ∀ k, k ≤ m → ∃ c, buffer[k]? = some c ∧ buffer'[k]? = some ⟨c.re / n, 0⟩) :
    ((buffer'.take (m + 1)).map Cplx.re).sum = ((buffer.take (m + 1)).map Cplx.re).sum / n := by
  rw [← sum_map_re_div]
  congr 1
  apply List.ext_getElem?
  intro k
  simp only [List.getElem?_map, List.getElem?_take]
  by_cases hk : k < m + 1
  · obtain ⟨c, h1, h2⟩ := h k (by omega)
    simp only [hk, if_true, h1, h2, Option.map_some']
  · simp only [hk, if_false, Option.map_none']

theorem max_one_div_max_one [LinearOrderedField R] (x : R) : max 1 (x / max 1 x) = 1 := by
  apply max_eq_left
  by_cases h : x ≤ 1
  · rw [max_eq_left h, div_one]
    exact h
  · have hx : 1 ≤ x := le_of_lt (not_le.mp h)
    rw [max_eq_right hx, div_self (by linarith)]

/-- A state that `integration_normalize` accepts stays acceptable after it. -/
theorem normalize_ready_normalize [LinearOrderedField R] (sqrt : R → R)
    (s s' : Correlation_core R) (h : integration_normalize sqrt s = some s')
    (hr : normalize_ready s) : normalize_ready s' := by
  have fr := integration_normalize_frame sqrt s s' h
  have e1 : s'.correlation_parameters = s.correlation_parameters := by rw [fr]
  have e2 : s'.baselines = s.baselines := by rw [fr]
  have e3 : s'.oversamp = s.oversamp := by rw [fr]
  have e4 : n_stations s' = n_stations s := by unfold n_stations; rw [e1]
  have e5 : fft_size s' = fft_size s := by unfold fft_size; rw [e1]
  obtain ⟨r1, r2, r3⟩ := hr
  obtain ⟨_, _, _, p2, p3, _⟩ := integration_normalize_partial sqrt s s' h
  refine ⟨by rw [e4, e3, e5]; exact r1, ?_, ?_⟩
  · intro i hi
    rw [e4] at hi
    obtain ⟨b0, b1, q1, q2, _, q4, _⟩ := p2 i hi
    obtain ⟨out, o1, o2⟩ := (accumulator_ok_iff s i).mp (r2 i hi)
    rw [q1] at o1
    cases o1
    exact (accumulator_ok_iff s' i).mpr ⟨b1, q2, by rw [e5, q4]; exact o2⟩
  · intro i hi hn
    rw [e2] at hi
    rw [e4] at hn
    obtain ⟨c1, c2⟩ := r3 i hi hn
    obtain ⟨_, _, _, _, b0, b1, _, _, _, q1, q2, q3, _⟩ := p3 i hn hi
    obtain ⟨out, o1, o2⟩ := (accumulator_ok_iff s i).mp c1
    rw [q1] at o1
    cases o1
    refine ⟨(accumulator_ok_iff s' i).mpr ⟨b1, q2, by rw [e5, q3]; exact o2⟩, ?_⟩
    obtain ⟨a, b, d1, d2, d3⟩ := (baseline_in_range_iff s i).mp c2
    exact (baseline_in_range_iff s' i).mpr ⟨a, b, by rw [e2]; exact d1, by rw [e4]; exact d2,
      by rw [e4]; exact d3⟩

/-- A second `integration_normalize` changes nothing. -/
theorem integration_normalize_twice [LinearOrderedField R] (sqrt : R → R) (hsqrt : sqrt 1 = 1)
    (s s1 s2 : Correlation_core R) (h1 : integration_normalize sqrt s = some s1)
    (h2 : integration_normalize sqrt s1 = some s2) : s2 = s1 := by
  have fr1 := integration_normalize_frame sqrt s s1 h1
  have fr2 := integration_normalize_frame sqrt s1 s2 h2
  have e1 : s1.correlation_parameters = s.correlation_parameters := by rw [fr1]
  have e2 : s1.baselines = s.baselines := by rw [fr1]
  have e3 : s1.oversamp = s.oversamp := by rw [fr1]
  have e4 : n_stations s1 = n_stations s := by unfold n_stations; rw [e1]
  have e5 : fft_size s1 = fft_size s := by unfold fft_size; rw [e1]
  obtain ⟨norms1, _, _, p2, _, _, _⟩ := integration_normalize_partial sqrt s s1 h1
  obtain ⟨norms2, n2, l2, q2, q3, q4, _⟩ := integration_normalize_partial sqrt s1 s2 h2
  rw [e4] at n2 q2 q3 q4
  rw [e5, e3] at q2
  rw [e5, e2] at q3
  rw [e2] at q4
  -- the norms of the second pass are all 1
  have hone : ∀ a, a < n_stations s → norms2[a]? = some 1 := by
    intro a ha
    obtain ⟨b0, b1, r1, r2, r3, r4, r5⟩ := p2 a ha
    obtain ⟨c1, c2, t1, t2, t3, _⟩ := q2 a ha
    rw [r2] at t1
    cases t1
    rw [t3]
    have hsum := sum_take_normalized (fft_size s)
      (max 1 (((b0.take (fft_size s + 1)).map Cplx.re).sum /
        ((fft_size s / s.oversamp : Nat) : R))) b0 b1 ?_
    · rw [hsum, div_right_comm, max_one_div_max_one]
    · intro k hk
      obtain ⟨c, n, u1, u2, u3⟩ := (r5 k).1 hk
      rw [r3] at u2
      cases u2
      exact ⟨c, u1, u3⟩
  have hacc : s2.accumulation_buffers = s1.accumulation_buffers := by
    apply List.ext_getElem?
    intro i
    by_cases hi : i < n_stations s
    · obtain ⟨c1, c2, t1, t2, _, t4, t5⟩ := q2 i hi
      obtain ⟨b0, b1, r1, r2, r3, r4, r5⟩ := p2 i hi
      rw [t1, t2]
      congr 1
      apply List.ext_getElem?
      intro k
      by_cases hk : k ≤ fft_size s
      · obtain ⟨c, n, u1, u2, u3⟩ := (t5 k).1 hk
        rw [hone i hi] at u2
        cases u2
        rw [u3, u1]
        rw [r2] at t1
        cases t1
        obtain ⟨c0, n0, v1, v2, v3⟩ := (r5 k).1 hk
        rw [v3] at u1
        cases u1
        simp only [div_one]
      · exact (t5 k).2 (by omega)
    · by_cases hb : i < s.baselines.length
      · obtain ⟨a, b, na, nb, c1, c2, t1, t2, t3, t4, t5, t6, t7⟩ := q3 i (by omega) hb
        have ha : a < n_stations s := by
          by_contra hcon
          rw [List.getElem?_eq_none (by omega)] at t2
          cases t2
        have hb' : b < n_stations s := by
          by_contra hcon
          rw [List.getElem?_eq_none (by omega)] at t3
          cases t3
        rw [hone a ha] at t2
        rw [hone b hb'] at t3
        cases t2
        cases t3
        rw [t4, t5]
        congr 1
        apply List.ext_getElem?
        intro k
        by_cases hk : k ≤ fft_size s
        · obtain ⟨c, u1, u2⟩ := (t7 k).1 hk
          rw [u2, u1, mul_one, hsqrt]
          simp only [div_one]
        · exact (t7 k).2 (by omega)
      · exact q4 i (by omega) (by omega)
  rw [fr2, hacc]

/-- C19: `integration_normalize` is idempotent: in every state that is ready
for it (in particular the integer quotient `fft_size / oversamp` is at least
one when there is a station) it can be applied twice, and the second
application changes nothing: with a square root that has `sqrt 1 = 1`, the
state after two applications equals the state after one, whatever the
accumulators were at first. -/
theorem integration_normalize_idempotent [LinearOrderedField R] (sqrt : R → R)
    (hsqrt : sqrt 1 = 1) (s : Correlation_core R) :
    (normalize_ready s → ∃ s1 s2, integration_normalize sqrt s = some s1 ∧
      integration_normalize sqrt s1 = some s2) ∧
    ∀ s1 s2, integration_normalize sqrt s = some s1 →
      integration_normalize sqrt s1 = some s2 → s2 = s1 := by
  refine ⟨?_, fun s1 s2 h1 h2 => integration_normalize_twice sqrt hsqrt s s1 s2 h1 h2⟩
  intro hr
  obtain ⟨s1, h1⟩ := integration_normalize_total sqrt s hr
  obtain ⟨s2, h2⟩ := integration_normalize_total sqrt s1
    (normalize_ready_normalize sqrt s s1 h1 hr)
  exact ⟨s1, s2, h1, h2⟩

/-- Witness of C19: the example core normalised twice after one step. -/
theorem integration_normalize_idempotent_witness :
    example_sqrt 1 = 1 ∧
    ∃ s s1 s2 : Correlation_core ℚ, example_initialised.bind integration_step = some s ∧
      normalize_ready s ∧ integration_normalize example_sqrt s = some s1 ∧
      integration_normalize example_sqrt s1 = some s2 ∧
      (normalize_ready s → ∃ t1 t2, integration_normalize example_sqrt s = some t1 ∧
        integration_normalize example_sqrt t1 = some t2) ∧
      ∀ t1 t2, integration_normalize example_sqrt s = some t1 →
        integration_normalize example_sqrt t1 = some t2 → t2 = t1 :=
  ⟨rfl, _, _, _, rfl, by decide, rfl, rfl, integration_normalize_idempotent example_sqrt rfl _⟩

end Correlation_core

namespace Correlation_core

variable {R : Type}

theorem getElem?_modify_at {α : Type} (f : α → α) (b : Nat) (l : List α) (i : Nat) :
    (modify_at f b l)[i]? = if i = b then (l[b]?).map f else l[i]? := by
  unfold modify_at
  cases hb : l[b]? with
  | none =>
    by_cases hi : i = b
    · subst hi
      simp only [hb, if_true, Option.map_none']
    · simp only [hi, if_false]
  | some x =>
    have hlt : b < l.length := by
      by_contra hcon
      rw [List.getElem?_eq_none (by omega)] at hb
      cases hb
    by_cases hi : i = b
    · subst hi
      simp only [if_true, Option.map_some']
      rw [List.getElem?_set_self hlt]
    · simp only [hi, if_false]
      rw [List.getElem?_set_ne (Ne.symm hi)]

theorem length_modify_at {α : Type} (f : α → α) (b : Nat) (l : List α) :
    (modify_at f b l).length = l.length := by
  unfold modify_at
  split
  · rw [List.length_set]
  · rfl

/-- Setting an entry other than `b` commutes with the change of entry `b`. -/
theorem modify_at_set_ne {α : Type} (f : α → α) (b i : Nat) (l : List α) (x : α)
    (h : i ≠ b) : (modify_at f b l).set i x = modify_at f b (l.set i x) := by
  apply List.ext_getElem?
  intro k
  rw [getElem?_modify_at]
  by_cases hk : k = i
  · subst hk
    rw [if_neg h]
    by_cases hl : k < l.length
    · rw [List.getElem?_set_self (by rw [length_modify_at]; exact hl),
        List.getElem?_set_self hl]
    · rw [List.getElem?_eq_none (by rw [List.length_set, length_modify_at]; omega),
        List.getElem?_eq_none (by rw [List.length_set]; omega)]
  · rw [List.getElem?_set_ne (Ne.symm hk), getElem?_modify_at, List.getElem?_set_ne (Ne.symm hk)]
    by_cases hkb : k = b
    · subst hkb
      rw [if_pos rfl, if_pos rfl, List.getElem?_set_ne (Ne.symm hk)]
    · rw [if_neg hkb, if_neg hkb]

/-- Setting entry `b` to `f y` in the changed list is the change of the list
with `y` at `b`. -/
theorem modify_at_set_self {α : Type} (f : α → α) (b : Nat) (l : List α) (y : α)
    (h : b < l.length) : (modify_at f b l).set b (f y) = modify_at f b (l.set b y) := by
  apply List.ext_getElem?
  intro k
  rw [getElem?_modify_at]
  by_cases hk : k = b
  · subst hk
    rw [if_pos rfl, List.getElem?_set_self (by rw [length_modify_at]; exact h),
      List.getElem?_set_self h]
    rfl
  · rw [if_neg hk, List.getElem?_set_ne (Ne.symm hk), getElem?_modify_at, if_neg hk,
      List.getElem?_set_ne (Ne.symm hk)]

/-- A loop on `f s` whose body commutes with `f` gives `f` of the loop on
`s`, also when it fails. -/
theorem for_loop_opt_map {σ τ : Type} (f : σ → τ) (hi : Nat) (body : Nat → σ → Option σ)
    (body' : Nat → τ → Option τ)
    (h : ∀ i t, i < hi → body' i (f t) = (body i t).map f) :
    ∀ (n lo : Nat) (s : σ), hi - lo = n →
      for_loop_opt lo hi body' (f s) = (for_loop_opt lo hi body s).map f := by
  intro n
  induction n with
  | zero =>
    intro lo s hn
    rw [for_loop_opt_done lo hi body' _ (by omega), for_loop_opt_done lo hi body _ (by omega)]
    rfl
  | succ k ih =>
    intro lo s hn
    rw [for_loop_opt_step lo hi body' _ (by omega), for_loop_opt_step lo hi body _ (by omega),
      h lo s (by omega)]
    cases body lo s with
    | none => rfl
    | some t => exact ih (lo + 1) t (by omega)

theorem conj_add_mul_conj [LinearOrderedField R] (o x y : Cplx R) :
    (o.add (x.mul y.conj)).conj = o.conj.add (y.mul x.conj) := by
  simp only [Cplx.add, Cplx.mul, Cplx.conj, Cplx.mk.injEq]
  constructor <;> ring

theorem conj_div_real [LinearOrderedField R] (c : Cplx R) (x : R) :
    (c.div_real x).conj = c.conj.div_real x := by
  simp only [Cplx.div_real, Cplx.conj, Cplx.mk.injEq, neg_div, and_self]

theorem getElem?_conj_buffer [LinearOrderedField R] (buffer : Complex_buffer R) (i : Nat) :
    (conj_buffer buffer)[i]? = (buffer[i]?).map Cplx.conj := by
  unfold conj_buffer
  rw [List.getElem?_map]

theorem conj_buffer_set [LinearOrderedField R] (buffer : Complex_buffer R) (i : Nat)
    (c : Cplx R) : (conj_buffer buffer).set i c.conj = conj_buffer (buffer.set i c) := by
  unfold conj_buffer
  apply List.ext_getElem?
  intro k
  by_cases hk : k = i
  · subst hk
    by_cases hl : k < buffer.length
    · rw [List.getElem?_set_self (by rw [List.length_map]; exact hl), List.getElem?_map,
        List.getElem?_set_self hl]
      rfl
    · rw [List.getElem?_eq_none (by rw [List.length_set, List.length_map]; omega),
        List.getElem?_eq_none (by rw [List.length_map, List.length_set]; omega)]
  · rw [List.getElem?_set_ne (Ne.symm hk), List.getElem?_map, List.getElem?_map,
      List.getElem?_set_ne (Ne.symm hk)]

/-- Exchanging the inputs of `correlate_baseline` conjugates what it adds. -/
theorem correlate_baseline_conj [LinearOrderedField R] (s : Correlation_core R)
    (in1 in2 out : Complex_buffer R) :
    correlate_baseline s in2 in1 (conj_buffer out) =
      (correlate_baseline s in1 in2 out).map conj_buffer := by
  unfold correlate_baseline
  apply for_loop_opt_map conj_buffer _ _ _ ?_ _ 0 out rfl
  intro i t _
  rw [getElem?_conj_buffer]
  cases h1 : in1[i]? with
  | none => cases in2[i]? <;> cases t[i]? <;> rfl
  | some x =>
    cases h2 : in2[i]? with
    | none => cases t[i]? <;> rfl
    | some y =>
      cases h3 : t[i]? with
      | none => rfl
      | some o =>
        simp only [Option.map_some']
        rw [← conj_buffer_set, conj_add_mul_conj]

end Correlation_core

namespace Correlation_core

variable {R : Type}

theorem mirror_check_input_elements [LinearOrderedField R] (b : Nat) (s : Correlation_core R) :
    (mirror b s).check_input_elements = s.check_input_elements := rfl

theorem mirror_input_buffers [LinearOrderedField R] (b : Nat) (s : Correlation_core R) :
    (mirror b s).input_buffers = s.input_buffers := rfl

theorem mirror_input_elements [LinearOrderedField R] (b : Nat) (s : Correlation_core R) :
    (mirror b s).input_elements = s.input_elements := rfl

theorem mirror_correlation_parameters [LinearOrderedField R] (b : Nat)
    (s : Correlation_core R) :
    (mirror b s).correlation_parameters = s.correlation_parameters := rfl

theorem mirror_oversamp [LinearOrderedField R] (b : Nat) (s : Correlation_core R) :
    (mirror b s).oversamp = s.oversamp := rfl

theorem mirror_streams [LinearOrderedField R] (b : Nat) (s : Correlation_core R) :
    number_input_streams_in_use (mirror b s) = number_input_streams_in_use s := rfl

theorem mirror_n_stations [LinearOrderedField R] (b : Nat) (s : Correlation_core R) :
    n_stations (mirror b s) = n_stations s := rfl

theorem mirror_fft_size [LinearOrderedField R] (b : Nat) (s : Correlation_core R) :
    fft_size (mirror b s) = fft_size s := rfl

theorem mirror_baselines [LinearOrderedField R] (b : Nat) (s : Correlation_core R) :
    (mirror b s).baselines = modify_at Prod.swap b s.baselines := rfl

theorem mirror_accumulation_buffers [LinearOrderedField R] (b : Nat)
    (s : Correlation_core R) :
    (mirror b s).accumulation_buffers = modify_at conj_buffer b s.accumulation_buffers := rfl

theorem integration_step_fetch_mirror [LinearOrderedField R] (b : Nat)
    (s : Correlation_core R) :
    integration_step_fetch (mirror b s) = (integration_step_fetch s).map (mirror b) := by
  unfold integration_step_fetch
  simp only [mirror_check_input_elements, mirror_input_buffers, mirror_input_elements,
    mirror_streams]
  by_cases hc : s.check_input_elements = true
  · rw [if_pos hc, if_pos hc]
    split <;> rfl
  · rw [if_neg hc, if_neg hc]
    rfl

theorem integration_step_advance_mirror [LinearOrderedField R] (b : Nat)
    (s : Correlation_core R) :
    integration_step_advance (mirror b s) = (integration_step_advance s).map (mirror b) := by
  unfold integration_step_advance
  rw [mirror_streams]
  apply for_loop_opt_map (mirror b) _ _ _ ?_ _ 0 s rfl
  intro i t _
  simp only [mirror_input_elements, mirror_input_buffers]
  cases t.input_elements[i]? with
  | none => rfl
  | some it =>
    dsimp only
    split
    · split <;> rfl
    · rfl

end Correlation_core

namespace Correlation_core

variable {R : Type}

theorem auto_correlate_baseline_mirror [LinearOrderedField R] (b : Nat)
    (s : Correlation_core R) (inp out : Complex_buffer R) :
    auto_correlate_baseline (mirror b s) inp out = auto_correlate_baseline s inp out := rfl

theorem correlate_baseline_mirror [LinearOrderedField R] (b : Nat)
    (s : Correlation_core R) (in1 in2 out : Complex_buffer R) :
    correlate_baseline (mirror b s) in1 in2 out = correlate_baseline s in1 in2 out := rfl

/-- The results of a loop on `f s` and of the loop on `s`, when the bodies
commute with `f`. -/
theorem for_loop_opt_map_rel {σ τ : Type} (f : σ → τ) (lo hi : Nat)
    (body : Nat → σ → Option σ) (body' : Nat → τ → Option τ) (s : σ)
    (r : Option σ) (r' : Option τ)
    (h' : for_loop_opt lo hi body' (f s) = r') (h : for_loop_opt lo hi body s = r)
    (hbody : ∀ i t, i < hi → body' i (f t) = (body i t).map f) : r' = r.map f := by
  rw [← h', ← h]
  exact for_loop_opt_map f hi body body' hbody _ lo s rfl

/-- One iteration of the autocorrelation loop commutes with the mirror of a
baseline that is not an autocorrelation. -/
theorem auto_body_mirror [LinearOrderedField R] (b : Nat) (s : Correlation_core R)
    (hb : number_input_streams_in_use s ≤ b) (i : Nat) (t : List (Complex_buffer R))
    (hi : i < number_input_streams_in_use s) :
    (match (modify_at Prod.swap b s.baselines)[i]? with
      | some stations =>
        if stations.1 = stations.2 then
          match (s.input_elements[stations.1]?).bind Input_element.current,
            (modify_at conj_buffer b t)[i]? with
          | some in1, some out =>
            match auto_correlate_baseline s in1 out with
            | some out => some ((modify_at conj_buffer b t).set i out)
            | none => none
          | _, _ => none
        else none
      | none => none) =
    (match s.baselines[i]? with
      | some stations =>
        if stations.1 = stations.2 then
          match (s.input_elements[stations.1]?).bind Input_element.current, t[i]? with
          | some in1, some out =>
            match auto_correlate_baseline s in1 out with
            | some out => some (t.set i out)
            | none => none
          | _, _ => none
        else none
      | none => none).map (modify_at conj_buffer b) := by
  have hib : i ≠ b := by omega
  simp only [getElem?_modify_at, hib, if_false]
  cases s.baselines[i]? with
  | none => rfl
  | some stations =>
    dsimp only
    split
    swap
    · rfl
    cases (s.input_elements[stations.1]?).bind Input_element.current with
    | none => rfl
    | some in1 =>
      cases t[i]? with
      | none => rfl
      | some out =>
        dsimp only
        cases auto_correlate_baseline s in1 out with
        | none => rfl
        | some out' =>
          simp only [Option.map_some', modify_at_set_ne _ _ _ _ _ hib]

/-- One iteration of the cross-correlation loop commutes with the mirror: at
the mirrored baseline the two inputs are exchanged and the accumulator is
conjugated. -/
theorem cross_body_mirror [LinearOrderedField R] (b : Nat) (s : Correlation_core R)
    (i : Nat) (t : List (Complex_buffer R)) :
    (match (modify_at Prod.swap b s.baselines)[i]? with
      | some stations =>
        if stations.1 ≠ stations.2 then
          match (s.input_elements[stations.1]?).bind Input_element.current,
                (s.input_elements[stations.2]?).bind Input_element.current,
                (modify_at conj_buffer b t)[i]? with
          | some in1, some in2, some out =>
            match correlate_baseline s in1 in2 out with
            | some out => some ((modify_at conj_buffer b t).set i out)
            | none => none
          | _, _, _ => none
        else none
      | none => none) =
    (match s.baselines[i]? with
      | some stations =>
        if stations.1 ≠ stations.2 then
          match (s.input_elements[stations.1]?).bind Input_element.current,
                (s.input_elements[stations.2]?).bind Input_element.current, t[i]? with
          | some in1, some in2, some out =>
            match correlate_baseline s in1 in2 out with
            | some out => some (t.set i out)
            | none => none
          | _, _, _ => none
        else none
      | none => none).map (modify_at conj_buffer b) := by
  simp only [getElem?_modify_at]
  by_cases hib : i = b
  · subst hib
    simp only [if_true]
    cases s.baselines[i]? with
    | none => rfl
    | some stations =>
      obtain ⟨a, c⟩ := stations
      simp only [Option.map_some', Prod.swap, Prod.fst, Prod.snd]
      by_cases hac : a = c
      · have hca : ¬ (c ≠ a) := by simp [hac]
        have hac' : ¬ (a ≠ c) := by simp [hac]
        rw [if_neg hca, if_neg hac']
        rfl
      · have hca : c ≠ a := fun h => hac h.symm
        rw [if_pos hca, if_pos hac]
        cases (s.input_elements[a]?).bind Input_element.current with
        | none =>
          cases (s.input_elements[c]?).bind Input_element.current <;> cases t[i]? <;> rfl
        | some in1 =>
          cases (s.input_elements[c]?).bind Input_element.current with
          | none => cases t[i]? <;> rfl
          | some in2 =>
            cases ht : t[i]? with
            | none => rfl
            | some out =>
              have hlt : i < t.length := by
                by_contra hcon
                rw [List.getElem?_eq_none (by omega)] at ht
                cases ht
              simp only [Option.map_some']
              rw [correlate_baseline_conj]
              cases correlate_baseline s in1 in2 out with
              | none => rfl
              | some out' =>
                simp only [Option.map_some', modify_at_set_self _ _ _ _ hlt]
  · simp only [hib, if_false]
    cases s.baselines[i]? with
    | none => rfl
    | some stations =>
      dsimp only
      split
      swap
      · rfl
      cases (s.input_elements[stations.1]?).bind Input_element.current with
      | none => rfl
      | some in1 =>
        cases (s.input_elements[stations.2]?).bind Input_element.current with
        | none => rfl
        | some in2 =>
          cases t[i]? with
          | none => rfl
          | some out =>
            dsimp only
            cases correlate_baseline s in1 in2 out with
            | none => rfl
            | some out' =>
              simp only [Option.map_some', modify_at_set_ne _ _ _ _ _ hib]

/-- The correlation loops of the mirrored core on the mirrored accumulators
give the mirrored accumulators of the core. -/
theorem integration_step_correlate_mirror [LinearOrderedField R] (b : Nat)
    (s : Correlation_core R) (buffers : List (Complex_buffer R))
    (hb : number_input_streams_in_use s ≤ b) :
    integration_step_correlate (mirror b s) (modify_at conj_buffer b buffers) =
      (integration_step_correlate s buffers).map (modify_at conj_buffer b) := by
  unfold integration_step_correlate
  simp only [mirror_streams, mirror_baselines, mirror_input_elements, length_modify_at,
    auto_correlate_baseline_mirror, correlate_baseline_mirror]
  split
  · rename_i mid' hA'
    split
    · rename_i mid hA
      have e := for_loop_opt_map_rel _ _ _ _ _ _ _ _ hA' hA
        (fun i t hi => auto_body_mirror b s hb i t hi)
      simp only [Option.map_some', Option.some.injEq] at e
      subst e
      exact for_loop_opt_map _ _ _ _ (fun i t _ => cross_body_mirror b s i t) _ _ mid rfl
    · rename_i hA
      have e := for_loop_opt_map_rel _ _ _ _ _ _ _ _ hA' hA
        (fun i t hi => auto_body_mirror b s hb i t hi)
      cases e
  · rename_i hA'
    split
    · rename_i mid hA
      have e := for_loop_opt_map_rel _ _ _ _ _ _ _ _ hA' hA
        (fun i t hi => auto_body_mirror b s hb i t hi)
      cases e
    · rfl

end Correlation_core

namespace Correlation_core

variable {R : Type}

/-- The step after the resizing of the iterators commutes with the mirror. -/
theorem integration_step_tail_mirror [LinearOrderedField R] (b : Nat)
    (s : Correlation_core R) (hb : number_input_streams_in_use s ≤ b) :
    (match integration_step_fetch (mirror b s) with
      | some s =>
        match integration_step_correlate s s.accumulation_buffers with
        | some buffers => integration_step_advance { s with accumulation_buffers := buffers }
        | none => none
      | none => none) =
    (match integration_step_fetch s with
      | some s =>
        match integration_step_correlate s s.accumulation_buffers with
        | some buffers => integration_step_advance { s with accumulation_buffers := buffers }
        | none => none
      | none => none).map (mirror b) := by
  rw [integration_step_fetch_mirror]
  cases hf : integration_step_fetch s with
  | none => rfl
  | some s1 =>
    have hn : number_input_streams_in_use s1 = number_input_streams_in_use s := by
      rcases integration_step_fetch_frame s s1 hf with ⟨e, _⟩ | e
      · rw [e]; rfl
      · rw [e]
    simp only [Option.map_some']
    rw [mirror_accumulation_buffers, integration_step_correlate_mirror b s1 _ (by omega)]
    cases integration_step_correlate s1 s1.accumulation_buffers with
    | none => rfl
    | some buffers =>
      simp only [Option.map_some']
      exact integration_step_advance_mirror b { s1 with accumulation_buffers := buffers }

/-- One `integration_step` of the mirrored core gives the mirrored result of
the step of the core, also when the step fails. -/
theorem integration_step_mirror [LinearOrderedField R] (b : Nat)
    (s : Correlation_core R) (hb : number_input_streams_in_use s ≤ b) :
    integration_step (mirror b s) = (integration_step s).map (mirror b) := by
  unfold integration_step
  by_cases hc : s.input_elements.length = number_input_streams_in_use s
  · have hc' : ¬ (mirror b s).input_elements.length ≠ number_input_streams_in_use (mirror b s) :=
      fun h => h hc
    have hc'' : ¬ s.input_elements.length ≠ number_input_streams_in_use s := fun h => h hc
    rw [if_neg hc', if_neg hc'']
    exact integration_step_tail_mirror b s hb
  · have hc' : (mirror b s).input_elements.length ≠ number_input_streams_in_use (mirror b s) :=
      hc
    have hc'' : s.input_elements.length ≠ number_input_streams_in_use s := hc
    rw [if_pos hc', if_pos hc'']
    exact integration_step_tail_mirror b
      { s with input_elements :=
          resize s.input_elements (number_input_streams_in_use s) Input_element.invalid } hb

/-- Any number of steps of the mirrored core gives the mirrored result. -/
theorem integration_steps_mirror [LinearOrderedField R] (b k : Nat) :
    ∀ s : Correlation_core R, number_input_streams_in_use s ≤ b →
      integration_steps k (mirror b s) = (integration_steps k s).map (mirror b) := by
  induction k with
  | zero => intro s _; rfl
  | succ k ih =>
    intro s hb
    simp only [integration_steps]
    rw [integration_step_mirror b s hb]
    cases h1 : integration_step s with
    | none => rfl
    | some s1 =>
      have hn : number_input_streams_in_use s1 = number_input_streams_in_use s := by
        unfold number_input_streams_in_use
        rw [integration_step_frame s s1 h1]
      simp only [Option.map_some', Option.some_bind]
      exact ih s1 (by omega)

end Correlation_core

namespace Correlation_core

variable {R : Type}

theorem integration_normalize_station_mirror [LinearOrderedField R] (b : Nat)
    (s : Correlation_core R) :
    integration_normalize_station (mirror b s) = integration_normalize_station s := rfl

/-- The normalisation of a station commutes with the conjugation of the
accumulator of another baseline. -/
theorem integration_normalize_station_conj [LinearOrderedField R] (b : Nat)
    (s : Correlation_core R) (station : Nat) (hne : station ≠ b)
    (state : List R × List (Complex_buffer R)) :
    integration_normalize_station s station (state.1, modify_at conj_buffer b state.2) =
      (integration_normalize_station s station state).map
        (fun p => (p.1, modify_at conj_buffer b p.2)) := by
  obtain ⟨norms, buffers⟩ := state
  unfold integration_normalize_station
  simp only [getElem?_modify_at, hne, if_false]
  cases norms[station]? with
  | none => rfl
  | some norm0 =>
    cases buffers[station]? with
    | none => rfl
    | some buffer =>
      dsimp only
      split
      swap
      · rfl
      split
      · rfl
      split
      swap
      · rfl
      simp only [Option.map_some', modify_at_set_ne _ _ _ _ _ hne]

/-- The division loop of the cross baselines on the conjugated buffer gives
the conjugated result. -/
theorem div_loop_conj [LinearOrderedField R] (m : Nat) (norm : R)
    (buffer : Complex_buffer R) :
    for_loop_opt 0 m (fun i (buffer : Complex_buffer R) =>
        match buffer[i]? with
        | some c => some (buffer.set i (c.div_real norm))
        | none => none) (conj_buffer buffer) =
      (for_loop_opt 0 m (fun i (buffer : Complex_buffer R) =>
        match buffer[i]? with
        | some c => some (buffer.set i (c.div_real norm))
        | none => none) buffer).map conj_buffer := by
  apply for_loop_opt_map conj_buffer _ _ _ ?_ _ 0 buffer rfl
  intro i t _
  rw [getElem?_conj_buffer]
  cases t[i]? with
  | none => rfl
  | some c =>
    simp only [Option.map_some']
    rw [← conj_buffer_set, conj_div_real]

/-- One iteration of the loop over the cross baselines commutes with the
mirror. -/
theorem normalize_cross_body_mirror [LinearOrderedField R] (sqrt : R → R) (b : Nat)
    (s : Correlation_core R) (norms : List R) (i : Nat) (t : List (Complex_buffer R)) :
    (match (modify_at Prod.swap b s.baselines)[i]? with
      | some stations =>
        match norms[stations.1]?, norms[stations.2]?, (modify_at conj_buffer b t)[i]? with
        | some n1, some n2, some buffer =>
          match for_loop_opt 0 (fft_size s + 1) (fun i (buffer : Complex_buffer R) =>
              match buffer[i]? with
              | some c => some (buffer.set i (c.div_real (sqrt (n1 * n2))))
              | none => none) buffer with
          | some buffer => some ((modify_at conj_buffer b t).set i buffer)
          | none => none
        | _, _, _ => none
      | none => none) =
    (match s.baselines[i]? with
      | some stations =>
        match norms[stations.1]?, norms[stations.2]?, t[i]? with
        | some n1, some n2, some buffer =>
          match for_loop_opt 0 (fft_size s + 1) (fun i (buffer : Complex_buffer R) =>
              match buffer[i]? with
              | some c => some (buffer.set i (c.div_real (sqrt (n1 * n2))))
              | none => none) buffer with
          | some buffer => some (t.set i buffer)
          | none => none
        | _, _, _ => none
      | none => none).map (modify_at conj_buffer b) := by
  simp only [getElem?_modify_at]
  by_cases hib : i = b
  · subst hib
    simp only [if_true]
    cases s.baselines[i]? with
    | none => rfl
    | some stations =>
      obtain ⟨a, c⟩ := stations
      simp only [Option.map_some', Prod.swap, Prod.fst, Prod.snd]
      cases norms[a]? with
      | none => cases norms[c]? <;> cases t[i]? <;> rfl
      | some na =>
        cases norms[c]? with
        | none => cases t[i]? <;> rfl
        | some nc =>
          cases ht : t[i]? with
          | none => rfl
          | some buffer =>
            have hlt : i < t.length := by
              by_contra hcon
              rw [List.getElem?_eq_none (by omega)] at ht
              cases ht
            simp only [Option.map_some']
            rw [div_loop_conj, mul_comm nc na]
            cases for_loop_opt 0 (fft_size s + 1) _ buffer with
            | none => rfl
            | some r => simp only [Option.map_some', modify_at_set_self _ _ _ _ hlt]
  · simp only [hib, if_false]
    cases s.baselines[i]? with
    | none => rfl
    | some stations =>
      dsimp only
      cases norms[stations.1]? with
      | none => rfl
      | some n1 =>
        cases norms[stations.2]? with
        | none => rfl
        | some n2 =>
          cases t[i]? with
          | none => rfl
          | some buffer =>
            dsimp only
            split
            · simp only [Option.map_some', modify_at_set_ne _ _ _ _ _ hib]
            · rfl

end Correlation_core

namespace Correlation_core

variable {R : Type}

/-- `integration_normalize` of the mirrored core gives the mirrored result,
also when it fails. -/
theorem integration_normalize_mirror [LinearOrderedField R] (sqrt : R → R) (b : Nat)
    (s : Correlation_core R) (hb : n_stations s ≤ b) :
    integration_normalize sqrt (mirror b s) = (integration_normalize sqrt s).map (mirror b) := by
  unfold integration_normalize
  dsimp only
  simp only [mirror_n_stations, mirror_accumulation_buffers, mirror_baselines, length_modify_at,
    mirror_fft_size, integration_normalize_station_mirror]
  have hst : ∀ (r' r : Option (List R × List (Complex_buffer R))),
      for_loop_opt 0 (n_stations s) (integration_normalize_station s)
        (resize [] (n_stations s) 0, modify_at conj_buffer b s.accumulation_buffers) = r' →
      for_loop_opt 0 (n_stations s) (integration_normalize_station s)
        (resize [] (n_stations s) 0, s.accumulation_buffers) = r →
      r' = r.map (fun p => (p.1, modify_at conj_buffer b p.2)) := by
    intro r' r h' h
    exact for_loop_opt_map_rel (fun p : List R × List (Complex_buffer R) =>
      (p.1, modify_at conj_buffer b p.2)) 0 _ _ _
      (resize [] (n_stations s) 0, s.accumulation_buffers) r r' h' h
      (fun i t hi => integration_normalize_station_conj b s i (by omega) t)
  cases hA : for_loop_opt 0 (n_stations s) (integration_normalize_station s)
      (resize [] (n_stations s) 0, s.accumulation_buffers) with
  | none =>
    rw [hst _ _ rfl hA]
    rfl
  | some st =>
    obtain ⟨norms, mid⟩ := st
    rw [hst _ _ rfl hA]
    simp only [Option.map_some']
    split
    · rename_i r' hB'
      split
      · rename_i r hB
        have e := for_loop_opt_map_rel _ _ _ _ _ _ _ _ hB' hB
          (fun i t _ => normalize_cross_body_mirror sqrt b s norms i t)
        simp only [Option.map_some', Option.some.injEq] at e
        subst e
        rfl
      · rename_i hB
        have e := for_loop_opt_map_rel _ _ _ _ _ _ _ _ hB' hB
          (fun i t _ => normalize_cross_body_mirror sqrt b s norms i t)
        cases e
    · rename_i hB'
      split
      · rename_i r hB
        have e := for_loop_opt_map_rel _ _ _ _ _ _ _ _ hB' hB
          (fun i t _ => normalize_cross_body_mirror sqrt b s norms i t)
        cases e
      · rfl

end Correlation_core

namespace Correlation_core

variable {R : Type}

theorem conj_buffer_zero [LinearOrderedField R] (n : Nat) :
    conj_buffer (List.replicate n (Cplx.zero : Cplx R)) = List.replicate n Cplx.zero := by
  unfold conj_buffer
  rw [List.map_replicate]
  congr 1
  simp only [Cplx.conj, Cplx.zero, neg_zero]

/-- After `integration_initialise` the mirrored core has the accumulators of
the core: they are zero. -/
theorem mirror_initialised [LinearOrderedField R] (b : Nat) (s0 s : Correlation_core R)
    (h : integration_initialise s0 = some s) :
    (mirror b s).accumulation_buffers = s.accumulation_buffers := by
  obtain ⟨fr, h1, h2⟩ := integration_initialise_spec s0 s h
  rw [mirror_accumulation_buffers]
  apply List.ext_getElem?
  intro k
  rw [getElem?_modify_at]
  by_cases hk : k = b
  · subst hk
    rw [if_pos rfl]
    by_cases hl : k < s0.baselines.length
    · rw [h2 k hl, Option.map_some', conj_buffer_zero]
    · rw [List.getElem?_eq_none (by omega)]
      rfl
  · rw [if_neg hk]

/-- The accumulators of the mirrored core, bin by bin. -/
theorem mirror_bins [LinearOrderedField R] (b : Nat) (s : Correlation_core R) :
    (∀ buffer, s.accumulation_buffers[b]? = some buffer →
      ∃ buffer', (mirror b s).accumulation_buffers[b]? = some buffer' ∧
        buffer'.length = buffer.length ∧
        ∀ (bin : Nat) (c : Cplx R), buffer[bin]? = some c → buffer'[bin]? = some c.conj) ∧
    (∀ i, i ≠ b → (mirror b s).accumulation_buffers[i]? = s.accumulation_buffers[i]?) ∧
    (∀ i j, s.baselines[b]? = some (i, j) → (mirror b s).baselines[b]? = some (j, i)) ∧
    (∀ i, i ≠ b → (mirror b s).baselines[i]? = s.baselines[i]?) := by
  refine ⟨?_, ?_, ?_, ?_⟩
  · intro buffer hbuf
    refine ⟨conj_buffer buffer, ?_, ?_, ?_⟩
    · rw [mirror_accumulation_buffers, getElem?_modify_at, if_pos rfl, hbuf]
      rfl
    · unfold conj_buffer
      rw [List.length_map]
    · intro bin c hc
      rw [getElem?_conj_buffer, hc]
      rfl
  · intro i hi
    rw [mirror_accumulation_buffers, getElem?_modify_at, if_neg hi]
  · intro i j hij
    rw [mirror_baselines, getElem?_modify_at, if_pos rfl, hij]
    rfl
  · intro i hi
    rw [mirror_baselines, getElem?_modify_at, if_neg hi]

/-- Steps and normalisation of the mirrored core. -/
theorem integrate_mirror [LinearOrderedField R] (sqrt : R → R) (b k : Nat)
    (s : Correlation_core R) (hb : number_input_streams_in_use s ≤ b) :
    (integration_steps k (mirror b s)).bind (integration_normalize sqrt) =
      ((integration_steps k s).bind (integration_normalize sqrt)).map (mirror b) := by
  rw [integration_steps_mirror b k s hb]
  cases h1 : integration_steps k s with
  | none => rfl
  | some s1 =>
    simp only [Option.map_some', Option.some_bind]
    apply integration_normalize_mirror
    have e1 : ∀ (k : Nat) (t t' : Correlation_core R), integration_steps k t = some t' →
        t'.correlation_parameters = t.correlation_parameters := by
      intro k
      induction k with
      | zero =>
        intro t t' h
        simp only [integration_steps, Option.some.injEq] at h
        rw [h]
      | succ k ih =>
        intro t t' h
        simp only [integration_steps] at h
        cases h2 : integration_step t with
        | none => rw [h2] at h; cases h
        | some t1 =>
          rw [h2] at h
          rw [ih t1 t' h, integration_step_frame t t1 h2]
    unfold n_stations
    rw [e1 k s s1 h1]
    exact hb

/-- C17: for a baseline `b` that is not an autocorrelation, take the core
that correlates `(j, i)` at `b` where the core `s` correlates `(i, j)`, with
the conjugate accumulator at `b` (the same zero accumulator right after
`integration_initialise`), and give both the same input spectra. After any
number `k` of `integration_step` calls, and after `integration_normalize`
on top of them, the two cores fail together or end in states that are
mirrors of each other: the accumulator of baseline `b` of the one is, bin by
bin, the complex conjugate of that of the other, and all other accumulators
are equal. -/
theorem conjugate_symmetry [LinearOrderedField R] (sqrt : R → R) (b k : Nat)
    (s : Correlation_core R) (hb : number_input_streams_in_use s ≤ b) :
    (∀ i j, s.baselines[b]? = some (i, j) → (mirror b s).baselines[b]? = some (j, i)) ∧
    (∀ s0, integration_initialise s0 = some s →
      (mirror b s).accumulation_buffers = s.accumulation_buffers) ∧
    integration_steps k (mirror b s) = (integration_steps k s).map (mirror b) ∧
    (integration_steps k (mirror b s)).bind (integration_normalize sqrt) =
      ((integration_steps k s).bind (integration_normalize sqrt)).map (mirror b) ∧
    ∀ s' t', (integration_steps k s).bind (integration_normalize sqrt) = some s' →
      (integration_steps k (mirror b s)).bind (integration_normalize sqrt) = some t' →
      (∀ buffer, s'.accumulation_buffers[b]? = some buffer →
        ∃ buffer', t'.accumulation_buffers[b]? = some buffer' ∧
          buffer'.length = buffer.length ∧
          ∀ (bin : Nat) (c : Cplx R), buffer[bin]? = some c → buffer'[bin]? = some c.conj) ∧
      (∀ i, i ≠ b → t'.accumulation_buffers[i]? = s'.accumulation_buffers[i]?) := by
  refine ⟨(mirror_bins b s).2.2.1, fun s0 h => mirror_initialised b s0 s h,
    integration_steps_mirror b k s hb, integrate_mirror sqrt b k s hb, ?_⟩
  intro s' t' h1 h2
  rw [integrate_mirror sqrt b k s hb, h1] at h2
  simp only [Option.map_some', Option.some.injEq] at h2
  subst h2
  exact ⟨(mirror_bins b s').1, (mirror_bins b s').2.1⟩

/-- Witness of C17: the example core, whose baseline 2 is `(0, 1)`, and its
mirror with `(1, 0)`, after two steps and the normalisation. -/
theorem conjugate_symmetry_witness :
    ∃ s s' t' : Correlation_core ℚ, example_initialised = some s ∧
      number_input_streams_in_use s ≤ 2 ∧ s.baselines[2]? = some (0, 1) ∧
      (integration_steps 2 s).bind (integration_normalize example_sqrt) = some s' ∧
      (integration_steps 2 (mirror 2 s)).bind (integration_normalize example_sqrt) = some t' ∧
      (∀ i j, s.baselines[2]? = some (i, j) → (mirror 2 s).baselines[2]? = some (j, i)) ∧
      (∀ s0, integration_initialise s0 = some s →
        (mirror 2 s).accumulation_buffers = s.accumulation_buffers) ∧
      integration_steps 2 (mirror 2 s) = (integration_steps 2 s).map (mirror 2) ∧
      (integration_steps 2 (mirror 2 s)).bind (integration_normalize example_sqrt) =
        ((integration_steps 2 s).bind (integration_normalize example_sqrt)).map (mirror 2) ∧
      ∀ s' t', (integration_steps 2 s).bind (integration_normalize example_sqrt) = some s' →
        (integration_steps 2 (mirror 2 s)).bind (integration_normalize example_sqrt) = some t' →
        (∀ buffer, s'.accumulation_buffers[2]? = some buffer →
          ∃ buffer', t'.accumulation_buffers[2]? = some buffer' ∧
            buffer'.length = buffer.length ∧
            ∀ (bin : Nat) (c : Cplx ℚ), buffer[bin]? = some c → buffer'[bin]? = some c.conj) ∧
        (∀ i, i ≠ 2 → t'.accumulation_buffers[i]? = s'.accumulation_buffers[i]?) :=
  ⟨_, _, _, rfl, by decide, rfl, rfl, rfl, conjugate_symmetry example_sqrt 2 2 _ (by decide)⟩

end Correlation_core
namespace Control_parameters

theorem isPower2_iff (n : Int) : isPower2 n = true ↔ ∃ k : Nat, n = 2 ^ k := by
  unfold isPower2
  rw [decide_eq_true_iff]
  constructor
  · rintro ⟨hn, k, -, hk⟩
    refine ⟨k, ?_⟩
    have := Int.toNat_of_nonneg (le_of_lt hn)
    rw [← this, ← hk]
    push_cast
    rfl
  · rintro ⟨k, rfl⟩
    refine ⟨by positivity, k, ?_, ?_⟩
    · have : ((2 : Int) ^ k).toNat = 2 ^ k := by
        have h : ((2 : Int) ^ k) = ((2 ^ k : Nat) : Int) := by push_cast; rfl
        rw [h, Int.toNat_natCast]
      rw [this]
      exact Nat.lt_two_pow k
    · have h : ((2 : Int) ^ k) = ((2 ^ k : Nat) : Int) := by push_cast; rfl
      rw [h, Int.toNat_natCast]

theorem foldl_false {α : Type} (f : Bool → α → Bool) (hf : ∀ x, f false x = false)
    (l : List α) : l.foldl f false = false := by
  induction l with
  | nil => rfl
  | cons x l ih => rw [List.foldl_cons, hf, ih]

theorem check_start_stop_false {T : Type} [LinearOrder T] (env : Check_environment T) (ctrl : Ctrl) :
    check_start_stop env ctrl false = false := by
  unfold check_start_stop
  split
  · rfl
  · split
    · rfl
    · split <;> rfl

theorem check_integration_time_false {T : Type} [LinearOrder T] (env : Check_environment T) (ctrl : Ctrl) :
    check_integration_time env ctrl false = false := by
  unfold check_integration_time
  split
  · rfl
  · dsimp only
    split
    · split
      · rfl
      · split
        · rfl
        · split <;> rfl
    · split <;> rfl

theorem check_phasecal_false {T : Type} [LinearOrder T] (env : Check_environment T) (ctrl : Ctrl) :
    check_phasecal env ctrl false = false := by
  unfold check_phasecal
  split
  · rfl
  · split <;> rfl

theorem check_fft_false (ctrl : Ctrl) : check_fft ctrl false = false := by
  unfold check_fft
  cases ctrl.fft_size_delaycor <;> cases ctrl.fft_size_correlation <;> simp

theorem check_data_sources_false {T : Type} (env : Check_environment T) (sources : List (List Char)) :
    check_data_sources env sources false = false := by
  unfold check_data_sources
  apply foldl_false
  intro x
  dsimp only
  split <;> rfl

theorem check_stations_false {T : Type} [LinearOrder T] (env : Check_environment T) (ctrl : Ctrl) :
    check_stations env ctrl false = false := by
  have h : (match ctrl.stations with
    | some stations =>
      stations.foldl (fun ok station_name =>
        match ctrl.data_sources station_name with
        | none => false
        | some sources =>
          if sources.length = 0 then false
          else check_data_sources env sources ok) false
    | none => false) = false := by
    split
    · apply foldl_false
      intro x
      dsimp only
      split
      · rfl
      · split
        · rfl
        · exact check_data_sources_false env _
    · rfl
  unfold check_stations
  dsimp only
  rw [h]
  split
  · split
    · split <;> rfl
    · rfl
  · rfl

theorem check_files_false {T : Type} (env : Check_environment T) (ctrl : Ctrl) :
    check_files env ctrl false = false := by
  unfold check_files
  cases ctrl.output_file <;> cases ctrl.phasecal_file <;> cases ctrl.mask <;>
    try simp
  all_goals
    rename_i m
    rcases m with ⟨a, b⟩
    cases a <;> cases b <;> simp

theorem check_modes_false (ctrl : Ctrl) : check_modes ctrl false = false := by
  unfold check_modes
  cases ctrl.window_function <;> simp

theorem check_pulsar_false {T : Type} (env : Check_environment T) (pulsar : Pulsar_entry) :
    check_pulsar env pulsar false = false := by
  unfold check_pulsar
  dsimp only
  have h1 : (match pulsar.interval with
    | [zero, one] =>
      if zero < 0 ∨ zero > 1 ∨ one < 0 ∨ one ≥ 2 ∨ one - zero ≤ 0 ∨ one - zero > 1
      then false else false
    | _ => false) = false := by
    split
    · split <;> rfl
    · rfl
  rw [h1]
  split
  · rfl
  · simp

theorem check_pulsar_binning_false {T : Type} [LinearOrder T] (env : Check_environment T) (ctrl : Ctrl) :
    check_pulsar_binning env ctrl false = false := by
  unfold check_pulsar_binning
  split
  · split
    · rfl
    · rfl
    · apply foldl_false
      intro x
      exact check_pulsar_false env x
  · rfl

/-- Once a block of `check` has cleared `ok`, the result is `false`: the blocks
after the integration time never set it again. -/
theorem check_after_integration_time {T : Type} [LinearOrder T] (env : Check_environment T) (ctrl : Ctrl)
    (h : check_integration_time env ctrl (check_start_stop env ctrl true) = false) :
    check env ctrl = false := by
  unfold check
  dsimp only
  rw [h, check_phasecal_false, check_fft_false, check_stations_false, check_files_false,
    check_modes_false, check_pulsar_binning_false]

/-- The same for the block on the FFT sizes. -/
theorem check_after_fft {T : Type} [LinearOrder T] (env : Check_environment T) (ctrl : Ctrl)
    (h : ∀ ok, check_fft ctrl ok = false) : check env ctrl = false := by
  unfold check
  dsimp only
  rw [h, check_stations_false, check_files_false, check_modes_false,
    check_pulsar_binning_false]


theorem check_integration_time_longer {T : Type} [LinearOrder T] (env : Check_environment T)
    (ctrl : Ctrl) (x y : ℚ) (ok : Bool) (hx : ctrl.integr_time = some x)
    (hy : ctrl.sub_integr_time = some y)
    (h : env.time_of_usec y < env.time_of_usec 0 ∨
      env.time_of_usec (x * 1000000) < env.time_of_usec y) :
    check_integration_time env ctrl ok = false := by
  unfold check_integration_time
  rw [hx, hy]
  dsimp only
  by_cases hneg : env.time_of_usec y < env.time_of_usec 0
  · rw [if_pos hneg]
  · rw [if_neg hneg]
    rcases h with h | h
    · exact absurd h hneg
    · rw [if_pos h]

theorem check_integration_time_within {T : Type} [LinearOrder T] (env : Check_environment T)
    (ctrl : Ctrl) (x y : ℚ) (ok : Bool) (hx : ctrl.integr_time = some x)
    (h0 : ¬ env.time_of_usec y < env.time_of_usec 0)
    (h1 : ¬ env.time_of_usec (x * 1000000) < env.time_of_usec y) :
    check_integration_time env { ctrl with sub_integr_time := some y } ok =
      check_integration_time env { ctrl with sub_integr_time := none } ok := by
  unfold check_integration_time
  dsimp only
  rw [hx]
  dsimp only
  rw [if_neg h0, if_neg h1]

theorem check_sub_integr_time_only {T : Type} [LinearOrder T] (env : Check_environment T)
    (ctrl : Ctrl) (a b : Option ℚ)
    (h : ∀ ok, check_integration_time env { ctrl with sub_integr_time := a } ok =
      check_integration_time env { ctrl with sub_integr_time := b } ok) :
    check env { ctrl with sub_integr_time := a } =
      check env { ctrl with sub_integr_time := b } := by
  unfold check
  dsimp only
  rw [h]
  rfl

theorem check_fft_breaks (ctrl : Ctrl) (ok : Bool)
    (h : (∃ d, ctrl.fft_size_delaycor = some d ∧ ¬ ∃ k : Nat, d = 2 ^ k) ∨
      (∃ c, ctrl.fft_size_correlation = some c ∧ ¬ ∃ k : Nat, c = 2 ^ k) ∨
      (∃ c, ctrl.fft_size_correlation = some c ∧ c < asInt ctrl.number_channels) ∨
      (∃ d c, ctrl.fft_size_delaycor = some d ∧ ctrl.fft_size_correlation = some c ∧ c < d)) :
    check_fft ctrl ok = false := by
  have hp : ∀ n : Int, (¬ ∃ k : Nat, n = 2 ^ k) → isPower2 n = false := by
    intro n hn
    cases hb : isPower2 n
    · rfl
    · exact absurd ((isPower2_iff n).mp hb) hn
  unfold check_fft
  rcases h with ⟨d, hd, hn⟩ | ⟨c, hc, hn⟩ | ⟨c, hc, hn⟩ | ⟨d, c, hd, hc, hn⟩
  · rw [hd]
    cases ctrl.fft_size_correlation <;> simp [hp d hn]
  · rw [hc]
    cases ctrl.fft_size_delaycor <;> simp [hp c hn]
  · rw [hc]
    cases ctrl.fft_size_delaycor <;> simp [hn]
  · rw [hc, hd]
    simp [asInt, hn]

/-- C13: `Control_parameters::check` returns `false` for every control file
whose FFT sizes break one of the constraints: `fft_size_delaycor` is set and is
not a power of two, or `fft_size_correlation` is set and is not a power of two,
or `fft_size_correlation` is set and smaller than `number_channels` (read with
`asInt`, 0 when it is not set), or both sizes are set and
`fft_size_correlation` is smaller than `fft_size_delaycor`. This holds for
every environment and whatever the other entries of the control file are. -/
theorem check_fft_sizes {T : Type} [LinearOrder T] (env : Check_environment T) (ctrl : Ctrl)
    (h : (∃ d, ctrl.fft_size_delaycor = some d ∧ ¬ ∃ k : Nat, d = 2 ^ k) ∨
      (∃ c, ctrl.fft_size_correlation = some c ∧ ¬ ∃ k : Nat, c = 2 ^ k) ∨
      (∃ c, ctrl.fft_size_correlation = some c ∧ c < asInt ctrl.number_channels) ∨
      (∃ d c, ctrl.fft_size_delaycor = some d ∧ ctrl.fft_size_correlation = some c ∧ c < d)) :
    check env ctrl = false :=
  check_after_fft env ctrl (fun ok => check_fft_breaks ctrl ok h)

theorem check_fft_sizes_witness :
    (∃ d c, ({ example_ctrl none with fft_size_correlation := some 128 }).fft_size_delaycor =
        some d ∧
      ({ example_ctrl none with fft_size_correlation := some 128 }).fft_size_correlation =
        some c ∧ c < d) ∧
    check example_environment (example_ctrl none) = true ∧
    check example_environment { example_ctrl none with fft_size_correlation := some 128 } =
      false :=
  ⟨⟨256, 128, rfl, rfl, by decide⟩, by decide!,
    check_fft_sizes example_environment _
      (Or.inr (Or.inr (Or.inr ⟨256, 128, rfl, rfl, by decide⟩)))⟩

/-- C14: `Control_parameters::check` returns `false` for every control file in
which `sub_integr_time` is set (to `y` microseconds) and the sub integration
time is longer than the integration time: `integr_time` is not set at all, or
it is set to `x` seconds and `Time(x * 1000000) < Time(y)`, the comparison
`check` makes, or the same in terms of the accessors,
`integration_time() < sub_integration_time()`, when rounding `x * 1000000` to
a whole number of microseconds does not change its `Time` (the accessor
rounds, `check` does not). -/
theorem check_sub_integr_time_longer {T : Type} [LinearOrder T] (env : Check_environment T)
    (ctrl : Ctrl) (y : ℚ) (hy : ctrl.sub_integr_time = some y)
    (h : ctrl.integr_time = none ∨
      (∃ x, ctrl.integr_time = some x ∧
        env.time_of_usec (x * 1000000) < env.time_of_usec y) ∨
      (∃ x, ctrl.integr_time = some x ∧
        env.time_of_usec (c_round (x * 1000000)) = env.time_of_usec (x * 1000000) ∧
        integration_time env ctrl < sub_integration_time env ctrl)) :
    check env ctrl = false := by
  apply check_after_integration_time
  rcases h with h | ⟨x, hx, h⟩ | ⟨x, hx, hr, h⟩
  · unfold check_integration_time
    rw [h]
  · exact check_integration_time_longer env ctrl x y _ hx hy (Or.inr h)
  · refine check_integration_time_longer env ctrl x y _ hx hy (Or.inr ?_)
    unfold integration_time sub_integration_time asDouble at h
    rw [hx, hy] at h
    dsimp only [Option.getD] at h
    rw [hr] at h
    exact h

theorem check_sub_integr_time_longer_witness :
    (example_ctrl (some 2000000)).sub_integr_time = some 2000000 ∧
    integration_time example_environment (example_ctrl (some 2000000)) <
      sub_integration_time example_environment (example_ctrl (some 2000000)) ∧
    check example_environment (example_ctrl (some 2000000)) = false :=
  ⟨rfl, by decide!,
    check_sub_integr_time_longer example_environment _ 2000000 rfl
      (Or.inr (Or.inr ⟨1, rfl, by decide!, by decide!⟩))⟩

/-- C15 (amended): `Control_parameters::check` makes two tests on a
`sub_integr_time` that is set, and none on whether it divides `integr_time`.
It returns `false` when the sub integration time is negative or longer than
the integration time; for a sub integration time that is neither, the result
is the one for the same control file without `sub_integr_time`, so it is the
same for a value that divides `integr_time` and for one that does not. -/
theorem check_sub_integr_time_tests {T : Type} [LinearOrder T] (env : Check_environment T)
    (ctrl : Ctrl) (x y : ℚ) (hx : ctrl.integr_time = some x) :
    (env.time_of_usec y < env.time_of_usec 0 ∨
        env.time_of_usec (x * 1000000) < env.time_of_usec y →
      check env { ctrl with sub_integr_time := some y } = false) ∧
    (¬ env.time_of_usec y < env.time_of_usec 0 →
      ¬ env.time_of_usec (x * 1000000) < env.time_of_usec y →
      check env { ctrl with sub_integr_time := some y } =
        check env { ctrl with sub_integr_time := none }) := by
  constructor
  · intro h
    apply check_after_integration_time
    exact check_integration_time_longer env _ x y _ hx rfl h
  · intro h0 h1
    apply check_sub_integr_time_only
    intro ok
    exact check_integration_time_within env ctrl x y ok hx h0 h1

theorem check_sub_integr_time_tests_witness :
    (example_ctrl none).integr_time = some 1 ∧
    check example_environment (example_ctrl (some 2000000)) = false ∧
    check example_environment (example_ctrl (some 300000)) =
      check example_environment (example_ctrl none) :=
  ⟨rfl,
    (check_sub_integr_time_tests example_environment (example_ctrl none) 1 2000000 rfl).1
      (Or.inr (by decide!)),
    (check_sub_integr_time_tests example_environment (example_ctrl none) 1 300000 rfl).2
      (by decide!) (by decide!)⟩

/-- A sub integration time of 300000 microseconds does not divide the
integration time of one second, and `check` accepts the control file. -/
theorem check_sub_integr_time_tests_counterexample :
    (example_ctrl (some 300000)).integr_time = some 1 ∧
    (example_ctrl (some 300000)).sub_integr_time = some 300000 ∧
    (¬ ∃ n : Int, (1 : ℚ) * 1000000 = n * 300000) ∧
    check example_environment (example_ctrl (some 300000)) = true := by
  refine ⟨rfl, rfl, ?_, by decide!⟩
  rintro ⟨n, h⟩
  have h3 : (n : ℚ) * 3 = 10 := by linarith
  have h4 : n * 3 = 10 := by exact_mod_cast h3
  omega

end Control_parameters

namespace VDIF_reader

theorem restart_or_fail_within {D T : Type} (st : Read_state D T) :
    pass_within st.restarts st.slots (restart_or_fail st) := by
  unfold restart_or_fail
  dsimp only
  split
  · exact ⟨rfl, le_refl _, fun h => absurd h (by decide)⟩
  · rename_i h
    exact ⟨rfl, rfl, not_lt.mp h⟩

theorem read_frames_fields {D T : Type} (env : VDIF_environment D T) (n : Nat) :
    ∀ (i : Nat) (st : Read_state D T),
      (read_frames env n i st).2.slots = st.slots ∧
      (read_frames env n i st).2.restarts = st.restarts ∧
      (read_frames env n i st).2.statuses = st.statuses := by
  induction n with
  | zero => intro i st; exact ⟨rfl, rfl, rfl⟩
  | succ n ih =>
    intro i st
    unfold read_frames
    dsimp only
    generalize (if env.legacy_mode st.reader.first_header = 0 then 32 else 16) = size
    by_cases h1 : env.eof (env.get_bytes_s st.reader.data_reader_ size).1 = true
    · rw [if_pos h1]
      exact ⟨rfl, rfl, rfl⟩
    · rw [if_neg h1]
      by_cases h2 : env.eof (env.get_bytes_s (env.get_bytes_s st.reader.data_reader_ size).1
          st.reader.frame_size).1 = true
      · rw [if_pos h2]
        exact ⟨rfl, rfl, rfl⟩
      · rw [if_neg h2]
        exact ih _ _

theorem read_new_block_frames_within {D T : Type} (env : VDIF_environment D T)
    (st : Read_state D T) (h : Header_status.VALID ∈ st.statuses) :
    pass_within st.restarts st.slots (read_new_block_frames env st) := by
  have hf := read_frames_fields env (st.reader.vdif_frames_per_block - 1) 1 st
  unfold read_new_block_frames
  dsimp only
  split
  · refine ⟨hf.1, ?_, fun _ => ?_⟩
    · show (read_frames env _ 1 st).2.restarts ≤ _
      rw [hf.2.1]
      exact Nat.le_succ _
    · show _ ∈ (read_frames env _ 1 st).2.statuses
      rw [hf.2.2]
      exact h
  · refine ⟨hf.1, ?_, fun hv => absurd hv (by decide)⟩
    rw [hf.2.1]
    exact Nat.le_succ _

theorem read_new_block_frame_within {D T : Type} (env : VDIF_environment D T)
    (st : Read_state D T) :
    pass_within st.restarts st.slots (read_new_block_frame env st) := by
  unfold read_new_block_frame
  dsimp only [check_current_header, skip_bytes]
  generalize (if st.data.buffer.length = 0 then
    List.replicate (env.size_data_block st.reader) 0 else st.data.buffer) = buffer
  by_cases hvalid : env.check_header st.reader st.reader.current_header ≠ Header_status.VALID
  · rw [if_pos hvalid]
    exact restart_or_fail_within _
  · rw [if_neg hvalid]
    have hv : env.check_header st.reader st.reader.current_header = Header_status.VALID :=
      not_not.mp hvalid
    have hmem : Header_status.VALID ∈
        st.statuses ++ [env.check_header st.reader st.reader.current_header] := by
      rw [hv]
      exact List.mem_append_right _ (List.mem_singleton.mpr rfl)
    split
    · exact ⟨rfl, Nat.le_succ _, fun h => absurd h (by decide)⟩
    · split
      · exact read_new_block_frames_within env _ hmem
      · split
        · exact read_new_block_frames_within env _ hmem
        · split
          · exact read_new_block_frames_within env _ hmem
          · exact restart_or_fail_within _

theorem read_new_block_pass_tail {D T : Type} (env : VDIF_environment D T)
    (restarts slots : Nat) (st : Read_state D T) (hr : st.restarts = restarts)
    (hs : st.slots = slots) :
    pass_within restarts slots
      (if env.eof st.reader.data_reader_ then Pass_result.done false st
        else read_new_block_frame env st) := by
  split
  · exact ⟨hs, by rw [hr]; exact Nat.le_succ _, fun h => absurd h (by decide)⟩
  · have h := read_new_block_frame_within env st
    rw [hr, hs] at h
    exact h

theorem read_new_block_pass_within {D T : Type} (env : VDIF_environment D T)
    (st : Read_state D T) :
    pass_within st.restarts (st.slots + 1) (read_new_block_pass env st) := by
  unfold read_new_block_pass
  dsimp only
  by_cases hseen : (!st.reader.first_header_seen) = true
  · rw [if_pos hseen]
    by_cases heof : env.eof (read_header_bytes env 16 0
        { st with slots := st.slots + 1 }).reader.data_reader_ = true
    · rw [if_pos heof]
      exact ⟨rfl, Nat.le_succ _, fun h => absurd h (by decide)⟩
    · rw [if_neg heof]
      by_cases hinvalid : (check_current_header env (read_header_bytes env 16 0
          { st with slots := st.slots + 1 })).1 = Header_status.INVALID
      · rw [if_pos hinvalid]
        exact restart_or_fail_within _
      · rw [if_neg hinvalid]
        split
        · exact read_new_block_pass_tail env _ _ _ rfl rfl
        · exact read_new_block_frame_within env _
  · rw [if_neg hseen]
    by_cases hl : env.legacy_mode st.reader.first_header = 0
    · simp only [if_pos hl]
      exact read_new_block_pass_tail env _ _ _ rfl rfl
    · simp only [if_neg hl]
      exact read_new_block_pass_tail env _ _ _ rfl rfl

theorem read_new_block_loop_spec {D T : Type} (env : VDIF_environment D T) (fuel : Nat) :
    ∀ st : Read_state D T, st.restarts + fuel = max_restarts + 1 → 0 < fuel →
      st.slots = st.restarts →
      ∃ value st', read_new_block_loop env fuel st = some (value, st') ∧
        st'.slots ≤ max_restarts + 1 ∧ st'.restarts ≤ max_restarts + 1 ∧
        (value = true → Header_status.VALID ∈ st'.statuses) := by
  induction fuel with
  | zero => intro st _ h; exact absurd h (lt_irrefl 0)
  | succ fuel ih =>
    intro st hfuel _ hslots
    have hp := read_new_block_pass_within env st
    unfold read_new_block_loop
    cases hpass : read_new_block_pass env st with
    | done value st' =>
      rw [hpass] at hp
      obtain ⟨h1, h2, h3⟩ := hp
      refine ⟨value, st', rfl, ?_, ?_, h3⟩
      · rw [h1, hslots]; omega
      · omega
    | restart st' =>
      rw [hpass] at hp
      obtain ⟨h1, h2, h3⟩ := hp
      dsimp only
      have hpos : 0 < fuel := by
        unfold max_restarts at *
        omega
      exact ih st' (by omega) hpos (by rw [h1, h2, hslots])

/-- C20 (amended): `VDIF_reader::read_new_block` terminates on every input, and
on an input in which no header is valid (`check_header` did not return `VALID`
for any header of the call) it returns `false`; it has then read at most 257
header slots, one more than `max_restarts = 256`, because a restart is refused
only when the count of restarts has gone above 256. -/
theorem read_new_block_bounded {D T : Type} (env : VDIF_environment D T)
    (reader : VDIF_reader D) (data : Data_frame T) :
    (∃ result, read_new_block env reader data = some result) ∧
    ∀ value st, read_new_block env reader data = some (value, st) →
      Header_status.VALID ∉ st.statuses →
      value = false ∧ st.slots ≤ 257 ∧ st.restarts ≤ 257 := by
  obtain ⟨value, st, h, h1, h2, h3⟩ := read_new_block_loop_spec env (max_restarts + 1)
    { reader := reader, data := data, restarts := 0, slots := 0, statuses := [] }
    (Nat.zero_add _) (Nat.succ_pos _) rfl
  refine ⟨⟨(value, st), h⟩, ?_⟩
  intro value' st' h' hinvalid
  have he : some (value', st') = some (value, st) := h'.symm.trans h
  injection he with he
  injection he with hv hst
  subst hv
  subst hst
  refine ⟨?_, h1, h2⟩
  cases hvalue : value'
  · rfl
  · exact absurd (h3 hvalue) hinvalid

theorem read_new_block_bounded_witness :
    ∃ value st,
      read_new_block example_vdif_environment (example_vdif_reader (List.replicate 100 0))
        example_data_frame = some (value, st) ∧
      st.statuses = [Header_status.INVALID, Header_status.INVALID, Header_status.INVALID] ∧
      value = false ∧ st.slots ≤ 257 ∧ st.restarts ≤ 257 :=
  ⟨_, _, rfl, by decide,
    (read_new_block_bounded example_vdif_environment
      (example_vdif_reader (List.replicate 100 0)) example_data_frame).2 _ _ rfl (by decide)⟩

/-- On 257 slots of 40 zero bytes no header is valid; `read_new_block` reads all
257 headers, and returns `false` when the count of restarts is 257. -/
theorem read_new_block_bounded_counterexample :
    (read_new_block example_vdif_environment (example_vdif_reader (List.replicate 10280 0))
      example_data_frame).map
        (fun r => (r.1, r.2.slots, r.2.restarts, r.2.statuses,
          r.2.reader.data_reader_.1.length)) =
      some (false, 257, 257, List.replicate 257 Header_status.INVALID, 0) := by
  decide!

end VDIF_reader
namespace Correlation_core

variable {R : Type}

/-- A successful `integration_initialise` met no failed assertion: when there
was one accumulator per baseline already, each had `fft_size + 1` bins. -/
theorem integration_initialise_ready [LinearOrderedField R] (s s' : Correlation_core R)
    (h : integration_initialise s = some s') : initialise_ready s := by
  intro hl i hi
  unfold integration_initialise at h
  dsimp only at h
  rw [if_neg (not_not.mpr hl), if_pos hl] at h
  split at h
  swap
  · cases h
  rename_i buffers hloop
  have key := for_loop_opt_inv
    (fun j (t : List (Complex_buffer R)) => t.length = s.accumulation_buffers.length ∧
      (∀ i, j ≤ i → t[i]? = s.accumulation_buffers[i]?) ∧
      ∀ i, i < j → accumulator_sized s i = true)
    _ _ ?_ _ 0 _ buffers rfl (Nat.zero_le _) ⟨rfl, fun _ _ => rfl, fun i hi => by omega⟩ hloop
  · exact key.2.2 i (by rw [hl]; exact hi)
  · intro j t t' hj ⟨h1, h2, h3⟩ hb
    split at hb
    swap
    · cases hb
    rename_i buffer hbuf
    split at hb
    swap
    · cases hb
    rename_i hbl
    simp only [Option.some.injEq] at hb
    subst hb
    refine ⟨by rw [List.length_set]; exact h1, ?_, ?_⟩
    · intro i hi
      rw [List.getElem?_set_ne (by omega)]
      exact h2 i (by omega)
    · intro i hi
      by_cases hij : i = j
      · subst hij
        rw [h2 i (le_refl i)] at hbuf
        exact (accumulator_sized_iff s i).mpr ⟨buffer, hbuf, hbl⟩
      · exact h3 i (by omega)

/-- C22 (amended): `integration_initialise` runs without a failed assertion
exactly in the prior states in which the number of accumulators differs from
the number of baselines or every accumulator has `fft_size + 1` bins already
(with one accumulator per baseline of which one has another length, the
assertion of line 172 fails). After it there are exactly `|baselines|`
accumulators, each of length `fft_size + 1`, and every entry of every
accumulator is zero. -/
theorem integration_initialise_zeroes [LinearOrderedField R] (s : Correlation_core R) :
    ((∃ s', integration_initialise s = some s') ↔ initialise_ready s) ∧
    ∀ s', integration_initialise s = some s' →
      s'.accumulation_buffers.length = s.baselines.length ∧
      ∀ buffer ∈ s'.accumulation_buffers,
        buffer.length = fft_size s + 1 ∧ ∀ c ∈ buffer, c = Cplx.zero := by
  refine ⟨⟨fun ⟨s', h⟩ => integration_initialise_ready s s' h, fun h => ?_⟩, ?_⟩
  · obtain ⟨buffers, hb, _⟩ := integration_initialise_total s h
    exact ⟨_, hb⟩
  · intro s' h
    obtain ⟨_, h1, h2⟩ := integration_initialise_spec s s' h
    refine ⟨h1, ?_⟩
    intro buffer hmem
    obtain ⟨i, hi, hget⟩ := List.getElem_of_mem hmem
    have hget' : s'.accumulation_buffers[i]? = some buffer := by
      rw [List.getElem?_eq_getElem hi, hget]
    rw [h2 i (by rw [← h1]; exact hi)] at hget'
    simp only [Option.some.injEq] at hget'
    subst hget'
    exact ⟨List.length_replicate _ _, fun c hc => List.eq_of_mem_replicate hc⟩

theorem integration_initialise_zeroes_witness :
    ∃ s s' : Correlation_core ℚ, example_configured = some s ∧
      integration_initialise { s with accumulation_buffers := [[⟨1, 2⟩]] } = some s' ∧
      s.baselines.length = 3 ∧ fft_size s = 2 ∧
      s'.accumulation_buffers = List.replicate 3 (List.replicate 3 Cplx.zero) ∧
      (((∃ s', integration_initialise { s with accumulation_buffers := [[⟨1, 2⟩]] } = some s') ↔
          initialise_ready { s with accumulation_buffers := [[⟨1, 2⟩]] }) ∧
        ∀ s', integration_initialise { s with accumulation_buffers := [[⟨1, 2⟩]] } = some s' →
          s'.accumulation_buffers.length = s.baselines.length ∧
          ∀ buffer ∈ s'.accumulation_buffers,
            buffer.length = fft_size s + 1 ∧ ∀ c ∈ buffer, c = Cplx.zero) :=
  ⟨_, _, rfl, rfl, by decide, by decide, by decide!, integration_initialise_zeroes _⟩

/-- The example core after one `integration_initialise` with `fft_size = 2` and
a second `set_parameters` with `fft_size = 4`: there are three accumulators of
three bins for three baselines, and the assertion on the length fails. -/
theorem integration_initialise_zeroes_counterexample :
    ∃ s : Correlation_core ℚ,
      example_initialised.bind (fun s =>
        s.set_parameters { example_parameters 2 (-1) false with fft_size := 4 } 0) = some s ∧
      s.baselines.length = 3 ∧ fft_size s = 4 ∧
      s.accumulation_buffers = List.replicate 3 (List.replicate 3 Cplx.zero) ∧
      (integration_initialise s).isNone = true :=
  ⟨_, rfl, by decide, by decide, by decide!, by decide!⟩

end Correlation_core
namespace Correlation_core

variable {R : Type}

/-- What `set_parameters` stores in `oversamp`. -/
theorem set_parameters_oversamp_eq [LinearOrderedField R] (s s' : Correlation_core R)
    (parameters : Correlation_parameters) (node_nr : Int)
    (h : s.set_parameters parameters node_nr = some s') :
    s'.oversamp = parameters.sample_rate / (2 * parameters.bandwidth) := by
  unfold set_parameters at h
  dsimp only at h
  split at h
  · cases h
  · unfold create_baselines at h
    dsimp only at h
    split at h
    · simp only [Option.some.injEq] at h
      rw [← h]
    · cases h

/-- `set_parameters` succeeds when the bandwidth is not zero and, in
cross-polarise mode, the number of station streams is even. -/
theorem set_parameters_total [LinearOrderedField R] (s : Correlation_core R)
    (parameters : Correlation_parameters) (node_nr : Int)
    (hb : parameters.bandwidth ≠ 0)
    (hx : parameters.cross_polarize = true → parameters.station_streams.length % 2 = 0) :
    ∃ s', s.set_parameters parameters node_nr = some s' := by
  have hv : ∃ bl, create_baselines_vector parameters.station_streams.length parameters =
      some bl := by
    unfold create_baselines_vector
    dsimp only
    split
    · rename_i hc
      rw [if_pos (hx hc)]
      split <;> exact ⟨_, rfl⟩
    · split <;> exact ⟨_, rfl⟩
  obtain ⟨bl, hbl⟩ := hv
  unfold set_parameters
  dsimp only
  rw [if_neg (by omega)]
  unfold create_baselines
  dsimp only
  have hn : n_stations
      ({ s with node_nr_ := node_nr, current_integration := 0, current_fft := 0,
                correlation_parameters := parameters,
                oversamp := parameters.sample_rate / (2 * parameters.bandwidth),
                number_ffts_in_integration :=
                  nr_ffts_per_integration_slice parameters.integration_time
                    parameters.sample_rate parameters.fft_size } : Correlation_core R) =
      parameters.station_streams.length := rfl
  rw [hn, hbl]
  exact ⟨_, rfl⟩

/-- With an integer ratio the rounded quotient is the integer quotient. -/
theorem oversamp_rounded_of_dvd (sample_rate bandwidth : Nat) (hb : 2 * bandwidth ≠ 0)
    (hdvd : 2 * bandwidth ∣ sample_rate) :
    oversamp_rounded sample_rate bandwidth = ((sample_rate / (2 * bandwidth) : Nat) : Int) := by
  obtain ⟨k, hk⟩ := hdvd
  have hq0 : ((2 * bandwidth : Nat) : ℚ) ≠ 0 := by exact_mod_cast hb
  have hratio : (sample_rate : ℚ) / (2 * (bandwidth : ℚ)) = (k : ℚ) := by
    have hq : (2 * (bandwidth : ℚ)) = ((2 * bandwidth : Nat) : ℚ) := by
      push_cast
      rfl
    rw [hq, div_eq_iff hq0, hk]
    push_cast
    ring
  have hquot : sample_rate / (2 * bandwidth) = k := by
    rw [hk]
    exact Nat.mul_div_cancel_left k (Nat.pos_of_ne_zero hb)
  unfold oversamp_rounded c_round
  rw [hratio, hquot, if_pos (by positivity)]
  have hfloor : ⌊(k : ℚ) + 1 / 2⌋ = (k : Int) := by
    rw [Int.floor_eq_iff]
    constructor
    · push_cast
      linarith
    · push_cast
      linarith
  rw [hfloor]
  simp

/-- With the ratio 32/25 the rounded quotient and the integer quotient are
both 1. -/
theorem oversamp_of_ratio_32_25 (sample_rate bandwidth : Nat) (hb : 2 * bandwidth ≠ 0)
    (hratio : 25 * sample_rate = 32 * (2 * bandwidth)) :
    sample_rate / (2 * bandwidth) = 1 ∧ oversamp_rounded sample_rate bandwidth = 1 := by
  constructor
  · exact Nat.div_eq_of_lt_le (by omega) (by omega)
  · have hq0 : ((2 * bandwidth : Nat) : ℚ) ≠ 0 := by exact_mod_cast hb
    have hq : (2 * (bandwidth : ℚ)) = ((2 * bandwidth : Nat) : ℚ) := by
      push_cast
      rfl
    have hr : (sample_rate : ℚ) / (2 * (bandwidth : ℚ)) = 32 / 25 := by
      rw [hq, div_eq_div_iff hq0 (by norm_num)]
      have : ((25 * sample_rate : Nat) : ℚ) = ((32 * (2 * bandwidth) : Nat) : ℚ) := by
        rw [hratio]
      push_cast at this
      push_cast
      linarith
    unfold oversamp_rounded c_round
    rw [hr, if_pos (by norm_num)]
    have hfloor : ⌊((32 : ℚ) / 25 + 1 / 2 : ℚ)⌋ = 1 := by
      rw [Int.floor_eq_iff]
      constructor <;> norm_num
    rw [hfloor]
    simp

/-- C23 (amended): `set_parameters` succeeds when the bandwidth is not zero (and
the number of streams is even in cross-polarise mode), and the oversampling
factor it stores, the one `integration_normalize` divides `fft_size` by, is an
integer. It is at least 1 when `bandwidth * 2 ≤ sample_rate`, and it equals the
ratio `sample_rate / (2 * bandwidth)` exactly when that ratio is a whole
number, that is, when `2 * bandwidth` divides `sample_rate`; it is 1 for the
ratio 32/25. In both cases it is also the ratio rounded to the nearest integer,
so the value does not depend on whether the quotient of line 68 is an integer
quotient. -/
theorem set_parameters_oversamp [LinearOrderedField R] (sqrt : R → R)
    (s : Correlation_core R) (parameters : Correlation_parameters) (node_nr : Int) :
    (parameters.bandwidth ≠ 0 →
      (parameters.cross_polarize = true → parameters.station_streams.length % 2 = 0) →
      ∃ s', s.set_parameters parameters node_nr = some s') ∧
    ∀ s', s.set_parameters parameters node_nr = some s' →
      (parameters.bandwidth * 2 ≤ parameters.sample_rate → 1 ≤ s'.oversamp) ∧
      (((s'.oversamp : ℚ) = (parameters.sample_rate : ℚ) / (2 * (parameters.bandwidth : ℚ))) ↔
        2 * parameters.bandwidth ∣ parameters.sample_rate) ∧
      (2 * parameters.bandwidth ∣ parameters.sample_rate →
        (s'.oversamp : Int) = oversamp_rounded parameters.sample_rate parameters.bandwidth) ∧
      (25 * parameters.sample_rate = 32 * (2 * parameters.bandwidth) →
        s'.oversamp = 1 ∧
        oversamp_rounded parameters.sample_rate parameters.bandwidth = 1) ∧
      ∀ t t' : Correlation_core R, t.oversamp = s'.oversamp →
        integration_normalize sqrt t = some t' →
        ∃ norms : List R, norms.length = n_stations t ∧
          ∀ i, i < n_stations t → ∃ buffer, t.accumulation_buffers[i]? = some buffer ∧
            norms[i]? = some (max 1 (((buffer.take (fft_size t + 1)).map Cplx.re).sum /
              ((fft_size t / s'.oversamp : Nat) : R))) ∧
            ∀ k, k ≤ fft_size t → ∃ c n, buffer[k]? = some c ∧ norms[i]? = some n ∧
              (t'.accumulation_buffers[i]?).bind (fun b => b[k]?) = some ⟨c.re / n, 0⟩ := by
  refine ⟨fun hb hx => set_parameters_total s parameters node_nr hb hx, ?_⟩
  intro s' h
  have ho := set_parameters_oversamp_eq s s' parameters node_nr h
  have hb : 2 * parameters.bandwidth ≠ 0 := by
    unfold set_parameters at h
    dsimp only at h
    split at h
    · cases h
    · assumption
  refine ⟨?_, ?_, ?_, ?_, ?_⟩
  · intro hle
    rw [ho]
    exact (Nat.one_le_div_iff (by omega)).mpr (by omega)
  · rw [ho]
    have hq : (2 * (parameters.bandwidth : ℚ)) = ((2 * parameters.bandwidth : Nat) : ℚ) := by
      push_cast
      rfl
    rw [hq]
    have hq0 : ((2 * parameters.bandwidth : Nat) : ℚ) ≠ 0 := by exact_mod_cast hb
    constructor
    · intro heq
      rw [eq_div_iff hq0] at heq
      have heq' : parameters.sample_rate / (2 * parameters.bandwidth) *
          (2 * parameters.bandwidth) = parameters.sample_rate := by exact_mod_cast heq
      exact Dvd.intro_left _ heq'
    · intro hdvd
      rw [Nat.cast_div hdvd hq0]
  · intro hdvd
    rw [ho, oversamp_rounded_of_dvd _ _ hb hdvd]
  · intro hratio
    rw [ho]
    exact oversamp_of_ratio_32_25 _ _ hb hratio
  · intro t t' ht hnorm
    obtain ⟨norms, n1, _, n3, _⟩ := integration_normalize_partial sqrt t t' hnorm
    refine ⟨norms, n1, ?_⟩
    intro i hi
    obtain ⟨buffer, buffer', b1, b2, b3, _, b5⟩ := n3 i hi
    refine ⟨buffer, b1, ?_, ?_⟩
    · rw [← ht]
      exact b3
    · intro k hk
      obtain ⟨c, n, c1, c2, c3⟩ := (b5 k).1 hk
      exact ⟨c, n, c1, c2, by rw [b2]; exact c3⟩

theorem set_parameters_oversamp_witness :
    ∃ s' : Correlation_core ℚ,
      (example_core 2 (-1) false).set_parameters
        { example_parameters 2 (-1) false with sample_rate := 64000000, bandwidth := 16000000 }
        0 = some s' ∧
      s'.oversamp = 2 ∧ 16000000 * 2 ≤ 64000000 ∧ 2 * 16000000 ∣ 64000000 ∧
      (s'.oversamp : ℚ) = (64000000 : ℚ) / (2 * 16000000) := by
  refine ⟨_, rfl, rfl, by decide, by decide, ?_⟩
  have key := (set_parameters_oversamp example_sqrt (example_core 2 (-1) false)
    { example_parameters 2 (-1) false with sample_rate := 64000000, bandwidth := 16000000 }
    0).2
  exact ((key _ rfl).2.1).mpr (by decide)

/-- A sample rate of 32 MHz with a bandwidth of 12.5 MHz has the ratio
32/25 = 1.28, and `set_parameters` stores the oversampling factor 1, which is
not the ratio. -/
theorem set_parameters_oversamp_counterexample :
    ∃ s' : Correlation_core ℚ,
      (example_core 2 (-1) false).set_parameters
        { example_parameters 2 (-1) false with sample_rate := 32000000, bandwidth := 12500000 }
        0 = some s' ∧
      12500000 * 2 ≤ 32000000 ∧
      (32000000 : ℚ) / (2 * 12500000) = 32 / 25 ∧
      s'.oversamp = 1 ∧ (s'.oversamp : ℚ) ≠ (32000000 : ℚ) / (2 * 12500000) :=
  ⟨_, rfl, by decide, by norm_num, rfl, by
    show ((1 : Nat) : ℚ) ≠ _
    norm_num⟩

end Correlation_core
namespace Correlation_core

variable {R : Type}

/-- The polarisation fields of the baseline headers that a successful
`integration_write` emits. -/
theorem integration_write_polarisation_partial [LinearOrderedField R]
    (s s' : Correlation_core R) (h : integration_write s = some s') :
    ∃ old timeslice uvw stats, ∃ p : Int,
    ∃ blocks : List (Output_header_baseline × List (Cplx R)),
      s.writer = some old ∧
      s'.writer = some (old ++
        [Output_chunk.timeslice timeslice, Output_chunk.uvw uvw, Output_chunk.stats stats] ++
        blocks.flatMap (fun b =>
          [Output_chunk.baseline_header b.1, Output_chunk.baseline_data b.2])) ∧
      (s.correlation_parameters.polarisation = 'R' ∧ p = 0 ∨
        s.correlation_parameters.polarisation = 'L' ∧ p = 1) ∧
      blocks.length = s.baselines.length ∧
      ∀ i, i < s.baselines.length → ∃ stations hbaseline data,
        s.baselines[i]? = some stations ∧ blocks[i]? = some (hbaseline, data) ∧
        (s.correlation_parameters.cross_polarize = true →
          hbaseline.polarisation1 =
            (if stations.1 < s.correlation_parameters.station_streams.length / 2 then p
             else 1 - p) ∧
          hbaseline.polarisation2 =
            (if stations.2 < s.correlation_parameters.station_streams.length / 2 then p
             else 1 - p)) ∧
        (s.correlation_parameters.cross_polarize = false →
          hbaseline.polarisation1 = p ∧ hbaseline.polarisation2 = p) := by
  obtain ⟨old, p, table, uvw, stats, fb, blocks, h1, h2, h3, _, _, _, _, h8, h9, h10⟩ :=
    integration_write_spec s s' h
  have hpol : s.correlation_parameters.polarisation = 'R' ∧ p = 0 ∨
      s.correlation_parameters.polarisation = 'L' ∧ p = 1 := by
    unfold integration_write at h
    rw [h1] at h
    dsimp only at h
    split at h
    swap
    · cases h
    by_cases hR : s.correlation_parameters.polarisation = 'R'
    · exact Or.inl ⟨hR, h3.mpr hR⟩
    · by_cases hL : s.correlation_parameters.polarisation = 'L'
      · refine Or.inr ⟨hL, ?_⟩
        rcases h2 with h2 | h2
        · exact absurd (h3.mp h2) hR
        · exact h2
      · rw [if_neg hR, if_neg hL] at h
        cases h
  refine ⟨old, _, uvw, stats, p, blocks, h1, by rw [h8], hpol, h9, ?_⟩
  intro i hi
  obtain ⟨stations, buffer, previous, averaged, hbaseline, b1, _, _, _, b5, b6⟩ := h10 i hi
  obtain ⟨_, _, _, _, _, c6, c7, _, _⟩ :=
    integration_write_header_spec s p table stations hbaseline b5
  refine ⟨stations, hbaseline, _, b1, b6, ?_, ?_⟩
  · intro hx
    rw [c6, c7]
    constructor
    · by_cases hlt : stations.1 < s.correlation_parameters.station_streams.length / 2
      · rw [if_pos hlt, if_neg (fun hc => absurd hc.2 (by omega))]
      · rw [if_neg hlt, if_pos ⟨hx, by omega⟩]
    · by_cases hlt : stations.2 < s.correlation_parameters.station_streams.length / 2
      · rw [if_pos hlt, if_neg (fun hc => absurd hc.2 (by omega))]
      · rw [if_neg hlt, if_pos ⟨hx, by omega⟩]
  · intro hx
    rw [c6, c7]
    constructor
    · rw [if_neg (fun hc => by rw [hx] at hc; exact absurd hc.1 (by decide))]
    · rw [if_neg (fun hc => by rw [hx] at hc; exact absurd hc.1 (by decide))]

/-- C24: `integration_write` succeeds in every state that is ready for it. With
the polarisation code `p` of the channel (0 for `R`, 1 for `L`), in
cross-polarise mode with `S` station streams a successful `integration_write`
gives the header of every baseline the `polarisation1` (`polarisation2`) `p`
when the first (second) stream index is below `S / 2` and `1 - p` otherwise;
so the baselines `(a, a')`, `(a, a' + S/2)`, `(a + S/2, a')` and
`(a + S/2, a' + S/2)` with `a, a' < S / 2` carry the pairs `(p, p)`,
`(p, 1 - p)`, `(1 - p, p)` and `(1 - p, 1 - p)`, which are four different
pairs. With cross-polarise off both fields are `p`. -/
theorem integration_write_polarisations [LinearOrderedField R] (s : Correlation_core R) :
    (write_ready s → ∃ s', integration_write s = some s') ∧
    ∀ s', integration_write s = some s' →
      ∃ old timeslice uvw stats, ∃ p : Int,
      ∃ blocks : List (Output_header_baseline × List (Cplx R)),
        s.writer = some old ∧
        s'.writer = some (old ++
          [Output_chunk.timeslice timeslice, Output_chunk.uvw uvw, Output_chunk.stats stats] ++
          blocks.flatMap (fun b =>
            [Output_chunk.baseline_header b.1, Output_chunk.baseline_data b.2])) ∧
        (s.correlation_parameters.polarisation = 'R' ∧ p = 0 ∨
          s.correlation_parameters.polarisation = 'L' ∧ p = 1) ∧
        p ≠ 1 - p ∧
        blocks.length = s.baselines.length ∧
        ∀ i, i < s.baselines.length → ∃ stations hbaseline data,
          s.baselines[i]? = some stations ∧ blocks[i]? = some (hbaseline, data) ∧
          (s.correlation_parameters.cross_polarize = true →
            hbaseline.polarisation1 =
              (if stations.1 < s.correlation_parameters.station_streams.length / 2 then p
               else 1 - p) ∧
            hbaseline.polarisation2 =
              (if stations.2 < s.correlation_parameters.station_streams.length / 2 then p
               else 1 - p) ∧
            ∀ a a', a < s.correlation_parameters.station_streams.length / 2 →
              a' < s.correlation_parameters.station_streams.length / 2 →
              (stations = (a, a') →
                (hbaseline.polarisation1, hbaseline.polarisation2) = (p, p)) ∧
              (stations = (a, a' + s.correlation_parameters.station_streams.length / 2) →
                (hbaseline.polarisation1, hbaseline.polarisation2) = (p, 1 - p)) ∧
              (stations = (a + s.correlation_parameters.station_streams.length / 2, a') →
                (hbaseline.polarisation1, hbaseline.polarisation2) = (1 - p, p)) ∧
              (stations = (a + s.correlation_parameters.station_streams.length / 2,
                  a' + s.correlation_parameters.station_streams.length / 2) →
                (hbaseline.polarisation1, hbaseline.polarisation2) = (1 - p, 1 - p))) ∧
          (s.correlation_parameters.cross_polarize = false →
            hbaseline.polarisation1 = p ∧ hbaseline.polarisation2 = p) := by
  refine ⟨integration_write_total s, ?_⟩
  intro s' h
  obtain ⟨old, timeslice, uvw, stats, p, blocks, h1, h2, h3, h4, h5⟩ :=
    integration_write_polarisation_partial s s' h
  refine ⟨old, timeslice, uvw, stats, p, blocks, h1, h2, h3, ?_, h4, ?_⟩
  · rcases h3 with ⟨_, hp⟩ | ⟨_, hp⟩ <;> rw [hp] <;> decide
  · intro i hi
    obtain ⟨stations, hbaseline, data, b1, b2, b3, b4⟩ := h5 i hi
    refine ⟨stations, hbaseline, data, b1, b2, ?_, b4⟩
    intro hx
    obtain ⟨c1, c2⟩ := b3 hx
    refine ⟨c1, c2, ?_⟩
    intro a a' ha ha'
    refine ⟨?_, ?_, ?_, ?_⟩
    · intro hst
      rw [c1, c2, hst]
      dsimp only
      rw [if_pos ha, if_pos ha']
    · intro hst
      rw [c1, c2, hst]
      dsimp only
      rw [if_pos ha, if_neg (by omega)]
    · intro hst
      rw [c1, c2, hst]
      dsimp only
      rw [if_neg (by omega), if_pos ha']
    · intro hst
      rw [c1, c2, hst]
      dsimp only
      rw [if_neg (by omega), if_neg (by omega)]

end Correlation_core

namespace Correlation_core

theorem integration_write_polarisations_witness :
    example_cross_polarized = some example_cross_polarized_state ∧
    write_ready example_cross_polarized_state ∧
    example_cross_polarized_state.correlation_parameters.cross_polarize = true ∧
    example_cross_polarized_state.baselines =
      [(0, 0), (1, 1), (2, 2), (3, 3), (0, 1), (0, 3), (2, 1), (2, 3)] ∧
    ∃ s' : Correlation_core ℚ,
      integration_write example_cross_polarized_state = some s' ∧
      s'.writer.map baseline_polarisations =
        some [(0, 0), (0, 0), (1, 1), (1, 1), (0, 0), (0, 1), (1, 0), (1, 1)] ∧
      ∃ p : Int, ∃ blocks : List (Output_header_baseline × List (Cplx ℚ)),
        p ≠ 1 - p ∧ blocks.length = example_cross_polarized_state.baselines.length ∧
        ∀ i, i < example_cross_polarized_state.baselines.length →
          ∃ stations hbaseline data,
            example_cross_polarized_state.baselines[i]? = some stations ∧
            blocks[i]? = some (hbaseline, data) ∧
            hbaseline.polarisation1 = (if stations.1 < 2 then p else 1 - p) ∧
            hbaseline.polarisation2 = (if stations.2 < 2 then p else 1 - p) := by
  refine ⟨rfl, by decide, rfl, by decide, _, rfl, by decide!, ?_⟩
  have hrun : ∃ s', integration_write example_cross_polarized_state = some s' := ⟨_, rfl⟩
  obtain ⟨s', hs'⟩ := hrun
  obtain ⟨_, _, _, _, p, blocks, _, _, _, h4, h5, h6⟩ :=
    (integration_write_polarisations example_cross_polarized_state).2 s' hs'
  refine ⟨p, blocks, h4, h5, ?_⟩
  intro i hi
  obtain ⟨stations, hbaseline, data, b1, b2, b3, _⟩ := h6 i hi
  exact ⟨stations, hbaseline, data, b1, b2, (b3 rfl).1, (b3 rfl).2.1⟩

end Correlation_core
namespace Correlation_core

variable {R : Type}

/-- In every mode that `create_baselines` accepts for `n ≥ 1` station streams,
both indices of every baseline are below `n`. -/
theorem create_baselines_vector_lt (n : Nat) (parameters : Correlation_parameters)
    (hn : 1 ≤ n)
    (hmode : (parameters.cross_polarize = false ∧
        (parameters.reference_station < 0 ∨
          ∃ r : Nat, parameters.reference_station = (r : Int) ∧ r < n)) ∨
      (parameters.cross_polarize = true ∧ n % 2 = 0 ∧
        (parameters.reference_station < 0 ∨
          ∃ r : Nat, parameters.reference_station = (r : Int) ∧ r < n / 2))) :
    ∃ bl, create_baselines_vector n parameters = some bl ∧ ∀ p ∈ bl, p.1 < n ∧ p.2 < n := by
  have hauto : ∀ p ∈ (List.range n).map (fun i => (i, i)), p.1 < n ∧ p.2 < n := by
    intro p hp
    obtain ⟨i, hi, rfl⟩ := List.mem_map.mp hp
    exact ⟨List.mem_range.mp hi, List.mem_range.mp hi⟩
  rcases hmode with ⟨hx, hr | ⟨r, hr, hrn⟩⟩ | ⟨hx, heven, hr | ⟨r, hr, hrn⟩⟩
  · refine ⟨_, create_baselines_vector_plain n parameters hn hx hr, ?_⟩
    intro p hp
    rcases List.mem_append.mp hp with h | h
    · exact hauto p h
    · obtain ⟨a, b⟩ := p
      obtain ⟨h1, h2⟩ := (mem_pairs_loop n a b).mp h
      exact ⟨by show a < n; omega, h2⟩
  · refine ⟨_, create_baselines_vector_ref n r parameters hx hr, ?_⟩
    intro p hp
    rcases List.mem_append.mp hp with h | h
    · exact hauto p h
    · obtain ⟨i, hi, rfl⟩ := List.mem_map.mp h
      exact ⟨List.mem_range.mp (List.mem_filter.mp hi).1, hrn⟩
  · refine ⟨_, create_baselines_vector_cross n parameters (by omega) heven hx hr, ?_⟩
    intro p hp
    rcases List.mem_append.mp hp with h | h
    · exact hauto p h
    · obtain ⟨q, hq, hpq⟩ := List.mem_flatMap.mp h
      obtain ⟨a, a'⟩ := q
      obtain ⟨h1, h2⟩ := (mem_pairs_loop _ a a').mp hq
      simp only [List.mem_cons, List.mem_singleton, List.not_mem_nil, or_false] at hpq
      rcases hpq with rfl | rfl | rfl | rfl <;> constructor <;> dsimp only <;> omega
  · refine ⟨_, create_baselines_vector_cross_ref n r parameters heven hx hr, ?_⟩
    intro p hp
    rcases List.mem_append.mp hp with h | h
    · exact hauto p h
    · rcases List.mem_append.mp h with h | h
      · obtain ⟨sn, hsn, hpq⟩ := List.mem_flatMap.mp h
        have hlt : sn < r := by
          have := List.mem_range'_1.mp hsn
          omega
        simp only [List.mem_cons, List.mem_singleton, List.not_mem_nil, or_false] at hpq
        rcases hpq with rfl | rfl | rfl | rfl <;> constructor <;> dsimp only <;> omega
      · obtain ⟨sn, hsn, hpq⟩ := List.mem_flatMap.mp h
        have hlt : r < sn ∧ sn < n / 2 := by
          have := List.mem_range'_1.mp hsn
          omega
        simp only [List.mem_cons, List.mem_singleton, List.not_mem_nil, or_false] at hpq
        rcases hpq with rfl | rfl | rfl | rfl <;> constructor <;> dsimp only <;> omega

/-- C27: for `S ≥ 1` station streams and every mode that `create_baselines`
accepts (no reference station, or a reference station `r < S`; in
cross-polarise mode `S` even and `r < S / 2` when a reference station is set),
`create_baselines` returns, and both station indices of every baseline of its
list are below `S`. So the lookups `input_elements[stations.first]` and
`input_elements[stations.second]` of `integration_step`, made after
`input_elements` has been resized to the number of streams in use, are in
range, and the conditions `stations.first < n_stations` and
`stations.second < n_stations` asserted by `integration_write` hold. -/
theorem create_baselines_in_range [LinearOrderedField R] (s : Correlation_core R)
    (parameters : Correlation_parameters) (hS : 1 ≤ n_stations s)
    (hmode : (parameters.cross_polarize = false ∧
        (parameters.reference_station < 0 ∨
          ∃ r : Nat, parameters.reference_station = (r : Int) ∧ r < n_stations s)) ∨
      (parameters.cross_polarize = true ∧ n_stations s % 2 = 0 ∧
        (parameters.reference_station < 0 ∨
          ∃ r : Nat, parameters.reference_station = (r : Int) ∧ r < n_stations s / 2))) :
    ∃ s', create_baselines s parameters = some s' ∧
      ∀ p ∈ s'.baselines,
        (p.1 < n_stations s ∧ p.2 < n_stations s) ∧
        (p.1 < s'.correlation_parameters.station_streams.length ∧
          p.2 < s'.correlation_parameters.station_streams.length) ∧
        ((resize s'.input_elements (number_input_streams_in_use s')
            Input_element.invalid)[p.1]?).isSome = true ∧
        ((resize s'.input_elements (number_input_streams_in_use s')
            Input_element.invalid)[p.2]?).isSome = true := by
  obtain ⟨bl, h1, h2⟩ := create_baselines_vector_lt (n_stations s) parameters hS hmode
  obtain ⟨s', e1, e2, e3⟩ := create_baselines_eq s parameters bl h1
  refine ⟨s', e1, ?_⟩
  intro p hp
  rw [e2] at hp
  obtain ⟨p1, p2⟩ := h2 p hp
  have hn : number_input_streams_in_use s' = n_stations s := by
    unfold number_input_streams_in_use n_stations
    rw [e3]
  have hl : s'.correlation_parameters.station_streams.length = n_stations s := by
    unfold n_stations
    rw [e3]
  refine ⟨⟨p1, p2⟩, ⟨by rw [hl]; exact p1, by rw [hl]; exact p2⟩, ?_, ?_⟩
  · obtain ⟨x, hx⟩ := getElem?_of_lt (resize s'.input_elements (number_input_streams_in_use s')
      Input_element.invalid) p.1 (by rw [length_resize, hn]; exact p1)
    rw [hx]
    rfl
  · obtain ⟨x, hx⟩ := getElem?_of_lt (resize s'.input_elements (number_input_streams_in_use s')
      Input_element.invalid) p.2 (by rw [length_resize, hn]; exact p2)
    rw [hx]
    rfl

theorem create_baselines_in_range_witness :
    1 ≤ n_stations (example_core 4 1 true) ∧
    ∃ s', create_baselines (example_core 4 1 true) (example_parameters 4 1 true) = some s' ∧
      s'.baselines = [(0, 0), (1, 1), (2, 2), (3, 3), (0, 1), (2, 1), (0, 3), (2, 3)] ∧
      ∀ p ∈ s'.baselines,
        (p.1 < n_stations (example_core 4 1 true) ∧ p.2 < n_stations (example_core 4 1 true)) ∧
        (p.1 < s'.correlation_parameters.station_streams.length ∧
          p.2 < s'.correlation_parameters.station_streams.length) ∧
        ((resize s'.input_elements (number_input_streams_in_use s')
            Input_element.invalid)[p.1]?).isSome = true ∧
        ((resize s'.input_elements (number_input_streams_in_use s')
            Input_element.invalid)[p.2]?).isSome = true := by
  refine ⟨by decide, ?_⟩
  obtain ⟨s', h1, h2⟩ := create_baselines_in_range (example_core 4 1 true)
    (example_parameters 4 1 true) (by decide)
    (Or.inr ⟨rfl, by decide, Or.inr ⟨1, rfl, by decide⟩⟩)
  refine ⟨s', h1, ?_, h2⟩
  have h : ∃ t : Correlation_core ℚ,
      create_baselines (example_core 4 1 true) (example_parameters 4 1 true) = some t ∧
      t.baselines = [(0, 0), (1, 1), (2, 2), (3, 3), (0, 1), (2, 1), (0, 3), (2, 3)] :=
    ⟨_, rfl, by decide⟩
  obtain ⟨t, t1, t2⟩ := h
  rw [h1] at t1
  simp only [Option.some.injEq] at t1
  rw [t1]
  exact t2

end Correlation_core
namespace Correlation_core

variable {R : Type}

/-- The inner loop of the averaging (lines 406-407) adds the bins after the
first one. -/
theorem integration_write_sum_loop [LinearOrderedField R] (buffer : Complex_buffer R)
    (base m : Nat) (first sum : Cplx R) (hfirst : buffer[base]? = some first) (hm : 1 ≤ m)
    (h : for_loop_opt 1 m (fun k sum =>
        match buffer[base + k]? with
        | some c => some (sum.add c)
        | none => none) first = some sum) :
    (∀ k, k < m → ∃ c, buffer[base + k]? = some c) ∧ sum = bin_sum buffer base m := by
  have key := for_loop_opt_inv
    (fun k (t : Cplx R) => (∀ i, i < k → ∃ c, buffer[base + i]? = some c) ∧
      t = bin_sum buffer base k)
    m _ ?_ _ 1 first sum rfl hm ?_ h
  · exact key
  · intro k t t' hk ⟨h1, h2⟩ hb
    split at hb
    swap
    · cases hb
    rename_i c hc
    simp only [Option.some.injEq] at hb
    subst hb
    refine ⟨?_, ?_⟩
    · intro i hi
      by_cases hik : i = k
      · subst hik
        exact ⟨c, hc⟩
      · exact h1 i (by omega)
    · rw [h2]
      unfold bin_sum Cplx.add
      have hg : buffer.getD (base + k) Cplx.zero = c := by
        rw [List.getD_eq_getElem?_getD, hc]
        rfl
      simp only [List.range_succ, List.map_append, List.map_cons, List.map_nil,
        List.sum_append, List.sum_cons, List.sum_nil, add_zero, hg]
  · refine ⟨?_, ?_⟩
    · intro i hi
      have hi0 : i = 0 := by omega
      subst hi0
      exact ⟨first, hfirst⟩
    · have hg : buffer.getD base Cplx.zero = first := by
        rw [List.getD_eq_getElem?_getD, hfirst]
        rfl
      unfold bin_sum
      have hr : List.range 1 = [0] := rfl
      simp only [hr, List.map_cons, List.map_nil, List.sum_cons, List.sum_nil, add_zero]
      rw [hg]

/-- The values that the averaging of `integration_write` leaves in
`integration_buffer_float`. -/
theorem integration_write_average_values [LinearOrderedField R] (s : Correlation_core R)
    (n : Nat) (buffer : Complex_buffer R) (float_buffer averaged : List (Cplx R))
    (h : integration_write_average s n buffer float_buffer = some averaged) :
    n ≠ 0 ∧ averaged.length = float_buffer.length ∧
    number_channels s + 1 ≤ float_buffer.length ∧
    (∀ j, j < number_channels s →
      (∀ k, k < n → ∃ c, buffer[j * n + k]? = some c) ∧
      averaged[j]? = some ((bin_sum buffer (j * n) n).div_real (n : R))) ∧
    ∃ c, buffer[number_channels s * n]? = some c ∧
      averaged[number_channels s]? = some (c.div_real (n : R)) := by
  have hlen := integration_write_average_length s n buffer float_buffer averaged h
  unfold integration_write_average at h
  have key := for_loop_opt_inv
    (fun j (t : List (Cplx R)) => t.length = float_buffer.length ∧
      (0 < j → n ≠ 0 ∧ j ≤ float_buffer.length) ∧
      ∀ i, i < j →
        (∀ k, k < (if i < number_channels s then n else 1) →
          ∃ c, buffer[i * n + k]? = some c) ∧
        t[i]? = some ((bin_sum buffer (i * n)
          (if i < number_channels s then n else 1)).div_real (n : R)))
    (number_channels s + 1) _ ?_ _ 0 float_buffer averaged rfl (Nat.zero_le _)
    ⟨rfl, fun h0 => absurd h0 (lt_irrefl 0), fun i hi => by omega⟩ h
  · obtain ⟨k1, k2, k3⟩ := key
    obtain ⟨hn, hfl⟩ := k2 (Nat.succ_pos _)
    refine ⟨hn, hlen, hfl, ?_, ?_⟩
    · intro j hj
      obtain ⟨a1, a2⟩ := k3 j (by omega)
      rw [if_pos hj] at a1 a2
      exact ⟨a1, a2⟩
    · obtain ⟨a1, a2⟩ := k3 (number_channels s) (by omega)
      rw [if_neg (lt_irrefl _)] at a1 a2
      obtain ⟨c, hc⟩ := a1 0 (by omega)
      refine ⟨c, hc, ?_⟩
      rw [a2]
      have hg : buffer.getD (number_channels s * n) Cplx.zero = c := by
        rw [List.getD_eq_getElem?_getD]
        exact congrArg (fun o => Option.getD o Cplx.zero) hc
      unfold bin_sum
      have hr : List.range 1 = [0] := rfl
      simp only [hr, List.map_cons, List.map_nil, List.sum_cons, List.sum_nil, add_zero]
      rw [hg]
  · intro j t t' hj ⟨h1, h2, h3⟩ hb
    split at hb
    swap
    · cases hb
    rename_i first hfirst
    split at hb
    swap
    · cases hb
    rename_i hjt
    split at hb
    swap
    · cases hb
    rename_i sum hsum
    split at hb
    · cases hb
    rename_i hn
    simp only [Option.some.injEq] at hb
    subst hb
    have hm : 1 ≤ (if j < number_channels s then n else 1) := by
      split
      · omega
      · exact le_refl 1
    obtain ⟨s1, s2⟩ := integration_write_sum_loop buffer (j * n) _ first sum hfirst hm hsum
    refine ⟨by rw [List.length_set]; exact h1, fun _ => ⟨hn, by omega⟩, ?_⟩
    intro i hi
    by_cases hij : i = j
    · subst hij
      refine ⟨s1, ?_⟩
      rw [List.getElem?_set_self hjt, s2]
    · obtain ⟨a1, a2⟩ := h3 i (by omega)
      refine ⟨a1, ?_⟩
      rw [List.getElem?_set_ne (Ne.symm hij)]
      exact a2

end Correlation_core
namespace Correlation_core

variable {R : Type}

/-- C28: with `n = fft_size / number_channels` (the integer quotient) and
`1 ≤ number_channels ≤ fft_size`, `integration_write` succeeds in every state
that is ready for it, where an accumulator of `fft_size + 1` bins is enough
for every baseline: it reads accumulator bins of index at most `fft_size`
only. It emits `number_channels + 1` values per baseline: for
`j < number_channels` the `j`-th value is the sum of the accumulator bins
`j * n, ..., j * n + n - 1` divided by `n`, their arithmetic mean, and the
last value is the single bin `number_channels * n` divided by `n`. -/
theorem integration_write_averages [LinearOrderedField R] (s : Correlation_core R)
    (h1 : 1 ≤ number_channels s) (h2 : number_channels s ≤ fft_size s) :
    (write_ready s → ∃ s', integration_write s = some s') ∧
    ∀ s', integration_write s = some s' →
      ∃ old timeslice uvw stats,
      ∃ blocks : List (Output_header_baseline × List (Cplx R)),
        s.writer = some old ∧
        s'.writer = some (old ++
          [Output_chunk.timeslice timeslice, Output_chunk.uvw uvw, Output_chunk.stats stats] ++
          blocks.flatMap (fun b =>
            [Output_chunk.baseline_header b.1, Output_chunk.baseline_data b.2])) ∧
        blocks.length = s.baselines.length ∧
        1 ≤ fft_size s / number_channels s ∧
        number_channels s * (fft_size s / number_channels s) ≤ fft_size s ∧
        ∀ i, i < s.baselines.length → ∃ buffer hbaseline data,
          s.accumulation_buffers[i]? = some buffer ∧ blocks[i]? = some (hbaseline, data) ∧
          data.length = number_channels s + 1 ∧
          (∀ j, j < number_channels s →
            (∀ k, k < fft_size s / number_channels s →
              j * (fft_size s / number_channels s) + k ≤ fft_size s ∧
              ∃ c, buffer[j * (fft_size s / number_channels s) + k]? = some c) ∧
            data[j]? = some ((bin_sum buffer (j * (fft_size s / number_channels s))
              (fft_size s / number_channels s)).div_real
                ((fft_size s / number_channels s : Nat) : R))) ∧
          ∃ c, buffer[number_channels s * (fft_size s / number_channels s)]? = some c ∧
            data[number_channels s]? =
              some (c.div_real ((fft_size s / number_channels s : Nat) : R)) := by
  refine ⟨integration_write_total s, ?_⟩
  intro s' h
  obtain ⟨old, p, table, uvw, stats, fb, blocks, w1, _, _, _, _, _, _, w8, w9, w10⟩ :=
    integration_write_spec s s' h
  have hn : 1 ≤ fft_size s / number_channels s := (Nat.one_le_div_iff (by omega)).mpr h2
  have hfit : number_channels s * (fft_size s / number_channels s) ≤ fft_size s := by
    rw [Nat.mul_comm]
    exact Nat.div_mul_le_self _ _
  refine ⟨old, _, uvw, stats, blocks, w1, by rw [w8], w9, hn, hfit, ?_⟩
  intro i hi
  obtain ⟨stations, buffer, previous, averaged, hbaseline, b1, b2, b3, b4, b5, b6⟩ := w10 i hi
  obtain ⟨_, v2, v3, v4, c, v5, v6⟩ :=
    integration_write_average_values s _ buffer previous averaged b4
  refine ⟨buffer, hbaseline, _, b2, b6, ?_, ?_, c, v5, ?_⟩
  · rw [List.length_take, v2, b3]
    exact Nat.min_self _
  · intro j hj
    obtain ⟨a1, a2⟩ := v4 j hj
    refine ⟨fun k hk => ⟨?_, a1 k hk⟩, ?_⟩
    · have hmul : (j + 1) * (fft_size s / number_channels s) ≤
          number_channels s * (fft_size s / number_channels s) :=
        Nat.mul_le_mul_right _ hj
      rw [Nat.succ_mul] at hmul
      omega
    · rw [List.getElem?_take_of_lt (by omega)]
      exact a2
  · rw [List.getElem?_take_of_lt (by omega)]
    exact v6

theorem integration_write_averages_witness :
    example_averaging = some example_averaging_state ∧
    1 ≤ number_channels example_averaging_state ∧
    number_channels example_averaging_state ≤ fft_size example_averaging_state ∧
    fft_size example_averaging_state / number_channels example_averaging_state = 2 ∧
    write_ready example_averaging_state ∧
    ∃ s' : Correlation_core ℚ,
      integration_write example_averaging_state = some s' ∧
      s'.writer.map baseline_data =
        some (List.replicate 3 [⟨3 / 2, 3 / 2⟩, ⟨7 / 2, 7 / 2⟩, ⟨5 / 2, 5 / 2⟩]) ∧
      ∃ blocks : List (Output_header_baseline × List (Cplx ℚ)),
        blocks.length = example_averaging_state.baselines.length ∧
        ∀ i, i < example_averaging_state.baselines.length → ∃ buffer hbaseline data,
          example_averaging_state.accumulation_buffers[i]? = some buffer ∧
          blocks[i]? = some (hbaseline, data) ∧
          data.length = number_channels example_averaging_state + 1 ∧
          ∀ j, j < number_channels example_averaging_state →
            data[j]? = some ((bin_sum buffer
              (j * (fft_size example_averaging_state /
                number_channels example_averaging_state))
              (fft_size example_averaging_state /
                number_channels example_averaging_state)).div_real
                ((fft_size example_averaging_state /
                  number_channels example_averaging_state : Nat) : ℚ)) := by
  refine ⟨rfl, by decide, by decide, by decide, by decide, _, rfl, by decide!, ?_⟩
  have hrun : ∃ s', integration_write example_averaging_state = some s' := ⟨_, rfl⟩
  obtain ⟨s', hs'⟩ := hrun
  obtain ⟨_, _, _, _, blocks, _, _, h3, _, _, h6⟩ :=
    (integration_write_averages example_averaging_state (by decide) (by decide)).2 s' hs'
  refine ⟨blocks, h3, ?_⟩
  intro i hi
  obtain ⟨buffer, hbaseline, data, b1, b2, b3, b4, _⟩ := h6 i hi
  exact ⟨buffer, hbaseline, data, b1, b2, b3, fun j hj => (b4 j hj).2⟩

end Correlation_core
namespace Control_parameters

/-- C25: whenever the block of `Control_parameters::initialise` on the FFT
sizes fills in a default, the default respects the ordering constraints. If
`fft_size_correlation` was omitted, its default is at least
`fft_size_delaycor` (when that was given) and at least `number_channels`; if
`fft_size_delaycor` was omitted, its default is `min(256,
fft_size_correlation)`, with the given or the defaulted
`fft_size_correlation`, and so at most `fft_size_correlation`. A size that was
given is kept, and both sizes are set afterwards. -/
theorem initialise_fft_sizes_ordered (ctrl : Ctrl) :
    (ctrl.fft_size_correlation = none →
      ∃ c, (initialise_fft_sizes ctrl).fft_size_correlation = some c ∧
        (∀ d, ctrl.fft_size_delaycor = some d → d ≤ c) ∧
        asInt ctrl.number_channels ≤ c ∧
        (if ctrl.multi_phase_center then 4096 else 256) ≤ c) ∧
    (ctrl.fft_size_delaycor = none →
      ∃ c d, (initialise_fft_sizes ctrl).fft_size_correlation = some c ∧
        (initialise_fft_sizes ctrl).fft_size_delaycor = some d ∧
        d = min 256 c ∧ d ≤ c) ∧
    (∀ c, ctrl.fft_size_correlation = some c →
      (initialise_fft_sizes ctrl).fft_size_correlation = some c) ∧
    (∀ d, ctrl.fft_size_delaycor = some d →
      (initialise_fft_sizes ctrl).fft_size_delaycor = some d) := by
  cases hc : ctrl.fft_size_correlation <;> cases hd : ctrl.fft_size_delaycor
  · have e1 : (initialise_fft_sizes ctrl).fft_size_correlation =
        some (max (if ctrl.multi_phase_center then 4096 else 256)
          (asInt ctrl.number_channels)) := by
      unfold initialise_fft_sizes
      simp only [hc, hd]
    have e2 : (initialise_fft_sizes ctrl).fft_size_delaycor =
        some (min 256 (max (if ctrl.multi_phase_center then 4096 else 256)
          (asInt ctrl.number_channels))) := by
      unfold initialise_fft_sizes
      simp only [hc, hd]
      rfl
    refine ⟨?_, ?_, ?_, ?_⟩
    · intro _
      refine ⟨_, e1, ?_, le_max_right _ _, le_max_left _ _⟩
      intro d hd'
      cases hd'
    · intro _
      exact ⟨_, _, e1, e2, rfl, min_le_right _ _⟩
    · intro c hc'
      cases hc'
    · intro d hd'
      cases hd'
  · rename_i d
    have e1 : (initialise_fft_sizes ctrl).fft_size_correlation =
        some (max (max (if ctrl.multi_phase_center then 4096 else 256) d)
          (asInt ctrl.number_channels)) := by
      unfold initialise_fft_sizes
      simp only [hc, hd]
    have e2 : (initialise_fft_sizes ctrl).fft_size_delaycor = some d := by
      unfold initialise_fft_sizes
      simp only [hc, hd]
    refine ⟨?_, ?_, ?_, ?_⟩
    · intro _
      refine ⟨_, e1, ?_, le_max_right _ _, ?_⟩
      · intro d' hd'
        simp only [Option.some.injEq] at hd'
        subst hd'
        exact le_trans (le_max_right _ _) (le_max_left _ _)
      · exact le_trans (le_max_left _ _) (le_max_left _ _)
    · intro hd'
      cases hd'
    · intro c hc'
      cases hc'
    · intro d' hd'
      rw [e2]
      exact hd'
  · rename_i c
    have e1 : (initialise_fft_sizes ctrl).fft_size_correlation = some c := by
      unfold initialise_fft_sizes
      simp only [hc, hd]
    have e2 : (initialise_fft_sizes ctrl).fft_size_delaycor = some (min 256 c) := by
      unfold initialise_fft_sizes
      simp only [hc, hd]
      rfl
    refine ⟨?_, ?_, ?_, ?_⟩
    · intro hc'
      cases hc'
    · intro _
      exact ⟨c, _, e1, e2, rfl, min_le_right _ _⟩
    · intro c' hc'
      rw [e1]
      exact hc'
    · intro d hd'
      cases hd'
  · rename_i c d
    have e1 : (initialise_fft_sizes ctrl).fft_size_correlation = some c := by
      unfold initialise_fft_sizes
      simp only [hc, hd]
    have e2 : (initialise_fft_sizes ctrl).fft_size_delaycor = some d := by
      unfold initialise_fft_sizes
      simp only [hc, hd]
    refine ⟨?_, ?_, ?_, ?_⟩
    · intro hc'
      cases hc'
    · intro hd'
      cases hd'
    · intro c' hc'
      rw [e1]
      exact hc'
    · intro d' hd'
      rw [e2]
      exact hd'

theorem initialise_fft_sizes_ordered_witness :
    ({ example_ctrl none with
        fft_size_correlation := none, number_channels := some 1024 }).fft_size_correlation =
      none ∧
    (initialise_fft_sizes { example_ctrl none with
        fft_size_correlation := none, number_channels := some 1024 }).fft_size_correlation =
      some 1024 ∧
    (initialise_fft_sizes { example_ctrl none with
        fft_size_delaycor := none }).fft_size_delaycor = some 256 ∧
    ∃ c, (initialise_fft_sizes { example_ctrl none with
          fft_size_correlation := none, number_channels := some 1024 }).fft_size_correlation =
        some c ∧
      (∀ d, ({ example_ctrl none with
          fft_size_correlation := none, number_channels := some 1024 }).fft_size_delaycor =
        some d → d ≤ c) ∧
      asInt ({ example_ctrl none with
          fft_size_correlation := none, number_channels := some 1024 }).number_channels ≤ c ∧
      (if ({ example_ctrl none with
          fft_size_correlation := none, number_channels := some 1024 }).multi_phase_center
        then 4096 else 256) ≤ c :=
  ⟨rfl, by decide, by decide,
    (initialise_fft_sizes_ordered { example_ctrl none with
      fft_size_correlation := none, number_channels := some 1024 }).1 rfl⟩

end Control_parameters
theorem c_div_nonneg (a b : Int) (ha : 0 ≤ a) (hb : 0 ≤ b) : c_div a b = a / b :=
  Int.tdiv_eq_ediv ha hb

theorem c_div_nonpos (a b : Int) (ha : a ≤ 0) (hb : 0 ≤ b) : c_div a b = -((-a) / b) := by
  unfold c_div
  have h : a = -(-a) := (neg_neg a).symm
  rw [h, Int.neg_tdiv, Int.tdiv_eq_ediv (by omega) hb, neg_neg]

theorem c_trunc_half (k : Int) (hk : 2400001 ≤ k) :
    c_trunc ((k : ℚ) - 2400000.5) = k - 2400001 := by
  have hq : (2400001 : ℚ) ≤ (k : ℚ) := by exact_mod_cast hk
  have h5 : (2400000.5 : ℚ) = 4800001 / 2 := by norm_num
  unfold c_trunc
  rw [h5, if_pos (by linarith), Int.floor_eq_iff]
  constructor
  · push_cast
    linarith
  · push_cast
    linarith

/-- The two formulas for the day number agree from 1859 on. -/
theorem mjd_eq_JD (y m d : Int) (hy : 1859 ≤ y) (hy' : y ≤ 9999) (hm : 1 ≤ m) (hm' : m ≤ 12)
    (hd : 1 ≤ d) (hd' : d ≤ 31) : mjd d m y = JD y m d - 2400001 := by
  have e1 : c_div (14 - m) 12 = (14 - m) / 12 := c_div_nonneg _ _ (by omega) (by omega)
  have e2 : c_div (m - 14) 12 = -((14 - m) / 12) := by
    rw [c_div_nonpos _ _ (by omega) (by omega)]
    have : -(m - 14) = 14 - m := by ring
    rw [this]
  unfold mjd JD
  dsimp only
  rw [e1, e2]
  generalize hA : (14 - m) / 12 = A
  have hA' : (m ≤ 2 ∧ A = 1) ∨ (3 ≤ m ∧ A = 0) := by omega
  rw [c_div_nonneg (153 * (m + 12 * A - 3) + 2) 5 (by omega) (by omega),
    c_div_nonneg (y + 4800 - A) 4 (by omega) (by omega),
    c_div_nonneg (y + 4800 - A) 100 (by omega) (by omega),
    c_div_nonneg (y + 4800 - A) 400 (by omega) (by omega),
    c_div_nonneg (1461 * (y + 4800 + -A)) 4 (by omega) (by omega),
    c_div_nonneg (367 * (m - 2 - 12 * -A)) 12 (by omega) (by omega),
    c_div_nonneg (y + 4900 + -A) 100 (by omega) (by omega),
    c_div_nonneg (3 * ((y + 4900 + -A) / 100)) 4 (by omega) (by omega)]
  rw [c_trunc_half _ (by omega)]
  have h400 : (y + 4800 - A) / 400 = (y + 4800 - A) / 100 / 4 := by
    omega
  rw [h400]
  have hcentury : (y + 4800 - A) / 100 % 4 = 0 ∨ (y + 4800 - A) / 100 % 4 = 1 ∨
      (y + 4800 - A) / 100 % 4 = 2 ∨ (y + 4800 - A) / 100 % 4 = 3 := by omega
  rcases hA' with ⟨h, rfl⟩ | ⟨h, rfl⟩ <;> interval_cases m <;>
    rcases hcentury with hc | hc | hc | hc <;> omega

/-- C29: for every date with `1859 ≤ y ≤ 9999`, `1 ≤ m ≤ 12` and
`1 ≤ d ≤ 31` the two day-number formulas agree,
`mjd(d, m, y) = JD(y, m, d) - 2400001`, with the C division that truncates
towards zero and the truncation of `jdn - 2400000.5` to `int`; the largest
product of the computation stays within the range of `int`. In particular
`mjd(1, 1, 2000) = 51544`, which is what `jday_epoch` returns for the
reference epoch 0. -/
theorem mjd_agrees_with_JD (y m d : Int) (hy : 1859 ≤ y) (hy' : y ≤ 9999) (hm : 1 ≤ m)
    (hm' : m ≤ 12) (hd : 1 ≤ d) (hd' : d ≤ 31) :
    mjd d m y = JD y m d - 2400001 ∧
    (0 ≤ 1461 * (y + 4800 + c_div (m - 14) 12) ∧
      1461 * (y + 4800 + c_div (m - 14) 12) < 2 ^ 31) ∧
    mjd 1 1 2000 = 51544 ∧ VDIF_reader.jday_epoch 0 = 51544 := by
  have h2000 : mjd 1 1 2000 = 51544 := by
    rw [mjd_eq_JD 2000 1 1 (by decide) (by decide) (by decide) (by decide) (by decide)
      (by decide)]
    decide
  refine ⟨mjd_eq_JD y m d hy hy' hm hm' hd hd', ?_, h2000, ?_⟩
  · rw [c_div_nonpos _ _ (by omega) (by omega)]
    omega
  · have hy0 : (2000 : Int) + c_div ((0 : Nat) : Int) 2 = 2000 := by decide
    have hm0 : (1 : Int) + 6 * c_mod ((0 : Nat) : Int) 2 = 1 := by decide
    unfold VDIF_reader.jday_epoch
    dsimp only
    rw [hy0, hm0]
    exact h2000

theorem mjd_agrees_with_JD_witness :
    JD 2024 2 29 = 2460370 ∧ mjd 29 2 2024 = JD 2024 2 29 - 2400001 :=
  ⟨by decide,
    (mjd_agrees_with_JD 2024 2 29 (by decide) (by decide) (by decide) (by decide) (by decide)
      (by decide)).1⟩

theorem leap_year_iff (year : Int) :
    leap_year year = true ↔ 4 ∣ year ∧ (¬ 100 ∣ year ∨ 400 ∣ year) := by
  have hz : ∀ k : Int, c_mod year k = 0 ↔ k ∣ year := fun k =>
    ⟨fun h => Int.dvd_of_tmod_eq_zero h, fun h => Int.tmod_eq_zero_of_dvd h⟩
  unfold leap_year
  simp only [Bool.and_eq_true, Bool.or_eq_true, beq_iff_eq, bne_iff_ne, ne_eq, hz]

/-- The loop of `yd2md` on every day of a year, by evaluation. -/
theorem yd2md_loop_ok : ∀ leap : Bool, ∀ doy : Fin 367, 1 ≤ doy.val →
    (doy.val : Int) ≤ (if leap then 366 else 365) →
    yd2md_result_ok leap doy.val (yd2md_loop leap 12 doy.val 1 31) = true := by
  decide!

/-- More fuel than the twelve tests does not change the result of the loop of
`yd2md`: from month `c` on, `13 - c` tests are enough. -/
theorem yd2md_loop_fuel (leap : Bool) :
    ∀ (fuel fuel' : Nat) (rest : Int) (c : Nat) (len : Int), 1 ≤ c → c ≤ 12 →
      13 ≤ c + fuel → 13 ≤ c + fuel' →
      yd2md_loop leap fuel rest c len = yd2md_loop leap fuel' rest c len := by
  intro fuel
  induction fuel with
  | zero => intro fuel' rest c len h1 h2 h3; omega
  | succ fuel ih =>
    intro fuel' rest c len h1 h2 h3 h4
    cases fuel' with
    | zero => omega
    | succ fuel' =>
      unfold yd2md_loop
      split
      · dsimp only
        cases hm : monthdays[c + 1 - 1]? with
        | none => rfl
        | some days =>
          have hc : c + 1 - 1 < monthdays.length := by
            by_contra hcon
            rw [List.getElem?_eq_none (by omega)] at hm
            cases hm
          have hlen : monthdays.length = 12 := rfl
          exact ih fuel' _ (c + 1) _ (by omega) (by omega) (by omega) (by omega)
      · rfl

/-- C30: for every year and every day `doy` of it, from 1 to 365, or to 366 in
a leap year (a year divisible by 4 and not by 100 unless by 400), `yd2md`
terminates (twelve tests of the loop condition are enough, and more fuel gives
the same result) and returns a month from 1 to 12 and a day `dom` of that
month, from 1 to the length of the month in that year, such that `doy` is
`dom` plus the lengths of all earlier months of the year. -/
theorem yd2md_correct (year doy : Int) (h1 : 1 ≤ doy)
    (h2 : doy ≤ (if leap_year year then 366 else 365)) :
    (leap_year year = true ↔ 4 ∣ year ∧ (¬ 100 ∣ year ∨ 400 ∣ year)) ∧
    (∀ fuel, 12 ≤ fuel → yd2md_loop (leap_year year) fuel doy 1 31 = yd2md year doy) ∧
    ∃ month dom, yd2md year doy = some (month, dom) ∧
      1 ≤ month ∧ month ≤ 12 ∧ 1 ≤ dom ∧ dom ≤ days_in_month (leap_year year) month ∧
      doy = dom + days_before_month (leap_year year) month := by
  refine ⟨leap_year_iff year, fun fuel hf => yd2md_loop_fuel _ fuel 12 doy 1 31
    (le_refl 1) (by omega) (by omega) (by omega), ?_⟩
  have hlt : doy.toNat < 367 := by
    split at h2 <;> omega
  have hcast : ((doy.toNat : Nat) : Int) = doy := Int.toNat_of_nonneg (by omega)
  have key := yd2md_loop_ok (leap_year year) ⟨doy.toNat, hlt⟩ (by show 1 ≤ doy.toNat; omega)
    (by show ((doy.toNat : Nat) : Int) ≤ _; rw [hcast]; exact h2)
  have hy : yd2md year doy = yd2md_loop (leap_year year) 12 doy 1 31 := rfl
  rw [hy]
  change yd2md_result_ok (leap_year year) ((doy.toNat : Nat) : Int)
    (yd2md_loop (leap_year year) 12 ((doy.toNat : Nat) : Int) 1 31) = true at key
  rw [hcast] at key
  unfold yd2md_result_ok at key
  split at key
  · rename_i month dom heq
    rw [heq]
    exact ⟨month, dom, rfl, of_decide_eq_true key⟩
  · cases key

theorem yd2md_correct_witness :
    leap_year 2024 = true ∧ yd2md 2024 366 = some (12, 31) ∧
    ∃ month dom, yd2md 2024 366 = some (month, dom) ∧
      1 ≤ month ∧ month ≤ 12 ∧ 1 ≤ dom ∧ dom ≤ days_in_month (leap_year 2024) month ∧
      366 = dom + days_before_month (leap_year 2024) month :=
  ⟨by decide, by decide, (yd2md_correct 2024 366 (by decide) (by decide)).2.2⟩

namespace Control_parameters

/-- The loop of `frequency_channel` returns the name of the first matching
line. -/
theorem frequency_channel_loop_eq (setup : Frequency_setup) (chans : List Chan_def) :
    frequency_channel_loop setup.setup_polarisation (setup_range setup).1
        (setup_range setup).2 setup.polarisation chans =
      match chans.find? (channel_matches setup) with
      | some chan => chan.name
      | none => [] := by
  induction chans with
  | nil => rfl
  | cons chan rest ih =>
    unfold frequency_channel_loop
    dsimp only
    rw [List.find?_cons]
    by_cases hm : channel_matches setup chan = true
    · rw [hm]
      dsimp only
      unfold channel_matches at hm
      obtain ⟨hp, hr | hr⟩ := of_decide_eq_true hm
      · rw [if_pos ⟨⟨ge_iff_le.mpr hr.1, hr.2⟩, hp.symm⟩]
      · by_cases h1 : ((setup_range setup).1 ≥ (chan_def_range chan).1 ∧
            (setup_range setup).2 ≤ (chan_def_range chan).2) ∧
            setup.setup_polarisation = setup.polarisation chan.name
        · rw [if_pos h1]
        · rw [if_neg h1, if_pos ⟨⟨ge_iff_le.mpr hr.1, hr.2⟩, hp.symm⟩]
    · have hm' : channel_matches setup chan = false := by
        cases h : channel_matches setup chan
        · rfl
        · exact absurd h hm
      rw [hm']
      dsimp only
      unfold channel_matches at hm'
      have hn := of_decide_eq_false hm'
      rw [if_neg (fun h => hn ⟨h.2.symm, Or.inl ⟨ge_iff_le.mp h.1.1, h.1.2⟩⟩),
        if_neg (fun h => hn ⟨h.2.symm, Or.inr ⟨ge_iff_le.mp h.1.1, h.1.2⟩⟩)]
      exact ih

/-- C26 (amended): `Control_parameters::frequency_channel`, called for a
channel number below `number_frequency_channels()`, returns the empty string
when the setup channel has no polarisation, and otherwise the name of the first
channel in the station's `chan_def` order that has the polarisation of the
setup channel and whose frequency range wholly contains the range
`[f_min, f_max]` of the setup channel or is wholly contained in it, and the
empty string when the station has no such channel. It returns the empty string
if and only if the setup channel has no polarisation, or the station has no
such channel, or the first such channel has the empty name; so, when no channel
of the station has the empty name, if and only if the setup channel has no
polarisation or the station has no such channel. -/
theorem frequency_channel_first_match (setup : Frequency_setup) (channel_nr : Nat)
    (hnr : channel_nr < setup.number_frequency_channels) :
    (∃ name, frequency_channel setup channel_nr = some name) ∧
    (setup.setup_polarisation = ' ' → frequency_channel setup channel_nr = some []) ∧
    (setup.setup_polarisation ≠ ' ' →
      (∀ before chan after, setup.chan_defs = before ++ chan :: after →
        channel_matches setup chan = true →
        (∀ c ∈ before, channel_matches setup c = false) →
        frequency_channel setup channel_nr = some chan.name) ∧
      ((∀ c ∈ setup.chan_defs, channel_matches setup c = false) →
        frequency_channel setup channel_nr = some [])) ∧
    (frequency_channel setup channel_nr = some [] ↔
      setup.setup_polarisation = ' ' ∨
        (∀ c ∈ setup.chan_defs, channel_matches setup c = false) ∨
        ∃ before chan after, setup.chan_defs = before ++ chan :: after ∧
          channel_matches setup chan = true ∧
          (∀ c ∈ before, channel_matches setup c = false) ∧ chan.name = []) ∧
    ((∀ c ∈ setup.chan_defs, c.name ≠ []) →
      (frequency_channel setup channel_nr = some [] ↔
        setup.setup_polarisation = ' ' ∨
          ∀ c ∈ setup.chan_defs, channel_matches setup c = false)) := by
  have hspace : setup.setup_polarisation = ' ' → frequency_channel setup channel_nr = some [] := by
    intro hp
    unfold frequency_channel
    rw [if_pos hnr]
    dsimp only
    rw [if_pos hp]
  have hloop : setup.setup_polarisation ≠ ' ' →
      frequency_channel setup channel_nr =
        some (match setup.chan_defs.find? (channel_matches setup) with
          | some chan => chan.name
          | none => []) := by
    intro hp
    unfold frequency_channel
    rw [if_pos hnr]
    dsimp only
    rw [if_neg hp, frequency_channel_loop_eq]
  have hfirst : ∀ before chan after, setup.chan_defs = before ++ chan :: after →
      channel_matches setup chan = true →
      (∀ c ∈ before, channel_matches setup c = false) →
      setup.chan_defs.find? (channel_matches setup) = some chan := by
    intro before chan after hsplit hm hb
    rw [hsplit, List.find?_append]
    have hnone : before.find? (channel_matches setup) = none := by
      rw [List.find?_eq_none]
      intro c hc
      rw [hb c hc]
      decide
    rw [hnone, List.find?_cons, hm]
    rfl
  have hnomatch : (∀ c ∈ setup.chan_defs, channel_matches setup c = false) →
      setup.chan_defs.find? (channel_matches setup) = none := by
    intro hall
    rw [List.find?_eq_none]
    intro c hc
    rw [hall c hc]
    decide
  have hsplit : ∀ chan, setup.chan_defs.find? (channel_matches setup) = some chan →
      ∃ before after, setup.chan_defs = before ++ chan :: after ∧
        channel_matches setup chan = true ∧
        ∀ c ∈ before, channel_matches setup c = false := by
    intro chan hf
    obtain ⟨hm, before, after, hs, hb⟩ := List.find?_eq_some.mp hf
    refine ⟨before, after, hs, hm, ?_⟩
    intro c hc
    have := hb c hc
    cases h : channel_matches setup c
    · rfl
    · rw [h] at this
      cases this
  have hiff : frequency_channel setup channel_nr = some [] ↔
      setup.setup_polarisation = ' ' ∨
        (∀ c ∈ setup.chan_defs, channel_matches setup c = false) ∨
        ∃ before chan after, setup.chan_defs = before ++ chan :: after ∧
          channel_matches setup chan = true ∧
          (∀ c ∈ before, channel_matches setup c = false) ∧ chan.name = [] := by
    constructor
    · intro hres
      by_cases hp : setup.setup_polarisation = ' '
      · exact Or.inl hp
      · right
        rw [hloop hp] at hres
        cases hf : setup.chan_defs.find? (channel_matches setup) with
        | none =>
          left
          intro c hc
          have := List.find?_eq_none.mp hf c hc
          cases h : channel_matches setup c
          · rfl
          · exact absurd h this
        | some chan =>
          right
          rw [hf] at hres
          simp only [Option.some.injEq] at hres
          obtain ⟨before, after, hs, hm, hb⟩ := hsplit chan hf
          exact ⟨before, chan, after, hs, hm, hb, hres⟩
    · rintro (hp | hall | ⟨before, chan, after, hs, hm, hb, hname⟩)
      · exact hspace hp
      · by_cases hp : setup.setup_polarisation = ' '
        · exact hspace hp
        · rw [hloop hp, hnomatch hall]
      · by_cases hp : setup.setup_polarisation = ' '
        · exact hspace hp
        · rw [hloop hp, hfirst before chan after hs hm hb]
          dsimp only
          rw [hname]
  refine ⟨?_, hspace, ?_, hiff, ?_⟩
  · by_cases hp : setup.setup_polarisation = ' '
    · exact ⟨_, hspace hp⟩
    · exact ⟨_, hloop hp⟩
  · intro hp
    refine ⟨?_, ?_⟩
    · intro before chan after hsplit' hm hb
      rw [hloop hp, hfirst before chan after hsplit' hm hb]
    · intro hall
      rw [hloop hp, hnomatch hall]
  · intro hnames
    rw [hiff]
    constructor
    · rintro (hp | hall | ⟨before, chan, after, hs, _, _, hname⟩)
      · exact Or.inl hp
      · exact Or.inr hall
      · exact absurd hname (hnames chan (by rw [hs]; simp))
    · rintro (hp | hall)
      · exact Or.inl hp
      · exact Or.inr (Or.inl hall)

theorem frequency_channel_first_match_witness :
    (0 : Nat) < example_frequency_setup.number_frequency_channels ∧
    example_frequency_setup.setup_polarisation ≠ ' ' ∧
    setup_range example_frequency_setup = (4990000000, 5006000000) ∧
    example_frequency_setup.chan_defs.map (channel_matches example_frequency_setup) =
      [false, false, true, true] ∧
    frequency_channel example_frequency_setup 0 = some "CH03".toList :=
  ⟨by decide, by decide, by decide, by decide,
    ((frequency_channel_first_match example_frequency_setup 0 (by decide)).2.2.1
      (by decide)).1
      [⟨4958000000, 'U', 32000000, "CH01".toList⟩, ⟨4990000000, 'U', 32000000, "CH02".toList⟩]
      ⟨4990000000, 'U', 32000000, "CH03".toList⟩
      [⟨5022000000, 'L', 32000000, "CH04".toList⟩] rfl (by decide) (by decide)⟩

/-- A station whose only channel matches the setup channel and has the empty
name: `frequency_channel` returns the empty string although the setup channel
has a polarisation and the station has a matching channel. -/
theorem frequency_channel_first_match_counterexample :
    (0 : Nat) < example_unnamed_channel_setup.number_frequency_channels ∧
    example_unnamed_channel_setup.setup_polarisation = 'R' ∧
    example_unnamed_channel_setup.chan_defs.map
      (channel_matches example_unnamed_channel_setup) = [true] ∧
    frequency_channel example_unnamed_channel_setup 0 = some [] ∧
    ¬ (frequency_channel example_unnamed_channel_setup 0 = some [] ↔
      example_unnamed_channel_setup.setup_polarisation = ' ' ∨
        ∀ c ∈ example_unnamed_channel_setup.chan_defs,
          channel_matches example_unnamed_channel_setup c = false) := by
  decide

end Control_parameters
namespace Correlation_core

variable {R : Type}

end Correlation_core
namespace Correlation_core

variable {R : Type}

end Correlation_core
namespace Correlation_core

variable {R : Type}

end Correlation_core
namespace Correlation_core

variable {R : Type}

end Correlation_core
namespace Correlation_core

variable {R : Type}

end Correlation_core
namespace Correlation_core

end Correlation_core

end Sfxc
